import Mathlib

/-!
# Vector warp distribution patterns

A shallow embedding of `lib/Dialect/VectorExt/Transform/VectorWarpUtils.cpp`.

The IR is embedded as data: a value is an SSA name together with its type, an
operation owns an operand list and a result-type list, a warp region
(`WarpExecuteOnLane0Op`) owns its body block, and the enclosing block is a list
of items.  The use list of a value is the collection of operand slots that hold
it; `replaceAllUsesWith` rewrites those slots.  Every pattern is a function from
the enclosing block, focused on the region it is offered, to a `RewriteResult`.
-/

namespace VectorWarp

/-! ## Types -/

/-- Signedness of an integer type. -/
inductive Signedness where
  | signless
  | signed
  | unsigned
deriving DecidableEq, Repr

/-- Scalar (element) types. -/
inductive ScalarType where
  | float (width : Nat)
  | integer (width : Nat) (sign : Signedness)
  | index
deriving DecidableEq, Repr

/-- IR types: scalars, vectors and memrefs with a static shape (`int64_t` extents). -/
inductive Ty where
  | scalar (e : ScalarType)
  | vector (shape : List Int) (e : ScalarType)
  | memref (shape : List Int) (e : ScalarType)
deriving DecidableEq, Repr

instance : Inhabited Ty := ⟨Ty.scalar ScalarType.index⟩

/-- `Type::isF32`. -/
def Ty.isF32 : Ty → Bool
  | Ty.scalar (ScalarType.float 32) => true
  | _ => false

/-- `Type::isSignlessInteger(width)`. -/
def Ty.isSignlessInteger (t : Ty) (width : Nat) : Bool :=
  match t with
  | Ty.scalar (ScalarType.integer w Signedness.signless) => w == width
  | _ => false

/-- `Type::isa<VectorType>`. -/
def Ty.isVector : Ty → Bool
  | Ty.vector _ _ => true
  | _ => false

/-! ## Values -/

/-- Where a value comes from: result `idx` of the operation `owner`, or argument
`idx` of the block `block`. -/
inductive ValueDef where
  | opResult (owner : Nat) (idx : Nat)
  | blockArg (block : Nat) (idx : Nat)
deriving DecidableEq, Repr

/-- An SSA value; as in the IR, a value knows its type. -/
structure Value where
  origin : ValueDef
  ty : Ty
deriving DecidableEq, Repr

instance : Inhabited Value := ⟨⟨ValueDef.blockArg 0 0, default⟩⟩

/-! ## Operations -/

/-- `vector::CombiningKind`. -/
inductive CombiningKind where
  | add | mul | minui | minsi | minf | maxui | maxsi | maxf | and | or | xor
deriving DecidableEq, Repr

/-- `gpu::ShuffleMode`. -/
inductive ShuffleMode where
  | xor | down | up | idx
deriving DecidableEq, Repr

/-- Affine expressions over dimension identifiers. -/
inductive AffineExpr where
  | dim (pos : Nat)
  | const (c : Int)
  | add (a b : AffineExpr)
  | mul (a b : AffineExpr)
deriving DecidableEq, Repr

/-- An affine map without symbols: a number of dimensions and a result list. -/
structure AffineMap where
  numDims : Nat
  results : List AffineExpr
deriving DecidableEq, Repr

/-- The operation name together with its attributes.  The constant operands the
`gpu.shuffle` builder materialises (offset and width, both `int32_t`) and the
position of `vector.extract` are kept with the kind; `constantIndex` is
`arith.constant` of index type with its `int64_t` value, `cmpi` is `arith.cmpi`
with its predicate.  For an operation the
patterns do not recognise, `memoryEffects` is `none` when it does not implement
the memory-effect interface and `some b` when it does, `b` telling whether it
reports an effect. -/
inductive OpKind where
  | elementwise (name : String)
  | reduction (kind : CombiningKind)
  | transferRead (perm : AffineMap) (hasMask : Bool) (inBounds : Option (List Bool))
  | transferWrite (perm : AffineMap) (hasMask : Bool) (inBounds : Option (List Bool))
  | broadcast
  | extract (pos : Int)
  | shuffle (mode : ShuffleMode) (offset : Int) (width : Int)
  | arithReduction (kind : CombiningKind)
  | affineApply (expr : AffineExpr)
  | constantIndex (value : Int)
  | cmpi (predicate : String)
  | other (name : String) (memoryEffects : Option Bool) (recursiveSideEffects : Bool)
deriving DecidableEq, Repr

/-- An operation, without the contents of its regions. -/
structure Operation where
  id : Nat
  kind : OpKind
  operands : List Value
  resultTypes : List Ty
deriving DecidableEq, Repr

/-- `Operation::getResult`. -/
def Operation.getResult (o : Operation) (i : Nat) : Value :=
  ⟨ValueDef.opResult o.id i, o.resultTypes.getD i default⟩

/-- The single block of a warp region: its argument types, the operations before
the terminator, and the operands of the terminating `vector_ext.yield`. -/
structure Block where
  id : Nat
  argTypes : List Ty
  ops : List Operation
  yieldOperands : List Value
deriving DecidableEq, Repr

/-- Everything of a `WarpExecuteOnLane0Op` except its region. -/
structure WarpHeader where
  id : Nat
  laneid : Value
  warpSize : Nat
  args : List Value
  resultTypes : List Ty
deriving DecidableEq, Repr

/-- A `WarpExecuteOnLane0Op` with its body. -/
structure WarpOp extends WarpHeader where
  body : Block
deriving DecidableEq, Repr

/-- `warpOp.getResult(i)`.  For a region that satisfies the arity invariant the
index is always in range at the call sites below. -/
def WarpHeader.getResult (w : WarpHeader) (i : Nat) : Value :=
  ⟨ValueDef.opResult w.id i, w.resultTypes.getD i default⟩

/-- `warpOp.getResult(i)`. -/
def WarpOp.getResult (w : WarpOp) (i : Nat) : Value :=
  w.toWarpHeader.getResult i

/-- `warpOp.getNumResults()`. -/
def WarpOp.getNumResults (w : WarpOp) : Nat := w.resultTypes.length

/-- An operation of the enclosing block: a plain operation, a warp region, or a
warp operation whose region was moved away by `takeBody` and that has not been
erased. -/
inductive Item where
  | op (o : Operation)
  | warp (w : WarpOp)
  | bodyless (h : WarpHeader)
deriving DecidableEq, Repr

/-- The identifier of an operation of the enclosing block. -/
def Item.id : Item → Nat
  | Item.op o => o.id
  | Item.warp w => w.id
  | Item.bodyless h => h.id

/-- The enclosing block together with the next unused identifier. -/
structure Program where
  items : List Item
  nextId : Nat
deriving DecidableEq, Repr

/-! ## Uses -/

/-- Operand slots of a block: those of its operations, then those of the yield. -/
def Block.operandValues (b : Block) : List Value :=
  (b.ops.map (fun o => o.operands)).flatten ++ b.yieldOperands

/-- Operand slots of a warp operation without its region. -/
def WarpHeader.operandValues (h : WarpHeader) : List Value :=
  h.laneid :: h.args

/-- All operand slots held by an operation of the enclosing block, nested ones
included. -/
def Item.operandValues : Item → List Value
  | Item.op o => o.operands
  | Item.warp w => w.toWarpHeader.operandValues ++ w.body.operandValues
  | Item.bodyless h => h.operandValues

/-- `Value::use_empty`: no operand slot of the block holds `v`. -/
def useEmpty (items : List Item) (v : Value) : Bool :=
  items.all (fun it => !(it.operandValues.contains v))

/-- The value a slot holds after `old.replaceAllUsesWith(new)`. -/
def Value.replaceUse (old new v : Value) : Value :=
  if v = old then new else v

/-- Rewrites the operand slots of an operation. -/
def Operation.mapOperands (f : Value → Value) (o : Operation) : Operation :=
  { o with operands := o.operands.map f }

/-- Rewrites the operand slots of a block. -/
def Block.mapOperands (f : Value → Value) (b : Block) : Block :=
  { b with ops := b.ops.map (Operation.mapOperands f), yieldOperands := b.yieldOperands.map f }

/-- Rewrites the operand slots of a warp operation without its region. -/
def WarpHeader.mapOperands (f : Value → Value) (h : WarpHeader) : WarpHeader :=
  { h with laneid := f h.laneid, args := h.args.map f }

/-- Rewrites the operand slots of a warp region. -/
def WarpOp.mapOperands (f : Value → Value) (w : WarpOp) : WarpOp :=
  { toWarpHeader := w.toWarpHeader.mapOperands f, body := w.body.mapOperands f }

/-- Rewrites every operand slot of an operation of the enclosing block. -/
def Item.mapOperands (f : Value → Value) : Item → Item
  | Item.op o => Item.op (o.mapOperands f)
  | Item.warp w => Item.warp (w.mapOperands f)
  | Item.bodyless h => Item.bodyless (h.mapOperands f)

/-- `old.replaceAllUsesWith(new)` on a list of operations. -/
def replaceAllUsesWith (old new : Value) (items : List Item) : List Item :=
  items.map (Item.mapOperands (Value.replaceUse old new))

/-! ## Defining operations -/

/-- Finds the operation with identifier `id` in `it` or directly in its body. -/
def Item.lookup (id : Nat) : Item → Option Item
  | Item.op o => if o.id = id then some (Item.op o) else none
  | Item.warp w =>
    if w.id = id then some (Item.warp w)
    else (w.body.ops.find? (fun o => o.id == id)).map Item.op
  | Item.bodyless h => if h.id = id then some (Item.bodyless h) else none

/-- `Value::getDefiningOp`: the owner of an operation result, nothing for a
block argument. -/
def getDefiningOp (items : List Item) (v : Value) : Option Item :=
  match v.origin with
  | ValueDef.opResult owner _ => items.findSome? (Item.lookup owner)
  | ValueDef.blockArg _ _ => none

/-! ## Rewriting state -/

/-- What a pattern returns: success or failure, each with the program as the
pattern left it, or an assertion (`assert`, `cast<>`) that fired. -/
inductive RewriteResult where
  | success (p : Program)
  | failure (p : Program)
  | assertion
deriving DecidableEq, Repr

/-- The enclosing block, focused on the warp region a pattern is offered. -/
structure WarpContext where
  pre : List Item
  warpOp : WarpOp
  post : List Item
  nextId : Nat
deriving DecidableEq, Repr

/-- The operations of the enclosing block, in order. -/
def WarpContext.items (c : WarpContext) : List Item :=
  c.pre ++ [Item.warp c.warpOp] ++ c.post

/-- The program a context stands for. -/
def WarpContext.program (c : WarpContext) : Program :=
  ⟨c.items, c.nextId⟩

/-- The enclosing block after the body was moved into a new warp operation:
`newWarpOp` sits right before the old operation `oldWarpOp`, whose region is now
empty; `mid` holds what has been created between the two. -/
structure Moved where
  pre : List Item
  newWarpOp : WarpOp
  mid : List Item
  oldWarpOp : WarpHeader
  post : List Item
  nextId : Nat
deriving DecidableEq, Repr

/-- The operations of the enclosing block, the emptied old operation included. -/
def Moved.items (m : Moved) : List Item :=
  m.pre ++ [Item.warp m.newWarpOp] ++ m.mid ++ [Item.bodyless m.oldWarpOp] ++ m.post

/-- The program as it stands, the old operation still in place. -/
def Moved.program (m : Moved) : Program :=
  ⟨m.items, m.nextId⟩

/-- The program after `rewriter.eraseOp(warpOp)`. -/
def Moved.eraseOld (m : Moved) : Program :=
  ⟨m.pre ++ [Item.warp m.newWarpOp] ++ m.mid ++ m.post, m.nextId⟩

/-- Rewrites every operand slot of the enclosing block. -/
def Moved.mapOperands (f : Value → Value) (m : Moved) : Moved :=
  { pre := m.pre.map (Item.mapOperands f)
    newWarpOp := m.newWarpOp.mapOperands f
    mid := m.mid.map (Item.mapOperands f)
    oldWarpOp := m.oldWarpOp.mapOperands f
    post := m.post.map (Item.mapOperands f)
    nextId := m.nextId }

/-- `old.replaceAllUsesWith(new)` on the enclosing block. -/
def Moved.replaceAllUsesWith (old new : Value) (m : Moved) : Moved :=
  m.mapOperands (Value.replaceUse old new)

/-- Creates operations at an insertion point between the new and the old warp
operation. -/
def Moved.create (m : Moved) (ops : List Item) (nextId : Nat) : Moved :=
  { m with mid := m.mid ++ ops, nextId := nextId }

/-! ## Region reshaping -/

/-- `moveRegionToNewWarpOpAndReplaceReturns`: a new warp operation is created
before the old one with the given result types and the old lane id, warp size,
arguments and block argument types; it takes the old body, and the yield
operands are reassigned. -/
def moveRegionToNewWarpOpAndReplaceReturns (c : WarpContext)
    (newYieldedValues : List Value) (newReturnTypes : List Ty) : Moved :=
  { pre := c.pre
    newWarpOp :=
      { id := c.nextId
        laneid := c.warpOp.laneid
        warpSize := c.warpOp.warpSize
        args := c.warpOp.args
        resultTypes := newReturnTypes
        body :=
          { id := c.warpOp.body.id
            argTypes := c.warpOp.body.argTypes
            ops := c.warpOp.body.ops
            yieldOperands := newYieldedValues } }
    mid := []
    oldWarpOp := c.warpOp.toWarpHeader
    post := c.post
    nextId := c.nextId + 1 }

/-- `moveRegionToNewWarpOpAndAppendReturns`: the result types and yield operands
are extended, and each old result is replaced by the new result of the same
index. -/
def moveRegionToNewWarpOpAndAppendReturns (c : WarpContext)
    (newYieldedValues : List Value) (newReturnTypes : List Ty) : Moved :=
  let types := c.warpOp.resultTypes ++ newReturnTypes
  let yieldValues := c.warpOp.body.yieldOperands ++ newYieldedValues
  let m := moveRegionToNewWarpOpAndReplaceReturns c yieldValues types
  (List.range c.warpOp.getNumResults).foldl
    (fun s i => s.replaceAllUsesWith (c.warpOp.getResult i) (m.newWarpOp.getResult i)) m

/-! ## Result discovery -/

/-- The loop of `getWarpResult` over the yield operands from operand number `i` on. -/
def getWarpResultFrom (items : List Item) (w : WarpOp) (fn : Item → Bool) :
    List Value → Nat → Option Nat
  | [], _ => none
  | v :: rest, i =>
    if (match getDefiningOp items v with
        | some definedOp => fn definedOp
        | none => false) && !(useEmpty items (w.getResult i)) then some i
    else getWarpResultFrom items w fn rest (i + 1)

/-- `getWarpResult`: the operand number of the yield operand found, if any. -/
def getWarpResult (items : List Item) (w : WarpOp) (fn : Item → Bool) : Option Nat :=
  getWarpResultFrom items w fn w.body.yieldOperands 0

/-! ## Elementwise sink -/

/-- `OpTrait::hasElementwiseMappableTraits`; `makeArithReduction` builds `arith`
operations, which carry the traits as well. -/
def Item.hasElementwiseMappableTraits : Item → Bool
  | Item.op o =>
    match o.kind with
    | OpKind.elementwise _ => true
    | OpKind.arithReduction _ => true
    | _ => false
  | _ => false

/-- The type under which one operand of the matched elementwise operation is
returned from the region.  `none` stands for the `cast<VectorType>` of a
non-vector operand and for the assertion on a vector operand of an operation
with a scalar result. -/
def elementwiseTargetType (distributedTy operandTy : Ty) : Option Ty :=
  match distributedTy with
  | Ty.vector shape _ =>
    match operandTy with
    | Ty.vector _ e => some (Ty.vector shape e)
    | _ => none
  | _ => if operandTy.isVector then none else some operandTy

/-- The loop over the operands of the matched elementwise operation: the list of
return types, or `none` as soon as an assertion fires. -/
def elementwiseTargetTypes (distributedTy : Ty) : List Value → Option (List Ty)
  | [] => some []
  | operand :: rest =>
    match elementwiseTargetType distributedTy operand.ty,
        elementwiseTargetTypes distributedTy rest with
    | some t, some ts => some (t :: ts)
    | _, _ => none

/-- `cloneOpWithOperandsAndTypes`: same name and attributes, new operands and
result types. -/
def cloneOpWithOperandsAndTypes (id : Nat) (op : Operation) (operands : List Value)
    (resultTypes : List Ty) : Operation :=
  { id := id, kind := op.kind, operands := operands, resultTypes := resultTypes }

/-- The rewriting part of `WarpOpElementwise`, once the anchor `operandIndex`,
the matched operation and the return types are known: the operands become new
region outputs, the operation is rebuilt after the new region over them, and the
uses of the matched result are replaced by its result. -/
def elementwiseRewrite (c : WarpContext) (operandIndex : Nat) (elementWise : Operation)
    (retTypes : List Ty) : Moved :=
  let yieldValues := elementWise.operands
  let m := moveRegionToNewWarpOpAndAppendReturns c yieldValues retTypes
  let newOperands := (List.range elementWise.operands.length).map
    (fun i => m.newWarpOp.getResult (i + c.warpOp.getNumResults))
  let newOp := cloneOpWithOperandsAndTypes m.nextId elementWise newOperands
    [(c.warpOp.getResult operandIndex).ty]
  let m1 := m.create [Item.op newOp] (m.nextId + 1)
  m1.replaceAllUsesWith (m.newWarpOp.getResult operandIndex) (newOp.getResult 0)

/-- `WarpOpElementwise::matchAndRewrite`. -/
def WarpOpElementwise.matchAndRewrite (c : WarpContext) : RewriteResult :=
  match getWarpResult c.items c.warpOp Item.hasElementwiseMappableTraits with
  | none => RewriteResult.failure c.program
  | some operandIndex =>
    match getDefiningOp c.items (c.warpOp.body.yieldOperands.getD operandIndex default) with
    | some (Item.op elementWise) =>
      let distributedVal := c.warpOp.getResult operandIndex
      match elementwiseTargetTypes distributedVal.ty elementWise.operands with
      | none => RewriteResult.assertion
      | some retTypes =>
        RewriteResult.success (elementwiseRewrite c operandIndex elementWise retTypes).eraseOld
    | _ => RewriteResult.assertion

/-! ## Reduction sink -/

/-- `isa<vector::ReductionOp>`. -/
def Item.isReduction : Item → Bool
  | Item.op o =>
    match o.kind with
    | OpKind.reduction _ => true
    | _ => false
  | _ => false

/-- Conversion of an integer to `int` / `int32_t` (two's complement, 32 bits). -/
def toInt32 (n : Int) : Int :=
  (n + 2147483648) % 4294967296 - 2147483648

/-- `static_cast<uint64_t>` of an `int64_t`. -/
def toUInt64 (n : Int) : Nat :=
  (n % 18446744073709551616).toNat

/-- The type of the `valid` result of `gpu.shuffle`. -/
def i1 : Ty := Ty.scalar (ScalarType.integer 1 Signedness.signless)

/-- The loop `for (int i = warp_size / 2; i > 0; i /= 2)` of the reduction
pattern: each round creates a `gpu.shuffle down` of the running lane value by
`i` and combines the lane value with the shuffled value.  `fuel` bounds the
number of rounds; the pattern passes `i` itself, which the halving never uses
up.  Returns the operations created, the next unused identifier and the final
lane value. -/
def reductionRounds (kind : CombiningKind) (width : Int) :
    Nat → Int → Nat → Value → List Item × Nat × Value
  | 0, _, nextId, laneVal => ([], nextId, laneVal)
  | fuel + 1, i, nextId, laneVal =>
    if 0 < i then
      let shuffle : Operation :=
        { id := nextId
          kind := OpKind.shuffle ShuffleMode.down i width
          operands := [laneVal]
          resultTypes := [laneVal.ty, i1] }
      let shuffled := shuffle.getResult 0
      let combine : Operation :=
        { id := nextId + 1
          kind := OpKind.arithReduction kind
          operands := [laneVal, shuffled]
          resultTypes := [laneVal.ty] }
      let rest := reductionRounds kind width fuel (i / 2) (nextId + 2) (combine.getResult 0)
      (Item.op shuffle :: Item.op combine :: rest.1, rest.2)
    else ([], nextId, laneVal)

/-- The operations the reduction pattern creates after the new region, for the
`vector<1 x e>` result `laneValVec` of the new region: the extract of its single
element, the shuffle rounds, and the index shuffle that broadcasts lane 0.
Returns the operations, the next unused identifier and the broadcast value. -/
def reductionShuffles (warpSize : Nat) (kind : CombiningKind) (e : ScalarType)
    (laneValVec : Value) (nextId : Nat) : List Item × Nat × Value :=
  let extract : Operation :=
    { id := nextId
      kind := OpKind.extract 0
      operands := [laneValVec]
      resultTypes := [Ty.scalar e] }
  let width := toInt32 warpSize
  let start := toInt32 (warpSize / 2 : Nat)
  let rounds := reductionRounds kind width start.toNat start (nextId + 1)
    (extract.getResult 0)
  let shuffleOp : Operation :=
    { id := rounds.2.1
      kind := OpKind.shuffle ShuffleMode.idx 0 width
      operands := [rounds.2.2]
      resultTypes := [rounds.2.2.ty, i1] }
  (Item.op extract :: rounds.1 ++ [Item.op shuffleOp], rounds.2.1 + 1, shuffleOp.getResult 0)

/-- The rewriting part of `WarpOpReduction`, once the checks have passed: the
reduced vector becomes a new `vector<1 x e>` region output, its single element
is extracted, reduced across the lanes by the shuffle rounds and broadcast from
lane 0 by an index shuffle that replaces the uses of the matched result. -/
def reductionRewrite (c : WarpContext) (operandIndex : Nat) (kind : CombiningKind)
    (vector : Value) (e : ScalarType) : Moved :=
  let m := moveRegionToNewWarpOpAndAppendReturns c [vector] [Ty.vector [1] e]
  let laneValVec := m.newWarpOp.getResult c.warpOp.getNumResults
  let created := reductionShuffles m.newWarpOp.warpSize kind e laneValVec m.nextId
  let m1 := m.create created.1 created.2.1
  m1.replaceAllUsesWith (m.newWarpOp.getResult operandIndex) created.2.2

/-- `WarpOpReduction::matchAndRewrite`.  The rewriter inserts before the old warp
operation, that is, after the new one; the old operation is not erased. -/
def WarpOpReduction.matchAndRewrite (c : WarpContext) : RewriteResult :=
  match getWarpResult c.items c.warpOp Item.isReduction with
  | none => RewriteResult.failure c.program
  | some operandIndex =>
    match getDefiningOp c.items (c.warpOp.body.yieldOperands.getD operandIndex default) with
    | some (Item.op reductionOp) =>
      match reductionOp.kind, reductionOp.operands, reductionOp.resultTypes with
      | OpKind.reduction kind, vector :: _, resultType :: _ =>
        match vector.ty with
        | Ty.vector shape _ =>
          if shape.length ≠ 1 then RewriteResult.failure c.program
          else if toUInt64 (shape.headD 0) ≠ c.warpOp.warpSize then
            RewriteResult.failure c.program
          else if !resultType.isF32 && !resultType.isSignlessInteger 32 then
            RewriteResult.failure c.program
          else
            match resultType with
            | Ty.scalar e =>
              RewriteResult.success (reductionRewrite c operandIndex kind vector e).program
            | _ => RewriteResult.assertion
        | _ => RewriteResult.assertion
      | _, _, _ => RewriteResult.assertion
    | _ => RewriteResult.assertion

/-! ## Dead result elimination -/

/-- The second loop of `WarpOpDeadResult`: every result that still has a use is
replaced by the next result of the new operation.  The state is the program and
the running `resultIndex`. -/
def deadResultRewire (old : WarpOp) (new : WarpOp) (m : Moved) : Moved × Nat :=
  (List.range old.getNumResults).foldl
    (fun s i =>
      if useEmpty s.1.items (old.getResult i) then s
      else (s.1.replaceAllUsesWith (old.getResult i) (new.getResult s.2), s.2 + 1))
    (m, 0)

/-- `WarpOpDeadResult::matchAndRewrite`. -/
def WarpOpDeadResult.matchAndRewrite (c : WarpContext) : RewriteResult :=
  let used := (List.range c.warpOp.getNumResults).filter
    (fun i => !(useEmpty c.items (c.warpOp.getResult i)))
  let resultTypes := used.map (fun i => (c.warpOp.getResult i).ty)
  let yieldValues := used.map (fun i => c.warpOp.body.yieldOperands.getD i default)
  if c.warpOp.body.yieldOperands.length = yieldValues.length then
    RewriteResult.failure c.program
  else
    let m := moveRegionToNewWarpOpAndReplaceReturns c yieldValues resultTypes
    let r := deadResultRewire c.warpOp m.newWarpOp m
    RewriteResult.success r.1.eraseOld

/-! ## Operand forwarding -/

/-- Whether the value is defined in the region of `w`: a result of an operation
of the body, or an argument of the body block. -/
def WarpOp.isDefinedInRegion (w : WarpOp) (v : Value) : Bool :=
  match v.origin with
  | ValueDef.opResult owner _ => w.body.ops.any (fun o => o.id == owner)
  | ValueDef.blockArg block _ => block == w.body.id

/-- Outcome of the search loop of `WarpOpForwardOperand`. -/
inductive ForwardSearch where
  | found (valForwarded : Value) (resultIndex : Nat)
  | notFound
  | assertion
deriving DecidableEq, Repr

/-- The loop of `WarpOpForwardOperand` over the yield operands from operand
number `i` on. -/
def forwardSearch (items : List Item) (w : WarpOp) : List Value → Nat → ForwardSearch
  | [], _ => ForwardSearch.notFound
  | operand :: rest, i =>
    let result := w.getResult i
    if useEmpty items result then forwardSearch items w rest (i + 1)
    else if !(w.isDefinedInRegion operand) then
      if result.ty ≠ operand.ty then forwardSearch items w rest (i + 1)
      else ForwardSearch.found operand i
    else
      match operand.origin with
      | ValueDef.blockArg _ argNumber =>
        match w.args[argNumber]? with
        | none => ForwardSearch.assertion
        | some warpOperand =>
          if result.ty ≠ warpOperand.ty then forwardSearch items w rest (i + 1)
          else ForwardSearch.found warpOperand i
      | ValueDef.opResult _ _ => forwardSearch items w rest (i + 1)

/-- Rewrites every operand slot of the enclosing block. -/
def WarpContext.mapOperands (f : Value → Value) (c : WarpContext) : WarpContext :=
  { pre := c.pre.map (Item.mapOperands f)
    warpOp := c.warpOp.mapOperands f
    post := c.post.map (Item.mapOperands f)
    nextId := c.nextId }

/-- `WarpOpForwardOperand::matchAndRewrite`. -/
def WarpOpForwardOperand.matchAndRewrite (c : WarpContext) : RewriteResult :=
  match forwardSearch c.items c.warpOp c.warpOp.body.yieldOperands 0 with
  | ForwardSearch.assertion => RewriteResult.assertion
  | ForwardSearch.notFound => RewriteResult.failure c.program
  | ForwardSearch.found valForwarded resultIndex =>
    RewriteResult.success
      (c.mapOperands (Value.replaceUse (c.warpOp.getResult resultIndex) valForwarded)).program

/-! ## Broadcast sink -/

/-- `isa<vector::BroadcastOp>`. -/
def Item.isBroadcast : Item → Bool
  | Item.op o =>
    match o.kind with
    | OpKind.broadcast => true
    | _ => false
  | _ => false

/-- The rewriting part of `WarpOpBroadcast`: the source of the broadcast becomes
a new region output, and a broadcast of the last result of the new region to the
type of the matched result replaces the uses of the matched result. -/
def broadcastRewrite (c : WarpContext) (operandNumber : Nat) (source : Value)
    (destVecType : Ty) : Moved :=
  let m := moveRegionToNewWarpOpAndAppendReturns c [source] [source.ty]
  let broadcasted : Operation :=
    { id := m.nextId
      kind := OpKind.broadcast
      operands := [m.newWarpOp.getResult (m.newWarpOp.getNumResults - 1)]
      resultTypes := [destVecType] }
  let m1 := m.create [Item.op broadcasted] (m.nextId + 1)
  m1.replaceAllUsesWith (m.newWarpOp.getResult operandNumber) (broadcasted.getResult 0)

/-- `WarpOpBroadcast::matchAndRewrite`.  The old operation is not erased. -/
def WarpOpBroadcast.matchAndRewrite (c : WarpContext) : RewriteResult :=
  match getWarpResult c.items c.warpOp Item.isBroadcast with
  | none => RewriteResult.failure c.program
  | some operandNumber =>
    match getDefiningOp c.items (c.warpOp.body.yieldOperands.getD operandNumber default) with
    | some (Item.op broadcastOp) =>
      match c.warpOp.resultTypes.getD operandNumber default, broadcastOp.operands with
      | Ty.vector shape e, source :: _ =>
        RewriteResult.success
          (broadcastRewrite c operandNumber source (Ty.vector shape e)).program
      | _, _ => RewriteResult.assertion
    | _ => RewriteResult.assertion

/-! ## Transfer read sink -/

/-- `isa<vector::TransferReadOp>`. -/
def Item.isTransferRead : Item → Bool
  | Item.op o =>
    match o.kind with
    | OpKind.transferRead _ _ _ => true
    | _ => false
  | _ => false

/-- `calculateImplicitMap`: the dimensions whose size differs between the yielded
vector type and the result type, in order.  `none` stands for a failed
`cast<VectorType>` or `getDimSize` past the rank of the result type. -/
def calculateImplicitMap (yieldTy retTy : Ty) : Option AffineMap :=
  match yieldTy, retTy with
  | Ty.vector src _, Ty.vector dst _ =>
    if dst.length < src.length then none
    else some
      { numDims := src.length
        results := ((List.range src.length).filter
          (fun i => decide (src.getD i 0 ≠ dst.getD i 0))).map AffineExpr.dim }
  | _, _ => none

/-- Substitutes the dimensions of an expression. -/
def AffineExpr.replaceDims (reps : List AffineExpr) : AffineExpr → AffineExpr
  | AffineExpr.dim pos => reps.getD pos (AffineExpr.dim pos)
  | AffineExpr.const c => AffineExpr.const c
  | AffineExpr.add a b => AffineExpr.add (a.replaceDims reps) (b.replaceDims reps)
  | AffineExpr.mul a b => AffineExpr.mul (a.replaceDims reps) (b.replaceDims reps)

/-- `AffineMap::compose`; `none` when the number of dimensions of the map differs
from the number of results of `perm`.  The maps composed here have dimension
expressions as results, on which the simplification done by the library is the
identity. -/
def AffineMap.compose (map perm : AffineMap) : Option AffineMap :=
  if map.numDims ≠ perm.results.length then none
  else some
    { numDims := perm.numDims
      results := map.results.map (AffineExpr.replaceDims perm.results) }

/-- The expression `d0 + scale * d1`. -/
def laneOffsetExpr (scale : Int) : AffineExpr :=
  AffineExpr.add (AffineExpr.dim 0) (AffineExpr.mul (AffineExpr.const scale) (AffineExpr.dim 1))

/-- The type of memory indices. -/
def indexTy : Ty := Ty.scalar ScalarType.index

/-- State of the index rewriting loop: the index list, the `affine.apply`
operations created so far, and the next unused identifier. -/
structure IndexState where
  indices : List Value
  created : List Item
  nextId : Nat
deriving DecidableEq, Repr

/-- The loop shared by the transfer read sink and the write distribution: for
every pair of a result of the composed index map and a result of the
distribution map, when the former is a dimension `indexPos`, the index at
`indexPos` becomes `affine.apply (d0 + scale * d1)(index, laneid)` with `scale`
the size of the distributed shape at the vector dimension.  `none` stands for an
out-of-range access or a failed `cast<AffineDimExpr>`. -/
def distributeIndices (distShape : List Int) (laneid : Value) :
    List (AffineExpr × AffineExpr) → IndexState → Option IndexState
  | [], st => some st
  | (indexExpr, vectorExpr) :: rest, st =>
    match indexExpr with
    | AffineExpr.dim indexPos =>
      match vectorExpr, st.indices[indexPos]? with
      | AffineExpr.dim vectorPos, some index =>
        match distShape[vectorPos]? with
        | some scale =>
          let apply : Operation :=
            { id := st.nextId
              kind := OpKind.affineApply (laneOffsetExpr scale)
              operands := [index, laneid]
              resultTypes := [indexTy] }
          distributeIndices distShape laneid rest
            { indices := st.indices.set indexPos (apply.getResult 0)
              created := st.created ++ [Item.op apply]
              nextId := st.nextId + 1 }
        | none => none
      | _, _ => none
    | _ => distributeIndices distShape laneid rest st

/-- The shape of a vector type. -/
def Ty.shape : Ty → List Int
  | Ty.vector s _ => s
  | Ty.memref s _ => s
  | Ty.scalar _ => []

/-- `WarpOpTransferRead::matchAndRewrite`.  The operands of a transfer read are
the source, the indices, the padding and, when present, the mask.  The new
operations are created after the warp operation, which stays in place. -/
def WarpOpTransferRead.matchAndRewrite (c : WarpContext) : RewriteResult :=
  match getWarpResult c.items c.warpOp Item.isTransferRead with
  | none => RewriteResult.failure c.program
  | some operandIndex =>
    let yielded := c.warpOp.body.yieldOperands.getD operandIndex default
    match getDefiningOp c.items yielded with
    | some (Item.op read) =>
      match read.kind, read.operands with
      | OpKind.transferRead perm hasMask _, source :: rest =>
        let distributedVal := c.warpOp.getResult operandIndex
        let numTrailing := if hasMask then 2 else 1
        let indices := rest.take (rest.length - numTrailing)
        let trailing := rest.drop (rest.length - numTrailing)
        match calculateImplicitMap (read.getResult 0).ty distributedVal.ty with
        | none => RewriteResult.assertion
        | some map =>
          match map.compose perm with
          | none => RewriteResult.assertion
          | some indexMap =>
            match distributeIndices distributedVal.ty.shape c.warpOp.laneid
                (indexMap.results.zip map.results)
                { indices := indices, created := [], nextId := c.nextId } with
            | none => RewriteResult.assertion
            | some st =>
              let newRead : Operation :=
                { id := st.nextId
                  kind := read.kind
                  operands := source :: st.indices ++ trailing
                  resultTypes := [distributedVal.ty] }
              let c1 : WarpContext :=
                { pre := c.pre
                  warpOp := c.warpOp
                  post := st.created ++ [Item.op newRead] ++ c.post
                  nextId := st.nextId + 1 }
              RewriteResult.success
                (c1.mapOperands (Value.replaceUse distributedVal (newRead.getResult 0))).program
      | _, _ => RewriteResult.assertion
    | _ => RewriteResult.assertion

/-! ## Transfer write distribution -/

/-- The distribution ratio: the value the file-level variable of the source is
initialised with and keeps, no code of the file assigning it. -/
def distributionRatio : Int := 32

/-- `isa<vector::TransferWriteOp>`. -/
def Operation.isTransferWrite (o : Operation) : Bool :=
  match o.kind with
  | OpKind.transferWrite _ _ _ => true
  | _ => false

/-- Removes the operation at position `pos` from the body of the new warp
operation (`rewriter.eraseOp(writeOp)`). -/
def Moved.eraseBodyOp (m : Moved) (pos : Nat) : Moved :=
  { m with
    newWarpOp :=
      { toWarpHeader := m.newWarpOp.toWarpHeader
        body := { m.newWarpOp.body with ops := m.newWarpOp.body.ops.eraseIdx pos } } }

/-- The rewriting part of `tryDistributeOp`, once the divisibility check has
passed: the stored vector becomes a new region output of type `targetShape`, the
write is cloned after the new region and erased from the body, the indices of
the clone are offset per lane, and the clone writes the last result of the new
region.  `none` stands for an assertion. -/
def distributeRewrite (c : WarpContext) (map perm : AffineMap) (hasMask : Bool)
    (writePos : Nat) (vector : Value) (targetShape : List Int) (e : ScalarType) :
    Option Moved :=
  let targetType := Ty.vector targetShape e
  let m := moveRegionToNewWarpOpAndAppendReturns c [vector] [targetType]
  match m.newWarpOp.body.ops[writePos]? with
  | some moved =>
    match moved.operands, map.compose perm with
    | _ :: dest :: rest, some indexMap =>
      let numTrailing := if hasMask then 1 else 0
      let indices := rest.take (rest.length - numTrailing)
      let trailing := rest.drop (rest.length - numTrailing)
      match distributeIndices targetShape m.newWarpOp.laneid
          (indexMap.results.zip map.results)
          { indices := indices, created := [], nextId := m.nextId + 1 } with
      | none => none
      | some st =>
        let newWriteOp : Operation :=
          { id := m.nextId
            kind := moved.kind
            operands :=
              m.newWarpOp.getResult (m.newWarpOp.getNumResults - 1) ::
                dest :: st.indices ++ trailing
            resultTypes := moved.resultTypes }
        some ((m.eraseBodyOp writePos).create (st.created ++ [Item.op newWriteOp]) st.nextId)
    | _, _ => none
  | none => none

/-- `WarpOpTransferWrite::tryDistributeOp` for the write at position `writePos`
of the region body, with `map` the result of the distribution map callback and
`ratio` the value of the file-level variable `distributionRatio`, which the
function reads.  The operands of a transfer write are the vector, the
destination, the indices and, when present, the mask.  The old warp operation
is not erased. -/
def tryDistributeOp (ratio : Int) (c : WarpContext) (map : AffineMap) (writePos : Nat) :
    RewriteResult :=
  match c.warpOp.body.ops[writePos]? with
  | none => RewriteResult.assertion
  | some writeOp =>
    match writeOp.kind, writeOp.operands with
    | OpKind.transferWrite perm hasMask _, vector :: _ :: _ =>
      match vector.ty, map.results with
      | Ty.vector shape e, [AffineExpr.dim position] =>
        match shape[position]? with
        | none => RewriteResult.assertion
        | some extent =>
          if Int.tmod extent ratio ≠ 0 then RewriteResult.failure c.program
          else
            let targetShape := shape.set position (Int.tdiv extent ratio)
            match distributeRewrite c map perm hasMask writePos vector targetShape e with
            | some m => RewriteResult.success m.program
            | none => RewriteResult.assertion
      | _, _ => RewriteResult.assertion
    | _, _ => RewriteResult.assertion

/-- The rewriting part of `tryExtractOp`: the stored vector becomes a new region
output at its own type, and a second warp operation without results or
arguments is created after the new one; its body is the clone of the write,
which writes the last result of the new region, followed by an empty yield.  The
write is erased from the body of the new region.  `none` stands for an
assertion. -/
def extractRewrite (c : WarpContext) (writePos : Nat) (vector : Value) : Option Moved :=
  let m := moveRegionToNewWarpOpAndAppendReturns c [vector] [vector.ty]
  match m.newWarpOp.body.ops[writePos]? with
  | some moved =>
    let newWriteOp : Operation :=
      { id := m.nextId + 2
        kind := moved.kind
        operands :=
          m.newWarpOp.getResult (m.newWarpOp.getNumResults - 1) :: moved.operands.drop 1
        resultTypes := moved.resultTypes }
    let secondWarpOp : WarpOp :=
      { id := m.nextId
        laneid := m.newWarpOp.laneid
        warpSize := m.newWarpOp.warpSize
        args := []
        resultTypes := []
        body :=
          { id := m.nextId + 1
            argTypes := []
            ops := [newWriteOp]
            yieldOperands := [] } }
    some ((m.eraseBodyOp writePos).create [Item.warp secondWarpOp] (m.nextId + 3))
  | none => none

/-- `WarpOpTransferWrite::tryExtractOp` for the write at position `writePos` of
the region body.  The old warp operation is not erased. -/
def tryExtractOp (c : WarpContext) (writePos : Nat) : RewriteResult :=
  match c.warpOp.body.ops[writePos]? with
  | none => RewriteResult.assertion
  | some writeOp =>
    match writeOp.operands with
    | vector :: _ =>
      match vector.ty with
      | Ty.vector shape _ =>
        if shape.length ≠ 1 || shape.headD 0 ≠ 1 then RewriteResult.failure c.program
        else if c.warpOp.body.ops.all Operation.isTransferWrite then
          RewriteResult.failure c.program
        else
          match extractRewrite c writePos vector with
          | some m => RewriteResult.success m.program
          | none => RewriteResult.assertion
      | _ => RewriteResult.assertion
    | [] => RewriteResult.assertion

/-- `isa<MemRefType>`. -/
def Ty.isMemRef : Ty → Bool
  | Ty.memref _ _ => true
  | _ => false

/-- What `dyn_cast<MemoryEffectOpInterface>(op)` and `hasNoEffect()` give:
`none` when the operation does not implement the interface, otherwise whether it
reports an effect.  The transfer operations report one when they work on a
memref; the other operations the patterns recognise are declared free of side
effects. -/
def Operation.memoryEffects (o : Operation) : Option Bool :=
  match o.kind with
  | OpKind.transferRead _ _ _ => some ((o.operands.getD 0 default).ty.isMemRef)
  | OpKind.transferWrite _ _ _ => some ((o.operands.getD 1 default).ty.isMemRef)
  | OpKind.other _ memoryEffects _ => memoryEffects
  | _ => some false

/-- `op.hasTrait<OpTrait::HasRecursiveSideEffects>()`. -/
def Operation.hasRecursiveSideEffects (o : Operation) : Bool :=
  match o.kind with
  | OpKind.other _ _ recursiveSideEffects => recursiveSideEffects
  | _ => false

/-- `hasSideEffect`. -/
def hasSideEffect (op : Operation) : Bool :=
  match
    (match op.memoryEffects with
      | some hasEffect =>
        if hasEffect then some true
        else if op.hasRecursiveSideEffects then some true
        else none
      | none => none) with
  | some r => r
  | none => if op.hasRecursiveSideEffects then true else false

/-- Where the store offered to `WarpOpTransferWrite` sits: at position `writePos`
of the body of the warp region in focus, or in a block whose parent operation is
not a warp region. -/
inductive WriteSite where
  | inWarp (c : WarpContext) (writePos : Nat)
  | elsewhere (p : Program) (writeOp : Operation)
deriving DecidableEq, Repr

/-- `WarpOpTransferWrite::matchAndRewrite`, with `ratio` the value of
`distributionRatio` and `distributionMapFn` the callback of the pattern.  The
operations after the store are those of the body after `writePos` and the
terminator `vector_ext.yield`, which has no side effect.  `tryDistributeOp`
returns its failure before it changes anything, so `tryExtractOp` starts from
the same program. -/
def WarpOpTransferWrite.matchAndRewrite (ratio : Int) (distributionMapFn : Operation → AffineMap) :
    WriteSite → RewriteResult
  | WriteSite.elsewhere p writeOp =>
    match writeOp.kind with
    | OpKind.transferWrite _ hasMask _ =>
      if hasMask then RewriteResult.failure p
      else RewriteResult.failure p
    | _ => RewriteResult.assertion
  | WriteSite.inWarp c writePos =>
    match c.warpOp.body.ops[writePos]? with
    | none => RewriteResult.assertion
    | some writeOp =>
      match writeOp.kind with
      | OpKind.transferWrite _ hasMask _ =>
        if hasMask then RewriteResult.failure c.program
        else if (c.warpOp.body.ops.drop (writePos + 1)).any hasSideEffect then
          RewriteResult.failure c.program
        else if !(writeOp.operands.all
            (fun value => writeOp.operands.head? == some value ||
              !(c.warpOp.isDefinedInRegion value))) then
          RewriteResult.failure c.program
        else
          match tryDistributeOp ratio c (distributionMapFn writeOp) writePos with
          | RewriteResult.success p => RewriteResult.success p
          | RewriteResult.assertion => RewriteResult.assertion
          | RewriteResult.failure _ =>
            match tryExtractOp c writePos with
            | RewriteResult.success p => RewriteResult.success p
            | RewriteResult.assertion => RewriteResult.assertion
            | RewriteResult.failure _ => RewriteResult.failure c.program
      | _ => RewriteResult.assertion

/-! ## Uniform code hoisting -/

/-- `canBeHoisted`.  `getNumRegions` gives the number of regions an operation of
the body holds; what the regions contain plays no part in the decision. -/
def canBeHoisted (getNumRegions : Operation → Nat) (op : Operation)
    (definedOutside : Value → Bool) : Bool :=
  op.operands.all definedOutside && !(hasSideEffect op) && getNumRegions op == 0

/-- The helper `isDefinedOutsideOfBody` of `moveScalarUniformCode`: the value has
a defining operation that is in `opsToMove`, or it is defined outside of the
region. -/
def isDefinedOutsideOfBody (w : WarpOp) (opsToMove : List Operation) (value : Value) : Bool :=
  (match value.origin with
    | ValueDef.opResult owner _ => opsToMove.any (fun o => o.id == owner)
    | ValueDef.blockArg _ _ => false) || !(w.isDefinedInRegion value)

/-- The marking loop of `moveScalarUniformCode` over the operations of the body
before the terminator.  `opsToMove` holds the operations marked so far, in the
order of insertion. -/
def markUniformCode (getNumRegions : Operation → Nat) (w : WarpOp) :
    List Operation → List Operation → List Operation
  | [], opsToMove => opsToMove
  | op :: rest, opsToMove =>
    let hasVectorResult := op.resultTypes.any Ty.isVector
    if !hasVectorResult &&
        canBeHoisted getNumRegions op (isDefinedOutsideOfBody w opsToMove) then
      markUniformCode getNumRegions w rest (opsToMove ++ [op])
    else markUniformCode getNumRegions w rest opsToMove

/-- `moveScalarUniformCode`: every marked operation is moved before the warp
operation, one after the other in the order of marking, so the marked
operations end up right before the warp operation in that order. -/
def moveScalarUniformCode (getNumRegions : Operation → Nat) (c : WarpContext) : WarpContext :=
  let opsToMove := markUniformCode getNumRegions c.warpOp c.warpOp.body.ops []
  { pre := c.pre ++ opsToMove.map Item.op
    warpOp :=
      { toWarpHeader := c.warpOp.toWarpHeader
        body :=
          { c.warpOp.body with
            ops := c.warpOp.body.ops.filter
              (fun op => !(opsToMove.any (fun moved => moved.id == op.id))) } }
    post := c.post
    nextId := c.nextId }

/-! ## Lowering to a single-lane conditional -/

/-- An `scf.if` without else region: its condition and the operations of the then
block before the terminator, an `scf.yield` without operands. -/
structure IfOp where
  id : Nat
  condition : Value
  thenOps : List Operation
deriving DecidableEq, Repr

/-- The enclosing block after the lowering: the operations before the place of
the warp operation, the operations created before the conditional, the
conditional, the operations created after it, and the operations after the
place of the warp operation, which is gone; `replacements` is the list handed to
`replaceOp`. -/
structure Lowered where
  pre : List Item
  created : List Operation
  ifOp : IfOp
  loads : List Operation
  post : List Item
  replacements : List Value
  nextId : Nat
deriving DecidableEq, Repr

/-- State of the loop over the captured arguments: the operations created before
the conditional, the loads at the start of the then block, the values that
replace the block arguments, and the next unused identifier. -/
structure ArgState where
  created : List Operation
  thenOps : List Operation
  bbArgReplacements : List Value
  nextId : Nat
deriving DecidableEq, Repr

/-- The loop of `rewriteWarpOpToScfFor` over the captured arguments, from
argument number `index` on.  `allocationFn` is the allocation callback: called
with the warp operation, the type to hold and the next unused identifier, it
gives the operations it creates at the insertion point (before the conditional),
which take their identifiers from there on, and the buffer.  `none` stands for a
failed `getArgument`, `cast<VectorType>` or `getShape()[0]`. -/
def storeArgs (allocationFn : WarpOp → Ty → Nat → List Operation × Value) (w : WarpOp)
    (c0 : Value) : List Value → Nat → ArgState → Option ArgState
  | [], _, st => some st
  | val :: rest, index, st =>
    match w.body.argTypes[index]? with
    | none => none
    | some bbArgType =>
      let alloc := allocationFn w bbArgType st.nextId
      let buffer := alloc.2
      let nextId := st.nextId + alloc.1.length
      match val.ty with
      | Ty.vector (storeSize :: _) _ =>
        let size : Operation :=
          { id := nextId
            kind := OpKind.constantIndex storeSize
            operands := []
            resultTypes := [indexTy] }
        let storeOffset : Operation :=
          { id := nextId + 1
            kind := OpKind.other "arith.muli" (some false) false
            operands := [w.laneid, size.getResult 0]
            resultTypes := [indexTy] }
        let store : Operation :=
          { id := nextId + 2
            kind := OpKind.other "vector.store" (some true) false
            operands := [val, buffer, storeOffset.getResult 0]
            resultTypes := [] }
        match bbArgType with
        | Ty.vector _ _ =>
          let loadOp : Operation :=
            { id := nextId + 3
              kind := OpKind.other "vector.load" (some true) false
              operands := [buffer, c0]
              resultTypes := [bbArgType] }
          storeArgs allocationFn w c0 rest (index + 1)
            { created := st.created ++ alloc.1 ++ [size, storeOffset, store]
              thenOps := loadOp :: st.thenOps
              bbArgReplacements := st.bbArgReplacements ++ [loadOp.getResult 0]
              nextId := nextId + 4 }
        | _ => none
      | _ => none

/-- State of the loop over the yield operands: the operations created before the
conditional, the stores created before the terminator of the then block, the
operations created after the conditional (in block order), the replacements, and
the next unused identifier. -/
structure YieldState where
  created : List Operation
  stores : List Operation
  loads : List Operation
  replacements : List Value
  nextId : Nat
deriving DecidableEq, Repr

/-- The loop of `rewriteWarpOpToScfFor` over the yield operands, from operand
number `index` on.  Every iteration sets the insertion point right after the
conditional, so what it creates there comes before what earlier iterations
created.  The result type of `memref.load` is the element type of the buffer.
`none` stands for an out-of-range result type, a failed `cast<MemRefType>`,
`cast<VectorType>` or `getShape()[0]`. -/
def readBack (allocationFn : WarpOp → Ty → Nat → List Operation × Value) (w : WarpOp)
    (c0 : Value) : List Value → Nat → YieldState → Option YieldState
  | [], _, st => some st
  | val :: rest, index, st =>
    match w.resultTypes[index]? with
    | none => none
    | some resultType =>
      let alloc := allocationFn w val.ty st.nextId
      let buffer := alloc.2
      let nextId := st.nextId + alloc.1.length
      let store : Operation :=
        { id := nextId
          kind := OpKind.other (if val.ty.isVector then "vector.store" else "memref.store")
            (some true) false
          operands := [val, buffer, c0]
          resultTypes := [] }
      if resultType = val.ty then
        match buffer.ty with
        | Ty.memref _ e =>
          let loadOp : Operation :=
            { id := nextId + 1
              kind := OpKind.other "memref.load" (some true) false
              operands := [buffer, c0]
              resultTypes := [Ty.scalar e] }
          readBack allocationFn w c0 rest (index + 1)
            { created := st.created ++ alloc.1
              stores := st.stores ++ [store]
              loads := loadOp :: st.loads
              replacements := st.replacements ++ [loadOp.getResult 0]
              nextId := nextId + 2 }
        | _ => none
      else
        match resultType with
        | Ty.vector (loadSize :: _) _ =>
          let size : Operation :=
            { id := nextId + 1
              kind := OpKind.constantIndex loadSize
              operands := []
              resultTypes := [indexTy] }
          let loadOffset : Operation :=
            { id := nextId + 2
              kind := OpKind.other "arith.muli" (some false) false
              operands := [w.laneid, size.getResult 0]
              resultTypes := [indexTy] }
          let loadOp : Operation :=
            { id := nextId + 3
              kind := OpKind.other "vector.load" (some true) false
              operands := [buffer, loadOffset.getResult 0]
              resultTypes := [resultType] }
          readBack allocationFn w c0 rest (index + 1)
            { created := st.created ++ alloc.1
              stores := st.stores ++ [store]
              loads := size :: loadOffset :: loadOp :: st.loads
              replacements := st.replacements ++ [loadOp.getResult 0]
              nextId := nextId + 4 }
        | _ => none

/-- The value an operand slot holds after `mergeBlocks` replaced the arguments of
the body block by `replacements`. -/
def mergeBlockArgs (w : WarpOp) (replacements : List Value) (v : Value) : Value :=
  match v.origin with
  | ValueDef.blockArg block idx => if block = w.body.id then replacements.getD idx v else v
  | ValueDef.opResult _ _ => v

/-- The value an operand slot holds after `replaceOp(warpOp, replacements)`:
every result is replaced by the replacement of the same index, one after the
other. -/
def replaceOpSubst (w : WarpHeader) (replacements : List Value) (v : Value) : Value :=
  (List.range w.resultTypes.length).foldl
    (fun u i => Value.replaceUse (w.getResult i) (replacements.getD i default) u) v

/-- `rewriteWarpOpToScfFor`.  The function has no failure path; `none` stands
for an assertion, those of `mergeBlocks` and `replaceOp` on the number of
values included.  The arguments of the body block are visible in the body only,
which is where their uses are replaced. -/
def rewriteWarpOpToScfFor (allocationFn : WarpOp → Ty → Nat → List Operation × Value)
    (c : WarpContext) : Option Lowered :=
  let w := c.warpOp
  let c0 : Operation :=
    { id := c.nextId
      kind := OpKind.constantIndex 0
      operands := []
      resultTypes := [indexTy] }
  let isLane0 : Operation :=
    { id := c.nextId + 1
      kind := OpKind.cmpi "eq"
      operands := [w.laneid, c0.getResult 0]
      resultTypes := [i1] }
  match storeArgs allocationFn w (c0.getResult 0) w.args 0
      { created := [c0, isLane0], thenOps := [], bbArgReplacements := [],
        nextId := c.nextId + 3 } with
  | none => none
  | some args =>
    if args.bbArgReplacements.length ≠ w.body.argTypes.length then none
    else
      let merged := w.body.mapOperands (mergeBlockArgs w args.bbArgReplacements)
      match readBack allocationFn w (c0.getResult 0) merged.yieldOperands 0
          { created := args.created, stores := [], loads := [], replacements := [],
            nextId := args.nextId } with
      | none => none
      | some st =>
        if st.replacements.length ≠ w.getNumResults then none
        else
          let subst := replaceOpSubst w.toWarpHeader st.replacements
          some
            { pre := c.pre.map (Item.mapOperands subst)
              created := st.created.map (Operation.mapOperands subst)
              ifOp :=
                { id := c.nextId + 2
                  condition := subst (isLane0.getResult 0)
                  thenOps := (args.thenOps ++ merged.ops ++ st.stores).map
                    (Operation.mapOperands subst) }
              loads := st.loads.map (Operation.mapOperands subst)
              post := c.post.map (Item.mapOperands subst)
              replacements := st.replacements
              nextId := st.nextId }

/-! ## Loop distribution -/

/-- An `scf.for` of the body of a warp region: bounds, step, initial values of the
iteration arguments, result types, and its body block with the operands of the
terminating `scf.yield`.  Argument 0 of the body block is the induction
variable, argument `j + 1` is iteration argument `j`. -/
structure ForOp where
  id : Nat
  lowerBound : Value
  upperBound : Value
  step : Value
  iterOperands : List Value
  resultTypes : List Ty
  bodyId : Nat
  bodyOps : List Operation
  yieldOperands : List Value
deriving DecidableEq, Repr

/-- `forOp.getResult(j)`. -/
def ForOp.getResult (f : ForOp) (j : Nat) : Value :=
  ⟨ValueDef.opResult f.id j, f.resultTypes.getD j default⟩

/-- `forOp.getInductionVar()`. -/
def ForOp.getInductionVar (f : ForOp) : Value :=
  ⟨ValueDef.blockArg f.bodyId 0, f.lowerBound.ty⟩

/-- `forOp.getRegionIterArgs()`: the arguments of the body block after the
induction variable, one per result. -/
def ForOp.getRegionIterArgs (f : ForOp) : List Value :=
  (List.range f.resultTypes.length).map
    (fun j => ⟨ValueDef.blockArg f.bodyId (j + 1), f.resultTypes.getD j default⟩)

/-- The loop the pattern creates after the warp region: the body of the loop is
the inner warp region followed by an `scf.yield`. -/
structure OuterFor where
  id : Nat
  lowerBound : Value
  upperBound : Value
  step : Value
  iterOperands : List Value
  resultTypes : List Ty
  bodyId : Nat
  innerWarp : WarpOp
  yieldOperands : List Value
deriving DecidableEq, Repr

/-- `newForOp.getResult(k)`. -/
def OuterFor.getResult (f : OuterFor) (k : Nat) : Value :=
  ⟨ValueDef.opResult f.id k, f.resultTypes.getD k default⟩

/-- `newForOp.getRegionIterArgs()`. -/
def OuterFor.getRegionIterArgs (f : OuterFor) : List Value :=
  (List.range f.resultTypes.length).map
    (fun k => ⟨ValueDef.blockArg f.bodyId (k + 1), f.resultTypes.getD k default⟩)

/-- The enclosing block after the loop distribution: the warp region, which
stays in place without its loop, followed by the new loop. -/
structure LoopDistributed where
  pre : List Item
  warpOp : WarpOp
  newForOp : OuterFor
  post : List Item
  nextId : Nat
deriving DecidableEq, Repr

/-- What the loop distribution pattern returns. -/
inductive ScfForResult where
  | success (r : LoopDistributed)
  | failure
  | assertion
deriving DecidableEq, Repr

/-- `BlockAndValueMapping::lookupOrNull` on a mapping kept as a list of pairs,
the latest first. -/
def lookupOrNull (mapping : List (Value × Value)) (v : Value) : Option Value :=
  (mapping.find? (fun p => p.1 == v)).map (fun p => p.2)

/-- `BlockAndValueMapping::lookupOrDefault`. -/
def lookupOrDefault (mapping : List (Value × Value)) (v : Value) : Value :=
  (lookupOrNull mapping v).getD v

/-- The loop `rewriter.clone(innerOp, mapping)` over the operations of the old
loop body: each clone takes the mapped operands and the next identifier, and
its results are entered into the mapping.  Returns the clones, the mapping and
the next unused identifier. -/
def cloneOps : List (Value × Value) → List Operation → Nat →
    List Operation × List (Value × Value) × Nat
  | mapping, [], nextId => ([], mapping, nextId)
  | mapping, op :: rest, nextId =>
    let clone : Operation :=
      { id := nextId
        kind := op.kind
        operands := op.operands.map (lookupOrDefault mapping)
        resultTypes := op.resultTypes }
    let mapped := (List.range op.resultTypes.length).map
      (fun j => (op.getResult j, clone.getResult j))
    let r := cloneOps (mapped ++ mapping) rest (nextId + 1)
    (clone :: r.1, r.2)

/-- The first loop of `WarpOpScfForOp`, over the yield operands from operand
number `i` on: an operand that is result `p` of the loop is replaced by initial
value `p` of the loop, and its operand number is recorded.  Returns the new
yield operands and `resultIdx`; `none` stands for an initial value or a warp
result out of range. -/
def collectLoopResults (w : WarpOp) (forOp : ForOp) :
    List Value → Nat → Option (List Value × List Nat)
  | [], _ => some ([], [])
  | operand :: rest, i =>
    match collectLoopResults w forOp rest (i + 1) with
    | none => none
    | some r =>
      match operand.origin with
      | ValueDef.opResult owner p =>
        if owner = forOp.id then
          if i < w.getNumResults then
            match forOp.iterOperands[p]? with
            | some init => some (init :: r.1, i :: r.2)
            | none => none
          else none
        else some (operand :: r.1, r.2)
      | ValueDef.blockArg _ _ => some (operand :: r.1, r.2)

/-- The value an operand slot holds after the last loop of `WarpOpScfForOp`:
for `k = 0, 1, ...` the uses of result `resultIdx[k]` of the warp region are
replaced by result `k` of the new loop. -/
def loopSubst (w : WarpHeader) (newForOp : OuterFor) : List Nat → Nat → Value → Value
  | [], _, v => v
  | i :: rest, k, v =>
    loopSubst w newForOp rest (k + 1)
      (Value.replaceUse (w.getResult i) (newForOp.getResult k) v)

/-- The initial values of the new loop through the last loop of
`WarpOpScfForOp`: each round replaces the uses of a warp result, those among
the initial values included, and then sets initial value `k` back to the warp
result (`setOperand(k + 3, ...)`). -/
def rewireInits (w : WarpHeader) (newForOp : OuterFor) : List Nat → Nat → List Value → List Value
  | [], _, inits => inits
  | i :: rest, k, inits =>
    rewireInits w newForOp rest (k + 1)
      ((inits.map (Value.replaceUse (w.getResult i) (newForOp.getResult k))).set k
        (w.getResult i))

/-- `WarpOpScfForOp::matchAndRewrite`.  `lastNode` is the result of
`dyn_cast_or_null<scf::ForOp>(yield->getPrevNode())`; when it is a loop, the
operations of the body of `c.warpOp` are those before the loop.  A replacement
of uses acts on every operand slot on its own, so the last loop is taken
component by component: the initial values of the new loop go through
`rewireInits`, every other operand slot through `loopSubst`.  The body of the
new loop is kept as one list of operations and one list of yield operands; for a
loop without iteration arguments the loop builder of the source adds a
terminator of its own before the `scf.yield` the pattern creates, which this
form does not show. -/
def WarpOpScfForOp.matchAndRewrite (c : WarpContext) (lastNode : Option ForOp) :
    ScfForResult :=
  match lastNode with
  | none => ScfForResult.failure
  | some forOp =>
    let w := c.warpOp
    match collectLoopResults w forOp w.body.yieldOperands 0 with
    | none => ScfForResult.assertion
    | some collected =>
      let resultIdx := collected.2
      let newOperands := resultIdx.map w.getResult
      let newForId := c.nextId
      let newBodyId := c.nextId + 1
      let resultTypes := newOperands.map (fun v => v.ty)
      let regionIterArgs : List Value := (List.range resultTypes.length).map
        (fun k => ⟨ValueDef.blockArg newBodyId (k + 1), resultTypes.getD k default⟩)
      let innerId := c.nextId + 2
      let innerBodyId := c.nextId + 3
      let innerArgs : List Value := (List.range forOp.resultTypes.length).map
        (fun j => ⟨ValueDef.blockArg innerBodyId j, forOp.resultTypes.getD j default⟩)
      let mapping : List (Value × Value) :=
        (forOp.getRegionIterArgs.zip innerArgs).reverse ++
          [(forOp.getInductionVar, ⟨ValueDef.blockArg newBodyId 0, forOp.lowerBound.ty⟩)]
      let cloned := cloneOps mapping forOp.bodyOps (c.nextId + 4)
      match forOp.yieldOperands.mapM (lookupOrNull cloned.2.1) with
      | none => ScfForResult.assertion
      | some yieldOperands =>
        let innerWarp : WarpOp :=
          { id := innerId
            laneid := w.laneid
            warpSize := w.warpSize
            args := regionIterArgs
            resultTypes := resultTypes
            body :=
              { id := innerBodyId
                argTypes := forOp.resultTypes
                ops := cloned.1
                yieldOperands := yieldOperands } }
        let newForOp : OuterFor :=
          { id := newForId
            lowerBound := forOp.lowerBound
            upperBound := forOp.upperBound
            step := forOp.step
            iterOperands := newOperands
            resultTypes := resultTypes
            bodyId := newBodyId
            innerWarp := innerWarp
            yieldOperands := (List.range innerWarp.resultTypes.length).map innerWarp.getResult }
        let subst := loopSubst w.toWarpHeader newForOp resultIdx 0
        ScfForResult.success
          { pre := c.pre.map (Item.mapOperands subst)
            warpOp :=
              WarpOp.mapOperands subst
                { toWarpHeader := w.toWarpHeader
                  body := { w.body with yieldOperands := collected.1 } }
            newForOp :=
              { newForOp with
                lowerBound := subst newForOp.lowerBound
                upperBound := subst newForOp.upperBound
                step := subst newForOp.step
                iterOperands := rewireInits w.toWarpHeader newForOp resultIdx 0 newOperands
                innerWarp := newForOp.innerWarp.mapOperands subst
                yieldOperands := newForOp.yieldOperands.map subst }
            post := c.post.map (Item.mapOperands subst)
            nextId := cloned.2.2 }

/-! ## Pattern families -/

/-- The patterns that reshape a region. -/
inductive ReshapingPattern where
  | elementwiseSink
  | reductionSink
  | broadcastSink
  | deadResultElimination
  | writeDistribution (map : AffineMap) (writePos : Nat)
  | writeExtraction (writePos : Nat)
deriving DecidableEq, Repr

/-- Applies a reshaping pattern. -/
def ReshapingPattern.apply : ReshapingPattern → WarpContext → RewriteResult
  | ReshapingPattern.elementwiseSink, c => WarpOpElementwise.matchAndRewrite c
  | ReshapingPattern.reductionSink, c => WarpOpReduction.matchAndRewrite c
  | ReshapingPattern.broadcastSink, c => WarpOpBroadcast.matchAndRewrite c
  | ReshapingPattern.deadResultElimination, c => WarpOpDeadResult.matchAndRewrite c
  | ReshapingPattern.writeDistribution map writePos, c =>
    tryDistributeOp distributionRatio c map writePos
  | ReshapingPattern.writeExtraction writePos, c => tryExtractOp c writePos

/-- The sinking and cleanup patterns. -/
inductive SinkPattern where
  | elementwiseSink
  | reductionSink
  | transferReadSink
  | broadcastSink
  | deadResultElimination
  | operandForwarding
deriving DecidableEq, Repr

/-- Applies a sinking or cleanup pattern. -/
def SinkPattern.apply : SinkPattern → WarpContext → RewriteResult
  | SinkPattern.elementwiseSink, c => WarpOpElementwise.matchAndRewrite c
  | SinkPattern.reductionSink, c => WarpOpReduction.matchAndRewrite c
  | SinkPattern.transferReadSink, c => WarpOpTransferRead.matchAndRewrite c
  | SinkPattern.broadcastSink, c => WarpOpBroadcast.matchAndRewrite c
  | SinkPattern.deadResultElimination, c => WarpOpDeadResult.matchAndRewrite c
  | SinkPattern.operandForwarding, c => WarpOpForwardOperand.matchAndRewrite c

/-- The operand number of the yield operand a sinking pattern selects as its
anchor: what `getWarpResult` returns under the predicate of the pattern, or the
operand number at which the search loop of `WarpOpForwardOperand` stops.  Dead
result elimination selects no anchor. -/
def SinkPattern.anchor : SinkPattern → WarpContext → Option Nat
  | SinkPattern.elementwiseSink, c =>
    getWarpResult c.items c.warpOp Item.hasElementwiseMappableTraits
  | SinkPattern.reductionSink, c => getWarpResult c.items c.warpOp Item.isReduction
  | SinkPattern.transferReadSink, c => getWarpResult c.items c.warpOp Item.isTransferRead
  | SinkPattern.broadcastSink, c => getWarpResult c.items c.warpOp Item.isBroadcast
  | SinkPattern.deadResultElimination, _ => none
  | SinkPattern.operandForwarding, c =>
    match forwardSearch c.items c.warpOp c.warpOp.body.yieldOperands 0 with
    | ForwardSearch.found _ resultIndex => some resultIndex
    | _ => none

/-- The arity invariant of a region: as many results as yield operands. -/
def WarpOp.arityOk (w : WarpOp) : Prop :=
  w.resultTypes.length = w.body.yieldOperands.length

instance (w : WarpOp) : Decidable w.arityOk :=
  inferInstanceAs (Decidable (w.resultTypes.length = w.body.yieldOperands.length))

/-! ## Statements about uses -/

/-- Operation `it'` is operation `it` after a rewrite under which every operand
slot of `it` that held `old` holds `new`. -/
def SlotsRewired (old new : Value) (it it' : Item) : Prop :=
  it'.id = it.id ∧ it'.operandValues.length = it.operandValues.length ∧
    ∀ j : Nat, it.operandValues[j]? = some old → it'.operandValues[j]? = some new

/-- Operation `it'` is operation `it` after a rewrite under which every operand
slot of `it` that held `old` holds a value of the type of `old`. -/
def SlotsKeepType (old : Value) (it it' : Item) : Prop :=
  it'.id = it.id ∧ it'.operandValues.length = it.operandValues.length ∧
    ∀ j : Nat, it.operandValues[j]? = some old →
      ∃ v : Value, it'.operandValues[j]? = some v ∧ v.ty = old.ty

/-- The effect on one operand slot of replacing results `0 .. n-1` of `old` by
the results of `new` with the same index, one after the other. -/
def resultSubst (old new : WarpHeader) (n : Nat) (v : Value) : Value :=
  (List.range n).foldl
    (fun u i => Value.replaceUse (old.getResult i) (new.getResult i) u) v

/-- Yield operand `v` with operand number `i` qualifies as a match anchor: it
has a defining operation that satisfies the predicate, and region result `i` has
at least one use. -/
def Qualifies (items : List Item) (w : WarpOp) (fn : Item → Bool) (v : Value) (i : Nat) :
    Prop :=
  (∃ definedOp, getDefiningOp items v = some definedOp ∧ fn definedOp = true) ∧
    ∃ it, it ∈ items ∧ w.getResult i ∈ it.operandValues

/-! ## Region invariant -/

/-- Modelled from the spec: the verifier of the warp operation is not part of the
sources at hand.  The type of a result is either identical to the type of the
yielded value, or both are vectors of the same element type and rank that
differ in exactly one dimension, where the yielded extent is the result extent
times the warp size or times the distribution ratio. -/
def distributedTypeOk (warpSize : Nat) (yielded result : Ty) : Bool :=
  yielded == result ||
    match yielded, result with
    | Ty.vector ys ye, Ty.vector rs re =>
      ye == re && ys.length == rs.length &&
        ((ys.zip rs).filter (fun p => p.1 != p.2)).length == 1 &&
        (ys.zip rs).all
          (fun p => p.1 == p.2 || p.1 == p.2 * (warpSize : Int) || p.1 == p.2 * distributionRatio)
    | _, _ => false

/-- A yielded value that is the result of a plain operation names an existing
result of it and carries its type; a reduction has exactly one result. -/
def yieldedValueOk (items : List Item) (v : Value) : Bool :=
  match v.origin, getDefiningOp items v with
  | ValueDef.opResult _ idx, some (Item.op o) =>
    decide (idx < o.resultTypes.length) && v.ty == o.resultTypes.getD idx default &&
      (match o.kind with
        | OpKind.reduction _ => o.resultTypes.length == 1
        | _ => true)
  | _, _ => true

/-- The invariant of a region in its enclosing block: the arity invariant; every
result type is a distributed form of the type of the yielded value; yielded
operation results are well typed; no operand slot of the region holds a result
of the region itself (SSA dominance); and the identifier handed to the next
operation created is not the one of the region. -/
def WarpContext.regionInvariant (c : WarpContext) : Bool :=
  decide (c.warpOp.resultTypes.length = c.warpOp.body.yieldOperands.length) &&
    (List.range c.warpOp.getNumResults).all
      (fun i => distributedTypeOk c.warpOp.warpSize
        (c.warpOp.body.yieldOperands.getD i default).ty (c.warpOp.resultTypes.getD i default)) &&
    c.warpOp.body.yieldOperands.all (yieldedValueOk c.items) &&
    (List.range c.warpOp.getNumResults).all
      (fun i => !((Item.warp c.warpOp).operandValues.contains (c.warpOp.getResult i))) &&
    decide (c.warpOp.id ≠ c.nextId)

/-! ## Runtime values -/

/-- The slice of a uniform vector that lane `lane` holds when every lane holds
`s` elements: the read-back of `rewriteWarpOpToScfFor` loads `s` elements at
offset `laneid * s`. -/
def laneSlice {α : Type} (s lane : Nat) (v : List α) : List α :=
  (v.drop (lane * s)).take s

/-- What lane `lane` observes for a region result of type `resultTy` whose
yielded value has type `yieldedTy` and uniform value `v`, after the read-back of
`rewriteWarpOpToScfFor`: the whole value when the two types are equal
(broadcast), otherwise the slice of the leading extent of the result type at
offset `laneid * extent`. -/
def observe {α : Type} (resultTy yieldedTy : Ty) (lane : Nat) (v : List α) : List α :=
  if resultTy = yieldedTy then v
  else laneSlice (resultTy.shape.headD 0).toNat lane v

/-- The runtime meaning of an elementwise-mappable operation on vectors of
extent `n`: element `j` of the result is the scalar operation `f` applied to the
elements `j` of the operands. -/
def elementwiseApply {α β : Type} (f : List α → β) (n : Nat) (operands : List (List α)) :
    List β :=
  (List.range n).map (fun j => f (operands.filterMap (fun v => v[j]?)))

/-! ## Example programs -/

/-- The type `f32`. -/
def f32 : Ty := Ty.scalar (ScalarType.float 32)

/-- The type `vector<n x f32>`. -/
def vectorF32 (n : Int) : Ty := Ty.vector [n] (ScalarType.float 32)

/-- An operation the patterns do not recognise and that has no side effect. -/
def opaqueOp (id : Nat) (name : String) (operands : List Value) (resultTypes : List Ty) :
    Operation :=
  { id := id, kind := OpKind.other name none false, operands := operands,
    resultTypes := resultTypes }

/-- The lane id used by the example programs, result of operation 0. -/
def exampleLaneId : Value := ⟨ValueDef.opResult 0 0, indexTy⟩

/-- The elementwise scenario: a region of warp size 32 that yields the
`vector<32xf32>` sum of two `vector<32xf32>` values; its only result has type
`vector<1xf32>` and one use after the region. -/
def addScenario : WarpContext :=
  { pre := [Item.op (opaqueOp 0 "gpu.thread_id" [] [indexTy])]
    warpOp :=
      { id := 1
        laneid := exampleLaneId
        warpSize := 32
        args := []
        resultTypes := [vectorF32 1]
        body :=
          { id := 2
            argTypes := []
            ops :=
              [ opaqueOp 3 "some_def" [] [vectorF32 32],
                opaqueOp 4 "some_def" [] [vectorF32 32],
                { id := 5
                  kind := OpKind.elementwise "arith.addf"
                  operands := [⟨ValueDef.opResult 3 0, vectorF32 32⟩,
                    ⟨ValueDef.opResult 4 0, vectorF32 32⟩]
                  resultTypes := [vectorF32 32] } ]
            yieldOperands := [⟨ValueDef.opResult 5 0, vectorF32 32⟩] } }
    post := [Item.op (opaqueOp 6 "some_use" [⟨ValueDef.opResult 1 0, vectorF32 1⟩] [])]
    nextId := 7 }

/-- The new region of a reshaped program sits at the position of the old one,
carries the identifier that was unused before, and satisfies the arity
invariant. -/
def Moved.ArityOkAt (c : WarpContext) (m : Moved) : Prop :=
  m.pre.length = c.pre.length ∧ m.newWarpOp.id = c.nextId ∧ m.newWarpOp.arityOk

/-- The elementwise scenario after the elementwise sink: the region (now
operation 7) has two more `vector<1xf32>` results that yield the operands of the
addition; the addition is rebuilt after it as operation 8 over results 1 and 2,
at type `vector<1xf32>`, and the use refers to it. -/
def addScenarioSunk : Program :=
  { items :=
      [ Item.op (opaqueOp 0 "gpu.thread_id" [] [indexTy]),
        Item.warp
          { id := 7
            laneid := exampleLaneId
            warpSize := 32
            args := []
            resultTypes := [vectorF32 1, vectorF32 1, vectorF32 1]
            body :=
              { id := 2
                argTypes := []
                ops :=
                  [ opaqueOp 3 "some_def" [] [vectorF32 32],
                    opaqueOp 4 "some_def" [] [vectorF32 32],
                    { id := 5
                      kind := OpKind.elementwise "arith.addf"
                      operands := [⟨ValueDef.opResult 3 0, vectorF32 32⟩,
                        ⟨ValueDef.opResult 4 0, vectorF32 32⟩]
                      resultTypes := [vectorF32 32] } ]
                yieldOperands :=
                  [ ⟨ValueDef.opResult 5 0, vectorF32 32⟩,
                    ⟨ValueDef.opResult 3 0, vectorF32 32⟩,
                    ⟨ValueDef.opResult 4 0, vectorF32 32⟩ ] } },
        Item.op
          { id := 8
            kind := OpKind.elementwise "arith.addf"
            operands := [⟨ValueDef.opResult 7 1, vectorF32 1⟩,
              ⟨ValueDef.opResult 7 2, vectorF32 1⟩]
            resultTypes := [vectorF32 1] },
        Item.op (opaqueOp 6 "some_use" [⟨ValueDef.opResult 8 0, vectorF32 1⟩] []) ]
    nextId := 9 }

/-- The addition matched in the elementwise scenario. -/
def addScenarioAdd : Operation :=
  { id := 5
    kind := OpKind.elementwise "arith.addf"
    operands := [⟨ValueDef.opResult 3 0, vectorF32 32⟩, ⟨ValueDef.opResult 4 0, vectorF32 32⟩]
    resultTypes := [vectorF32 32] }

/-- A region of warp size 32 that yields a `vector<32xf32>` select whose
condition is a scalar `i1` and whose other operands are `vector<32xf32>`; the
result has type `vector<1xf32>` and one use after the region. -/
def selectScenario : WarpContext :=
  { pre := [Item.op (opaqueOp 0 "gpu.thread_id" [] [indexTy])]
    warpOp :=
      { id := 1
        laneid := exampleLaneId
        warpSize := 32
        args := []
        resultTypes := [vectorF32 1]
        body :=
          { id := 2
            argTypes := []
            ops :=
              [ opaqueOp 3 "some_def" [] [i1],
                opaqueOp 4 "some_def" [] [vectorF32 32],
                opaqueOp 5 "some_def" [] [vectorF32 32],
                { id := 6
                  kind := OpKind.elementwise "arith.select"
                  operands := [⟨ValueDef.opResult 3 0, i1⟩,
                    ⟨ValueDef.opResult 4 0, vectorF32 32⟩,
                    ⟨ValueDef.opResult 5 0, vectorF32 32⟩]
                  resultTypes := [vectorF32 32] } ]
            yieldOperands := [⟨ValueDef.opResult 6 0, vectorF32 32⟩] } }
    post := [Item.op (opaqueOp 7 "some_use" [⟨ValueDef.opResult 1 0, vectorF32 1⟩] [])]
    nextId := 8 }

/-- The operand type rule as the specification words it: a vector operand is
returned with the shape of the distributed result and its own element type, any
other operand with its own type. -/
def specOperandTargetType (distributedTy operandTy : Ty) : Ty :=
  match operandTy with
  | Ty.vector _ e => Ty.vector distributedTy.shape e
  | t => t

/-- The type `i32` (signless). -/
def i32 : Ty := Ty.scalar (ScalarType.integer 32 Signedness.signless)

/-- The kind of a plain operation of the enclosing block. -/
def Item.opKind? : Item → Option OpKind
  | Item.op o => some o.kind
  | _ => none

/-- The kinds of one shuffle-down / combine round. -/
def roundKinds (kind : CombiningKind) (width : Int) (distance : Int) : List (Option OpKind) :=
  [some (OpKind.shuffle ShuffleMode.down distance width), some (OpKind.arithReduction kind)]

/-- A region of warp size `warpSize` that yields the `f32` sum reduction of a
vector of `extent` elements; its only result has type `f32` and one use after
the region. -/
def reductionScenario (warpSize : Nat) (extent : Int) : WarpContext :=
  { pre := [Item.op (opaqueOp 0 "gpu.thread_id" [] [indexTy])]
    warpOp :=
      { id := 1
        laneid := exampleLaneId
        warpSize := warpSize
        args := []
        resultTypes := [f32]
        body :=
          { id := 2
            argTypes := []
            ops :=
              [ opaqueOp 3 "some_def" [] [vectorF32 extent],
                { id := 4
                  kind := OpKind.reduction CombiningKind.add
                  operands := [⟨ValueDef.opResult 3 0, vectorF32 extent⟩]
                  resultTypes := [f32] } ]
            yieldOperands := [⟨ValueDef.opResult 4 0, f32⟩] } }
    post := [Item.op (opaqueOp 5 "some_use" [⟨ValueDef.opResult 1 0, f32⟩] [])]
    nextId := 6 }

/-- The reduction matched in the reduction scenario. -/
def reductionScenarioOp (extent : Int) : Operation :=
  { id := 4
    kind := OpKind.reduction CombiningKind.add
    operands := [⟨ValueDef.opResult 3 0, vectorF32 extent⟩]
    resultTypes := [f32] }

/-- The effect on one operand slot of the second loop of the dead result
pattern: the old results listed in `used` are replaced, one after the other, by
the new results `k`, `k + 1`, ... -/
def deadSubst (old new : WarpOp) : List Nat → Nat → Value → Value
  | [], _, v => v
  | j :: rest, k, v =>
    deadSubst old new rest (k + 1) (Value.replaceUse (old.getResult j) (new.getResult k) v)

/-- The identity map on one dimension, `(d0) -> (d0)`. -/
def identityMap1 : AffineMap := ⟨1, [AffineExpr.dim 0]⟩

/-- The write scenario: a region of warp size 32 without results whose body
defines a `vector<extent x f32>` and stores it, unmasked, into a memref defined
before the region, at an index defined before the region. -/
def writeScenario (extent : Int) : WarpContext :=
  { pre :=
      [ Item.op (opaqueOp 0 "gpu.thread_id" [] [indexTy]),
        Item.op (opaqueOp 1 "memref.alloc" [] [Ty.memref [128] (ScalarType.float 32)]),
        Item.op (opaqueOp 2 "arith.constant" [] [indexTy]) ]
    warpOp :=
      { id := 3
        laneid := exampleLaneId
        warpSize := 32
        args := []
        resultTypes := []
        body :=
          { id := 4
            argTypes := []
            ops :=
              [ opaqueOp 5 "some_def" [] [vectorF32 extent],
                { id := 6
                  kind := OpKind.transferWrite identityMap1 false none
                  operands :=
                    [ ⟨ValueDef.opResult 5 0, vectorF32 extent⟩,
                      ⟨ValueDef.opResult 1 0, Ty.memref [128] (ScalarType.float 32)⟩,
                      ⟨ValueDef.opResult 2 0, indexTy⟩ ]
                  resultTypes := [] } ]
            yieldOperands := [] } }
    post := []
    nextId := 7 }

/-- The store of the write scenario. -/
def writeScenarioOp (extent : Int) : Operation :=
  { id := 6
    kind := OpKind.transferWrite identityMap1 false none
    operands :=
      [ ⟨ValueDef.opResult 5 0, vectorF32 extent⟩,
        ⟨ValueDef.opResult 1 0, Ty.memref [128] (ScalarType.float 32)⟩,
        ⟨ValueDef.opResult 2 0, indexTy⟩ ]
    resultTypes := [] }

/-- The new region `tryExtractOp` and `tryDistributeOp` leave behind: the old
region under the next unused identifier, without the store at `writePos`, with
one more result of type `ty` that yields `vector`. -/
def regionWithoutStore (c : WarpContext) (writePos : Nat) (vector : Value) (ty : Ty) : WarpOp :=
  { id := c.nextId
    laneid := c.warpOp.laneid
    warpSize := c.warpOp.warpSize
    args := c.warpOp.args
    resultTypes := c.warpOp.resultTypes ++ [ty]
    body :=
      { id := c.warpOp.body.id
        argTypes := c.warpOp.body.argTypes
        ops := c.warpOp.body.ops.eraseIdx writePos
        yieldOperands := c.warpOp.body.yieldOperands ++ [vector] } }

/-- The second region `tryExtractOp` creates: no results, no arguments, the lane
id and warp size of the first, and a body that holds only the clone of the
store, which writes the last result of the new region, before an empty yield. -/
def storeOnlyRegion (c : WarpContext) (writeOp : Operation) (vector : Value)
    (rest : List Value) : WarpOp :=
  { id := c.nextId + 1
    laneid := c.warpOp.laneid
    warpSize := c.warpOp.warpSize
    args := []
    resultTypes := []
    body :=
      { id := c.nextId + 2
        argTypes := []
        ops :=
          [ { id := c.nextId + 3
              kind := writeOp.kind
              operands :=
                ⟨ValueDef.opResult c.nextId c.warpOp.getNumResults, vector.ty⟩ :: rest
              resultTypes := writeOp.resultTypes } ]
        yieldOperands := [] } }

/-- The value of an affine expression at the given values of its dimensions. -/
def AffineExpr.eval (dims : List Int) : AffineExpr → Int
  | AffineExpr.dim pos => dims.getD pos 0
  | AffineExpr.const c => c
  | AffineExpr.add a b => a.eval dims + b.eval dims
  | AffineExpr.mul a b => a.eval dims * b.eval dims

/-- The operation the index rewriting loop creates for one index:
`affine.apply (d0 + scale * d1)(index, laneid)`. -/
def laneOffsetApply (id : Nat) (scale : Int) (index laneid : Value) : Operation :=
  { id := id
    kind := OpKind.affineApply (laneOffsetExpr scale)
    operands := [index, laneid]
    resultTypes := [indexTy] }

/-- Identifiers are handed out in increasing order: no operand slot of the region
holds a result of the operation that will be created next. -/
def WarpContext.nextIdUnused (c : WarpContext) : Bool :=
  (Item.warp c.warpOp).operandValues.all
    (fun v =>
      match v.origin with
      | ValueDef.opResult owner _ => owner != c.nextId
      | ValueDef.blockArg _ _ => true)

/-- The broadcast scenario: a region of warp size 32 that yields the broadcast
of an `f32` value to `vector<4xf32>`; its only result has type `vector<4xf32>`
and one use after the region. -/
def broadcastScenario : WarpContext :=
  { pre := [Item.op (opaqueOp 0 "gpu.thread_id" [] [indexTy])]
    warpOp :=
      { id := 1
        laneid := exampleLaneId
        warpSize := 32
        args := []
        resultTypes := [vectorF32 4]
        body :=
          { id := 2
            argTypes := []
            ops :=
              [ opaqueOp 3 "some_def" [] [f32],
                { id := 4
                  kind := OpKind.broadcast
                  operands := [⟨ValueDef.opResult 3 0, f32⟩]
                  resultTypes := [vectorF32 4] } ]
            yieldOperands := [⟨ValueDef.opResult 4 0, vectorF32 4⟩] } }
    post := [Item.op (opaqueOp 5 "some_use" [⟨ValueDef.opResult 1 0, vectorF32 4⟩] [])]
    nextId := 6 }

/-- The broadcast matched in the broadcast scenario. -/
def broadcastScenarioOp : Operation :=
  { id := 4
    kind := OpKind.broadcast
    operands := [⟨ValueDef.opResult 3 0, f32⟩]
    resultTypes := [vectorF32 4] }

/-- Yield operand `operand` with operand number `i` can be forwarded as `v`:
result `i` has a use, and either the operand is defined outside the region, has
the type of result `i` and is `v` itself, or it is an argument of the body block
and the value `v` captured for that argument has the type of result `i`. -/
def ForwardCandidate (items : List Item) (w : WarpOp) (operand : Value) (i : Nat)
    (v : Value) : Prop :=
  useEmpty items (w.getResult i) = false ∧
    ((w.isDefinedInRegion operand = false ∧ (w.getResult i).ty = operand.ty ∧ v = operand) ∨
      (w.isDefinedInRegion operand = true ∧
        ∃ b a, operand.origin = ValueDef.blockArg b a ∧ w.args[a]? = some v ∧
          (w.getResult i).ty = v.ty))

/-- A region of warp size 32 that yields an `f32` value defined before it; the
only result has type `f32`.  `post` holds the operations after the region. -/
def forwardScenario (post : List Item) : WarpContext :=
  { pre :=
      [ Item.op (opaqueOp 0 "gpu.thread_id" [] [indexTy]),
        Item.op (opaqueOp 1 "some_def" [] [f32]) ]
    warpOp :=
      { id := 2
        laneid := exampleLaneId
        warpSize := 32
        args := []
        resultTypes := [f32]
        body :=
          { id := 3
            argTypes := []
            ops := []
            yieldOperands := [⟨ValueDef.opResult 1 0, f32⟩] } }
    post := post
    nextId := 5 }

/-- A region of warp size 32 that captures a `vector<1xf32>` value, sees it as
the `vector<32xf32>` argument of its body and yields that argument; the only
result has type `vector<1xf32>` and one use after the region. -/
def forwardArgScenario : WarpContext :=
  { pre :=
      [ Item.op (opaqueOp 0 "gpu.thread_id" [] [indexTy]),
        Item.op (opaqueOp 1 "some_def" [] [vectorF32 1]) ]
    warpOp :=
      { id := 2
        laneid := exampleLaneId
        warpSize := 32
        args := [⟨ValueDef.opResult 1 0, vectorF32 1⟩]
        resultTypes := [vectorF32 1]
        body :=
          { id := 3
            argTypes := [vectorF32 32]
            ops := []
            yieldOperands := [⟨ValueDef.blockArg 3 0, vectorF32 32⟩] } }
    post := [Item.op (opaqueOp 4 "some_use" [⟨ValueDef.opResult 2 0, vectorF32 1⟩] [])]
    nextId := 5 }

/-- The numbers of the results of the region that have at least one use, in
increasing order: the results `WarpOpDeadResult` keeps. -/
def WarpContext.usedResults (c : WarpContext) : List Nat :=
  (List.range c.warpOp.getNumResults).filter
    (fun i => !(useEmpty c.items (c.warpOp.getResult i)))

/-- The dead result scenario: a region of warp size 32 with three `f32` results
of which the first and the third have a use after the region. -/
def deadResultScenario : WarpContext :=
  { pre := [Item.op (opaqueOp 0 "gpu.thread_id" [] [indexTy])]
    warpOp :=
      { id := 1
        laneid := exampleLaneId
        warpSize := 32
        args := []
        resultTypes := [f32, f32, f32]
        body :=
          { id := 2
            argTypes := []
            ops :=
              [ opaqueOp 3 "some_def" [] [f32],
                opaqueOp 4 "some_def" [] [f32],
                opaqueOp 5 "some_def" [] [f32] ]
            yieldOperands :=
              [ ⟨ValueDef.opResult 3 0, f32⟩,
                ⟨ValueDef.opResult 4 0, f32⟩,
                ⟨ValueDef.opResult 5 0, f32⟩ ] } }
    post :=
      [ Item.op (opaqueOp 6 "some_use"
          [⟨ValueDef.opResult 1 2, f32⟩, ⟨ValueDef.opResult 1 0, f32⟩] []) ]
    nextId := 7 }

/-- The dead result scenario after dead result elimination: the region (now
operation 7) has the two results that were used, and the use refers to them. -/
def deadResultScenarioAfter : WarpContext :=
  { pre := [Item.op (opaqueOp 0 "gpu.thread_id" [] [indexTy])]
    warpOp :=
      { id := 7
        laneid := exampleLaneId
        warpSize := 32
        args := []
        resultTypes := [f32, f32]
        body :=
          { id := 2
            argTypes := []
            ops :=
              [ opaqueOp 3 "some_def" [] [f32],
                opaqueOp 4 "some_def" [] [f32],
                opaqueOp 5 "some_def" [] [f32] ]
            yieldOperands :=
              [ ⟨ValueDef.opResult 3 0, f32⟩,
                ⟨ValueDef.opResult 5 0, f32⟩ ] } }
    post :=
      [ Item.op (opaqueOp 6 "some_use"
          [⟨ValueDef.opResult 7 1, f32⟩, ⟨ValueDef.opResult 7 0, f32⟩] []) ]
    nextId := 8 }

/-- The write scenario with an operation that has a memory effect after the
store. -/
def writeScenarioEffect : WarpContext :=
  { writeScenario 64 with
    warpOp :=
      { (writeScenario 64).warpOp with
        body :=
          { (writeScenario 64).warpOp.body with
            ops := (writeScenario 64).warpOp.body.ops ++
              [{ id := 7, kind := OpKind.other "some_effect" (some true) false,
                 operands := [], resultTypes := [] }] } }
    nextId := 8 }

/-- `dyn_cast<AffineDimExpr>`: the position of a dimension expression. -/
def AffineExpr.dimPos? : AffineExpr → Option Nat
  | AffineExpr.dim pos => some pos
  | _ => none

/-- The transfer read scenario: a region of warp size 32 that yields a
`vector<64xf32>` read, unmasked, from a memref at an index, both defined before
the region; its only result has type `vector<2xf32>` and one use after the
region. -/
def readScenario : WarpContext :=
  { pre :=
      [ Item.op (opaqueOp 0 "gpu.thread_id" [] [indexTy]),
        Item.op (opaqueOp 1 "memref.alloc" [] [Ty.memref [128] (ScalarType.float 32)]),
        Item.op (opaqueOp 2 "arith.constant" [] [indexTy]),
        Item.op (opaqueOp 3 "arith.constant" [] [f32]) ]
    warpOp :=
      { id := 4
        laneid := exampleLaneId
        warpSize := 32
        args := []
        resultTypes := [vectorF32 2]
        body :=
          { id := 5
            argTypes := []
            ops :=
              [ { id := 6
                  kind := OpKind.transferRead identityMap1 false none
                  operands :=
                    [ ⟨ValueDef.opResult 1 0, Ty.memref [128] (ScalarType.float 32)⟩,
                      ⟨ValueDef.opResult 2 0, indexTy⟩,
                      ⟨ValueDef.opResult 3 0, f32⟩ ]
                  resultTypes := [vectorF32 64] } ]
            yieldOperands := [⟨ValueDef.opResult 6 0, vectorF32 64⟩] } }
    post := [Item.op (opaqueOp 7 "some_use" [⟨ValueDef.opResult 4 0, vectorF32 2⟩] [])]
    nextId := 8 }

/-- The read matched in the transfer read scenario. -/
def readScenarioOp : Operation :=
  { id := 6
    kind := OpKind.transferRead identityMap1 false none
    operands :=
      [ ⟨ValueDef.opResult 1 0, Ty.memref [128] (ScalarType.float 32)⟩,
        ⟨ValueDef.opResult 2 0, indexTy⟩,
        ⟨ValueDef.opResult 3 0, f32⟩ ]
    resultTypes := [vectorF32 64] }

/-- The transfer read scenario after the transfer read sink: the index is offset
by `2 * laneid` (operation 8), the read is rebuilt after the region at type
`vector<2xf32>` (operation 9), and the use refers to it. -/
def readScenarioSunk : Program :=
  { items :=
      readScenario.pre ++
        [ Item.warp readScenario.warpOp,
          Item.op (laneOffsetApply 8 2 ⟨ValueDef.opResult 2 0, indexTy⟩ exampleLaneId),
          Item.op
            { id := 9
              kind := OpKind.transferRead identityMap1 false none
              operands :=
                [ ⟨ValueDef.opResult 1 0, Ty.memref [128] (ScalarType.float 32)⟩,
                  ⟨ValueDef.opResult 8 0, indexTy⟩,
                  ⟨ValueDef.opResult 3 0, f32⟩ ]
              resultTypes := [vectorF32 2] },
          Item.op (opaqueOp 7 "some_use" [⟨ValueDef.opResult 9 0, vectorF32 2⟩] []) ]
    nextId := 10 }

/-! ## Lane values -/

/-- The lane values after a new value `v` was computed: `env v` is the function
from lanes to the scalar the lane holds for `v`. -/
def setLanes {α : Type} (env : Value → Nat → α) (v : Value) (x : Nat → α) :
    Value → Nat → α :=
  fun u => if u = v then x else env u

/-- Modelled from the spec: `gpu.shuffle` is not among the sources.  The value
each lane receives: mode `down` reads the lane higher by `offset`, which gives
an unspecified value `unspecified lane` when that lane is not below `width`;
mode `idx` reads lane `offset`.  The other modes are not modelled. -/
def shuffleLanes {α : Type} (mode : ShuffleMode) (offset width : Int)
    (unspecified : Nat → α) (x : Nat → α) : Option (Nat → α) :=
  match mode with
  | ShuffleMode.down =>
    some (fun lane => if (lane : Int) + offset < width then x (lane + offset.toNat)
      else unspecified lane)
  | ShuffleMode.idx => some (fun _ => x offset.toNat)
  | _ => none

/-- Runs the operations the reduction pattern creates, on all lanes in
lockstep.  A `vector<1 x e>` value is represented by its single element, which
`vector.extract` at position 0 returns; `combine kind` is the scalar operation
`makeArithReduction` builds for `kind`; `unspecified id` gives the results of
shuffle `id` on the lanes whose source lane is out of range.  `none` stands for
an operation that is not modelled. -/
def evalLanes {α : Type} (combine : CombiningKind → α → α → α)
    (unspecified : Nat → Nat → α) : List Item → (Value → Nat → α) → Option (Value → Nat → α)
  | [], env => some env
  | Item.op o :: rest, env =>
    match o.kind, o.operands with
    | OpKind.extract 0, [v] =>
      evalLanes combine unspecified rest (setLanes env (o.getResult 0) (env v))
    | OpKind.shuffle mode offset width, [v] =>
      match shuffleLanes mode offset width (unspecified o.id) (env v) with
      | some x => evalLanes combine unspecified rest (setLanes env (o.getResult 0) x)
      | none => none
    | OpKind.arithReduction kind, [a, b] =>
      evalLanes combine unspecified rest
        (setLanes env (o.getResult 0) (fun lane => combine kind (env a lane) (env b lane)))
    | _, _ => none
  | _ :: _, _ => none

/-- The reduction of the values `v 0, ..., v k` from left to right. -/
def linearReduce {α : Type} (op : α → α → α) (v : Nat → α) : Nat → α
  | 0 => v 0
  | k + 1 => op (linearReduce op v k) (v (k + 1))

/-- The lane values after the shuffle rounds that `reductionRounds` creates, for
the lane values `x` of the running value before the first round. -/
def roundsLanes {α : Type} (op : α → α → α) (unspecified : Nat → Nat → α) (width : Int) :
    Nat → Int → Nat → (Nat → α) → Nat → α
  | 0, _, _, x => x
  | fuel + 1, i, nextId, x =>
    if 0 < i then
      roundsLanes op unspecified width fuel (i / 2) (nextId + 2)
        (fun lane => op (x lane)
          (if (lane : Int) + i < width then x (lane + i.toNat) else unspecified nextId lane))
    else x

/-- The lane values before the reduction in the examples: lane `l` holds `l + 1`
when `l` is below `lanes`. -/
def exampleLanes (lanes : Nat) : Value → Nat → Nat :=
  fun _ lane => if lane < lanes then lane + 1 else 0

/-! ## Contraction padding -/

/-- Conversion of an integer to `int64_t` (two's complement, 64 bits). -/
def toInt64 (n : Int) : Int :=
  (n + 9223372036854775808) % 18446744073709551616 - 9223372036854775808

/-- A high padding amount of `padTensor`: an integer attribute, or the value of
`iree_input.align(tensor.dim(original, dim), alignment)` created for a dynamic
dimension. -/
inductive PadSize where
  | attr (value : Int)
  | aligned (dim : Nat) (alignment : Int)
deriving DecidableEq, Repr

/-- `~x` on `int64_t`. -/
def int64Not (x : Int) : Int :=
  toInt64 ((18446744073709551615 - toUInt64 x : Nat) : Int)

/-- `x & y` on `int64_t`. -/
def int64And (x y : Int) : Int :=
  toInt64 ((toUInt64 x &&& toUInt64 y : Nat) : Int)

/-- The body of the loop of `padTensor` for dimension `i`: the new static size,
the high padding amount, and whether the dimension needs padding.  A dynamic
size is negative and keeps the new static size -1.  For the alignment 0 the
remainder of the source is a division by zero; `Int.tmod` returns the dividend
there, so the results for a static size with alignment 0 stand for no run of the
source. -/
def padDim (i : Nat) (inputDim alignment : Int) : Int × PadSize × Bool :=
  if inputDim ≥ 0 then
    if Int.tmod inputDim alignment = 0 then (inputDim, PadSize.attr 0, false)
    else
      let alignedDim :=
        int64And (toInt64 (inputDim + (alignment - 1))) (int64Not (toInt64 (alignment - 1)))
      (alignedDim, PadSize.attr (toInt64 (alignedDim - inputDim)), true)
  else (-1, PadSize.aligned i alignment, true)

/-- The loop of `padTensor` from dimension `i` on, over the remaining sizes and
alignments: the new static sizes, the high padding amounts, and whether any
dimension needs padding. -/
def padDims : Nat → List Int → List Int → List Int × List PadSize × Bool
  | i, inputDim :: shape, alignment :: alignments =>
    let dim := padDim i inputDim alignment
    let rest := padDims (i + 1) shape alignments
    (dim.1 :: rest.1, dim.2.1 :: rest.2.1, dim.2.2 || rest.2.2)
  | _, _, _ => ([], [], false)

/-- The part of `padTensor` that computes the padded type: `none` stands for the
assertion that shape and alignments have the same length; otherwise the new
static sizes and high padding amounts of the pad operation, and the value
returned (whether the operand was padded). -/
def padTensor (shape alignments : List Int) : Option (List Int × List PadSize × Bool) :=
  if shape.length ≠ alignments.length then none
  else some (padDims 0 shape alignments)

/-- The pairwise tree the specification describes for `lanes` lanes:
`R_0(i) = v_i` and `R_k(i) = op (R_(k-1)(i)) (R_(k-1)(i + lanes / 2^k))`, the
value of the lane itself on the left. -/
def treeReduce {α : Type} (op : α → α → α) (lanes : Nat) (v : Nat → α) : Nat → Nat → α
  | 0, i => v i
  | k + 1, i =>
    op (treeReduce op lanes v k i) (treeReduce op lanes v k (i + lanes / 2 ^ (k + 1)))

/-- `getShape()[0]` of a vector type: the leading extent, when there is one. -/
def Ty.leadingExtent? : Ty → Option Int
  | Ty.vector (extent :: _) _ => some extent
  | _ => none

/-- The read-back of one yielded value `val` whose result has type `resultType`:
`stores[index]` stores `val` at offset `c0` into a buffer obtained from the
allocation callback for the type of `val`; `replacement` is the result of a load
from that buffer among `loads`: a `memref.load` at offset `c0` when the two types
are equal, otherwise a `vector.load` of type `resultType` at the offset
`laneid * extent`, with `extent` the leading extent of `resultType`, computed by a
constant and a multiplication that are among `loads` as well. -/
def ReadBackAt (allocationFn : WarpOp → Ty → Nat → List Operation × Value) (w : WarpOp)
    (c0 : Value) (resultType : Ty) (val : Value) (stores loads : List Operation)
    (index : Nat) (replacement : Value) : Prop :=
  ∃ buffer store load nid,
    buffer = (allocationFn w val.ty nid).2 ∧
    stores[index]? = some store ∧
    store.operands = [val, buffer, c0] ∧
    store.kind = OpKind.other (if val.ty.isVector then "vector.store" else "memref.store")
      (some true) false ∧
    load ∈ loads ∧
    replacement = load.getResult 0 ∧
    (resultType = val.ty →
      load.kind = OpKind.other "memref.load" (some true) false ∧
      load.operands = [buffer, c0]) ∧
    (resultType ≠ val.ty →
      ∃ extent size offset,
        resultType.leadingExtent? = some extent ∧
        size ∈ loads ∧ offset ∈ loads ∧
        size.kind = OpKind.constantIndex extent ∧
        offset.kind = OpKind.other "arith.muli" (some false) false ∧
        offset.operands = [w.laneid, size.getResult 0] ∧
        load.kind = OpKind.other "vector.load" (some true) false ∧
        load.operands = [buffer, offset.getResult 0] ∧
        load.resultTypes = [resultType])

/-- A value that names an argument of the body block of `w` carries the type the
block declares for that argument. -/
def blockArgTyped (w : WarpOp) (v : Value) : Bool :=
  match v.origin with
  | ValueDef.blockArg block idx => block != w.body.id || w.body.argTypes[idx]? == some v.ty
  | ValueDef.opResult _ _ => true

/-- The value is available after the operations `items` of the enclosing block:
it is a result of one of them, or a block argument. -/
def definedAmong (items : List Item) (v : Value) : Bool :=
  match v.origin with
  | ValueDef.opResult owner _ => items.any (fun it => it.id == owner)
  | ValueDef.blockArg _ _ => true

/-- Number of regions of the operations of the hoisting scenario: one for the
`scf.execute_region`, none for the others. -/
def exampleNumRegions (op : Operation) : Nat :=
  if op.kind = OpKind.other "scf.execute_region" none false then 1 else 0

/-- The hoisting scenario: a region of warp size 32 whose body holds, in order, an
index constant, an index addition of that constant and a value defined before
the region, an `scf.execute_region` that yields an `f32`, an operation on that
`f32`, an operation with a vector result, and an operation with a side effect. -/
def hoistScenario : WarpContext :=
  { pre :=
      [ Item.op (opaqueOp 0 "gpu.thread_id" [] [indexTy]),
        Item.op (opaqueOp 1 "some_def" [] [indexTy]) ]
    warpOp :=
      { id := 2
        laneid := exampleLaneId
        warpSize := 32
        args := []
        resultTypes := [vectorF32 1]
        body :=
          { id := 3
            argTypes := []
            ops :=
              [ { id := 4
                  kind := OpKind.other "arith.constant" (some false) false
                  operands := []
                  resultTypes := [indexTy] },
                { id := 5
                  kind := OpKind.other "arith.addi" (some false) false
                  operands := [⟨ValueDef.opResult 4 0, indexTy⟩, ⟨ValueDef.opResult 1 0, indexTy⟩]
                  resultTypes := [indexTy] },
                { id := 6
                  kind := OpKind.other "scf.execute_region" none false
                  operands := []
                  resultTypes := [f32] },
                { id := 7
                  kind := OpKind.other "arith.negf" (some false) false
                  operands := [⟨ValueDef.opResult 6 0, f32⟩]
                  resultTypes := [f32] },
                { id := 8
                  kind := OpKind.other "vector.splat" (some false) false
                  operands := [⟨ValueDef.opResult 7 0, f32⟩]
                  resultTypes := [vectorF32 32] },
                { id := 9
                  kind := OpKind.other "some_effect" (some true) false
                  operands := [⟨ValueDef.opResult 5 0, indexTy⟩]
                  resultTypes := [] } ]
            yieldOperands := [⟨ValueDef.opResult 8 0, vectorF32 32⟩] } }
    post := [Item.op (opaqueOp 10 "some_use" [⟨ValueDef.opResult 2 0, vectorF32 1⟩] [])]
    nextId := 11 }

/-- The `scf.execute_region` of the hoisting scenario. -/
def hoistScenarioRegionOp : Operation :=
  { id := 6
    kind := OpKind.other "scf.execute_region" none false
    operands := []
    resultTypes := [f32] }

/-- The index addition of the hoisting scenario. -/
def hoistScenarioAdd : Operation :=
  { id := 5
    kind := OpKind.other "arith.addi" (some false) false
    operands := [⟨ValueDef.opResult 4 0, indexTy⟩, ⟨ValueDef.opResult 1 0, indexTy⟩]
    resultTypes := [indexTy] }

/-- The index constant of the hoisting scenario. -/
def hoistScenarioConstant : Operation :=
  { id := 4
    kind := OpKind.other "arith.constant" (some false) false
    operands := []
    resultTypes := [indexTy] }

/-- The type of a buffer that holds a value of type `t`: a memref of the shape of
a vector, of one element for a scalar. -/
def exampleBufferType : Ty → Ty
  | Ty.vector shape e => Ty.memref shape e
  | Ty.scalar e => Ty.memref [1] e
  | Ty.memref shape e => Ty.memref shape e

/-- An allocation callback for the example programs: one `memref.alloc` at the
insertion point. -/
def exampleAllocationFn (_ : WarpOp) (t : Ty) (nextId : Nat) : List Operation × Value :=
  ([ { id := nextId
       kind := OpKind.other "memref.alloc" (some true) false
       operands := []
       resultTypes := [exampleBufferType t] } ],
    ⟨ValueDef.opResult nextId 0, exampleBufferType t⟩)

/-- The lowering scenario: a region of warp size 32 that captures a
`vector<1xf32>` as a `vector<32xf32>` block argument, applies an operation to it
and defines an `f32`; it yields the `vector<32xf32>`, returned as
`vector<1xf32>`, and the `f32`, returned as it is.  Both results are used after
the region. -/
def loweringScenario : WarpContext :=
  { pre :=
      [ Item.op (opaqueOp 0 "gpu.thread_id" [] [indexTy]),
        Item.op (opaqueOp 1 "some_def" [] [vectorF32 1]) ]
    warpOp :=
      { id := 2
        laneid := exampleLaneId
        warpSize := 32
        args := [⟨ValueDef.opResult 1 0, vectorF32 1⟩]
        resultTypes := [vectorF32 1, f32]
        body :=
          { id := 3
            argTypes := [vectorF32 32]
            ops :=
              [ opaqueOp 4 "some_op" [⟨ValueDef.blockArg 3 0, vectorF32 32⟩] [vectorF32 32],
                opaqueOp 5 "some_def" [] [f32] ]
            yieldOperands := [⟨ValueDef.opResult 4 0, vectorF32 32⟩, ⟨ValueDef.opResult 5 0, f32⟩] } }
    post :=
      [ Item.op (opaqueOp 6 "some_use" [⟨ValueDef.opResult 2 0, vectorF32 1⟩] []),
        Item.op (opaqueOp 7 "some_use" [⟨ValueDef.opResult 2 1, f32⟩] []) ]
    nextId := 8 }

/-- A region of warp size 32 that captures an `f32` value, applies an operation to
the block argument that stands for it and yields the `f32` result, returned as
it is and used after the region. -/
def loweringScalarScenario : WarpContext :=
  { pre :=
      [ Item.op (opaqueOp 0 "gpu.thread_id" [] [indexTy]),
        Item.op (opaqueOp 1 "some_def" [] [f32]) ]
    warpOp :=
      { id := 2
        laneid := exampleLaneId
        warpSize := 32
        args := [⟨ValueDef.opResult 1 0, f32⟩]
        resultTypes := [f32]
        body :=
          { id := 3
            argTypes := [f32]
            ops := [opaqueOp 4 "some_op" [⟨ValueDef.blockArg 3 0, f32⟩] [f32]]
            yieldOperands := [⟨ValueDef.opResult 4 0, f32⟩] } }
    post := [Item.op (opaqueOp 5 "some_use" [⟨ValueDef.opResult 2 0, f32⟩] [])]
    nextId := 6 }

/-- The value is defined in the body of the loop: it is the induction variable,
an iteration argument, or a result of an operation of the body. -/
def ForOp.definesValue (f : ForOp) (v : Value) : Bool :=
  v == f.getInductionVar || f.getRegionIterArgs.contains v ||
    f.bodyOps.any (fun op => (List.range op.resultTypes.length).any (fun j => op.getResult j == v))

/-- A value that names a result of the loop names one for which the loop has an
initial value. -/
def ForOp.resultInRange (f : ForOp) (v : Value) : Bool :=
  match v.origin with
  | ValueDef.opResult owner p => owner != f.id || decide (p < f.iterOperands.length)
  | ValueDef.blockArg _ _ => true

/-- The value is a result of the loop. -/
def ForOp.isResult (f : ForOp) (v : Value) : Bool :=
  match v.origin with
  | ValueDef.opResult owner _ => owner == f.id
  | ValueDef.blockArg _ _ => false

/-- The operand numbers, from `i` on, of the yield operands that are results of
the loop. -/
def loopResultIdx (f : ForOp) : List Value → Nat → List Nat
  | [], _ => []
  | v :: rest, i =>
    if f.isResult v then i :: loopResultIdx f rest (i + 1) else loopResultIdx f rest (i + 1)

/-- The initial value of the loop for the loop result `v`; any other value is
left as it is. -/
def loopInit (f : ForOp) (v : Value) : Value :=
  match v.origin with
  | ValueDef.opResult owner p => if owner = f.id then f.iterOperands.getD p default else v
  | ValueDef.blockArg _ _ => v

/-- The loop scenario: a region of warp size 32 whose body defines a
`vector<128xf32>` and ends with a loop that carries it through one operation per
iteration; the region yields the result of the loop, returned as
`vector<4xf32>` and used after the region.  The bounds and the step are defined
before the region. -/
def loopScenario : WarpContext :=
  { pre :=
      [ Item.op (opaqueOp 0 "gpu.thread_id" [] [indexTy]),
        Item.op (opaqueOp 1 "arith.constant" [] [indexTy]),
        Item.op (opaqueOp 2 "arith.constant" [] [indexTy]),
        Item.op (opaqueOp 3 "arith.constant" [] [indexTy]) ]
    warpOp :=
      { id := 4
        laneid := exampleLaneId
        warpSize := 32
        args := []
        resultTypes := [vectorF32 4]
        body :=
          { id := 5
            argTypes := []
            ops := [opaqueOp 6 "some_def" [] [vectorF32 128]]
            yieldOperands := [⟨ValueDef.opResult 7 0, vectorF32 128⟩] } }
    post := [Item.op (opaqueOp 10 "some_use" [⟨ValueDef.opResult 4 0, vectorF32 4⟩] [])]
    nextId := 11 }

/-- The loop of the loop scenario. -/
def loopScenarioFor : ForOp :=
  { id := 7
    lowerBound := ⟨ValueDef.opResult 1 0, indexTy⟩
    upperBound := ⟨ValueDef.opResult 2 0, indexTy⟩
    step := ⟨ValueDef.opResult 3 0, indexTy⟩
    iterOperands := [⟨ValueDef.opResult 6 0, vectorF32 128⟩]
    resultTypes := [vectorF32 128]
    bodyId := 8
    bodyOps :=
      [ opaqueOp 9 "some_op"
          [⟨ValueDef.blockArg 8 1, vectorF32 128⟩, ⟨ValueDef.blockArg 8 0, indexTy⟩]
          [vectorF32 128] ]
    yieldOperands := [⟨ValueDef.opResult 9 0, vectorF32 128⟩] }

/-- The loop of the loop scenario, yielding the value defined before the loop
instead of the result of its body operation. -/
def loopScenarioInvariantFor : ForOp :=
  { loopScenarioFor with yieldOperands := [⟨ValueDef.opResult 6 0, vectorF32 128⟩] }

/-- A region as in the loop scenario whose body defines two vectors; its loop
carries both, and the region yields the second result of the loop only. -/
def loopTwoScenario : WarpContext :=
  { pre :=
      [ Item.op (opaqueOp 0 "gpu.thread_id" [] [indexTy]),
        Item.op (opaqueOp 1 "arith.constant" [] [indexTy]),
        Item.op (opaqueOp 2 "arith.constant" [] [indexTy]),
        Item.op (opaqueOp 3 "arith.constant" [] [indexTy]) ]
    warpOp :=
      { id := 4
        laneid := exampleLaneId
        warpSize := 32
        args := []
        resultTypes := [vectorF32 4]
        body :=
          { id := 5
            argTypes := []
            ops :=
              [ opaqueOp 6 "some_def" [] [vectorF32 64],
                opaqueOp 12 "some_def" [] [vectorF32 128] ]
            yieldOperands := [⟨ValueDef.opResult 7 1, vectorF32 128⟩] } }
    post := [Item.op (opaqueOp 10 "some_use" [⟨ValueDef.opResult 4 0, vectorF32 4⟩] [])]
    nextId := 13 }

/-- The loop of the second loop scenario: iteration argument 0 is a
`vector<64xf32>`, iteration argument 1 a `vector<128xf32>`. -/
def loopTwoScenarioFor : ForOp :=
  { id := 7
    lowerBound := ⟨ValueDef.opResult 1 0, indexTy⟩
    upperBound := ⟨ValueDef.opResult 2 0, indexTy⟩
    step := ⟨ValueDef.opResult 3 0, indexTy⟩
    iterOperands := [⟨ValueDef.opResult 6 0, vectorF32 64⟩, ⟨ValueDef.opResult 12 0, vectorF32 128⟩]
    resultTypes := [vectorF32 64, vectorF32 128]
    bodyId := 8
    bodyOps :=
      [ opaqueOp 9 "some_op" [⟨ValueDef.blockArg 8 1, vectorF32 64⟩] [vectorF32 64],
        opaqueOp 11 "some_op" [⟨ValueDef.blockArg 8 2, vectorF32 128⟩] [vectorF32 128] ]
    yieldOperands := [⟨ValueDef.opResult 9 0, vectorF32 64⟩, ⟨ValueDef.opResult 11 0, vectorF32 128⟩] }

/-- The write scenario with one more operation after the store: an operation
that does not implement the memory-effect interface and does not carry the
recursive-side-effects trait, on the index defined before the region. -/
def writeScenarioOpaque : WarpContext :=
  { writeScenario 64 with
    warpOp :=
      { (writeScenario 64).warpOp with
        body :=
          { (writeScenario 64).warpOp.body with
            ops := (writeScenario 64).warpOp.body.ops ++
              [opaqueOp 7 "some_op" [⟨ValueDef.opResult 2 0, indexTy⟩] [indexTy]] } }
    nextId := 8 }

/-- The operation after the store of `writeScenarioOpaque`. -/
def writeScenarioOpaqueOp : Operation :=
  opaqueOp 7 "some_op" [⟨ValueDef.opResult 2 0, indexTy⟩] [indexTy]

/-- The value a high padding amount of `padTensor` has when the program runs:
the integer of the attribute, or the result of `iree_input.align` on the result
of `tensor.dim`.  `dimSize dim` is the size of dimension `dim` of the original
tensor, the value of `tensor.dim`, and `align size alignment` the value of
`iree_input.align`. -/
def PadSize.value (align : Int → Int → Int) (dimSize : Nat → Int) : PadSize → Int
  | PadSize.attr value => value
  | PadSize.aligned dim alignment => align (dimSize dim) alignment

/-- The size of a dimension of the result of `tensor.pad` for a source of size
`size` with the padding amounts `low` and `high`. -/
def paddedDimSize (low size high : Int) : Int := low + size + high

/-! ## Evaluation of programs -/

/-- The number of elements of a value of the type: the product of the extents of
a vector, one for a scalar. -/
def Ty.numElements : Ty → Nat
  | Ty.vector shape _ => (shape.foldl (fun a b => a * b) 1).toNat
  | _ => 1

/-- The value is a result of the operation with identifier `id`. -/
def Value.ownedBy (v : Value) (id : Nat) : Bool :=
  match v.origin with
  | ValueDef.opResult owner _ => owner == id
  | ValueDef.blockArg _ _ => false

/-- Runs one operation on all lanes in lockstep; `env v lane` is the list of
elements lane `lane` holds for `v` (one element for a scalar).  An operation
with the elementwise-mappable traits computes its result 0 element by element
with the scalar operation `sem kind`, over as many elements as its result type
has.  The results of every other operation are those `env` already gives
them. -/
def evalOp {α : Type} (sem : OpKind → List α → α) (o : Operation)
    (env : Value → Nat → List α) : Value → Nat → List α :=
  if Item.hasElementwiseMappableTraits (Item.op o) then
    setLanes env (o.getResult 0)
      (fun lane => elementwiseApply (sem o.kind) (o.resultTypes.getD 0 default).numElements
        (o.operands.map (fun v => env v lane)))
  else env

/-- Runs the operations of a block in order. -/
def evalOps {α : Type} (sem : OpKind → List α → α) (ops : List Operation)
    (env : Value → Nat → List α) : Value → Nat → List α :=
  ops.foldl (fun current o => evalOp sem o current) env

/-- The values inside a warp region once its body has run: the body runs on lane
0 only, so a value defined before the region has the value lane 0 holds for it.
The values of the block arguments are those `env` gives them on lane 0. -/
def evalRegion {α : Type} (sem : OpKind → List α → α) (w : WarpOp)
    (env : Value → Nat → List α) : Value → List α :=
  fun v => evalOps sem w.body.ops (fun u _ => env u 0) v 0

/-- Runs a warp region: result `i` becomes, on each lane, what the lane observes
of yield operand `i`. -/
def evalWarp {α : Type} (sem : OpKind → List α → α) (w : WarpOp)
    (env : Value → Nat → List α) : Value → Nat → List α :=
  fun u lane =>
    match u.origin with
    | ValueDef.opResult owner i =>
      if owner = w.id ∧ i < w.getNumResults ∧ u.ty = w.resultTypes.getD i default then
        observe (w.resultTypes.getD i default) (w.body.yieldOperands.getD i default).ty lane
          (evalRegion sem w env (w.body.yieldOperands.getD i default))
      else env u lane
    | ValueDef.blockArg _ _ => env u lane

/-- Runs one operation of the enclosing block; a warp operation without region
computes nothing. -/
def evalItem {α : Type} (sem : OpKind → List α → α) (it : Item)
    (env : Value → Nat → List α) : Value → Nat → List α :=
  match it with
  | Item.op o => evalOp sem o env
  | Item.warp w => evalWarp sem w env
  | Item.bodyless _ => env

/-- Runs the operations of the enclosing block in order. -/
def evalItems {α : Type} (sem : OpKind → List α → α) (items : List Item)
    (env : Value → Nat → List α) : Value → Nat → List α :=
  items.foldl (fun current it => evalItem sem it current) env

/-- The small elementwise scenario: a region of warp size 2 that yields the
`vector<4xf32>` sum of two `vector<4xf32>` values; its only result has type
`vector<2xf32>` and one use after the region. -/
def addScenarioSmall : WarpContext :=
  { pre := [Item.op (opaqueOp 0 "gpu.thread_id" [] [indexTy])]
    warpOp :=
      { id := 1
        laneid := exampleLaneId
        warpSize := 2
        args := []
        resultTypes := [vectorF32 2]
        body :=
          { id := 2
            argTypes := []
            ops :=
              [ opaqueOp 3 "some_def" [] [vectorF32 4],
                opaqueOp 4 "some_def" [] [vectorF32 4],
                { id := 5
                  kind := OpKind.elementwise "arith.addf"
                  operands := [⟨ValueDef.opResult 3 0, vectorF32 4⟩,
                    ⟨ValueDef.opResult 4 0, vectorF32 4⟩]
                  resultTypes := [vectorF32 4] } ]
            yieldOperands := [⟨ValueDef.opResult 5 0, vectorF32 4⟩] } }
    post := [Item.op (opaqueOp 6 "some_use" [⟨ValueDef.opResult 1 0, vectorF32 2⟩] [])]
    nextId := 7 }

/-- The addition matched in the small elementwise scenario. -/
def addScenarioSmallAdd : Operation :=
  { id := 5
    kind := OpKind.elementwise "arith.addf"
    operands := [⟨ValueDef.opResult 3 0, vectorF32 4⟩, ⟨ValueDef.opResult 4 0, vectorF32 4⟩]
    resultTypes := [vectorF32 4] }

/-- Values for the small elementwise scenario: on every lane the first operand
of the addition is `[1, 2, 3, 4]` and the second `[10, 20, 30, 40]`. -/
def addScenarioSmallEnv : Value → Nat → List Nat :=
  fun v _ =>
    if v.origin = ValueDef.opResult 3 0 then [1, 2, 3, 4]
    else if v.origin = ValueDef.opResult 4 0 then [10, 20, 30, 40]
    else []

/-! ## Basic facts -/

theorem operation_mapOperands_id (o : Operation) : o.mapOperands (fun v => v) = o := by
  cases o; simp [Operation.mapOperands]

theorem operation_mapOperands_comp (f g : Value → Value) (o : Operation) :
    (o.mapOperands f).mapOperands g = o.mapOperands (fun v => g (f v)) := by
  simp [Operation.mapOperands, Function.comp_def]

theorem block_mapOperands_id (b : Block) : b.mapOperands (fun v => v) = b := by
  have h : Operation.mapOperands (fun v => v) = fun o => o :=
    funext operation_mapOperands_id
  simp [Block.mapOperands, h]

theorem block_mapOperands_comp (f g : Value → Value) (b : Block) :
    (b.mapOperands f).mapOperands g = b.mapOperands (fun v => g (f v)) := by
  simp [Block.mapOperands, Function.comp_def, operation_mapOperands_comp]

theorem warpHeader_mapOperands_id (h : WarpHeader) : h.mapOperands (fun v => v) = h := by
  cases h; simp [WarpHeader.mapOperands]

theorem warpHeader_mapOperands_comp (f g : Value → Value) (h : WarpHeader) :
    (h.mapOperands f).mapOperands g = h.mapOperands (fun v => g (f v)) := by
  simp [WarpHeader.mapOperands, Function.comp_def]

theorem warpOp_mapOperands_id (w : WarpOp) : w.mapOperands (fun v => v) = w := by
  cases w
  simp [WarpOp.mapOperands, warpHeader_mapOperands_id, block_mapOperands_id]

theorem warpOp_mapOperands_comp (f g : Value → Value) (w : WarpOp) :
    (w.mapOperands f).mapOperands g = w.mapOperands (fun v => g (f v)) := by
  simp [WarpOp.mapOperands, warpHeader_mapOperands_comp, block_mapOperands_comp]

theorem item_mapOperands_id (it : Item) : it.mapOperands (fun v => v) = it := by
  cases it <;>
    simp [Item.mapOperands, operation_mapOperands_id, warpOp_mapOperands_id,
      warpHeader_mapOperands_id]

theorem item_mapOperands_comp (f g : Value → Value) (it : Item) :
    (it.mapOperands f).mapOperands g = it.mapOperands (fun v => g (f v)) := by
  cases it <;>
    simp [Item.mapOperands, operation_mapOperands_comp, warpOp_mapOperands_comp,
      warpHeader_mapOperands_comp]

theorem item_id_mapOperands (f : Value → Value) (it : Item) :
    (it.mapOperands f).id = it.id := by
  cases it <;> rfl

theorem block_operandValues_mapOperands (f : Value → Value) (b : Block) :
    (b.mapOperands f).operandValues = b.operandValues.map f := by
  simp [Block.mapOperands, Block.operandValues, Operation.mapOperands, List.map_flatten,
    Function.comp_def]

theorem item_operandValues_mapOperands (f : Value → Value) (it : Item) :
    (it.mapOperands f).operandValues = it.operandValues.map f := by
  cases it with
  | op o => simp [Item.mapOperands, Item.operandValues, Operation.mapOperands]
  | warp w =>
    simp [Item.mapOperands, Item.operandValues, WarpOp.mapOperands,
      block_operandValues_mapOperands, WarpHeader.operandValues, WarpHeader.mapOperands]
  | bodyless h =>
    simp [Item.mapOperands, Item.operandValues, WarpHeader.operandValues,
      WarpHeader.mapOperands]

theorem map_mapOperands_id (l : List Item) :
    l.map (Item.mapOperands (fun v => v)) = l := by
  have h : Item.mapOperands (fun v => v) = fun it => it := funext item_mapOperands_id
  simp [h]

theorem map_mapOperands_comp (f g : Value → Value) (l : List Item) :
    (l.map (Item.mapOperands f)).map (Item.mapOperands g) =
      l.map (Item.mapOperands (fun v => g (f v))) := by
  simp [Function.comp_def, item_mapOperands_comp]

theorem moved_mapOperands_id (m : Moved) : m.mapOperands (fun v => v) = m := by
  cases m
  simp [Moved.mapOperands, map_mapOperands_id, warpOp_mapOperands_id,
    warpHeader_mapOperands_id]

theorem moved_mapOperands_comp (f g : Value → Value) (m : Moved) :
    (m.mapOperands f).mapOperands g = m.mapOperands (fun v => g (f v)) := by
  simp [Moved.mapOperands, item_mapOperands_comp, warpOp_mapOperands_comp,
    warpHeader_mapOperands_comp]

/-- A fold of operand rewritings is one operand rewriting. -/
theorem moved_foldl_mapOperands {ι : Type} (g : ι → Value → Value) (l : List ι) (m : Moved) :
    l.foldl (fun s i => s.mapOperands (g i)) m =
      m.mapOperands (fun v => l.foldl (fun u i => g i u) v) := by
  induction l generalizing m with
  | nil => simp [moved_mapOperands_id]
  | cons i l ih => simp [ih, moved_mapOperands_comp]

/-- Mapping the operand slots relates every operation to its image. -/
theorem slotsRewired_map (old new : Value) (f : Value → Value) (hf : f old = new)
    (l : List Item) : List.Forall₂ (SlotsRewired old new) l (l.map (Item.mapOperands f)) := by
  rw [List.forall₂_map_right_iff, List.forall₂_same]
  intro it _
  refine ⟨item_id_mapOperands f it, ?_, ?_⟩
  · simp [item_operandValues_mapOperands]
  · intro j hj
    simp [item_operandValues_mapOperands, hj, hf]

/-- Mapping the operand slots with a type-preserving rewriting of `old`. -/
theorem slotsKeepType_map (old : Value) (f : Value → Value) (hf : (f old).ty = old.ty)
    (l : List Item) : List.Forall₂ (SlotsKeepType old) l (l.map (Item.mapOperands f)) := by
  rw [List.forall₂_map_right_iff, List.forall₂_same]
  intro it _
  refine ⟨item_id_mapOperands f it, ?_, ?_⟩
  · simp [item_operandValues_mapOperands]
  · intro j hj
    exact ⟨f old, by simp [item_operandValues_mapOperands, hj], hf⟩

/-! ## Region reshaping: facts -/

theorem resultSubst_succ (old new : WarpHeader) (n : Nat) (v : Value) :
    resultSubst old new (n + 1) v =
      Value.replaceUse (old.getResult n) (new.getResult n) (resultSubst old new n v) := by
  simp [resultSubst, List.range_succ, List.foldl_append]

theorem getResult_ne_of_ne (h : WarpHeader) {i j : Nat} (hij : i ≠ j) :
    h.getResult i ≠ h.getResult j := by
  intro e
  simp [WarpHeader.getResult] at e
  exact hij e.1

/-- A value that is none of the replaced results is left alone. -/
theorem resultSubst_other (old new : WarpHeader) (n : Nat) (v : Value)
    (hv : ∀ k, k < n → v ≠ old.getResult k) : resultSubst old new n v = v := by
  induction n with
  | zero => simp [resultSubst]
  | succ n ih =>
    rw [resultSubst_succ, ih (fun k hk => hv k (Nat.lt_succ_of_lt hk))]
    simp [Value.replaceUse, hv n (Nat.lt_succ_self n)]

/-- Old result `k` is replaced by new result `k`. -/
theorem resultSubst_old (old new : WarpHeader) (n k : Nat) (hk : k < n) :
    resultSubst old new n (old.getResult k) = new.getResult k := by
  induction n with
  | zero => omega
  | succ n ih =>
    rw [resultSubst_succ]
    by_cases hkn : k = n
    · subst hkn
      rw [resultSubst_other old new k _
        (fun j hj => getResult_ne_of_ne old (Nat.ne_of_gt hj))]
      simp [Value.replaceUse]
    · rw [ih (by omega)]
      have hne : new.getResult k ≠ old.getResult n := by
        intro e
        simp [WarpHeader.getResult] at e
        exact hkn e.1.2
      simp [Value.replaceUse, hne]

/-- The append helper is the replace helper followed by one operand rewriting. -/
theorem appendReturns_eq (c : WarpContext) (newYieldedValues : List Value)
    (newReturnTypes : List Ty) :
    moveRegionToNewWarpOpAndAppendReturns c newYieldedValues newReturnTypes =
      (moveRegionToNewWarpOpAndReplaceReturns c
        (c.warpOp.body.yieldOperands ++ newYieldedValues)
        (c.warpOp.resultTypes ++ newReturnTypes)).mapOperands
        (resultSubst c.warpOp.toWarpHeader
          (moveRegionToNewWarpOpAndReplaceReturns c
            (c.warpOp.body.yieldOperands ++ newYieldedValues)
            (c.warpOp.resultTypes ++ newReturnTypes)).newWarpOp.toWarpHeader
          c.warpOp.getNumResults) := by
  simp only [moveRegionToNewWarpOpAndAppendReturns, Moved.replaceAllUsesWith]
  rw [moved_foldl_mapOperands]
  rfl

/-! ## Result discovery: facts -/

theorem useEmpty_eq_false_iff (items : List Item) (v : Value) :
    useEmpty items v = false ↔ ∃ it, it ∈ items ∧ v ∈ it.operandValues := by
  simp [useEmpty]

theorem useEmpty_eq_true_iff (items : List Item) (v : Value) :
    useEmpty items v = true ↔ ∀ it, it ∈ items → v ∉ it.operandValues := by
  simp [useEmpty]

/-- The test of the loop of `getWarpResult` decides `Qualifies`. -/
theorem getWarpResult_test_iff (items : List Item) (w : WarpOp) (fn : Item → Bool)
    (v : Value) (i : Nat) :
    ((match getDefiningOp items v with
        | some definedOp => fn definedOp
        | none => false) && !(useEmpty items (w.getResult i))) = true ↔
      Qualifies items w fn v i := by
  unfold Qualifies
  rw [Bool.and_eq_true, Bool.not_eq_true', useEmpty_eq_false_iff]
  cases h : getDefiningOp items v <;> simp

/-- What the loop of `getWarpResult` returns, for a scan that starts at operand
number `k`. -/
theorem getWarpResultFrom_some_iff (items : List Item) (w : WarpOp) (fn : Item → Bool)
    (l : List Value) (k r : Nat) :
    getWarpResultFrom items w fn l k = some r ↔
      ∃ j v, r = k + j ∧ l[j]? = some v ∧ Qualifies items w fn v (k + j) ∧
        ∀ j' u, j' < j → l[j']? = some u → ¬ Qualifies items w fn u (k + j') := by
  induction l generalizing k with
  | nil => simp [getWarpResultFrom]
  | cons a l ih =>
    unfold getWarpResultFrom
    by_cases hq : Qualifies items w fn a k
    · rw [if_pos ((getWarpResult_test_iff items w fn a k).2 hq)]
      constructor
      · intro h
        refine ⟨0, a, ?_, by simp, hq, ?_⟩
        · simpa using h.symm
        · intro j' u hj'; omega
      · rintro ⟨j, v, hr, _, _, hfirst⟩
        cases j with
        | zero => simp [hr]
        | succ j => exact absurd hq (hfirst 0 a (Nat.succ_pos j) (by simp))
    · rw [if_neg (fun h => hq ((getWarpResult_test_iff items w fn a k).1 h)), ih]
      constructor
      · rintro ⟨j, v, hr, hv, hqv, hfirst⟩
        refine ⟨j + 1, v, by omega, by simpa using hv, ?_, ?_⟩
        · rw [show k + (j + 1) = k + 1 + j by omega]; exact hqv
        · intro j' u hj' hu
          cases j' with
          | zero =>
            simp at hu; subst hu; exact hq
          | succ j' =>
            rw [show k + (j' + 1) = k + 1 + j' by omega]
            exact hfirst j' u (by omega) (by simpa using hu)
      · rintro ⟨j, v, hr, hv, hqv, hfirst⟩
        cases j with
        | zero =>
          simp at hv; subst hv; exact absurd hqv hq
        | succ j =>
          refine ⟨j, v, by omega, by simpa using hv, ?_, ?_⟩
          · rw [show k + 1 + j = k + (j + 1) by omega]; exact hqv
          · intro j' u hj' hu
            rw [show k + 1 + j' = k + (j' + 1) by omega]
            exact hfirst (j' + 1) u (by omega) (by simpa using hu)

theorem getWarpResultFrom_none_iff (items : List Item) (w : WarpOp) (fn : Item → Bool)
    (l : List Value) (k : Nat) :
    getWarpResultFrom items w fn l k = none ↔
      ∀ j v, l[j]? = some v → ¬ Qualifies items w fn v (k + j) := by
  induction l generalizing k with
  | nil => simp [getWarpResultFrom]
  | cons a l ih =>
    unfold getWarpResultFrom
    by_cases hq : Qualifies items w fn a k
    · rw [if_pos ((getWarpResult_test_iff items w fn a k).2 hq)]
      simp only [reduceCtorEq, false_iff, not_forall]
      exact ⟨0, a, by simp, fun h => h hq⟩
    · rw [if_neg (fun h => hq ((getWarpResult_test_iff items w fn a k).1 h)), ih]
      constructor
      · intro h j v hv
        cases j with
        | zero => simp at hv; subst hv; exact hq
        | succ j =>
          rw [show k + (j + 1) = k + 1 + j by omega]
          exact h j v (by simpa using hv)
      · intro h j v hv
        rw [show k + 1 + j = k + (j + 1) by omega]
        exact h (j + 1) v (by simpa using hv)

/-! ## Arity: facts -/

theorem arityOkAt_mapOperands (c : WarpContext) (m : Moved) (f : Value → Value)
    (h : m.ArityOkAt c) : (m.mapOperands f).ArityOkAt c := by
  obtain ⟨h1, h2, h3⟩ := h
  refine ⟨?_, h2, ?_⟩
  · simpa [Moved.mapOperands] using h1
  · simpa [Moved.mapOperands, WarpOp.mapOperands, WarpOp.arityOk, Block.mapOperands,
      WarpHeader.mapOperands] using h3

theorem arityOkAt_create (c : WarpContext) (m : Moved) (ops : List Item) (n : Nat)
    (h : m.ArityOkAt c) : (m.create ops n).ArityOkAt c := h

theorem arityOkAt_eraseBodyOp (c : WarpContext) (m : Moved) (pos : Nat)
    (h : m.ArityOkAt c) : (m.eraseBodyOp pos).ArityOkAt c := h

theorem arityOkAt_replaceReturns (c : WarpContext) (vs : List Value) (ts : List Ty)
    (h : ts.length = vs.length) :
    (moveRegionToNewWarpOpAndReplaceReturns c vs ts).ArityOkAt c :=
  ⟨rfl, rfl, h⟩

theorem arityOkAt_appendReturns (c : WarpContext) (vs : List Value) (ts : List Ty)
    (harity : c.warpOp.arityOk) (h : ts.length = vs.length) :
    (moveRegionToNewWarpOpAndAppendReturns c vs ts).ArityOkAt c := by
  rw [appendReturns_eq]
  apply arityOkAt_mapOperands
  apply arityOkAt_replaceReturns
  simp only [List.length_append]
  rw [h, harity]

theorem arityOkAt_program (c : WarpContext) (m : Moved) (h : m.ArityOkAt c) :
    ∃ pre' newWarpOp rest, m.program.items = pre' ++ Item.warp newWarpOp :: rest ∧
      pre'.length = c.pre.length ∧ newWarpOp.id = c.nextId ∧
      newWarpOp.getNumResults = newWarpOp.body.yieldOperands.length ∧
      newWarpOp.getNumResults = newWarpOp.resultTypes.length :=
  ⟨m.pre, m.newWarpOp, m.mid ++ [Item.bodyless m.oldWarpOp] ++ m.post,
    by simp [Moved.program, Moved.items], h.1, h.2.1, h.2.2, rfl⟩

theorem arityOkAt_eraseOld (c : WarpContext) (m : Moved) (h : m.ArityOkAt c) :
    ∃ pre' newWarpOp rest, m.eraseOld.items = pre' ++ Item.warp newWarpOp :: rest ∧
      pre'.length = c.pre.length ∧ newWarpOp.id = c.nextId ∧
      newWarpOp.getNumResults = newWarpOp.body.yieldOperands.length ∧
      newWarpOp.getNumResults = newWarpOp.resultTypes.length :=
  ⟨m.pre, m.newWarpOp, m.mid ++ m.post,
    by simp [Moved.eraseOld], h.1, h.2.1, h.2.2, rfl⟩

theorem elementwiseTargetTypes_length (d : Ty) (ops : List Value) (tys : List Ty)
    (h : elementwiseTargetTypes d ops = some tys) : tys.length = ops.length := by
  induction ops generalizing tys with
  | nil => simp [elementwiseTargetTypes] at h; simp [← h]
  | cons a l ih =>
    unfold elementwiseTargetTypes at h
    split at h
    · rename_i t ts _ hts
      simp at h
      simp [← h, ih ts hts]
    · simp at h

/-- The second loop of the dead result pattern keeps every property that
replacing uses keeps. -/
theorem deadResultRewire_keeps (P : Moved → Prop)
    (hP : ∀ m old new, P m → P (Moved.replaceAllUsesWith old new m))
    (old new : WarpOp) (m : Moved) (hm : P m) : P (deadResultRewire old new m).1 := by
  unfold deadResultRewire
  generalize (0 : Nat) = k
  generalize List.range old.getNumResults = l
  induction l generalizing m k with
  | nil => simpa using hm
  | cons i l ih =>
    simp only [List.foldl_cons]
    split
    · exact ih _ hm _
    · exact ih _ (hP _ _ _ hm) _

theorem elementwiseRewrite_arity (c : WarpContext) (operandIndex : Nat)
    (elementWise : Operation) (retTypes : List Ty) (harity : c.warpOp.arityOk)
    (hlen : retTypes.length = elementWise.operands.length) :
    (elementwiseRewrite c operandIndex elementWise retTypes).ArityOkAt c := by
  unfold elementwiseRewrite
  exact arityOkAt_mapOperands c _ _
    (arityOkAt_create c _ _ _ (arityOkAt_appendReturns c _ _ harity hlen))

theorem reductionRewrite_arity (c : WarpContext) (operandIndex : Nat) (kind : CombiningKind)
    (vector : Value) (e : ScalarType) (harity : c.warpOp.arityOk) :
    (reductionRewrite c operandIndex kind vector e).ArityOkAt c := by
  unfold reductionRewrite
  exact arityOkAt_mapOperands c _ _
    (arityOkAt_create c _ _ _ (arityOkAt_appendReturns c _ _ harity rfl))

theorem broadcastRewrite_arity (c : WarpContext) (operandNumber : Nat) (source : Value)
    (destVecType : Ty) (harity : c.warpOp.arityOk) :
    (broadcastRewrite c operandNumber source destVecType).ArityOkAt c := by
  unfold broadcastRewrite
  exact arityOkAt_mapOperands c _ _
    (arityOkAt_create c _ _ _ (arityOkAt_appendReturns c _ _ harity rfl))

theorem distributeRewrite_arity (c : WarpContext) (map perm : AffineMap) (hasMask : Bool)
    (writePos : Nat) (vector : Value) (targetShape : List Int) (e : ScalarType) (m : Moved)
    (harity : c.warpOp.arityOk)
    (hm : distributeRewrite c map perm hasMask writePos vector targetShape e = some m) :
    m.ArityOkAt c := by
  simp only [distributeRewrite] at hm
  repeat' split at hm
  all_goals cases hm
  all_goals
    exact arityOkAt_create c _ _ _
      (arityOkAt_eraseBodyOp c _ _ (arityOkAt_appendReturns c _ _ harity rfl))

theorem extractRewrite_arity (c : WarpContext) (writePos : Nat) (vector : Value) (m : Moved)
    (harity : c.warpOp.arityOk) (hm : extractRewrite c writePos vector = some m) :
    m.ArityOkAt c := by
  simp only [extractRewrite] at hm
  repeat' split at hm
  all_goals cases hm
  all_goals
    exact arityOkAt_create c _ _ _
      (arityOkAt_eraseBodyOp c _ _ (arityOkAt_appendReturns c _ _ harity rfl))

/-- What `getWarpResult` returns, in terms of `Qualifies`. -/
theorem getWarpResult_spec (items : List Item) (w : WarpOp) (fn : Item → Bool) :
    (∀ i, getWarpResult items w fn = some i ↔
      ∃ v, w.body.yieldOperands[i]? = some v ∧ Qualifies items w fn v i ∧
        ∀ j u, j < i → w.body.yieldOperands[j]? = some u → ¬ Qualifies items w fn u j) ∧
    (getWarpResult items w fn = none ↔
      ∀ i v, w.body.yieldOperands[i]? = some v → ¬ Qualifies items w fn v i) ∧
    (∀ i block arg t, w.body.yieldOperands[i]? = some ⟨ValueDef.blockArg block arg, t⟩ →
      getWarpResult items w fn ≠ some i) := by
  have hsome : ∀ i, getWarpResult items w fn = some i ↔
      ∃ v, w.body.yieldOperands[i]? = some v ∧ Qualifies items w fn v i ∧
        ∀ j u, j < i → w.body.yieldOperands[j]? = some u → ¬ Qualifies items w fn u j := by
    intro i
    unfold getWarpResult
    rw [getWarpResultFrom_some_iff]
    constructor
    · rintro ⟨j, v, hr, hv, hq, hfirst⟩
      simp only [Nat.zero_add] at hr hq hfirst
      subst hr
      exact ⟨v, hv, hq, hfirst⟩
    · rintro ⟨v, hv, hq, hfirst⟩
      exact ⟨i, v, by simp, hv, by simpa using hq, by simpa using hfirst⟩
  refine ⟨hsome, ?_, ?_⟩
  · unfold getWarpResult
    rw [getWarpResultFrom_none_iff]
    simp
  · intro i block arg t hi h
    obtain ⟨v, hv, hq, _⟩ := (hsome i).1 h
    rw [hi] at hv
    cases hv
    obtain ⟨⟨d, hd, _⟩, _⟩ := hq
    simp [getDefiningOp] at hd

/-- The return types of the operands, in closed form. -/
theorem elementwiseTargetTypes_eq (distributedTy : Ty) (operands : List Value) :
    elementwiseTargetTypes distributedTy operands =
      if operands.all (fun operand => operand.ty.isVector == distributedTy.isVector) then
        some (operands.map (fun operand => specOperandTargetType distributedTy operand.ty))
      else none := by
  induction operands with
  | nil => simp [elementwiseTargetTypes]
  | cons a l ih =>
    unfold elementwiseTargetTypes
    rw [ih]
    simp only [List.all_cons, List.map_cons]
    generalize l.all (fun operand => operand.ty.isVector == distributedTy.isVector) = b
    generalize l.map (fun operand => specOperandTargetType distributedTy operand.ty) = ts
    cases b <;> cases distributedTy <;> cases hty : a.ty <;>
      simp [elementwiseTargetType, specOperandTargetType, Ty.isVector, Ty.shape]

/-! ## Claims -/

/-- C3: in append mode the result types of the new region are the old result
types followed by the new return types, its yield operands are the old yield
operands followed by the new yielded values, and every operand slot before or
after the region that held old result `i` holds new result `i`.  The hypothesis
is SSA dominance: a region does not yield its own results. -/
theorem appendReturns_reshape (c : WarpContext) (newYieldedValues : List Value)
    (newReturnTypes : List Ty)
    (hdom : ∀ i, i < c.warpOp.getNumResults →
      c.warpOp.getResult i ∉ c.warpOp.body.yieldOperands ++ newYieldedValues) :
    (moveRegionToNewWarpOpAndAppendReturns c newYieldedValues newReturnTypes).newWarpOp.resultTypes
        = c.warpOp.resultTypes ++ newReturnTypes ∧
    (moveRegionToNewWarpOpAndAppendReturns c newYieldedValues
        newReturnTypes).newWarpOp.body.yieldOperands
        = c.warpOp.body.yieldOperands ++ newYieldedValues ∧
    ∀ i, i < c.warpOp.getNumResults →
      List.Forall₂
        (SlotsRewired (c.warpOp.getResult i)
          ((moveRegionToNewWarpOpAndAppendReturns c newYieldedValues
            newReturnTypes).newWarpOp.getResult i))
        c.pre (moveRegionToNewWarpOpAndAppendReturns c newYieldedValues newReturnTypes).pre ∧
      List.Forall₂
        (SlotsRewired (c.warpOp.getResult i)
          ((moveRegionToNewWarpOpAndAppendReturns c newYieldedValues
            newReturnTypes).newWarpOp.getResult i))
        c.post (moveRegionToNewWarpOpAndAppendReturns c newYieldedValues newReturnTypes).post := by
  rw [appendReturns_eq]
  refine ⟨rfl, ?_, ?_⟩
  · show List.map _ (c.warpOp.body.yieldOperands ++ newYieldedValues) = _
    conv_rhs => rw [← List.map_id (c.warpOp.body.yieldOperands ++ newYieldedValues)]
    apply List.map_congr_left
    intro v hv
    rw [resultSubst_other]
    · rfl
    · intro k hk e
      subst e
      exact hdom k hk hv
  · intro i hi
    constructor
    · exact slotsRewired_map _ _ _ (resultSubst_old _ _ _ i hi) c.pre
    · exact slotsRewired_map _ _ _ (resultSubst_old _ _ _ i hi) c.post

/-- Instance of `appendReturns_reshape`: the elementwise scenario, extended by the
two operands of the addition. -/
theorem appendReturns_reshape_witness :
    (moveRegionToNewWarpOpAndAppendReturns addScenario
        [⟨ValueDef.opResult 3 0, vectorF32 32⟩, ⟨ValueDef.opResult 4 0, vectorF32 32⟩]
        [vectorF32 1, vectorF32 1]).newWarpOp.resultTypes
      = [vectorF32 1, vectorF32 1, vectorF32 1] ∧
    (moveRegionToNewWarpOpAndAppendReturns addScenario
        [⟨ValueDef.opResult 3 0, vectorF32 32⟩, ⟨ValueDef.opResult 4 0, vectorF32 32⟩]
        [vectorF32 1, vectorF32 1]).post
      = [Item.op (opaqueOp 6 "some_use" [⟨ValueDef.opResult 7 0, vectorF32 1⟩] [])] :=
  ⟨(appendReturns_reshape addScenario
      [⟨ValueDef.opResult 3 0, vectorF32 32⟩, ⟨ValueDef.opResult 4 0, vectorF32 32⟩]
      [vectorF32 1, vectorF32 1] (by decide)).1, by decide⟩

/-- C4: in replace mode the result types of the new region are the given return
types and its yield operands the given values, while lane id, warp size,
captured arguments, block argument types and the operations of the body are
those of the old region; the new operation sits right before the old one, whose
region is left empty. -/
theorem replaceReturns_frame (c : WarpContext) (newYieldedValues : List Value)
    (newReturnTypes : List Ty) :
    (moveRegionToNewWarpOpAndReplaceReturns c newYieldedValues newReturnTypes).newWarpOp.resultTypes
        = newReturnTypes ∧
    (moveRegionToNewWarpOpAndReplaceReturns c newYieldedValues
        newReturnTypes).newWarpOp.body.yieldOperands = newYieldedValues ∧
    (moveRegionToNewWarpOpAndReplaceReturns c newYieldedValues newReturnTypes).newWarpOp.laneid
        = c.warpOp.laneid ∧
    (moveRegionToNewWarpOpAndReplaceReturns c newYieldedValues newReturnTypes).newWarpOp.warpSize
        = c.warpOp.warpSize ∧
    (moveRegionToNewWarpOpAndReplaceReturns c newYieldedValues newReturnTypes).newWarpOp.args
        = c.warpOp.args ∧
    (moveRegionToNewWarpOpAndReplaceReturns c newYieldedValues
        newReturnTypes).newWarpOp.body.argTypes = c.warpOp.body.argTypes ∧
    (moveRegionToNewWarpOpAndReplaceReturns c newYieldedValues newReturnTypes).newWarpOp.body.ops
        = c.warpOp.body.ops ∧
    (moveRegionToNewWarpOpAndReplaceReturns c newYieldedValues newReturnTypes).items
        = c.pre ++
          [Item.warp (moveRegionToNewWarpOpAndReplaceReturns c newYieldedValues
              newReturnTypes).newWarpOp,
            Item.bodyless c.warpOp.toWarpHeader] ++ c.post := by
  simp [moveRegionToNewWarpOpAndReplaceReturns, Moved.items]

/-- C6: `getWarpResult` returns operand number `i` exactly when yield operand `i`
qualifies (its value has a defining operation that satisfies the predicate, and
region result `i` has a use) and no earlier yield operand does; it returns
nothing exactly when no yield operand qualifies; a yielded block argument is
never returned. -/
theorem getWarpResult_first (items : List Item) (w : WarpOp) (fn : Item → Bool) :
    (∀ i, getWarpResult items w fn = some i ↔
      ∃ v, w.body.yieldOperands[i]? = some v ∧ Qualifies items w fn v i ∧
        ∀ j u, j < i → w.body.yieldOperands[j]? = some u → ¬ Qualifies items w fn u j) ∧
    (getWarpResult items w fn = none ↔
      ∀ i v, w.body.yieldOperands[i]? = some v → ¬ Qualifies items w fn v i) ∧
    (∀ i block arg t, w.body.yieldOperands[i]? = some ⟨ValueDef.blockArg block arg, t⟩ →
      getWarpResult items w fn ≠ some i) :=
  getWarpResult_spec items w fn

/-- C5: when a reshaping pattern (elementwise sink, reduction sink, broadcast
sink, dead result elimination, write distribution strategies A and B) succeeds
on a region with as many results as yield operands, the region that takes the
place of the old one again has number of results = number of yield operands =
number of result types. -/
theorem reshape_arity (pat : ReshapingPattern) (c : WarpContext) (p' : Program)
    (harity : c.warpOp.arityOk) (h : pat.apply c = RewriteResult.success p') :
    ∃ pre' newWarpOp rest, p'.items = pre' ++ Item.warp newWarpOp :: rest ∧
      pre'.length = c.pre.length ∧ newWarpOp.id = c.nextId ∧
      newWarpOp.getNumResults = newWarpOp.body.yieldOperands.length ∧
      newWarpOp.getNumResults = newWarpOp.resultTypes.length := by
  cases pat with
  | elementwiseSink =>
    simp only [ReshapingPattern.apply, WarpOpElementwise.matchAndRewrite] at h
    repeat' split at h
    all_goals cases h
    rename_i tys htys
    exact arityOkAt_eraseOld c _
      (elementwiseRewrite_arity c _ _ _ harity (elementwiseTargetTypes_length _ _ _ htys))
  | reductionSink =>
    simp only [ReshapingPattern.apply, WarpOpReduction.matchAndRewrite] at h
    repeat' split at h
    all_goals cases h
    exact arityOkAt_program c _ (reductionRewrite_arity c _ _ _ _ harity)
  | broadcastSink =>
    simp only [ReshapingPattern.apply, WarpOpBroadcast.matchAndRewrite] at h
    repeat' split at h
    all_goals cases h
    exact arityOkAt_program c _ (broadcastRewrite_arity c _ _ _ harity)
  | deadResultElimination =>
    simp only [ReshapingPattern.apply, WarpOpDeadResult.matchAndRewrite] at h
    split at h
    · cases h
    · cases h
      apply arityOkAt_eraseOld
      apply deadResultRewire_keeps (fun m => m.ArityOkAt c)
        (fun m old new hm => arityOkAt_mapOperands c m _ hm)
      apply arityOkAt_replaceReturns
      simp
  | writeDistribution map writePos =>
    simp only [ReshapingPattern.apply, tryDistributeOp] at h
    repeat' split at h
    all_goals cases h
    rename_i m hm
    exact arityOkAt_program c _ (distributeRewrite_arity c _ _ _ _ _ _ _ m harity hm)
  | writeExtraction writePos =>
    simp only [ReshapingPattern.apply, tryExtractOp] at h
    repeat' split at h
    all_goals cases h
    rename_i m hm
    exact arityOkAt_program c _ (extractRewrite_arity c _ _ m harity hm)

/-- Instance of `reshape_arity`: the elementwise sink on the elementwise
scenario. -/
theorem reshape_arity_witness :
    ReshapingPattern.elementwiseSink.apply addScenario = RewriteResult.success addScenarioSunk ∧
    ∃ pre' newWarpOp rest, addScenarioSunk.items = pre' ++ Item.warp newWarpOp :: rest ∧
      pre'.length = addScenario.pre.length ∧ newWarpOp.id = addScenario.nextId ∧
      newWarpOp.getNumResults = newWarpOp.body.yieldOperands.length ∧
      newWarpOp.getNumResults = newWarpOp.resultTypes.length :=
  ⟨by decide,
    reshape_arity ReshapingPattern.elementwiseSink addScenario addScenarioSunk (by decide)
      (by decide)⟩

theorem replaceUse_ne_old (old new v : Value) (h : new ≠ old) :
    Value.replaceUse old new v ≠ old := by
  unfold Value.replaceUse
  split
  · exact h
  · assumption

/-- After `old.replaceAllUsesWith(new)` with `new ≠ old`, `old` has no use. -/
theorem useEmpty_map_replaceUse (old new : Value) (h : new ≠ old) (l : List Item) :
    useEmpty (l.map (Item.mapOperands (Value.replaceUse old new))) old = true := by
  rw [useEmpty_eq_true_iff]
  intro it hit
  rw [List.mem_map] at hit
  obtain ⟨it0, _, rfl⟩ := hit
  rw [item_operandValues_mapOperands, List.mem_map]
  rintro ⟨v, _, hv⟩
  exact replaceUse_ne_old old new v h hv

theorem appendReturns_pre (c : WarpContext) (vs : List Value) (ts : List Ty) :
    (moveRegionToNewWarpOpAndAppendReturns c vs ts).pre =
      c.pre.map (Item.mapOperands (resultSubst c.warpOp.toWarpHeader
        (moveRegionToNewWarpOpAndReplaceReturns c (c.warpOp.body.yieldOperands ++ vs)
          (c.warpOp.resultTypes ++ ts)).newWarpOp.toWarpHeader c.warpOp.getNumResults)) := by
  rw [appendReturns_eq]; rfl

theorem appendReturns_post (c : WarpContext) (vs : List Value) (ts : List Ty) :
    (moveRegionToNewWarpOpAndAppendReturns c vs ts).post =
      c.post.map (Item.mapOperands (resultSubst c.warpOp.toWarpHeader
        (moveRegionToNewWarpOpAndReplaceReturns c (c.warpOp.body.yieldOperands ++ vs)
          (c.warpOp.resultTypes ++ ts)).newWarpOp.toWarpHeader c.warpOp.getNumResults)) := by
  rw [appendReturns_eq]; rfl

theorem appendReturns_mid (c : WarpContext) (vs : List Value) (ts : List Ty) :
    (moveRegionToNewWarpOpAndAppendReturns c vs ts).mid = [] := by
  rw [appendReturns_eq]; rfl

theorem appendReturns_nextId (c : WarpContext) (vs : List Value) (ts : List Ty) :
    (moveRegionToNewWarpOpAndAppendReturns c vs ts).nextId = c.nextId + 1 := by
  rw [appendReturns_eq]; rfl

theorem appendReturns_newWarpOp (c : WarpContext) (vs : List Value) (ts : List Ty) :
    (moveRegionToNewWarpOpAndAppendReturns c vs ts).newWarpOp =
      (moveRegionToNewWarpOpAndReplaceReturns c (c.warpOp.body.yieldOperands ++ vs)
          (c.warpOp.resultTypes ++ ts)).newWarpOp.mapOperands
        (resultSubst c.warpOp.toWarpHeader
          (moveRegionToNewWarpOpAndReplaceReturns c (c.warpOp.body.yieldOperands ++ vs)
            (c.warpOp.resultTypes ++ ts)).newWarpOp.toWarpHeader c.warpOp.getNumResults) := by
  rw [appendReturns_eq]; rfl

theorem appendReturns_getResult (c : WarpContext) (vs : List Value) (ts : List Ty) (i : Nat) :
    (moveRegionToNewWarpOpAndAppendReturns c vs ts).newWarpOp.getResult i =
      ⟨ValueDef.opResult c.nextId i, (c.warpOp.resultTypes ++ ts).getD i default⟩ := by
  rw [appendReturns_newWarpOp]; rfl

theorem appendReturns_resultTypes (c : WarpContext) (vs : List Value) (ts : List Ty) :
    (moveRegionToNewWarpOpAndAppendReturns c vs ts).newWarpOp.resultTypes =
      c.warpOp.resultTypes ++ ts := by
  rw [appendReturns_newWarpOp]; rfl

theorem warpOp_getResult_mapOperands (f : Value → Value) (w : WarpOp) (i : Nat) :
    (w.mapOperands f).getResult i = w.getResult i := rfl

/-- C8: for a matched elementwise operation with `k` operands in a region with
`n` results, the pattern succeeds with a new region of `n + k` results followed
by the rebuilt operation; the rebuilt operation has the kind of the matched one,
takes new results `n, ..., n + k - 1` as operands in order and has the type of
the matched result; every operand slot before or after the region that held the
matched result holds the result of the rebuilt operation; and the matched
result of the new region has no use. -/
theorem elementwiseSink_structure (c : WarpContext) (operandIndex : Nat)
    (elementWise : Operation) (retTypes : List Ty)
    (harity : c.warpOp.arityOk)
    (hmatch : getWarpResult c.items c.warpOp Item.hasElementwiseMappableTraits
      = some operandIndex)
    (hdef : getDefiningOp c.items (c.warpOp.body.yieldOperands.getD operandIndex default)
      = some (Item.op elementWise))
    (htys : elementwiseTargetTypes (c.warpOp.getResult operandIndex).ty elementWise.operands
      = some retTypes) :
    ∃ pre' newWarpOp newOp post',
      WarpOpElementwise.matchAndRewrite c = RewriteResult.success
        ⟨pre' ++ [Item.warp newWarpOp, Item.op newOp] ++ post', c.nextId + 2⟩ ∧
      newWarpOp.resultTypes = c.warpOp.resultTypes ++ retTypes ∧
      newWarpOp.getNumResults = c.warpOp.getNumResults + elementWise.operands.length ∧
      newOp.kind = elementWise.kind ∧
      newOp.operands = (List.range elementWise.operands.length).map
        (fun i => newWarpOp.getResult (c.warpOp.getNumResults + i)) ∧
      newOp.resultTypes = [(c.warpOp.getResult operandIndex).ty] ∧
      List.Forall₂ (SlotsRewired (c.warpOp.getResult operandIndex) (newOp.getResult 0))
        c.pre pre' ∧
      List.Forall₂ (SlotsRewired (c.warpOp.getResult operandIndex) (newOp.getResult 0))
        c.post post' ∧
      useEmpty (pre' ++ [Item.warp newWarpOp, Item.op newOp] ++ post')
        (newWarpOp.getResult operandIndex) = true := by
  have hidx : operandIndex < c.warpOp.getNumResults := by
    obtain ⟨v, hv, _⟩ := ((getWarpResult_spec c.items c.warpOp _).1 operandIndex).1 hmatch
    have := (List.getElem?_eq_some_iff.1 hv).1
    unfold WarpOp.getNumResults
    rw [harity]; exact this
  have hne : ∀ i, (⟨ValueDef.opResult (c.nextId + 1) i,
      (c.warpOp.getResult operandIndex).ty⟩ : Value) ≠
      (moveRegionToNewWarpOpAndAppendReturns c elementWise.operands
        retTypes).newWarpOp.getResult operandIndex := by
    intro i e
    rw [appendReturns_getResult] at e
    simp at e
  refine ⟨(moveRegionToNewWarpOpAndAppendReturns c elementWise.operands retTypes).pre.map
      (Item.mapOperands (Value.replaceUse
        ((moveRegionToNewWarpOpAndAppendReturns c elementWise.operands
          retTypes).newWarpOp.getResult operandIndex)
        ⟨ValueDef.opResult (c.nextId + 1) 0, (c.warpOp.getResult operandIndex).ty⟩)),
    (moveRegionToNewWarpOpAndAppendReturns c elementWise.operands retTypes).newWarpOp.mapOperands
      (Value.replaceUse
        ((moveRegionToNewWarpOpAndAppendReturns c elementWise.operands
          retTypes).newWarpOp.getResult operandIndex)
        ⟨ValueDef.opResult (c.nextId + 1) 0, (c.warpOp.getResult operandIndex).ty⟩),
    (cloneOpWithOperandsAndTypes (c.nextId + 1) elementWise
      ((List.range elementWise.operands.length).map
        (fun i => (moveRegionToNewWarpOpAndAppendReturns c elementWise.operands
          retTypes).newWarpOp.getResult (i + c.warpOp.getNumResults)))
      [(c.warpOp.getResult operandIndex).ty]).mapOperands
      (Value.replaceUse
        ((moveRegionToNewWarpOpAndAppendReturns c elementWise.operands
          retTypes).newWarpOp.getResult operandIndex)
        ⟨ValueDef.opResult (c.nextId + 1) 0, (c.warpOp.getResult operandIndex).ty⟩),
    (moveRegionToNewWarpOpAndAppendReturns c elementWise.operands retTypes).post.map
      (Item.mapOperands (Value.replaceUse
        ((moveRegionToNewWarpOpAndAppendReturns c elementWise.operands
          retTypes).newWarpOp.getResult operandIndex)
        ⟨ValueDef.opResult (c.nextId + 1) 0, (c.warpOp.getResult operandIndex).ty⟩)),
    ?_, ?_, ?_, rfl, ?_, rfl, ?_, ?_, ?_⟩
  · simp only [WarpOpElementwise.matchAndRewrite, hmatch, hdef, htys]
    simp [elementwiseRewrite,
      Moved.eraseOld, Moved.create, Moved.replaceAllUsesWith, Moved.mapOperands,
      appendReturns_mid, appendReturns_nextId, Item.mapOperands, cloneOpWithOperandsAndTypes,
      Operation.getResult]
  · exact appendReturns_resultTypes c _ _
  · show (moveRegionToNewWarpOpAndAppendReturns c elementWise.operands
      retTypes).newWarpOp.resultTypes.length = _
    rw [appendReturns_resultTypes, List.length_append,
      elementwiseTargetTypes_length _ _ _ htys]
    rfl
  · simp only [Operation.mapOperands, cloneOpWithOperandsAndTypes, List.map_map,
      warpOp_getResult_mapOperands]
    apply List.map_congr_left
    intro i _
    simp only [Function.comp_apply, Value.replaceUse]
    rw [if_neg]
    · rw [Nat.add_comm]
    · rw [appendReturns_getResult, appendReturns_getResult]
      intro e
      simp at e
      omega
  · rw [appendReturns_pre, map_mapOperands_comp]
    apply slotsRewired_map
    show Value.replaceUse _ _ (resultSubst c.warpOp.toWarpHeader _ _
      (c.warpOp.toWarpHeader.getResult operandIndex)) = _
    rw [resultSubst_old _ _ _ _ hidx]
    simp [Value.replaceUse, appendReturns_getResult, WarpHeader.getResult,
      moveRegionToNewWarpOpAndReplaceReturns, Operation.getResult, Operation.mapOperands,
      cloneOpWithOperandsAndTypes]
  · rw [appendReturns_post, map_mapOperands_comp]
    apply slotsRewired_map
    show Value.replaceUse _ _ (resultSubst c.warpOp.toWarpHeader _ _
      (c.warpOp.toWarpHeader.getResult operandIndex)) = _
    rw [resultSubst_old _ _ _ _ hidx]
    simp [Value.replaceUse, appendReturns_getResult, WarpHeader.getResult,
      moveRegionToNewWarpOpAndReplaceReturns, Operation.getResult, Operation.mapOperands,
      cloneOpWithOperandsAndTypes]
  · rw [warpOp_getResult_mapOperands]
    have := useEmpty_map_replaceUse _ _ (hne 0)
      ((moveRegionToNewWarpOpAndAppendReturns c elementWise.operands retTypes).pre ++
        [Item.warp (moveRegionToNewWarpOpAndAppendReturns c elementWise.operands
            retTypes).newWarpOp,
          Item.op (cloneOpWithOperandsAndTypes (c.nextId + 1) elementWise
            ((List.range elementWise.operands.length).map
              (fun i => (moveRegionToNewWarpOpAndAppendReturns c elementWise.operands
                retTypes).newWarpOp.getResult (i + c.warpOp.getNumResults)))
            [(c.warpOp.getResult operandIndex).ty])] ++
        (moveRegionToNewWarpOpAndAppendReturns c elementWise.operands retTypes).post)
    simpa [Item.mapOperands] using this

/-- Instance of `elementwiseSink_structure`: the elementwise scenario.  The sink
turns it into `addScenarioSunk`: two new `vector<1xf32>` outputs, an addition
after the region that produces `vector<1xf32>`, and no use of the old output. -/
theorem elementwiseSink_structure_witness :
    WarpOpElementwise.matchAndRewrite addScenario = RewriteResult.success addScenarioSunk ∧
    useEmpty addScenarioSunk.items ⟨ValueDef.opResult 7 0, vectorF32 1⟩ = true ∧
    ∃ pre' newWarpOp newOp post',
      WarpOpElementwise.matchAndRewrite addScenario = RewriteResult.success
        ⟨pre' ++ [Item.warp newWarpOp, Item.op newOp] ++ post', addScenario.nextId + 2⟩ ∧
      newWarpOp.resultTypes = addScenario.warpOp.resultTypes ++ [vectorF32 1, vectorF32 1] ∧
      newWarpOp.getNumResults =
        addScenario.warpOp.getNumResults + addScenarioAdd.operands.length ∧
      newOp.kind = addScenarioAdd.kind ∧
      newOp.operands = (List.range addScenarioAdd.operands.length).map
        (fun i => newWarpOp.getResult (addScenario.warpOp.getNumResults + i)) ∧
      newOp.resultTypes = [(addScenario.warpOp.getResult 0).ty] ∧
      List.Forall₂ (SlotsRewired (addScenario.warpOp.getResult 0) (newOp.getResult 0))
        addScenario.pre pre' ∧
      List.Forall₂ (SlotsRewired (addScenario.warpOp.getResult 0) (newOp.getResult 0))
        addScenario.post post' ∧
      useEmpty (pre' ++ [Item.warp newWarpOp, Item.op newOp] ++ post')
        (newWarpOp.getResult 0) = true :=
  ⟨by decide, by decide,
    elementwiseSink_structure addScenario 0 addScenarioAdd [vectorF32 1, vectorF32 1]
      (by decide) (by decide) (by decide) (by decide)⟩

/-- C7, as stated, fails: on the select scenario, whose matched operation mixes a
scalar `i1` condition with vector operands, the claim asks for the return types
`i1, vector<1xf32>, vector<1xf32>`, but the cast of the scalar operand to a
vector type fails and the pattern stops on the assertion. -/
theorem elementwise_mixed_operands_counterexample :
    elementwiseTargetTypes (vectorF32 1)
        [⟨ValueDef.opResult 3 0, i1⟩, ⟨ValueDef.opResult 4 0, vectorF32 32⟩,
          ⟨ValueDef.opResult 5 0, vectorF32 32⟩] = none ∧
    [specOperandTargetType (vectorF32 1) i1, specOperandTargetType (vectorF32 1) (vectorF32 32),
        specOperandTargetType (vectorF32 1) (vectorF32 32)]
      = [i1, vectorF32 1, vectorF32 1] ∧
    WarpOpElementwise.matchAndRewrite selectScenario = RewriteResult.assertion := by
  decide

/-- C7, amended: the return types are derived exactly when every operand is a
vector if and only if the distributed result is one; then the type returned for
a vector operand has the shape of the distributed result and the element type
of the operand, and the type returned for any other operand is its own type.
For an operation that mixes the two, an assertion fires and no type is
derived. -/
theorem elementwise_operand_types (distributedTy : Ty) (operands : List Value) :
    elementwiseTargetTypes distributedTy operands =
      if operands.all (fun operand => operand.ty.isVector == distributedTy.isVector) then
        some (operands.map (fun operand => specOperandTargetType distributedTy operand.ty))
      else none :=
  elementwiseTargetTypes_eq distributedTy operands

/-! ## Reduction sink: facts -/

theorem isF32_iff (t : Ty) : t.isF32 = true ↔ t = f32 := by
  unfold Ty.isF32 f32
  split
  · simp
  · rename_i h
    simp only [Bool.false_eq_true, false_iff]
    intro e
    exact h e

theorem isSignlessInteger32_iff (t : Ty) : t.isSignlessInteger 32 = true ↔ t = i32 := by
  unfold Ty.isSignlessInteger i32
  split
  · simp
  · rename_i h
    simp only [Bool.false_eq_true, false_iff]
    intro e
    exact h 32 e

theorem toInt32_of_lt (n : Nat) (h : n < 2147483648) : toInt32 (n : Int) = n := by
  unfold toInt32
  omega

theorem item_opKind_mapOperands (f : Value → Value) (it : Item) :
    (it.mapOperands f).opKind? = it.opKind? := by
  cases it <;> rfl

theorem mid_replaceAllUsesWith_kinds (m : Moved) (old new : Value) :
    (m.replaceAllUsesWith old new).mid.map Item.opKind? = m.mid.map Item.opKind? := by
  simp only [Moved.replaceAllUsesWith, Moved.mapOperands, List.map_map]
  apply List.map_congr_left
  intro it _
  exact item_opKind_mapOperands _ it

/-- The kinds of the operations created by the shuffle loop that starts at
distance `n`, given enough fuel. -/
theorem reductionRounds_kinds (kind : CombiningKind) (width : Int) (n : Nat) :
    ∀ (fuel nextId : Nat) (laneVal : Value), n ≤ fuel →
      (reductionRounds kind width fuel (n : Int) nextId laneVal).1.map Item.opKind? =
        (List.range (if n = 0 then 0 else Nat.log 2 n + 1)).flatMap
          (fun j => roundKinds kind width ((n / 2 ^ j : Nat) : Int)) := by
  induction n using Nat.strong_induction_on with
  | _ n ih =>
    intro fuel nextId laneVal hfuel
    by_cases hn : n = 0
    · subst hn
      cases fuel <;> simp [reductionRounds]
    · obtain ⟨f, rfl⟩ : ∃ f, fuel = f + 1 := ⟨fuel - 1, by omega⟩
      have hpos : (0 : Int) < (n : Int) := by omega
      have hhalf : ((n : Int) / 2) = ((n / 2 : Nat) : Int) := by omega
      simp only [reductionRounds, hpos, if_true, hn, if_false, List.map_cons]
      rw [hhalf, ih (n / 2) (by omega) f _ _ (by omega), List.range_succ_eq_map,
        List.flatMap_cons, List.flatMap_map]
      have hlog : (if n / 2 = 0 then 0 else Nat.log 2 (n / 2) + 1) = Nat.log 2 n := by
        by_cases h2 : n / 2 = 0
        · rw [if_pos h2]
          exact (Nat.log_eq_zero_iff.2 (Or.inl (by omega))).symm
        · rw [if_neg h2]
          exact (Nat.log_of_one_lt_of_le (by decide) (by omega)).symm
      rw [hlog]
      simp only [roundKinds, pow_zero, Nat.div_one, List.cons_append, List.nil_append,
        Item.opKind?, Nat.succ_eq_add_one, pow_succ, Nat.div_div_eq_div_mul]
      congr 2
      apply List.flatMap_congr
      intro j _
      rw [Nat.mul_comm 2 (2 ^ j)]

/-- C9: for a matched yielded reduction, the pattern rewrites exactly when the
reduced vector has rank 1, its extent (read as an unsigned 64-bit number) equals
the warp size of the region, and the result type of the reduction is `f32` or
signless `i32`; in every other case it reports failure and the program is the
one it was offered. -/
theorem reductionSink_applicability (c : WarpContext) (operandIndex : Nat)
    (reductionOp : Operation) (kind : CombiningKind) (vector : Value) (operands : List Value)
    (resultType : Ty) (types : List Ty) (shape : List Int) (e : ScalarType)
    (hmatch : getWarpResult c.items c.warpOp Item.isReduction = some operandIndex)
    (hdef : getDefiningOp c.items (c.warpOp.body.yieldOperands.getD operandIndex default)
      = some (Item.op reductionOp))
    (hkind : reductionOp.kind = OpKind.reduction kind)
    (hops : reductionOp.operands = vector :: operands)
    (hres : reductionOp.resultTypes = resultType :: types)
    (hvec : vector.ty = Ty.vector shape e) :
    ((∃ p', WarpOpReduction.matchAndRewrite c = RewriteResult.success p') ↔
      (shape.length = 1 ∧ toUInt64 (shape.headD 0) = c.warpOp.warpSize ∧
        (resultType = f32 ∨ resultType = i32))) ∧
    (¬ (shape.length = 1 ∧ toUInt64 (shape.headD 0) = c.warpOp.warpSize ∧
        (resultType = f32 ∨ resultType = i32)) →
      WarpOpReduction.matchAndRewrite c = RewriteResult.failure c.program) := by
  simp only [WarpOpReduction.matchAndRewrite, hmatch, hdef, hkind, hops, hres, hvec]
  generalize toUInt64 (shape.headD 0) = extent
  by_cases h1 : shape.length = 1
  · by_cases h2 : extent = c.warpOp.warpSize
    · by_cases h3 : resultType = f32
      · subst h3
        simp [h1, h2, f32, Ty.isF32]
      · by_cases h4 : resultType = i32
        · subst h4
          simp [h1, h2, i32, f32, Ty.isF32, Ty.isSignlessInteger]
        · have h3' : resultType.isF32 = false := by
            rw [← Bool.not_eq_true, isF32_iff]; exact h3
          have h4' : resultType.isSignlessInteger 32 = false := by
            rw [← Bool.not_eq_true, isSignlessInteger32_iff]; exact h4
          simp [h1, h2, h3, h4, h3', h4']
    · simp [h1, h2]
  · simp [h1]

/-- Instance of `reductionSink_applicability`: the reduction scenario with warp
size 32 and a `vector<32xf32>`, on which the pattern rewrites. -/
theorem reductionSink_applicability_witness :
    ((∃ p', WarpOpReduction.matchAndRewrite (reductionScenario 32 32) =
        RewriteResult.success p') ↔
      (([32] : List Int).length = 1 ∧
        toUInt64 (([32] : List Int).headD 0) = (reductionScenario 32 32).warpOp.warpSize ∧
        (f32 = f32 ∨ f32 = i32))) ∧
    (¬ (([32] : List Int).length = 1 ∧
        toUInt64 (([32] : List Int).headD 0) = (reductionScenario 32 32).warpOp.warpSize ∧
        (f32 = f32 ∨ f32 = i32)) →
      WarpOpReduction.matchAndRewrite (reductionScenario 32 32) =
        RewriteResult.failure (reductionScenario 32 32).program) :=
  reductionSink_applicability (reductionScenario 32 32) 0 (reductionScenarioOp 32)
    CombiningKind.add ⟨ValueDef.opResult 3 0, vectorF32 32⟩ [] f32 [] [32] (ScalarType.float 32)
    (by decide) (by decide) rfl rfl rfl rfl

/-- C10, as stated, fails for a warp size that does not fit the `int` loop
counter: with warp size 2^32 (and a reduced vector of 2^32 elements) the pattern
applies, `int i = warp_size / 2` is negative, and the operations created are
the extract and the index shuffle only, the latter with width 0: no
shuffle-down round, although log2 of the warp size is 32. -/
theorem reductionSink_schedule_counterexample :
    (reductionRewrite (reductionScenario 4294967296 4294967296) 0 CombiningKind.add
        ⟨ValueDef.opResult 3 0, vectorF32 4294967296⟩ (ScalarType.float 32)).mid.map Item.opKind?
      = [some (OpKind.extract 0), some (OpKind.shuffle ShuffleMode.idx 0 0)] ∧
    WarpOpReduction.matchAndRewrite (reductionScenario 4294967296 4294967296) =
      RewriteResult.success
        (reductionRewrite (reductionScenario 4294967296 4294967296) 0 CombiningKind.add
          ⟨ValueDef.opResult 3 0, vectorF32 4294967296⟩ (ScalarType.float 32)).program ∧
    Nat.log 2 4294967296 = 32 := by
  refine ⟨by decide, by decide, ?_⟩
  exact Nat.log_pow (by decide : 1 < 2) 32

/-- C10, amended: for every warp size `W` below 2^31, the operations the
reduction pattern creates after the new region are, in order, the extract, then
`log2 W` (rounded down) rounds, round `k = 1, 2, ...` being a shuffle down by
`W / 2^k` with width `W` followed by the combining operation, then one index
shuffle with lane 0 and width `W`. -/
theorem reductionSink_schedule (c : WarpContext) (operandIndex : Nat) (kind : CombiningKind)
    (vector : Value) (e : ScalarType) (hW : c.warpOp.warpSize < 2147483648) :
    (reductionRewrite c operandIndex kind vector e).mid.map Item.opKind? =
      [some (OpKind.extract 0)] ++
        (List.range (Nat.log 2 c.warpOp.warpSize)).flatMap
          (fun k => roundKinds kind (c.warpOp.warpSize : Int)
            ((c.warpOp.warpSize / 2 ^ (k + 1) : Nat) : Int)) ++
        [some (OpKind.shuffle ShuffleMode.idx 0 (c.warpOp.warpSize : Int))] := by
  have hW2 : c.warpOp.warpSize / 2 < 2147483648 := by omega
  have hws : (moveRegionToNewWarpOpAndAppendReturns c [vector]
      [Ty.vector [1] e]).newWarpOp.warpSize = c.warpOp.warpSize := by
    rw [appendReturns_newWarpOp]; rfl
  simp only [reductionRewrite, reductionShuffles, mid_replaceAllUsesWith_kinds, Moved.create,
    appendReturns_mid, List.nil_append, hws, toInt32_of_lt _ hW,
    toInt32_of_lt _ hW2, Int.toNat_ofNat, List.map_cons, List.map_append, List.map_nil,
    Item.opKind?]
  rw [reductionRounds_kinds kind _ _ _ _ _ (Nat.le_refl _)]
  have hlog : (if c.warpOp.warpSize / 2 = 0 then 0 else Nat.log 2 (c.warpOp.warpSize / 2) + 1)
      = Nat.log 2 c.warpOp.warpSize := by
    by_cases h2 : c.warpOp.warpSize / 2 = 0
    · rw [if_pos h2]
      exact (Nat.log_eq_zero_iff.2 (Or.inl (by omega))).symm
    · rw [if_neg h2]
      exact (Nat.log_of_one_lt_of_le (by decide) (by omega)).symm
  rw [hlog]
  simp only [List.cons_append, List.nil_append, List.cons.injEq, true_and]
  congr 1
  apply List.flatMap_congr
  intro k _
  rw [Nat.div_div_eq_div_mul, pow_succ, Nat.mul_comm 2 (2 ^ k)]

/-- Instance of `reductionSink_schedule` at warp size 32: five rounds with the
distances 16, 8, 4, 2, 1 in that order, then one index shuffle. -/
theorem reductionSink_schedule_witness :
    (reductionRewrite (reductionScenario 32 32) 0 CombiningKind.add
        ⟨ValueDef.opResult 3 0, vectorF32 32⟩ (ScalarType.float 32)).mid.map Item.opKind? =
      [some (OpKind.extract 0)] ++
        (List.range (Nat.log 2 (reductionScenario 32 32).warpOp.warpSize)).flatMap
          (fun k => roundKinds CombiningKind.add ((reductionScenario 32 32).warpOp.warpSize : Int)
            (((reductionScenario 32 32).warpOp.warpSize / 2 ^ (k + 1) : Nat) : Int)) ++
        [some (OpKind.shuffle ShuffleMode.idx 0 ((reductionScenario 32 32).warpOp.warpSize : Int))] ∧
    (reductionRewrite (reductionScenario 32 32) 0 CombiningKind.add
        ⟨ValueDef.opResult 3 0, vectorF32 32⟩ (ScalarType.float 32)).mid.map Item.opKind? =
      [ some (OpKind.extract 0),
        some (OpKind.shuffle ShuffleMode.down 16 32), some (OpKind.arithReduction CombiningKind.add),
        some (OpKind.shuffle ShuffleMode.down 8 32), some (OpKind.arithReduction CombiningKind.add),
        some (OpKind.shuffle ShuffleMode.down 4 32), some (OpKind.arithReduction CombiningKind.add),
        some (OpKind.shuffle ShuffleMode.down 2 32), some (OpKind.arithReduction CombiningKind.add),
        some (OpKind.shuffle ShuffleMode.down 1 32), some (OpKind.arithReduction CombiningKind.add),
        some (OpKind.shuffle ShuffleMode.idx 0 32) ] :=
  ⟨reductionSink_schedule (reductionScenario 32 32) 0 CombiningKind.add
      ⟨ValueDef.opResult 3 0, vectorF32 32⟩ (ScalarType.float 32) (by decide),
    by decide⟩

/-! ## Runtime values: facts -/

theorem laneSlice_getElem? {α : Type} (s lane j : Nat) (x : List α) (h : j < s) :
    (laneSlice s lane x)[j]? = x[lane * s + j]? := by
  unfold laneSlice
  rw [List.getElem?_take_of_lt h, List.getElem?_drop]

/-- For a vector of `s * W` elements and a lane below `W`, the observation of a
`vector<s>` result is the slice of the lane, also when the two types coincide. -/
theorem observe_vector {α : Type} (s W lane : Nat) (e : ScalarType) (x : List α)
    (hx : x.length = s * W) (hl : lane < W) :
    observe (Ty.vector [(s : Int)] e) (Ty.vector [((s * W : Nat) : Int)] e) lane x =
      laneSlice s lane x := by
  unfold observe
  split
  · rename_i heq
    have hs : s = s * W := by
      simp only [Ty.vector.injEq, List.cons.injEq, and_true] at heq
      exact_mod_cast heq
    unfold laneSlice
    rcases Nat.eq_zero_or_pos s with h0 | hpos
    · subst h0
      have : x = [] := List.eq_nil_of_length_eq_zero (by simpa using hx)
      simp [this]
    · have hW : W = 1 := by
        have : s * 1 = s * W := by simpa using hs
        exact (Nat.eq_of_mul_eq_mul_left hpos this).symm
      have hl0 : lane = 0 := by omega
      subst hl0
      simp only [Nat.zero_mul, List.drop_zero]
      exact (List.take_of_length_le (by rw [hx, hW]; simp)).symm
  · simp [Ty.shape]

/-- Slicing commutes with an elementwise operation. -/
theorem laneSlice_elementwiseApply {α β : Type} (f : List α → β) (W s lane : Nat)
    (xs : List (List α)) (hl : lane < W) :
    elementwiseApply f s (xs.map (laneSlice s lane)) =
      laneSlice s lane (elementwiseApply f (s * W) xs) := by
  apply List.ext_getElem?
  intro j
  by_cases hj : j < s
  · have hlt : lane * s + j < s * W := by
      calc lane * s + j < lane * s + s := by omega
        _ = (lane + 1) * s := by ring
        _ ≤ W * s := Nat.mul_le_mul_right s hl
        _ = s * W := Nat.mul_comm W s
    rw [laneSlice_getElem? _ _ _ _ hj]
    unfold elementwiseApply
    rw [List.getElem?_map, List.getElem?_map, List.getElem?_range hj,
      List.getElem?_range hlt]
    simp only [Option.map_some', List.filterMap_map, Option.some.injEq]
    congr 1
    apply List.filterMap_congr
    intro x _
    exact laneSlice_getElem? s lane j x hj
  · have h1 : (elementwiseApply f s (xs.map (laneSlice s lane)))[j]? = none := by
      apply List.getElem?_eq_none
      simp [elementwiseApply]; omega
    have h2 : (laneSlice s lane (elementwiseApply f (s * W) xs))[j]? = none := by
      unfold laneSlice
      exact List.getElem?_take_eq_none (by omega)
    rw [h1, h2]

/-! ## Use preservation: facts -/

theorem regionInvariant_arity (c : WarpContext) (h : c.regionInvariant = true) :
    c.warpOp.arityOk := by
  simp only [WarpContext.regionInvariant, Bool.and_eq_true, decide_eq_true_eq] at h
  exact h.1.1.1.1

theorem regionInvariant_fresh (c : WarpContext) (h : c.regionInvariant = true) :
    c.warpOp.id ≠ c.nextId := by
  simp only [WarpContext.regionInvariant, Bool.and_eq_true, decide_eq_true_eq] at h
  exact h.2

theorem regionInvariant_dominance (c : WarpContext) (h : c.regionInvariant = true)
    (i : Nat) (hi : i < c.warpOp.getNumResults) :
    c.warpOp.getResult i ∉ (Item.warp c.warpOp).operandValues := by
  simp only [WarpContext.regionInvariant, Bool.and_eq_true, List.all_eq_true, List.mem_range,
    Bool.not_eq_true'] at h
  have := h.1.2 i hi
  simpa using this

theorem regionInvariant_types (c : WarpContext) (h : c.regionInvariant = true)
    (i : Nat) (hi : i < c.warpOp.getNumResults) :
    distributedTypeOk c.warpOp.warpSize
      (c.warpOp.body.yieldOperands.getD i default).ty (c.warpOp.resultTypes.getD i default)
      = true := by
  simp only [WarpContext.regionInvariant, Bool.and_eq_true, List.all_eq_true,
    List.mem_range] at h
  exact h.1.1.1.2 i hi

theorem regionInvariant_yielded (c : WarpContext) (h : c.regionInvariant = true)
    (v : Value) (hv : v ∈ c.warpOp.body.yieldOperands) : yieldedValueOk c.items v = true := by
  simp only [WarpContext.regionInvariant, Bool.and_eq_true, List.all_eq_true] at h
  exact h.1.1.2 v hv

/-- When the operand slots before and after the region are rewritten by `F`, and
`F` keeps the type of every region result, the uses keep their types. -/
theorem keepType_of_map (c : WarpContext) (F : Value → Value) (items mid : List Item)
    (hitems : items = c.pre.map (Item.mapOperands F) ++ mid ++ c.post.map (Item.mapOperands F))
    (hF : ∀ i, i < c.warpOp.getNumResults →
      (F (c.warpOp.getResult i)).ty = (c.warpOp.getResult i).ty) :
    ∃ pre' mid' post', items = pre' ++ mid' ++ post' ∧
      ∀ i, i < c.warpOp.getNumResults →
        List.Forall₂ (SlotsKeepType (c.warpOp.getResult i)) c.pre pre' ∧
        List.Forall₂ (SlotsKeepType (c.warpOp.getResult i)) c.post post' :=
  ⟨_, mid, _, hitems, fun i hi =>
    ⟨slotsKeepType_map _ F (hF i hi) c.pre, slotsKeepType_map _ F (hF i hi) c.post⟩⟩

/-- The rewriting done by the append helper followed by the replacement of new
result `idx` by a value of the type of old result `idx` keeps the type of every
old result. -/
theorem appendThenReplace_type (c : WarpContext) (vs : List Value) (ts : List Ty)
    (idx : Nat) (x : Value) (hx : x.ty = (c.warpOp.getResult idx).ty)
    (i : Nat) (hi : i < c.warpOp.getNumResults) :
    (Value.replaceUse ((moveRegionToNewWarpOpAndAppendReturns c vs ts).newWarpOp.getResult idx) x
      (resultSubst c.warpOp.toWarpHeader
        (moveRegionToNewWarpOpAndReplaceReturns c (c.warpOp.body.yieldOperands ++ vs)
          (c.warpOp.resultTypes ++ ts)).newWarpOp.toWarpHeader c.warpOp.getNumResults
        (c.warpOp.getResult i))).ty = (c.warpOp.getResult i).ty := by
  have hold : c.warpOp.getResult i = c.warpOp.toWarpHeader.getResult i := rfl
  rw [hold, resultSubst_old _ _ _ _ hi, appendReturns_getResult]
  unfold Value.replaceUse
  split
  · rename_i heq
    simp only [WarpHeader.getResult, moveRegionToNewWarpOpAndReplaceReturns, Value.mk.injEq,
      ValueDef.opResult.injEq, true_and] at heq
    rw [hx, ← heq.1]; rfl
  · simp only [WarpHeader.getResult, moveRegionToNewWarpOpAndReplaceReturns]
    unfold WarpOp.getNumResults at hi
    simp [List.getD_eq_getElem?_getD, List.getElem?_append_left hi]

/-- The shape shared by the sinks that append results: the operand slots before
and after the region are rewritten by the append helper, then by the
replacement of the matched result. -/
theorem appendSink_items (c : WarpContext) (vs : List Value) (ts : List Ty)
    (ops : List Item) (nid idx : Nat) (x : Value) :
    (((moveRegionToNewWarpOpAndAppendReturns c vs ts).create ops nid).replaceAllUsesWith
        ((moveRegionToNewWarpOpAndAppendReturns c vs ts).newWarpOp.getResult idx) x).pre =
      c.pre.map (Item.mapOperands (fun v =>
        Value.replaceUse ((moveRegionToNewWarpOpAndAppendReturns c vs ts).newWarpOp.getResult idx) x
          (resultSubst c.warpOp.toWarpHeader
            (moveRegionToNewWarpOpAndReplaceReturns c (c.warpOp.body.yieldOperands ++ vs)
              (c.warpOp.resultTypes ++ ts)).newWarpOp.toWarpHeader c.warpOp.getNumResults v))) ∧
    (((moveRegionToNewWarpOpAndAppendReturns c vs ts).create ops nid).replaceAllUsesWith
        ((moveRegionToNewWarpOpAndAppendReturns c vs ts).newWarpOp.getResult idx) x).post =
      c.post.map (Item.mapOperands (fun v =>
        Value.replaceUse ((moveRegionToNewWarpOpAndAppendReturns c vs ts).newWarpOp.getResult idx) x
          (resultSubst c.warpOp.toWarpHeader
            (moveRegionToNewWarpOpAndReplaceReturns c (c.warpOp.body.yieldOperands ++ vs)
              (c.warpOp.resultTypes ++ ts)).newWarpOp.toWarpHeader
            c.warpOp.getNumResults v))) := by
  simp only [Moved.replaceAllUsesWith, Moved.mapOperands, Moved.create, appendReturns_pre,
    appendReturns_post, map_mapOperands_comp, and_self]

theorem replaceUse_type (old x v : Value) (hx : x.ty = old.ty) :
    (Value.replaceUse old x v).ty = v.ty := by
  unfold Value.replaceUse
  split
  · rename_i h; rw [hx, h]
  · rfl

/-- Use types are kept by a sink that appends results and replaces the matched
result by a value of its type, whether or not the old operation is erased. -/
theorem appendSink_keepType (c : WarpContext) (vs : List Value) (ts : List Ty)
    (ops : List Item) (nid idx : Nat) (x : Value) (hx : x.ty = (c.warpOp.getResult idx).ty) :
    (∃ pre' mid' post',
      (((moveRegionToNewWarpOpAndAppendReturns c vs ts).create ops nid).replaceAllUsesWith
        ((moveRegionToNewWarpOpAndAppendReturns c vs ts).newWarpOp.getResult idx)
          x).program.items = pre' ++ mid' ++ post' ∧
      ∀ i, i < c.warpOp.getNumResults →
        List.Forall₂ (SlotsKeepType (c.warpOp.getResult i)) c.pre pre' ∧
        List.Forall₂ (SlotsKeepType (c.warpOp.getResult i)) c.post post') ∧
    (∃ pre' mid' post',
      (((moveRegionToNewWarpOpAndAppendReturns c vs ts).create ops nid).replaceAllUsesWith
        ((moveRegionToNewWarpOpAndAppendReturns c vs ts).newWarpOp.getResult idx)
          x).eraseOld.items = pre' ++ mid' ++ post' ∧
      ∀ i, i < c.warpOp.getNumResults →
        List.Forall₂ (SlotsKeepType (c.warpOp.getResult i)) c.pre pre' ∧
        List.Forall₂ (SlotsKeepType (c.warpOp.getResult i)) c.post post') := by
  obtain ⟨hpre, hpost⟩ := appendSink_items c vs ts ops nid idx x
  generalize ((moveRegionToNewWarpOpAndAppendReturns c vs ts).create ops nid).replaceAllUsesWith
    ((moveRegionToNewWarpOpAndAppendReturns c vs ts).newWarpOp.getResult idx) x = m2
    at hpre hpost
  constructor
  · refine ⟨m2.pre, [Item.warp m2.newWarpOp] ++ m2.mid ++ [Item.bodyless m2.oldWarpOp],
      m2.post, ?_, fun i hi => ?_⟩
    · simp only [Moved.program, Moved.items, List.append_assoc]
    · rw [hpre, hpost]
      exact ⟨slotsKeepType_map (c.warpOp.getResult i) (fun v =>
          Value.replaceUse
            ((moveRegionToNewWarpOpAndAppendReturns c vs ts).newWarpOp.getResult idx) x
            (resultSubst c.warpOp.toWarpHeader
              (moveRegionToNewWarpOpAndReplaceReturns c (c.warpOp.body.yieldOperands ++ vs)
                (c.warpOp.resultTypes ++ ts)).newWarpOp.toWarpHeader c.warpOp.getNumResults v))
          (appendThenReplace_type c vs ts idx x hx i hi) c.pre,
        slotsKeepType_map (c.warpOp.getResult i) (fun v =>
          Value.replaceUse
            ((moveRegionToNewWarpOpAndAppendReturns c vs ts).newWarpOp.getResult idx) x
            (resultSubst c.warpOp.toWarpHeader
              (moveRegionToNewWarpOpAndReplaceReturns c (c.warpOp.body.yieldOperands ++ vs)
                (c.warpOp.resultTypes ++ ts)).newWarpOp.toWarpHeader c.warpOp.getNumResults v))
          (appendThenReplace_type c vs ts idx x hx i hi) c.post⟩
  · refine ⟨m2.pre, [Item.warp m2.newWarpOp] ++ m2.mid, m2.post, ?_, fun i hi => ?_⟩
    · simp only [Moved.eraseOld, List.append_assoc]
    · rw [hpre, hpost]
      exact ⟨slotsKeepType_map (c.warpOp.getResult i) (fun v =>
          Value.replaceUse
            ((moveRegionToNewWarpOpAndAppendReturns c vs ts).newWarpOp.getResult idx) x
            (resultSubst c.warpOp.toWarpHeader
              (moveRegionToNewWarpOpAndReplaceReturns c (c.warpOp.body.yieldOperands ++ vs)
                (c.warpOp.resultTypes ++ ts)).newWarpOp.toWarpHeader c.warpOp.getNumResults v))
          (appendThenReplace_type c vs ts idx x hx i hi) c.pre,
        slotsKeepType_map (c.warpOp.getResult i) (fun v =>
          Value.replaceUse
            ((moveRegionToNewWarpOpAndAppendReturns c vs ts).newWarpOp.getResult idx) x
            (resultSubst c.warpOp.toWarpHeader
              (moveRegionToNewWarpOpAndReplaceReturns c (c.warpOp.body.yieldOperands ++ vs)
                (c.warpOp.resultTypes ++ ts)).newWarpOp.toWarpHeader c.warpOp.getNumResults v))
          (appendThenReplace_type c vs ts idx x hx i hi) c.post⟩

/-- The value forwarded by the search loop has the type of the result found. -/
theorem forwardSearch_type (items : List Item) (w : WarpOp) (l : List Value) (k : Nat)
    (v : Value) (r : Nat) (h : forwardSearch items w l k = ForwardSearch.found v r) :
    v.ty = (w.getResult r).ty := by
  induction l generalizing k with
  | nil => simp [forwardSearch] at h
  | cons a l ih =>
    simp only [forwardSearch] at h
    repeat' split at h
    all_goals first
      | exact ih _ h
      | cases h
    all_goals (rename_i hty; simp only [ne_eq, Decidable.not_not] at hty; exact hty.symm)

/-- The final lane value of the shuffle loop has the type of the initial one. -/
theorem reductionRounds_ty (kind : CombiningKind) (width : Int) (fuel : Nat) :
    ∀ (i : Int) (nextId : Nat) (laneVal : Value),
      (reductionRounds kind width fuel i nextId laneVal).2.2.ty = laneVal.ty := by
  induction fuel with
  | zero => intro i nextId laneVal; rfl
  | succ fuel ih =>
    intro i nextId laneVal
    simp only [reductionRounds]
    split
    · rw [ih]; rfl
    · rfl

/-! ## Dead result elimination: facts -/

theorem moved_items_mapOperands (f : Value → Value) (m : Moved) :
    (m.mapOperands f).items = m.items.map (Item.mapOperands f) := by
  simp [Moved.items, Moved.mapOperands, Item.mapOperands]

/-- Replacing the uses of `a` by `b` does not change whether a third value has
uses. -/
theorem useEmpty_replaceAllUsesWith (m : Moved) (a b x : Value) (hxa : x ≠ a) (hxb : x ≠ b) :
    useEmpty (m.replaceAllUsesWith a b).items x = useEmpty m.items x := by
  have hiff : ∀ v, Value.replaceUse a b v = x ↔ v = x := by
    intro v
    unfold Value.replaceUse
    split
    · rename_i hva
      subst hva
      exact ⟨fun h => absurd h.symm hxb, fun h => absurd h.symm hxa⟩
    · exact Iff.rfl
  rw [Bool.eq_iff_iff, useEmpty_eq_true_iff, useEmpty_eq_true_iff, Moved.replaceAllUsesWith,
    moved_items_mapOperands]
  constructor
  · intro h it hit hx
    apply h (it.mapOperands (Value.replaceUse a b)) (List.mem_map_of_mem _ hit)
    rw [item_operandValues_mapOperands, List.mem_map]
    exact ⟨x, hx, (hiff x).2 rfl⟩
  · intro h it hit hx
    rw [List.mem_map] at hit
    obtain ⟨it0, hit0, rfl⟩ := hit
    rw [item_operandValues_mapOperands, List.mem_map] at hx
    obtain ⟨v, hv, hvx⟩ := hx
    rw [(hiff v).1 hvx] at hv
    exact h it0 hit0 hv

theorem deadSubst_nil (old new : WarpOp) (k : Nat) :
    deadSubst old new [] k = fun v => v := rfl

/-- The second loop of the dead result pattern, over any duplicate-free list of
result numbers and from any state, is one operand rewriting. -/
theorem deadRewire_fold (old new : WarpOp)
    (hfresh : ∀ i r, new.getResult r ≠ old.getResult i) (l : List Nat) (hnd : l.Nodup) :
    ∀ (s : Moved) (k : Nat),
      l.foldl
          (fun (s : Moved × Nat) i =>
            if useEmpty s.1.items (old.getResult i) then s
            else (s.1.replaceAllUsesWith (old.getResult i) (new.getResult s.2), s.2 + 1))
          (s, k) =
        (s.mapOperands (deadSubst old new
            (l.filter (fun i => !(useEmpty s.items (old.getResult i)))) k),
          k + (l.filter (fun i => !(useEmpty s.items (old.getResult i)))).length) := by
  induction l with
  | nil => intro s k; simp [deadSubst_nil, moved_mapOperands_id]
  | cons i l ih =>
    intro s k
    rw [List.nodup_cons] at hnd
    simp only [List.foldl_cons]
    by_cases hu : useEmpty s.items (old.getResult i) = true
    · rw [if_pos hu, ih hnd.2, List.filter_cons_of_neg (by simp [hu])]
    · rw [if_neg hu, ih hnd.2, List.filter_cons_of_pos (by simpa using hu)]
      have hfilter : l.filter (fun j => !(useEmpty
            (s.replaceAllUsesWith (old.getResult i) (new.getResult k)).items (old.getResult j))) =
          l.filter (fun j => !(useEmpty s.items (old.getResult j))) := by
        apply List.filter_congr
        intro j hj
        rw [useEmpty_replaceAllUsesWith]
        · intro e
          have hji : j = i := by
            simp only [WarpOp.getResult, WarpHeader.getResult, Value.mk.injEq,
              ValueDef.opResult.injEq, true_and] at e
            exact e.1
          exact hnd.1 (hji ▸ hj)
        · exact fun e => hfresh j k e.symm
      rw [hfilter]
      simp only [Moved.replaceAllUsesWith, moved_mapOperands_comp, deadSubst,
        List.length_cons, Prod.mk.injEq, true_and]
      omega

theorem deadSubst_fix (old new : WarpOp) (l : List Nat) :
    ∀ (k : Nat) (v : Value), (∀ j, j ∈ l → v ≠ old.getResult j) →
      deadSubst old new l k v = v := by
  induction l with
  | nil => intro k v _; rfl
  | cons a l ih =>
    intro k v hv
    simp only [deadSubst]
    have hne : v ≠ old.getResult a := hv a (List.mem_cons_self a l)
    simp only [Value.replaceUse, hne, if_false]
    exact ih _ _ (fun j hj => hv j (List.mem_cons_of_mem a hj))

/-- The rewriting of the second loop keeps the type of every old result, when
the new result at each position has the type of the old result it replaces. -/
theorem deadSubst_type (old new : WarpOp)
    (hfresh : ∀ i r, new.getResult r ≠ old.getResult i) (l : List Nat) :
    ∀ (k : Nat),
      (∀ r j, l[r]? = some j → (new.getResult (k + r)).ty = (old.getResult j).ty) →
      ∀ j, (deadSubst old new l k (old.getResult j)).ty = (old.getResult j).ty := by
  induction l with
  | nil => intro k _ j; rfl
  | cons a l ih =>
    intro k hty j
    simp only [deadSubst]
    by_cases hja : old.getResult j = old.getResult a
    · simp only [Value.replaceUse, hja, if_true]
      rw [deadSubst_fix old new l _ _ (fun i _ => hfresh i k)]
      simpa using hty 0 a (by simp)
    · simp only [Value.replaceUse, hja, if_false]
      apply ih
      intro r i hr
      rw [show k + 1 + r = k + (r + 1) by omega]
      exact hty (r + 1) i (by simpa using hr)

/-- Moving the body to a new operation whose yield operands are among the old
ones does not change whether a value that the region does not use has uses. -/
theorem useEmpty_replaceReturns (c : WarpContext) (vs : List Value) (ts : List Ty) (x : Value)
    (hx : x ∉ (Item.warp c.warpOp).operandValues)
    (hvs : ∀ v, v ∈ vs → v ∈ c.warpOp.body.yieldOperands) :
    useEmpty (moveRegionToNewWarpOpAndReplaceReturns c vs ts).items x = useEmpty c.items x := by
  simp only [Item.operandValues, WarpHeader.operandValues, Block.operandValues,
    List.mem_append, List.mem_cons, not_or] at hx
  rw [Bool.eq_iff_iff, useEmpty_eq_true_iff, useEmpty_eq_true_iff]
  simp only [Moved.items, moveRegionToNewWarpOpAndReplaceReturns, WarpContext.items,
    List.mem_append, List.mem_singleton, List.append_nil, List.mem_cons, List.not_mem_nil,
    or_false]
  constructor
  · intro h it hit
    rcases hit with (hit | hit) | hit
    · exact h it (Or.inl (Or.inl (Or.inl hit)))
    · subst hit
      simp only [Item.operandValues, WarpHeader.operandValues, Block.operandValues,
        List.mem_append, List.mem_cons, not_or]
      exact hx
    · exact h it (Or.inr hit)
  · intro h it hit
    rcases hit with ((hit | hit) | hit) | hit
    · exact h it (Or.inl (Or.inl hit))
    · subst hit
      simp only [Item.operandValues, WarpHeader.operandValues, Block.operandValues,
        List.mem_append, List.mem_cons, not_or]
      exact ⟨hx.1, hx.2.1, fun hv => hx.2.2 (hvs x hv)⟩
    · subst hit
      simp only [Item.operandValues, WarpHeader.operandValues, List.mem_cons, not_or]
      exact hx.1
    · exact h it (Or.inr hit)

/-- Use types are kept when the operand slots around a reshaped region are
rewritten by a function that keeps the type of every old result, and the old
operation is erased. -/
theorem mapOperands_eraseOld_keepType (c : WarpContext) (m : Moved) (F : Value → Value)
    (hpre : m.pre = c.pre) (hmid : m.mid = []) (hpost : m.post = c.post)
    (hF : ∀ i, (F (c.warpOp.getResult i)).ty = (c.warpOp.getResult i).ty) :
    ∃ pre' mid' post', (m.mapOperands F, 0 + 0).1.eraseOld.items = pre' ++ mid' ++ post' ∧
      ∀ i, i < c.warpOp.getNumResults →
        List.Forall₂ (SlotsKeepType (c.warpOp.getResult i)) c.pre pre' ∧
        List.Forall₂ (SlotsKeepType (c.warpOp.getResult i)) c.post post' := by
  refine ⟨c.pre.map (Item.mapOperands F), [Item.warp (m.newWarpOp.mapOperands F)],
    c.post.map (Item.mapOperands F), ?_, fun i _ => ?_⟩
  · simp [Moved.eraseOld, Moved.mapOperands, hpre, hmid, hpost]
  · exact ⟨slotsKeepType_map (c.warpOp.getResult i) F (hF i) c.pre,
      slotsKeepType_map (c.warpOp.getResult i) F (hF i) c.post⟩

/-- The dead result pattern keeps the types of the uses. -/
theorem deadResult_keepType (c : WarpContext) (p' : Program)
    (hinv : c.regionInvariant = true)
    (h : WarpOpDeadResult.matchAndRewrite c = RewriteResult.success p') :
    ∃ pre' mid' post', p'.items = pre' ++ mid' ++ post' ∧
      ∀ i, i < c.warpOp.getNumResults →
        List.Forall₂ (SlotsKeepType (c.warpOp.getResult i)) c.pre pre' ∧
        List.Forall₂ (SlotsKeepType (c.warpOp.getResult i)) c.post post' := by
  have harity := regionInvariant_arity c hinv
  simp only [WarpOpDeadResult.matchAndRewrite] at h
  split at h
  · cases h
  · cases h
    have hfresh : ∀ i r, (moveRegionToNewWarpOpAndReplaceReturns c
        (((List.range c.warpOp.getNumResults).filter
          (fun i => !(useEmpty c.items (c.warpOp.getResult i)))).map
          (fun i => c.warpOp.body.yieldOperands.getD i default))
        (((List.range c.warpOp.getNumResults).filter
          (fun i => !(useEmpty c.items (c.warpOp.getResult i)))).map
          (fun i => (c.warpOp.getResult i).ty))).newWarpOp.getResult r ≠
        c.warpOp.getResult i := by
      intro i r e
      simp only [WarpOp.getResult, WarpHeader.getResult, moveRegionToNewWarpOpAndReplaceReturns,
        Value.mk.injEq, ValueDef.opResult.injEq] at e
      exact regionInvariant_fresh c hinv e.1.1.symm
    have hfilter : (List.range c.warpOp.getNumResults).filter
        (fun i => !(useEmpty (moveRegionToNewWarpOpAndReplaceReturns c
          (((List.range c.warpOp.getNumResults).filter
            (fun i => !(useEmpty c.items (c.warpOp.getResult i)))).map
            (fun i => c.warpOp.body.yieldOperands.getD i default))
          (((List.range c.warpOp.getNumResults).filter
            (fun i => !(useEmpty c.items (c.warpOp.getResult i)))).map
            (fun i => (c.warpOp.getResult i).ty))).items (c.warpOp.getResult i))) =
        (List.range c.warpOp.getNumResults).filter
          (fun i => !(useEmpty c.items (c.warpOp.getResult i))) := by
      apply List.filter_congr
      intro i hi
      rw [List.mem_range] at hi
      rw [useEmpty_replaceReturns c _ _ _ (regionInvariant_dominance c hinv i hi)]
      intro v hv
      rw [List.mem_map] at hv
      obtain ⟨j, hj, rfl⟩ := hv
      have hjn : j < c.warpOp.body.yieldOperands.length := by
        have := (List.mem_filter.1 hj).1
        rw [List.mem_range] at this
        unfold WarpOp.getNumResults at this
        rw [harity] at this
        exact this
      rw [List.getD_eq_getElem _ _ hjn]
      exact List.getElem_mem hjn
    unfold deadResultRewire
    rw [deadRewire_fold _ _ hfresh _ (List.nodup_range _), hfilter]
    exact mapOperands_eraseOld_keepType c _ _ rfl rfl rfl
      (deadSubst_type c.warpOp _ hfresh
        ((List.range c.warpOp.getNumResults).filter
          (fun i => !(useEmpty c.items (c.warpOp.getResult i)))) 0
        (by
          intro r j hr
          rw [Nat.zero_add]
          show (List.map (fun i => (c.warpOp.getResult i).ty) _).getD r default = _
          rw [List.getD_eq_getElem?_getD, List.getElem?_map, hr]
          rfl))

/-- Use types are kept when every operand slot of the block is rewritten by a
function that keeps the type of every region result, the region staying in
place and new operations being created right after it. -/
theorem context_mapOperands_keepType (c : WarpContext) (extra : List Item) (nid : Nat)
    (F : Value → Value)
    (hF : ∀ i, (F (c.warpOp.getResult i)).ty = (c.warpOp.getResult i).ty) :
    ∃ pre' mid' post',
      (WarpContext.mapOperands F
        { pre := c.pre, warpOp := c.warpOp, post := extra ++ c.post, nextId := nid }).program.items
        = pre' ++ mid' ++ post' ∧
      ∀ i, i < c.warpOp.getNumResults →
        List.Forall₂ (SlotsKeepType (c.warpOp.getResult i)) c.pre pre' ∧
        List.Forall₂ (SlotsKeepType (c.warpOp.getResult i)) c.post post' := by
  refine ⟨c.pre.map (Item.mapOperands F),
    [Item.warp (c.warpOp.mapOperands F)] ++ extra.map (Item.mapOperands F),
    c.post.map (Item.mapOperands F), ?_, fun i _ => ?_⟩
  · simp [WarpContext.program, WarpContext.items, WarpContext.mapOperands]
  · exact ⟨slotsKeepType_map (c.warpOp.getResult i) F (hF i) c.pre,
      slotsKeepType_map (c.warpOp.getResult i) F (hF i) c.post⟩

/-- Under the region invariant, the result matched by the reduction pattern has
the scalar type of the reduction. -/
theorem reduction_result_type (c : WarpContext) (operandIndex : Nat) (reductionOp : Operation)
    (kind : CombiningKind) (e : ScalarType) (types : List Ty)
    (hinv : c.regionInvariant = true)
    (hmatch : getWarpResult c.items c.warpOp Item.isReduction = some operandIndex)
    (hdef : getDefiningOp c.items (c.warpOp.body.yieldOperands.getD operandIndex default)
      = some (Item.op reductionOp))
    (hkind : reductionOp.kind = OpKind.reduction kind)
    (hres : reductionOp.resultTypes = Ty.scalar e :: types) :
    (c.warpOp.getResult operandIndex).ty = Ty.scalar e := by
  obtain ⟨v, hv, _⟩ := ((getWarpResult_spec c.items c.warpOp _).1 operandIndex).1 hmatch
  have hlt := (List.getElem?_eq_some_iff.1 hv).1
  have hidx : operandIndex < c.warpOp.getNumResults := by
    unfold WarpOp.getNumResults
    rw [regionInvariant_arity c hinv]; exact hlt
  have hvD : c.warpOp.body.yieldOperands.getD operandIndex default = v := by
    rw [List.getD_eq_getElem?_getD, hv]; rfl
  rw [hvD] at hdef
  have hmem : v ∈ c.warpOp.body.yieldOperands := by
    obtain ⟨hl, hget⟩ := List.getElem?_eq_some_iff.1 hv
    exact hget ▸ List.getElem_mem hl
  have hok := regionInvariant_yielded c hinv v hmem
  have hty := regionInvariant_types c hinv operandIndex hidx
  rw [hvD] at hty
  have hvty : v.ty = Ty.scalar e := by
    unfold yieldedValueOk at hok
    rw [hdef] at hok
    split at hok
    · rename_i owner idx o hor heq
      cases heq
      simp only [hkind, hres, List.length_cons, Bool.and_eq_true, decide_eq_true_eq,
        beq_iff_eq, Nat.add_left_eq_self, List.length_eq_zero] at hok
      obtain ⟨⟨hlt', hty'⟩, htl⟩ := hok
      subst htl
      have h0 : idx = 0 := by simpa using hlt'
      subst h0
      simpa using hty'
    · rename_i hne
      cases hor : v.origin with
      | opResult owner idx => exact absurd rfl (hne owner idx reductionOp hor)
      | blockArg b a => simp [getDefiningOp, hor] at hdef
  rw [hvty] at hty
  unfold distributedTypeOk at hty
  simp only [Bool.or_false, beq_iff_eq] at hty
  show c.warpOp.resultTypes.getD operandIndex default = Ty.scalar e
  exact hty.symm

/-- The elementwise sink keeps the types of the uses. -/
theorem elementwiseRewrite_keepType (c : WarpContext) (operandIndex : Nat)
    (elementWise : Operation) (retTypes : List Ty) :
    ∃ pre' mid' post', (elementwiseRewrite c operandIndex elementWise retTypes).eraseOld.items = pre' ++ mid' ++ post' ∧
      ∀ i, i < c.warpOp.getNumResults →
        List.Forall₂ (SlotsKeepType (c.warpOp.getResult i)) c.pre pre' ∧
        List.Forall₂ (SlotsKeepType (c.warpOp.getResult i)) c.post post' :=
  (appendSink_keepType c elementWise.operands retTypes
    [Item.op (cloneOpWithOperandsAndTypes
      (moveRegionToNewWarpOpAndAppendReturns c elementWise.operands retTypes).nextId elementWise
      ((List.range elementWise.operands.length).map
        (fun i => (moveRegionToNewWarpOpAndAppendReturns c elementWise.operands
          retTypes).newWarpOp.getResult (i + c.warpOp.getNumResults)))
      [(c.warpOp.getResult operandIndex).ty])]
    ((moveRegionToNewWarpOpAndAppendReturns c elementWise.operands retTypes).nextId + 1)
    operandIndex
    ((cloneOpWithOperandsAndTypes
      (moveRegionToNewWarpOpAndAppendReturns c elementWise.operands retTypes).nextId elementWise
      ((List.range elementWise.operands.length).map
        (fun i => (moveRegionToNewWarpOpAndAppendReturns c elementWise.operands
          retTypes).newWarpOp.getResult (i + c.warpOp.getNumResults)))
      [(c.warpOp.getResult operandIndex).ty]).getResult 0)
    rfl).2

/-- The broadcast sink keeps the types of the uses, when the type it broadcasts
to is the type of the matched result. -/
theorem broadcastRewrite_keepType (c : WarpContext) (operandNumber : Nat) (source : Value)
    (destVecType : Ty) (hty : destVecType = (c.warpOp.getResult operandNumber).ty) :
    ∃ pre' mid' post', (broadcastRewrite c operandNumber source destVecType).program.items = pre' ++ mid' ++ post' ∧
      ∀ i, i < c.warpOp.getNumResults →
        List.Forall₂ (SlotsKeepType (c.warpOp.getResult i)) c.pre pre' ∧
        List.Forall₂ (SlotsKeepType (c.warpOp.getResult i)) c.post post' :=
  (appendSink_keepType c [source] [source.ty]
    [Item.op
      { id := (moveRegionToNewWarpOpAndAppendReturns c [source] [source.ty]).nextId
        kind := OpKind.broadcast
        operands := [(moveRegionToNewWarpOpAndAppendReturns c [source]
          [source.ty]).newWarpOp.getResult
            ((moveRegionToNewWarpOpAndAppendReturns c [source]
              [source.ty]).newWarpOp.getNumResults - 1)]
        resultTypes := [destVecType] }]
    ((moveRegionToNewWarpOpAndAppendReturns c [source] [source.ty]).nextId + 1)
    operandNumber
    ⟨ValueDef.opResult (moveRegionToNewWarpOpAndAppendReturns c [source] [source.ty]).nextId 0,
      destVecType⟩
    hty).1

/-- The value that replaces the matched result in the reduction sink has the
scalar type of the reduction. -/
theorem reductionShuffles_ty (warpSize : Nat) (kind : CombiningKind) (e : ScalarType)
    (laneValVec : Value) (nextId : Nat) :
    (reductionShuffles warpSize kind e laneValVec nextId).2.2.ty = Ty.scalar e := by
  unfold reductionShuffles
  generalize toInt32 ((warpSize / 2 : Nat) : Int) = start
  generalize toInt32 (warpSize : Int) = width
  simp only [Operation.getResult, List.getD_cons_zero, reductionRounds_ty]

/-- The reduction sink keeps the types of the uses, when the matched result has
the scalar type of the reduction. -/
theorem reductionRewrite_keepType (c : WarpContext) (operandIndex : Nat) (kind : CombiningKind)
    (vector : Value) (e : ScalarType) (hty : (c.warpOp.getResult operandIndex).ty = Ty.scalar e) :
    ∃ pre' mid' post', (reductionRewrite c operandIndex kind vector e).program.items = pre' ++ mid' ++ post' ∧
      ∀ i, i < c.warpOp.getNumResults →
        List.Forall₂ (SlotsKeepType (c.warpOp.getResult i)) c.pre pre' ∧
        List.Forall₂ (SlotsKeepType (c.warpOp.getResult i)) c.post post' := by
  exact (appendSink_keepType c [vector] [Ty.vector [1] e]
    (reductionShuffles
      (moveRegionToNewWarpOpAndAppendReturns c [vector] [Ty.vector [1] e]).newWarpOp.warpSize
      kind e
      ((moveRegionToNewWarpOpAndAppendReturns c [vector]
        [Ty.vector [1] e]).newWarpOp.getResult c.warpOp.getNumResults)
      (moveRegionToNewWarpOpAndAppendReturns c [vector] [Ty.vector [1] e]).nextId).1
    (reductionShuffles
      (moveRegionToNewWarpOpAndAppendReturns c [vector] [Ty.vector [1] e]).newWarpOp.warpSize
      kind e
      ((moveRegionToNewWarpOpAndAppendReturns c [vector]
        [Ty.vector [1] e]).newWarpOp.getResult c.warpOp.getNumResults)
      (moveRegionToNewWarpOpAndAppendReturns c [vector] [Ty.vector [1] e]).nextId).2.1
    operandIndex
    (reductionShuffles
      (moveRegionToNewWarpOpAndAppendReturns c [vector] [Ty.vector [1] e]).newWarpOp.warpSize
      kind e
      ((moveRegionToNewWarpOpAndAppendReturns c [vector]
        [Ty.vector [1] e]).newWarpOp.getResult c.warpOp.getNumResults)
      (moveRegionToNewWarpOpAndAppendReturns c [vector] [Ty.vector [1] e]).nextId).2.2
    ((reductionShuffles_ty _ _ _ _ _).trans hty.symm)).1

/-- What a successful application of the reduction pattern went through. -/
theorem reduction_success_inv (c : WarpContext) (p' : Program)
    (h : WarpOpReduction.matchAndRewrite c = RewriteResult.success p') :
    ∃ operandIndex reductionOp kind vector operands e types,
      getWarpResult c.items c.warpOp Item.isReduction = some operandIndex ∧
      getDefiningOp c.items (c.warpOp.body.yieldOperands.getD operandIndex default)
        = some (Item.op reductionOp) ∧
      reductionOp.kind = OpKind.reduction kind ∧
      reductionOp.operands = vector :: operands ∧
      reductionOp.resultTypes = Ty.scalar e :: types ∧
      p' = (reductionRewrite c operandIndex kind vector e).program := by
  simp only [WarpOpReduction.matchAndRewrite] at h
  repeat' split at h
  all_goals cases h
  exact ⟨_, _, _, _, _, _, _, by assumption, by assumption, by assumption, by assumption,
    by assumption, rfl⟩

/-- What a successful application of the broadcast pattern went through. -/
theorem broadcast_success_inv (c : WarpContext) (p' : Program)
    (h : WarpOpBroadcast.matchAndRewrite c = RewriteResult.success p') :
    ∃ operandNumber broadcastOp shape e source operands,
      getWarpResult c.items c.warpOp Item.isBroadcast = some operandNumber ∧
      getDefiningOp c.items (c.warpOp.body.yieldOperands.getD operandNumber default)
        = some (Item.op broadcastOp) ∧
      c.warpOp.resultTypes.getD operandNumber default = Ty.vector shape e ∧
      broadcastOp.operands = source :: operands ∧
      p' = (broadcastRewrite c operandNumber source (Ty.vector shape e)).program := by
  simp only [WarpOpBroadcast.matchAndRewrite] at h
  repeat' split at h
  all_goals cases h
  exact ⟨_, _, _, _, _, _, by assumption, by assumption, by assumption, by assumption, rfl⟩

/-- C1: when a sinking or cleanup pattern (elementwise sink, reduction sink,
transfer read sink, broadcast sink, dead result elimination, operand forwarding)
succeeds on a region that satisfies the region invariant, the operations before
and after the region are still there, in the same order, and every operand slot
of theirs that held result `i` of the region holds a value of the type of
result `i`. -/
theorem sinkPattern_keeps_use_types (pat : SinkPattern) (c : WarpContext) (p' : Program)
    (hinv : c.regionInvariant = true) (h : pat.apply c = RewriteResult.success p') :
    ∃ pre' mid' post', p'.items = pre' ++ mid' ++ post' ∧
      ∀ i, i < c.warpOp.getNumResults →
        List.Forall₂ (SlotsKeepType (c.warpOp.getResult i)) c.pre pre' ∧
        List.Forall₂ (SlotsKeepType (c.warpOp.getResult i)) c.post post' := by
  cases pat with
  | elementwiseSink =>
    simp only [SinkPattern.apply, WarpOpElementwise.matchAndRewrite] at h
    repeat' split at h
    all_goals cases h
    exact elementwiseRewrite_keepType c _ _ _
  | reductionSink =>
    obtain ⟨idx, red, kind, vector, operands, e, types, hmatch, hdef, hkind, _, hres, rfl⟩ :=
      reduction_success_inv c p' h
    exact reductionRewrite_keepType c idx kind vector e
      (reduction_result_type c idx red kind e types hinv hmatch hdef hkind hres)
  | transferReadSink =>
    simp only [SinkPattern.apply, WarpOpTransferRead.matchAndRewrite] at h
    repeat' split at h
    all_goals cases h
    all_goals
      exact context_mapOperands_keepType c _ _ _ (fun i => replaceUse_type _ _ _ rfl)
  | broadcastSink =>
    obtain ⟨idx, bc, shape, e, source, operands, _, _, hty, _, rfl⟩ :=
      broadcast_success_inv c p' h
    exact broadcastRewrite_keepType c idx source _ hty.symm
  | deadResultElimination => exact deadResult_keepType c p' hinv h
  | operandForwarding =>
    simp only [SinkPattern.apply, WarpOpForwardOperand.matchAndRewrite] at h
    split at h
    · cases h
    · cases h
    · rename_i v r hfound
      cases h
      exact context_mapOperands_keepType c [] _ _
        (fun i => replaceUse_type _ _ _ (forwardSearch_type _ _ _ _ _ _ hfound))

/-- Instances of `sinkPattern_keeps_use_types`: the elementwise sink on the
elementwise scenario and the reduction sink on the reduction scenario with warp
size 32. -/
theorem sinkPattern_keeps_use_types_witness :
    (∃ pre' mid' post', addScenarioSunk.items = pre' ++ mid' ++ post' ∧
      ∀ i, i < addScenario.warpOp.getNumResults →
        List.Forall₂ (SlotsKeepType (addScenario.warpOp.getResult i)) addScenario.pre pre' ∧
        List.Forall₂ (SlotsKeepType (addScenario.warpOp.getResult i)) addScenario.post post') ∧
    (∃ pre' mid' post',
      (reductionRewrite (reductionScenario 32 32) 0 CombiningKind.add
        ⟨ValueDef.opResult 3 0, vectorF32 32⟩ (ScalarType.float 32)).program.items
        = pre' ++ mid' ++ post' ∧
      ∀ i, i < (reductionScenario 32 32).warpOp.getNumResults →
        List.Forall₂ (SlotsKeepType ((reductionScenario 32 32).warpOp.getResult i))
          (reductionScenario 32 32).pre pre' ∧
        List.Forall₂ (SlotsKeepType ((reductionScenario 32 32).warpOp.getResult i))
          (reductionScenario 32 32).post post') :=
  ⟨sinkPattern_keeps_use_types SinkPattern.elementwiseSink addScenario addScenarioSunk
      (by decide) (by decide),
    sinkPattern_keeps_use_types SinkPattern.reductionSink (reductionScenario 32 32) _
      (by decide) (by decide)⟩

/-! ## Write distribution: facts -/

theorem map_fix {α : Type} (f : α → α) (l : List α) (h : ∀ x, x ∈ l → f x = x) :
    l.map f = l := by
  induction l with
  | nil => rfl
  | cons a l ih =>
    rw [List.map_cons, h a (List.mem_cons_self a l),
      ih (fun x hx => h x (List.mem_cons_of_mem a hx))]

theorem operation_mapOperands_fix (f : Value → Value) (o : Operation)
    (h : ∀ v, v ∈ o.operands → f v = v) : o.mapOperands f = o := by
  cases o with
  | mk oid kind operands resultTypes =>
    simp only [Operation.mapOperands, Operation.mk.injEq, true_and, and_true]
    exact map_fix f operands h

theorem block_mapOperands_fix (f : Value → Value) (b : Block)
    (h : ∀ v, v ∈ b.operandValues → f v = v) : b.mapOperands f = b := by
  cases b with
  | mk bid argTypes ops yieldOperands =>
    simp only [Block.operandValues, List.mem_append, List.mem_flatten, List.mem_map] at h
    simp only [Block.mapOperands, Block.mk.injEq, true_and]
    constructor
    · exact map_fix _ ops (fun o ho => operation_mapOperands_fix f o
        (fun v hv => h v (Or.inl ⟨o.operands, ⟨o, ho, rfl⟩, hv⟩)))
    · exact map_fix f yieldOperands (fun v hv => h v (Or.inr hv))

theorem warpHeader_mapOperands_fix (f : Value → Value) (w : WarpHeader)
    (h : ∀ v, v ∈ w.operandValues → f v = v) : w.mapOperands f = w := by
  cases w with
  | mk wid laneid warpSize args resultTypes =>
    simp only [WarpHeader.operandValues, List.mem_cons] at h
    simp only [WarpHeader.mapOperands, WarpHeader.mk.injEq, true_and, and_true]
    exact ⟨h laneid (Or.inl rfl), map_fix f args (fun v hv => h v (Or.inr hv))⟩

theorem warpOp_mapOperands_fix (f : Value → Value) (w : WarpOp)
    (h : ∀ v, v ∈ (Item.warp w).operandValues → f v = v) : w.mapOperands f = w := by
  cases w with
  | mk hd body =>
    simp only [Item.operandValues, List.mem_append] at h
    simp only [WarpOp.mapOperands, WarpOp.mk.injEq]
    exact ⟨warpHeader_mapOperands_fix f hd (fun v hv => h v (Or.inl hv)),
      block_mapOperands_fix f body (fun v hv => h v (Or.inr hv))⟩

/-- Under SSA dominance the append helper leaves the operand slots of the region
alone: the new region is the old one with the extended results and yield. -/
theorem appendReturns_newWarpOp_dom (c : WarpContext) (vs : List Value) (ts : List Ty)
    (hdom : ∀ i, i < c.warpOp.getNumResults →
      c.warpOp.getResult i ∉ (Item.warp c.warpOp).operandValues)
    (hvs : ∀ v, v ∈ vs → v ∈ (Item.warp c.warpOp).operandValues) :
    (moveRegionToNewWarpOpAndAppendReturns c vs ts).newWarpOp =
      (moveRegionToNewWarpOpAndReplaceReturns c (c.warpOp.body.yieldOperands ++ vs)
        (c.warpOp.resultTypes ++ ts)).newWarpOp := by
  rw [appendReturns_newWarpOp]
  apply warpOp_mapOperands_fix
  intro v hv
  apply resultSubst_other
  intro k hk e
  subst e
  apply hdom k hk
  simp only [Item.operandValues, WarpHeader.operandValues, Block.operandValues,
    moveRegionToNewWarpOpAndReplaceReturns, List.mem_append, List.mem_cons] at hv ⊢
  rcases hv with (h | h) | h | h | h
  · exact Or.inl (Or.inl h)
  · exact Or.inl (Or.inr h)
  · exact Or.inr (Or.inl h)
  · exact Or.inr (Or.inr h)
  · have := hvs _ h
    simpa only [Item.operandValues, WarpHeader.operandValues, Block.operandValues,
      List.mem_append, List.mem_cons] using this

/-- Under SSA dominance the append helper leaves the operands of the old
operation alone. -/
theorem appendReturns_oldWarpOp_dom (c : WarpContext) (vs : List Value) (ts : List Ty)
    (hdom : ∀ i, i < c.warpOp.getNumResults →
      c.warpOp.getResult i ∉ (Item.warp c.warpOp).operandValues) :
    (moveRegionToNewWarpOpAndAppendReturns c vs ts).oldWarpOp = c.warpOp.toWarpHeader := by
  rw [appendReturns_eq]
  show c.warpOp.toWarpHeader.mapOperands _ = _
  apply warpHeader_mapOperands_fix
  intro v hv
  apply resultSubst_other
  intro k hk e
  subst e
  apply hdom k hk
  simp only [Item.operandValues, List.mem_append]
  exact Or.inl hv

/-- The operands of an operation of the body are operand slots of the region. -/
theorem body_operand_mem (w : WarpOp) (pos : Nat) (o : Operation) (v : Value)
    (ho : w.body.ops[pos]? = some o) (hv : v ∈ o.operands) :
    v ∈ (Item.warp w).operandValues := by
  simp only [Item.operandValues, Block.operandValues, List.mem_append, List.mem_flatten,
    List.mem_map]
  have hmem : o ∈ w.body.ops := by
    obtain ⟨h, he⟩ := List.getElem?_eq_some_iff.1 ho
    exact he ▸ List.getElem_mem h
  exact Or.inr (Or.inl ⟨o.operands, ⟨o, hmem, rfl⟩, hv⟩)

/-- C17: for every distribution ratio and every store whose vector has, at the
dimension the distribution map selects, an extent that the ratio does not
divide, `tryDistributeOp` reports failure and returns the program as it was. -/
theorem writeDistribution_legality (ratio : Int) (c : WarpContext) (map : AffineMap)
    (writePos : Nat) (writeOp : Operation) (perm : AffineMap) (hasMask : Bool)
    (inBounds : Option (List Bool)) (vector dest : Value) (rest : List Value)
    (shape : List Int) (e : ScalarType) (position : Nat) (extent : Int)
    (hop : c.warpOp.body.ops[writePos]? = some writeOp)
    (hkind : writeOp.kind = OpKind.transferWrite perm hasMask inBounds)
    (hoperands : writeOp.operands = vector :: dest :: rest)
    (hty : vector.ty = Ty.vector shape e)
    (hmap : map.results = [AffineExpr.dim position])
    (hextent : shape[position]? = some extent)
    (hdiv : Int.tmod extent ratio ≠ 0) :
    tryDistributeOp ratio c map writePos = RewriteResult.failure c.program := by
  simp only [tryDistributeOp, hop, hkind, hoperands, hty, hmap, hextent]
  rw [if_pos hdiv]

/-- Instance of `writeDistribution_legality`: a store of `vector<48xf32>` with
the ratio 32. -/
theorem writeDistribution_legality_witness :
    tryDistributeOp 32 (writeScenario 48) identityMap1 1 =
      RewriteResult.failure (writeScenario 48).program :=
  writeDistribution_legality 32 (writeScenario 48) identityMap1 1 (writeScenarioOp 48)
    identityMap1 false none ⟨ValueDef.opResult 5 0, vectorF32 48⟩
    ⟨ValueDef.opResult 1 0, Ty.memref [128] (ScalarType.float 32)⟩
    [⟨ValueDef.opResult 2 0, indexTy⟩] [48] (ScalarType.float 32) 0 48
    (by decide) (by decide) (by decide) (by decide) (by decide) (by decide) (by decide)

/-- C20: for a store at position `writePos` of the body of a region under SSA
dominance, `tryExtractOp` succeeds exactly when the stored vector has rank 1 and
extent 1 and some operation of the body is not a store.  On success the block
holds, in place of the region, the new region (one more result that yields the
stored vector at its own type, the store removed), then a second region without
results or arguments, with the same lane id and warp size, whose body is the
clone of the store writing that new result, followed by an empty yield; the
uses of every old result refer to the new result of the same index.  Otherwise
it fails and returns the program as it was. -/
theorem writeExtraction_structure (c : WarpContext) (writePos : Nat) (writeOp : Operation)
    (vector : Value) (rest : List Value) (shape : List Int) (e : ScalarType)
    (hdom : ∀ i, i < c.warpOp.getNumResults →
      c.warpOp.getResult i ∉ (Item.warp c.warpOp).operandValues)
    (hop : c.warpOp.body.ops[writePos]? = some writeOp)
    (hoperands : writeOp.operands = vector :: rest)
    (hty : vector.ty = Ty.vector shape e) :
    ((∃ p', tryExtractOp c writePos = RewriteResult.success p') ↔
      (shape.length = 1 ∧ shape.headD 0 = 1) ∧
        ∃ o, o ∈ c.warpOp.body.ops ∧ o.isTransferWrite = false) ∧
    (((shape.length = 1 ∧ shape.headD 0 = 1) ∧
        ∃ o, o ∈ c.warpOp.body.ops ∧ o.isTransferWrite = false) →
      ∃ pre' post',
        tryExtractOp c writePos = RewriteResult.success
          ⟨pre' ++ [Item.warp (regionWithoutStore c writePos vector vector.ty),
              Item.warp (storeOnlyRegion c writeOp vector rest),
              Item.bodyless c.warpOp.toWarpHeader] ++ post', c.nextId + 4⟩ ∧
        ∀ i, i < c.warpOp.getNumResults →
          List.Forall₂ (SlotsRewired (c.warpOp.getResult i)
            ((regionWithoutStore c writePos vector vector.ty).getResult i)) c.pre pre' ∧
          List.Forall₂ (SlotsRewired (c.warpOp.getResult i)
            ((regionWithoutStore c writePos vector vector.ty).getResult i)) c.post post') ∧
    (¬ ((shape.length = 1 ∧ shape.headD 0 = 1) ∧
        ∃ o, o ∈ c.warpOp.body.ops ∧ o.isTransferWrite = false) →
      tryExtractOp c writePos = RewriteResult.failure c.program) := by
  have hvec : ∀ v, v ∈ [vector] → v ∈ (Item.warp c.warpOp).operandValues := by
    intro v hv
    rw [List.mem_singleton] at hv
    subst hv
    exact body_operand_mem c.warpOp writePos writeOp _ hop (by rw [hoperands]; simp)
  have hsucc : ((shape.length = 1 ∧ shape.headD 0 = 1) ∧
        ∃ o, o ∈ c.warpOp.body.ops ∧ o.isTransferWrite = false) →
      ∃ pre' post',
        tryExtractOp c writePos = RewriteResult.success
          ⟨pre' ++ [Item.warp (regionWithoutStore c writePos vector vector.ty),
              Item.warp (storeOnlyRegion c writeOp vector rest),
              Item.bodyless c.warpOp.toWarpHeader] ++ post', c.nextId + 4⟩ ∧
        ∀ i, i < c.warpOp.getNumResults →
          List.Forall₂ (SlotsRewired (c.warpOp.getResult i)
            ((regionWithoutStore c writePos vector vector.ty).getResult i)) c.pre pre' ∧
          List.Forall₂ (SlotsRewired (c.warpOp.getResult i)
            ((regionWithoutStore c writePos vector vector.ty).getResult i)) c.post post' := by
    rintro ⟨⟨h1, h2⟩, o, ho, hnw⟩
    have hall : c.warpOp.body.ops.all Operation.isTransferWrite = false := by
      rw [List.all_eq_false]
      exact ⟨o, ho, by simp [hnw]⟩
    refine ⟨(moveRegionToNewWarpOpAndAppendReturns c [vector] [vector.ty]).pre,
      (moveRegionToNewWarpOpAndAppendReturns c [vector] [vector.ty]).post, ?_, ?_⟩
    · simp only [tryExtractOp, hop, hoperands, hty, h1, h2, hall, extractRewrite]
      rw [← hty, appendReturns_newWarpOp_dom c _ _ hdom hvec]
      simp only [moveRegionToNewWarpOpAndReplaceReturns, hop, hoperands]
      simp [Moved.program, Moved.items, Moved.create, Moved.eraseBodyOp, appendReturns_mid,
        appendReturns_nextId, appendReturns_oldWarpOp_dom c _ _ hdom,
        appendReturns_newWarpOp_dom c _ _ hdom hvec, moveRegionToNewWarpOpAndReplaceReturns,
        regionWithoutStore, storeOnlyRegion, WarpOp.getResult, WarpHeader.getResult,
        WarpOp.getNumResults]
    · intro i hi
      rw [appendReturns_pre, appendReturns_post]
      constructor
      · apply slotsRewired_map
        exact resultSubst_old _ _ _ _ hi
      · apply slotsRewired_map
        exact resultSubst_old _ _ _ _ hi
  have hfail : ¬ ((shape.length = 1 ∧ shape.headD 0 = 1) ∧
        ∃ o, o ∈ c.warpOp.body.ops ∧ o.isTransferWrite = false) →
      tryExtractOp c writePos = RewriteResult.failure c.program := by
    intro hn
    simp only [tryExtractOp, hop, hoperands, hty]
    by_cases hs : shape.length = 1 ∧ shape.headD 0 = 1
    · have hall : c.warpOp.body.ops.all Operation.isTransferWrite = true := by
        rw [List.all_eq_true]
        intro o ho
        by_contra hno
        exact hn ⟨hs, o, ho, by simpa using hno⟩
      simp [hs.1, hs.2, hall]
    · have : (shape.length ≠ 1 || shape.headD 0 ≠ 1) = true := by
        simp only [ne_eq, Bool.or_eq_true, decide_eq_true_eq]
        by_cases h1 : shape.length = 1
        · exact Or.inr (fun h2 => hs ⟨h1, h2⟩)
        · exact Or.inl h1
      rw [if_pos this]
  refine ⟨⟨?_, ?_⟩, hsucc, hfail⟩
  · rintro ⟨p', hp⟩
    by_contra hn
    rw [hfail hn] at hp
    cases hp
  · intro hc
    obtain ⟨pre', post', hp, _⟩ := hsucc hc
    exact ⟨_, hp⟩

/-- Instance of `writeExtraction_structure`: the store of a `vector<1xf32>` in a
body that also holds the definition of the vector. -/
theorem writeExtraction_structure_witness :
    ((∃ p', tryExtractOp (writeScenario 1) 1 = RewriteResult.success p') ↔
      (([1] : List Int).length = 1 ∧ ([1] : List Int).headD 0 = 1) ∧
        ∃ o, o ∈ (writeScenario 1).warpOp.body.ops ∧ o.isTransferWrite = false) ∧
    ((([1] : List Int).length = 1 ∧ ([1] : List Int).headD 0 = 1) ∧
        ∃ o, o ∈ (writeScenario 1).warpOp.body.ops ∧ o.isTransferWrite = false) ∧
    tryExtractOp (writeScenario 1) 1 = RewriteResult.success
      ⟨(writeScenario 1).pre ++
        [Item.warp (regionWithoutStore (writeScenario 1) 1
            ⟨ValueDef.opResult 5 0, vectorF32 1⟩ (vectorF32 1)),
          Item.warp (storeOnlyRegion (writeScenario 1) (writeScenarioOp 1)
            ⟨ValueDef.opResult 5 0, vectorF32 1⟩
            [⟨ValueDef.opResult 1 0, Ty.memref [128] (ScalarType.float 32)⟩,
              ⟨ValueDef.opResult 2 0, indexTy⟩]),
          Item.bodyless (writeScenario 1).warpOp.toWarpHeader], 11⟩ :=
  ⟨(writeExtraction_structure (writeScenario 1) 1 (writeScenarioOp 1)
      ⟨ValueDef.opResult 5 0, vectorF32 1⟩
      [⟨ValueDef.opResult 1 0, Ty.memref [128] (ScalarType.float 32)⟩,
        ⟨ValueDef.opResult 2 0, indexTy⟩] [1] (ScalarType.float 32)
      (by decide) (by decide) (by decide) (by decide)).1,
    ⟨by decide, opaqueOp 5 "some_def" [] [vectorF32 1], by decide, by decide⟩,
    by decide⟩

theorem laneOffsetExpr_eval (scale index lane : Int) :
    (laneOffsetExpr scale).eval [index, lane] = index + scale * lane := by
  simp [laneOffsetExpr, AffineExpr.eval]

/-- The index rewriting loop on one pair of dimension expressions. -/
theorem distributeIndices_single (distShape : List Int) (laneid : Value) (p position : Nat)
    (st : IndexState) (index : Value) (scale : Int)
    (hindex : st.indices[p]? = some index) (hscale : distShape[position]? = some scale) :
    distributeIndices distShape laneid [(AffineExpr.dim p, AffineExpr.dim position)] st =
      some
        { indices := st.indices.set p ((laneOffsetApply st.nextId scale index laneid).getResult 0)
          created := st.created ++ [Item.op (laneOffsetApply st.nextId scale index laneid)]
          nextId := st.nextId + 1 } := by
  simp only [distributeIndices, hindex, hscale, laneOffsetApply]

/-- C18: for a store under SSA dominance whose vector has, at the dimension `d`
the distribution map selects, an extent `e` that the ratio `r` divides,
`tryDistributeOp` succeeds.  The new region has one more result that yields the
stored vector, at the type of the vector with the extent `e / r` at `d`, and no
longer holds the store.  After it come the `affine.apply` that computes
`index + (e / r) * laneid` for the index at the memory position `p` the
permutation map gives for `d`, and the rebuilt store, which writes the last
result of the new region to the same destination, with the index at `p`
replaced and every other index, the mask, the kind and the attributes kept. -/
theorem writeDistribution_structure (ratio : Int) (c : WarpContext) (map : AffineMap)
    (writePos : Nat) (writeOp : Operation) (perm : AffineMap) (hasMask : Bool)
    (inBounds : Option (List Bool)) (vector dest : Value) (rest : List Value)
    (shape : List Int) (e : ScalarType) (position : Nat) (extent : Int) (p : Nat)
    (index : Value)
    (hdom : ∀ i, i < c.warpOp.getNumResults →
      c.warpOp.getResult i ∉ (Item.warp c.warpOp).operandValues)
    (hop : c.warpOp.body.ops[writePos]? = some writeOp)
    (hkind : writeOp.kind = OpKind.transferWrite perm hasMask inBounds)
    (hoperands : writeOp.operands = vector :: dest :: rest)
    (hty : vector.ty = Ty.vector shape e)
    (hmap : map.results = [AffineExpr.dim position])
    (hdims : map.numDims = perm.results.length)
    (hextent : shape[position]? = some extent)
    (hdiv : Int.tmod extent ratio = 0)
    (hperm : perm.results[position]? = some (AffineExpr.dim p))
    (hindex : (rest.take (rest.length - (if hasMask then 1 else 0)))[p]? = some index) :
    ∃ pre' post',
      tryDistributeOp ratio c map writePos = RewriteResult.success
        ⟨pre' ++
          [Item.warp (regionWithoutStore c writePos vector
              (Ty.vector (shape.set position (Int.tdiv extent ratio)) e)),
            Item.op (laneOffsetApply (c.nextId + 2) (Int.tdiv extent ratio) index
              c.warpOp.laneid),
            Item.op
              { id := c.nextId + 1
                kind := writeOp.kind
                operands :=
                  (regionWithoutStore c writePos vector
                      (Ty.vector (shape.set position (Int.tdiv extent ratio)) e)).getResult
                    c.warpOp.getNumResults ::
                  dest ::
                  (rest.take (rest.length - (if hasMask then 1 else 0))).set p
                    ((laneOffsetApply (c.nextId + 2) (Int.tdiv extent ratio) index
                      c.warpOp.laneid).getResult 0) ++
                  rest.drop (rest.length - (if hasMask then 1 else 0))
                resultTypes := writeOp.resultTypes },
            Item.bodyless c.warpOp.toWarpHeader] ++ post', c.nextId + 3⟩ ∧
      Int.tdiv extent ratio * ratio = extent ∧
      (∀ x lane : Int,
        (laneOffsetExpr (Int.tdiv extent ratio)).eval [x, lane] =
          x + Int.tdiv extent ratio * lane) ∧
      ∀ i, i < c.warpOp.getNumResults →
        List.Forall₂ (SlotsRewired (c.warpOp.getResult i)
          ((regionWithoutStore c writePos vector
            (Ty.vector (shape.set position (Int.tdiv extent ratio)) e)).getResult i))
          c.pre pre' ∧
        List.Forall₂ (SlotsRewired (c.warpOp.getResult i)
          ((regionWithoutStore c writePos vector
            (Ty.vector (shape.set position (Int.tdiv extent ratio)) e)).getResult i))
          c.post post' := by
  have hvec : ∀ v, v ∈ [vector] → v ∈ (Item.warp c.warpOp).operandValues := by
    intro v hv
    rw [List.mem_singleton] at hv
    subst hv
    exact body_operand_mem c.warpOp writePos writeOp _ hop (by rw [hoperands]; simp)
  have hpos : position < shape.length := (List.getElem?_eq_some_iff.1 hextent).1
  have hscale : (shape.set position (Int.tdiv extent ratio))[position]? =
      some (Int.tdiv extent ratio) := by
    simp [List.getElem?_set, hpos]
  have hposp : position < perm.results.length := (List.getElem?_eq_some_iff.1 hperm).1
  have hgetD : perm.results.getD position (AffineExpr.dim position) = AffineExpr.dim p := by
    rw [List.getD_eq_getElem?_getD, hperm]; rfl
  refine ⟨(moveRegionToNewWarpOpAndAppendReturns c [vector]
      [Ty.vector (shape.set position (Int.tdiv extent ratio)) e]).pre,
    (moveRegionToNewWarpOpAndAppendReturns c [vector]
      [Ty.vector (shape.set position (Int.tdiv extent ratio)) e]).post, ?_, ?_, ?_, ?_⟩
  · simp only [tryDistributeOp, hop, hkind, hoperands, hty, hmap, hextent, hdiv, ne_eq,
      not_true_eq_false, if_false, distributeRewrite]
    rw [appendReturns_newWarpOp_dom c _ _ hdom hvec]
    simp only [moveRegionToNewWarpOpAndReplaceReturns, hop, hoperands, AffineMap.compose,
      hdims, ne_eq, not_true_eq_false, if_false, hmap, List.map_cons, List.map_nil,
      AffineExpr.replaceDims, hgetD, List.zip_cons_cons, List.zip_nil_right]
    rw [distributeIndices_single _ _ _ _ _ index _ hindex hscale]
    simp [Moved.program, Moved.items, Moved.create, Moved.eraseBodyOp, appendReturns_mid,
      appendReturns_nextId, appendReturns_oldWarpOp_dom c _ _ hdom,
      appendReturns_newWarpOp_dom c _ _ hdom hvec, moveRegionToNewWarpOpAndReplaceReturns,
      regionWithoutStore, WarpOp.getResult, WarpHeader.getResult, WarpOp.getNumResults,
      hkind]
  · exact Int.tdiv_mul_cancel (Int.dvd_of_tmod_eq_zero hdiv)
  · intro x lane
    exact laneOffsetExpr_eval _ _ _
  · intro i hi
    rw [appendReturns_pre, appendReturns_post]
    constructor
    · apply slotsRewired_map
      exact resultSubst_old _ _ _ _ hi
    · apply slotsRewired_map
      exact resultSubst_old _ _ _ _ hi

/-- Instance of `writeDistribution_structure`: the store of a `vector<64xf32>`
with the ratio 32; the new result has type `vector<2xf32>` and the index becomes
`index + 2 * laneid`. -/
theorem writeDistribution_structure_witness :
    tryDistributeOp 32 (writeScenario 64) identityMap1 1 = RewriteResult.success
      ⟨(writeScenario 64).pre ++
        [Item.warp (regionWithoutStore (writeScenario 64) 1
            ⟨ValueDef.opResult 5 0, vectorF32 64⟩ (vectorF32 2)),
          Item.op (laneOffsetApply 9 2 ⟨ValueDef.opResult 2 0, indexTy⟩ exampleLaneId),
          Item.op
            { id := 8
              kind := OpKind.transferWrite identityMap1 false none
              operands :=
                [ ⟨ValueDef.opResult 7 0, vectorF32 2⟩,
                  ⟨ValueDef.opResult 1 0, Ty.memref [128] (ScalarType.float 32)⟩,
                  ⟨ValueDef.opResult 9 0, indexTy⟩ ]
              resultTypes := [] },
          Item.bodyless (writeScenario 64).warpOp.toWarpHeader], 10⟩ ∧
    ∃ pre' post',
      tryDistributeOp 32 (writeScenario 64) identityMap1 1 = RewriteResult.success
        ⟨pre' ++
          [Item.warp (regionWithoutStore (writeScenario 64) 1
              ⟨ValueDef.opResult 5 0, vectorF32 64⟩
              (Ty.vector (([64] : List Int).set 0 (Int.tdiv 64 32)) (ScalarType.float 32))),
            Item.op (laneOffsetApply ((writeScenario 64).nextId + 2) (Int.tdiv 64 32)
              ⟨ValueDef.opResult 2 0, indexTy⟩ (writeScenario 64).warpOp.laneid),
            Item.op
              { id := (writeScenario 64).nextId + 1
                kind := (writeScenarioOp 64).kind
                operands :=
                  (regionWithoutStore (writeScenario 64) 1
                      ⟨ValueDef.opResult 5 0, vectorF32 64⟩
                      (Ty.vector (([64] : List Int).set 0 (Int.tdiv 64 32))
                        (ScalarType.float 32))).getResult
                    (writeScenario 64).warpOp.getNumResults ::
                  ⟨ValueDef.opResult 1 0, Ty.memref [128] (ScalarType.float 32)⟩ ::
                  ([(⟨ValueDef.opResult 2 0, indexTy⟩ : Value)].take
                    ([(⟨ValueDef.opResult 2 0, indexTy⟩ : Value)].length -
                      (if false = true then 1 else 0))).set 0
                    ((laneOffsetApply ((writeScenario 64).nextId + 2) (Int.tdiv 64 32)
                      ⟨ValueDef.opResult 2 0, indexTy⟩
                      (writeScenario 64).warpOp.laneid).getResult 0) ++
                  [(⟨ValueDef.opResult 2 0, indexTy⟩ : Value)].drop
                    ([(⟨ValueDef.opResult 2 0, indexTy⟩ : Value)].length -
                      (if false = true then 1 else 0))
                resultTypes := (writeScenarioOp 64).resultTypes },
            Item.bodyless (writeScenario 64).warpOp.toWarpHeader] ++ post',
          (writeScenario 64).nextId + 3⟩ ∧
      Int.tdiv 64 32 * 32 = 64 ∧
      (∀ x lane : Int,
        (laneOffsetExpr (Int.tdiv 64 32)).eval [x, lane] = x + Int.tdiv 64 32 * lane) ∧
      ∀ i, i < (writeScenario 64).warpOp.getNumResults →
        List.Forall₂ (SlotsRewired ((writeScenario 64).warpOp.getResult i)
          ((regionWithoutStore (writeScenario 64) 1 ⟨ValueDef.opResult 5 0, vectorF32 64⟩
            (Ty.vector (([64] : List Int).set 0 (Int.tdiv 64 32))
              (ScalarType.float 32))).getResult i))
          (writeScenario 64).pre pre' ∧
        List.Forall₂ (SlotsRewired ((writeScenario 64).warpOp.getResult i)
          ((regionWithoutStore (writeScenario 64) 1 ⟨ValueDef.opResult 5 0, vectorF32 64⟩
            (Ty.vector (([64] : List Int).set 0 (Int.tdiv 64 32))
              (ScalarType.float 32))).getResult i))
          (writeScenario 64).post post' :=
  ⟨by decide,
    writeDistribution_structure 32 (writeScenario 64) identityMap1 1 (writeScenarioOp 64)
      identityMap1 false none ⟨ValueDef.opResult 5 0, vectorF32 64⟩
      ⟨ValueDef.opResult 1 0, Ty.memref [128] (ScalarType.float 32)⟩
      [⟨ValueDef.opResult 2 0, indexTy⟩] [64] (ScalarType.float 32) 0 64 0
      ⟨ValueDef.opResult 2 0, indexTy⟩
      (by decide) (by decide) (by decide) (by decide) (by decide) (by decide) (by decide)
      (by decide) (by decide) (by decide) (by decide)⟩

/-! ## Broadcast sink: facts -/

/-- The operands of an operation of the body are operand slots of the region. -/
theorem body_operand_mem_of_mem (w : WarpOp) (o : Operation) (v : Value)
    (ho : o ∈ w.body.ops) (hv : v ∈ o.operands) : v ∈ (Item.warp w).operandValues := by
  simp only [Item.operandValues, Block.operandValues, List.mem_append, List.mem_flatten,
    List.mem_map]
  exact Or.inr (Or.inl ⟨o.operands, ⟨o, ho, rfl⟩, hv⟩)

/-- An operand slot of a region whose next identifier is unused holds no result
of the operation created next. -/
theorem nextIdUnused_ne (c : WarpContext) (h : c.nextIdUnused = true) (v : Value)
    (hv : v ∈ (Item.warp c.warpOp).operandValues) (i : Nat) (t : Ty) :
    v ≠ ⟨ValueDef.opResult c.nextId i, t⟩ := by
  intro e
  subst e
  simp only [WarpContext.nextIdUnused, List.all_eq_true] at h
  have := h _ hv
  simp at this

/-- The operand slots of the region moved to a new operation with more yield
operands, when these are operand slots of the old region. -/
theorem replaceReturns_operand_mem (c : WarpContext) (vs : List Value) (ts : List Ty)
    (hvs : ∀ v, v ∈ vs → v ∈ (Item.warp c.warpOp).operandValues) (v : Value)
    (hv : v ∈ (Item.warp (moveRegionToNewWarpOpAndReplaceReturns c
      (c.warpOp.body.yieldOperands ++ vs) ts).newWarpOp).operandValues) :
    v ∈ (Item.warp c.warpOp).operandValues := by
  simp only [Item.operandValues, WarpHeader.operandValues, Block.operandValues,
    moveRegionToNewWarpOpAndReplaceReturns, List.mem_append, List.mem_cons] at hv ⊢
  rcases hv with (h | h) | h | h | h
  · exact Or.inl (Or.inl h)
  · exact Or.inl (Or.inr h)
  · exact Or.inr (Or.inl h)
  · exact Or.inr (Or.inr h)
  · have := hvs _ h
    simpa only [Item.operandValues, WarpHeader.operandValues, Block.operandValues,
      List.mem_append, List.mem_cons] using this

/-- C13: for a broadcast of the body matched at result `i` of a region whose
result `i` has a vector type, the pattern succeeds.  The new region has the
results and yield operands of the old one and exactly one more result, which
yields the source of the broadcast at the type of the source; a broadcast of
that last result to the type of result `i` is created after the new region; and
every operand slot before or after the region that held result `i` holds the
result of that broadcast. -/
theorem broadcastSink_structure (c : WarpContext) (operandNumber : Nat)
    (broadcastOp : Operation) (source : Value) (others : List Value)
    (shape : List Int) (e : ScalarType)
    (harity : c.warpOp.arityOk)
    (hdom : ∀ i, i < c.warpOp.getNumResults →
      c.warpOp.getResult i ∉ (Item.warp c.warpOp).operandValues)
    (hfresh : c.nextIdUnused = true)
    (hmatch : getWarpResult c.items c.warpOp Item.isBroadcast = some operandNumber)
    (hdef : getDefiningOp c.items (c.warpOp.body.yieldOperands.getD operandNumber default)
      = some (Item.op broadcastOp))
    (hbody : broadcastOp ∈ c.warpOp.body.ops)
    (hoperands : broadcastOp.operands = source :: others)
    (hty : c.warpOp.resultTypes.getD operandNumber default = Ty.vector shape e) :
    ∃ pre' newWarpOp newOp post',
      WarpOpBroadcast.matchAndRewrite c = RewriteResult.success
        ⟨pre' ++ [Item.warp newWarpOp, Item.op newOp, Item.bodyless c.warpOp.toWarpHeader] ++
          post', c.nextId + 2⟩ ∧
      newWarpOp.resultTypes = c.warpOp.resultTypes ++ [source.ty] ∧
      newWarpOp.body.yieldOperands = c.warpOp.body.yieldOperands ++ [source] ∧
      newWarpOp.body.ops = c.warpOp.body.ops ∧
      newOp.kind = OpKind.broadcast ∧
      newOp.operands = [newWarpOp.getResult c.warpOp.getNumResults] ∧
      newOp.resultTypes = [(c.warpOp.getResult operandNumber).ty] ∧
      List.Forall₂ (SlotsRewired (c.warpOp.getResult operandNumber) (newOp.getResult 0))
        c.pre pre' ∧
      List.Forall₂ (SlotsRewired (c.warpOp.getResult operandNumber) (newOp.getResult 0))
        c.post post' := by
  have hidx : operandNumber < c.warpOp.getNumResults := by
    obtain ⟨v, hv, _⟩ := ((getWarpResult_spec c.items c.warpOp _).1 operandNumber).1 hmatch
    have := (List.getElem?_eq_some_iff.1 hv).1
    unfold WarpOp.getNumResults
    rw [harity]; exact this
  have hsrc : ∀ v, v ∈ [source] → v ∈ (Item.warp c.warpOp).operandValues := by
    intro v hv
    rw [List.mem_singleton] at hv
    subst hv
    exact body_operand_mem_of_mem c.warpOp broadcastOp _ hbody (by rw [hoperands]; simp)
  have hnew := appendReturns_newWarpOp_dom c [source] [source.ty] hdom hsrc
  have hold := appendReturns_oldWarpOp_dom c [source] [source.ty] hdom
  have hfixNew : ∀ (x : Value),
      (moveRegionToNewWarpOpAndReplaceReturns c (c.warpOp.body.yieldOperands ++ [source])
        (c.warpOp.resultTypes ++ [source.ty])).newWarpOp.mapOperands
        (Value.replaceUse ((moveRegionToNewWarpOpAndReplaceReturns c
          (c.warpOp.body.yieldOperands ++ [source])
          (c.warpOp.resultTypes ++ [source.ty])).newWarpOp.getResult operandNumber) x) =
      (moveRegionToNewWarpOpAndReplaceReturns c (c.warpOp.body.yieldOperands ++ [source])
        (c.warpOp.resultTypes ++ [source.ty])).newWarpOp := by
    intro x
    apply warpOp_mapOperands_fix
    intro v hv
    have hv' : v ∈ (Item.warp c.warpOp).operandValues :=
      replaceReturns_operand_mem c [source] _ hsrc v hv
    unfold Value.replaceUse
    rw [if_neg]
    exact nextIdUnused_ne c hfresh v hv' _ _
  have hfixOld : ∀ (x : Value),
      c.warpOp.toWarpHeader.mapOperands
        (Value.replaceUse ((moveRegionToNewWarpOpAndReplaceReturns c
          (c.warpOp.body.yieldOperands ++ [source])
          (c.warpOp.resultTypes ++ [source.ty])).newWarpOp.getResult operandNumber) x) =
      c.warpOp.toWarpHeader := by
    intro x
    apply warpHeader_mapOperands_fix
    intro v hv
    unfold Value.replaceUse
    rw [if_neg]
    refine nextIdUnused_ne c hfresh v ?_ _ _
    simp only [Item.operandValues, List.mem_append]
    exact Or.inl hv
  refine ⟨(moveRegionToNewWarpOpAndAppendReturns c [source] [source.ty]).pre.map
      (Item.mapOperands (Value.replaceUse
        ((moveRegionToNewWarpOpAndAppendReturns c [source] [source.ty]).newWarpOp.getResult
          operandNumber)
        ⟨ValueDef.opResult (c.nextId + 1) 0, Ty.vector shape e⟩)),
    (moveRegionToNewWarpOpAndReplaceReturns c (c.warpOp.body.yieldOperands ++ [source])
      (c.warpOp.resultTypes ++ [source.ty])).newWarpOp,
    { id := c.nextId + 1
      kind := OpKind.broadcast
      operands := [(moveRegionToNewWarpOpAndReplaceReturns c
        (c.warpOp.body.yieldOperands ++ [source])
        (c.warpOp.resultTypes ++ [source.ty])).newWarpOp.getResult c.warpOp.getNumResults]
      resultTypes := [Ty.vector shape e] },
    (moveRegionToNewWarpOpAndAppendReturns c [source] [source.ty]).post.map
      (Item.mapOperands (Value.replaceUse
        ((moveRegionToNewWarpOpAndAppendReturns c [source] [source.ty]).newWarpOp.getResult
          operandNumber)
        ⟨ValueDef.opResult (c.nextId + 1) 0, Ty.vector shape e⟩)),
    ?_, rfl, rfl, rfl, rfl, rfl, ?_, ?_, ?_⟩
  · simp only [WarpOpBroadcast.matchAndRewrite, hmatch, hdef, hty, hoperands, broadcastRewrite]
    simp only [Moved.program, Moved.items, Moved.create, Moved.replaceAllUsesWith,
      Moved.mapOperands, appendReturns_mid, appendReturns_nextId, hold, hnew, hfixNew, hfixOld,
      Operation.getResult, List.getD_cons_zero, List.nil_append, List.map_cons, List.map_nil,
      Item.mapOperands, Operation.mapOperands]
    have hlast : (moveRegionToNewWarpOpAndReplaceReturns c
          (c.warpOp.body.yieldOperands ++ [source])
          (c.warpOp.resultTypes ++ [source.ty])).newWarpOp.getNumResults - 1 =
        c.warpOp.getNumResults := by
      simp [WarpOp.getNumResults, moveRegionToNewWarpOpAndReplaceReturns]
    have hne : (moveRegionToNewWarpOpAndReplaceReturns c
          (c.warpOp.body.yieldOperands ++ [source])
          (c.warpOp.resultTypes ++ [source.ty])).newWarpOp.getResult c.warpOp.getNumResults ≠
        (moveRegionToNewWarpOpAndReplaceReturns c
          (c.warpOp.body.yieldOperands ++ [source])
          (c.warpOp.resultTypes ++ [source.ty])).newWarpOp.getResult operandNumber := by
      intro e
      simp only [WarpOp.getResult, WarpHeader.getResult, Value.mk.injEq,
        ValueDef.opResult.injEq] at e
      omega
    rw [hlast]
    simp [Value.replaceUse, hne]
  · simp only [WarpOp.getResult, WarpHeader.getResult, hty]
  · rw [appendReturns_pre, map_mapOperands_comp]
    apply slotsRewired_map
    show Value.replaceUse _ _ (resultSubst c.warpOp.toWarpHeader _ _
      (c.warpOp.toWarpHeader.getResult operandNumber)) = _
    rw [resultSubst_old _ _ _ _ hidx, hnew]
    simp [Value.replaceUse, Operation.getResult, WarpOp.getResult]
  · rw [appendReturns_post, map_mapOperands_comp]
    apply slotsRewired_map
    show Value.replaceUse _ _ (resultSubst c.warpOp.toWarpHeader _ _
      (c.warpOp.toWarpHeader.getResult operandNumber)) = _
    rw [resultSubst_old _ _ _ _ hidx, hnew]
    simp [Value.replaceUse, Operation.getResult, WarpOp.getResult]

/-- Instance of `broadcastSink_structure`: the broadcast scenario.  The new
region (operation 6) has the second result of type `f32`; the broadcast is
rebuilt after it as operation 7, and the use refers to it. -/
theorem broadcastSink_structure_witness :
    WarpOpBroadcast.matchAndRewrite broadcastScenario = RewriteResult.success
      ⟨broadcastScenario.pre ++
        [Item.warp (moveRegionToNewWarpOpAndReplaceReturns broadcastScenario
            (broadcastScenario.warpOp.body.yieldOperands ++ [⟨ValueDef.opResult 3 0, f32⟩])
            (broadcastScenario.warpOp.resultTypes ++ [f32])).newWarpOp,
          Item.op
            { id := 7
              kind := OpKind.broadcast
              operands := [⟨ValueDef.opResult 6 1, f32⟩]
              resultTypes := [vectorF32 4] },
          Item.bodyless broadcastScenario.warpOp.toWarpHeader,
          Item.op (opaqueOp 5 "some_use" [⟨ValueDef.opResult 7 0, vectorF32 4⟩] [])], 8⟩ ∧
    ∃ pre' newWarpOp newOp post',
      WarpOpBroadcast.matchAndRewrite broadcastScenario = RewriteResult.success
        ⟨pre' ++ [Item.warp newWarpOp, Item.op newOp,
            Item.bodyless broadcastScenario.warpOp.toWarpHeader] ++
          post', broadcastScenario.nextId + 2⟩ ∧
      newWarpOp.resultTypes = broadcastScenario.warpOp.resultTypes ++
        [(⟨ValueDef.opResult 3 0, f32⟩ : Value).ty] ∧
      newWarpOp.body.yieldOperands = broadcastScenario.warpOp.body.yieldOperands ++
        [⟨ValueDef.opResult 3 0, f32⟩] ∧
      newWarpOp.body.ops = broadcastScenario.warpOp.body.ops ∧
      newOp.kind = OpKind.broadcast ∧
      newOp.operands = [newWarpOp.getResult broadcastScenario.warpOp.getNumResults] ∧
      newOp.resultTypes = [(broadcastScenario.warpOp.getResult 0).ty] ∧
      List.Forall₂ (SlotsRewired (broadcastScenario.warpOp.getResult 0) (newOp.getResult 0))
        broadcastScenario.pre pre' ∧
      List.Forall₂ (SlotsRewired (broadcastScenario.warpOp.getResult 0) (newOp.getResult 0))
        broadcastScenario.post post' :=
  ⟨by decide,
    broadcastSink_structure broadcastScenario 0 broadcastScenarioOp
      ⟨ValueDef.opResult 3 0, f32⟩ [] [4] (ScalarType.float 32)
      (by decide) (by decide) (by decide) (by decide) (by decide) (by decide) (by decide)
      (by decide)⟩

/-! ## Operand forwarding: facts -/

theorem forwardCandidate_unique (items : List Item) (w : WarpOp) (operand : Value) (i : Nat)
    (v v' : Value) (h : ForwardCandidate items w operand i v)
    (h' : ForwardCandidate items w operand i v') : v = v' := by
  obtain ⟨_, h | h⟩ := h <;> obtain ⟨_, h' | h'⟩ := h'
  · rw [h.2.2, h'.2.2]
  · rw [h.1] at h'; cases h'.1
  · rw [h'.1] at h; cases h.1
  · obtain ⟨_, b, a, ho, ha, _⟩ := h
    obtain ⟨_, b', a', ho', ha', _⟩ := h'
    rw [ho] at ho'
    cases ho'
    rw [ha] at ha'
    exact Option.some.inj ha'

/-- A forwardable operand ends the search. -/
theorem forwardSearch_cons_found (items : List Item) (w : WarpOp) (operand : Value)
    (rest : List Value) (i : Nat) (v : Value) (h : ForwardCandidate items w operand i v) :
    forwardSearch items w (operand :: rest) i = ForwardSearch.found v i := by
  obtain ⟨hu, h | h⟩ := h
  · obtain ⟨hin, hty, rfl⟩ := h
    simp [forwardSearch, hu, hin, hty]
  · obtain ⟨hin, b, a, ho, ha, hty⟩ := h
    simp [forwardSearch, hu, hin, ho, ha, hty]

/-- The search goes past an operand that cannot be forwarded, provided a block
argument among the yield operands has a captured value. -/
theorem forwardSearch_cons_skip (items : List Item) (w : WarpOp) (operand : Value)
    (rest : List Value) (i : Nat)
    (hargs : ∀ b a, operand.origin = ValueDef.blockArg b a →
      w.isDefinedInRegion operand = true → a < w.args.length)
    (h : ∀ v, ¬ ForwardCandidate items w operand i v) :
    forwardSearch items w (operand :: rest) i = forwardSearch items w rest (i + 1) := by
  unfold ForwardCandidate at h
  simp only [forwardSearch]
  split
  · rfl
  · rename_i hu
    simp only [Bool.not_eq_true] at hu
    split
    · rename_i hin
      simp only [Bool.not_eq_true', ] at hin
      split
      · rfl
      · rename_i hty
        simp only [ne_eq, Decidable.not_not] at hty
        exact absurd ⟨hu, Or.inl ⟨hin, hty, rfl⟩⟩ (h operand)
    · rename_i hin
      simp only [Bool.not_eq_true', Bool.not_eq_false] at hin
      split
      · rename_i b a ho
        have ha := hargs b a ho hin
        split
        · rename_i hnone
          rw [List.getElem?_eq_none_iff] at hnone
          omega
        · rename_i warpOperand hsome
          split
          · rfl
          · rename_i hty
            simp only [ne_eq, Decidable.not_not] at hty
            exact absurd ⟨hu, Or.inr ⟨hin, b, a, ho, hsome, hty⟩⟩ (h warpOperand)
      · rfl

/-- The search loop finds the first forwardable yield operand, and nothing when
there is none. -/
theorem forwardSearch_spec (items : List Item) (w : WarpOp) (l : List Value)
    (hargs : ∀ operand, operand ∈ l → ∀ b a, operand.origin = ValueDef.blockArg b a →
      w.isDefinedInRegion operand = true → a < w.args.length) :
    ∀ k,
      (∀ v r, forwardSearch items w l k = ForwardSearch.found v r ↔
        ∃ j operand, l[j]? = some operand ∧ r = k + j ∧
          ForwardCandidate items w operand r v ∧
          ∀ j' o', j' < j → l[j']? = some o' →
            ∀ v', ¬ ForwardCandidate items w o' (k + j') v') ∧
      (forwardSearch items w l k = ForwardSearch.notFound ↔
        ∀ j o, l[j]? = some o → ∀ v, ¬ ForwardCandidate items w o (k + j) v) := by
  induction l with
  | nil =>
    intro k
    simp [forwardSearch]
  | cons a l ih =>
    intro k
    have ih' := ih (fun o ho => hargs o (List.mem_cons_of_mem a ho)) (k + 1)
    by_cases hc : ∃ v0, ForwardCandidate items w a k v0
    · obtain ⟨v0, hv0⟩ := hc
      rw [forwardSearch_cons_found items w a l k v0 hv0]
      constructor
      · intro v r
        constructor
        · intro h
          cases h
          exact ⟨0, a, by simp, rfl, hv0, fun j' o' hj' => absurd hj' (Nat.not_lt_zero j')⟩
        · rintro ⟨j, operand, hj, hr, hcand, hfirst⟩
          cases j with
          | zero =>
            simp only [List.getElem?_cons_zero, Option.some.injEq] at hj
            subst hj
            have hr' : r = k := by omega
            rw [hr'] at hcand ⊢
            rw [forwardCandidate_unique items w _ k v v0 hcand hv0]
          | succ j =>
            exact absurd hv0 (hfirst 0 a (Nat.succ_pos j) (by simp) v0)
      · constructor
        · intro h; cases h
        · intro h
          exact absurd hv0 (h 0 a (by simp) v0)
    · have hc' : ∀ v, ¬ ForwardCandidate items w a k v := fun v hv => hc ⟨v, hv⟩
      rw [forwardSearch_cons_skip items w a l k (hargs a (List.mem_cons_self a l)) hc']
      constructor
      · intro v r
        rw [ih'.1 v r]
        constructor
        · rintro ⟨j, operand, hj, hr, hcand, hfirst⟩
          refine ⟨j + 1, operand, by simpa using hj, by omega, hcand, ?_⟩
          intro j' o' hj' ho'
          cases j' with
          | zero =>
            simp only [List.getElem?_cons_zero, Option.some.injEq] at ho'
            subst ho'
            exact hc'
          | succ j' =>
            have := hfirst j' o' (by omega) (by simpa using ho')
            rw [show k + (j' + 1) = k + 1 + j' by omega]
            exact this
        · rintro ⟨j, operand, hj, hr, hcand, hfirst⟩
          cases j with
          | zero =>
            simp only [List.getElem?_cons_zero, Option.some.injEq] at hj
            subst hj
            have hr' : r = k := by omega
            rw [hr'] at hcand
            exact absurd hcand (hc' v)
          | succ j =>
            refine ⟨j, operand, by simpa using hj, by omega, hcand, ?_⟩
            intro j' o' hj' ho'
            have := hfirst (j' + 1) o' (by omega) (by simpa using ho')
            rw [show k + 1 + j' = k + (j' + 1) by omega]
            exact this
      · rw [ih'.2]
        constructor
        · intro h j o hj
          cases j with
          | zero =>
            simp only [List.getElem?_cons_zero, Option.some.injEq] at hj
            subst hj
            exact hc'
          | succ j =>
            have := h j o (by simpa using hj)
            rw [show k + (j + 1) = k + 1 + j by omega]
            exact this
        · intro h j o hj
          have := h (j + 1) o (by simpa using hj)
          rw [show k + 1 + j = k + (j + 1) by omega]
          exact this

/-- C16, as stated, fails.  In the first scenario the only yield operand is
defined outside the region and has the type of the result, but the result has
no use: the pattern skips it and reports failure.  In the second scenario the
yield operand is a block argument whose type `vector<32xf32>` differs from the
result type `vector<1xf32>`, and the pattern succeeds all the same, because it
compares the type of the captured value. -/
theorem operandForwarding_counterexample :
    ((forwardScenario []).warpOp.body.yieldOperands = [⟨ValueDef.opResult 1 0, f32⟩] ∧
      (forwardScenario []).warpOp.isDefinedInRegion ⟨ValueDef.opResult 1 0, f32⟩ = false ∧
      (⟨ValueDef.opResult 1 0, f32⟩ : Value).ty = ((forwardScenario []).warpOp.getResult 0).ty ∧
      WarpOpForwardOperand.matchAndRewrite (forwardScenario []) =
        RewriteResult.failure (forwardScenario []).program) ∧
    (forwardArgScenario.warpOp.body.yieldOperands = [⟨ValueDef.blockArg 3 0, vectorF32 32⟩] ∧
      (⟨ValueDef.blockArg 3 0, vectorF32 32⟩ : Value).ty ≠
        (forwardArgScenario.warpOp.getResult 0).ty ∧
      WarpOpForwardOperand.matchAndRewrite forwardArgScenario =
        RewriteResult.success
          (forwardArgScenario.mapOperands
            (Value.replaceUse (forwardArgScenario.warpOp.getResult 0)
              ⟨ValueDef.opResult 1 0, vectorF32 1⟩)).program) := by
  decide

/-- C16, amended: in a region whose yielded block arguments all have a captured
value, the pattern succeeds exactly when some yield operand can be forwarded,
that is, its result has a use and either the operand is defined outside the
region and has the type of the result, or it is a block argument whose captured
value has the type of the result.  With `i` the first such operand and `v` the
value to forward, every operand slot that held result `i` holds `v`, a slot that
held another result holds it still, and the region stays in place.  When no
operand can be forwarded the pattern fails and returns the program as it was. -/
theorem operandForwarding_first_used (c : WarpContext)
    (hargs : ∀ operand, operand ∈ c.warpOp.body.yieldOperands →
      ∀ b a, operand.origin = ValueDef.blockArg b a →
        c.warpOp.isDefinedInRegion operand = true → a < c.warpOp.args.length) :
    ((∃ p', WarpOpForwardOperand.matchAndRewrite c = RewriteResult.success p') ↔
      ∃ i operand v, c.warpOp.body.yieldOperands[i]? = some operand ∧
        ForwardCandidate c.items c.warpOp operand i v) ∧
    (∀ i operand v, c.warpOp.body.yieldOperands[i]? = some operand →
      ForwardCandidate c.items c.warpOp operand i v →
      (∀ j o, j < i → c.warpOp.body.yieldOperands[j]? = some o →
        ∀ v', ¬ ForwardCandidate c.items c.warpOp o j v') →
      ∃ pre' warpOp' post',
        WarpOpForwardOperand.matchAndRewrite c =
          RewriteResult.success ⟨pre' ++ [Item.warp warpOp'] ++ post', c.nextId⟩ ∧
        warpOp'.id = c.warpOp.id ∧ warpOp'.resultTypes = c.warpOp.resultTypes ∧
        List.Forall₂ (SlotsRewired (c.warpOp.getResult i) v) c.pre pre' ∧
        List.Forall₂ (SlotsRewired (c.warpOp.getResult i) v) c.post post' ∧
        ∀ k, k ≠ i →
          List.Forall₂ (SlotsRewired (c.warpOp.getResult k) (c.warpOp.getResult k)) c.pre pre' ∧
          List.Forall₂ (SlotsRewired (c.warpOp.getResult k) (c.warpOp.getResult k))
            c.post post') ∧
    ((∀ i operand v, c.warpOp.body.yieldOperands[i]? = some operand →
        ¬ ForwardCandidate c.items c.warpOp operand i v) →
      WarpOpForwardOperand.matchAndRewrite c = RewriteResult.failure c.program) := by
  obtain ⟨hfound, hnot⟩ := forwardSearch_spec c.items c.warpOp c.warpOp.body.yieldOperands hargs 0
  have hfirst : ∀ i operand v, c.warpOp.body.yieldOperands[i]? = some operand →
      ForwardCandidate c.items c.warpOp operand i v →
      (∀ j o, j < i → c.warpOp.body.yieldOperands[j]? = some o →
        ∀ v', ¬ ForwardCandidate c.items c.warpOp o j v') →
      forwardSearch c.items c.warpOp c.warpOp.body.yieldOperands 0 =
        ForwardSearch.found v i := by
    intro i operand v hi hcand hmin
    rw [hfound]
    refine ⟨i, operand, hi, by omega, hcand, ?_⟩
    intro j o hj ho
    rw [Nat.zero_add]
    exact hmin j o hj ho
  have hfail : (∀ i operand v, c.warpOp.body.yieldOperands[i]? = some operand →
        ¬ ForwardCandidate c.items c.warpOp operand i v) →
      WarpOpForwardOperand.matchAndRewrite c = RewriteResult.failure c.program := by
    intro h
    have : forwardSearch c.items c.warpOp c.warpOp.body.yieldOperands 0 =
        ForwardSearch.notFound := by
      rw [hnot]
      intro j o hj v
      rw [Nat.zero_add]
      exact h j o v hj
    simp only [WarpOpForwardOperand.matchAndRewrite, this]
  refine ⟨⟨?_, ?_⟩, ?_, hfail⟩
  · rintro ⟨p', hp⟩
    by_contra hn
    rw [hfail (fun i operand v hi hc => hn ⟨i, operand, v, hi, hc⟩)] at hp
    cases hp
  · rintro ⟨i, operand, v, hi, hcand⟩
    have hP : ∃ j, ∃ o w, c.warpOp.body.yieldOperands[j]? = some o ∧
        ForwardCandidate c.items c.warpOp o j w := ⟨i, operand, v, hi, hcand⟩
    classical
    obtain ⟨o, w, ho, hw⟩ := Nat.find_spec hP
    have hmin : ∀ j o', j < Nat.find hP → c.warpOp.body.yieldOperands[j]? = some o' →
        ∀ v', ¬ ForwardCandidate c.items c.warpOp o' j v' :=
      fun j o' hj ho' v' hv' => Nat.find_min hP hj ⟨o', v', ho', hv'⟩
    refine ⟨(c.mapOperands (Value.replaceUse (c.warpOp.getResult (Nat.find hP)) w)).program, ?_⟩
    simp only [WarpOpForwardOperand.matchAndRewrite, hfirst _ o w ho hw hmin]
  · intro i operand v hi hcand hmin
    refine ⟨c.pre.map (Item.mapOperands (Value.replaceUse (c.warpOp.getResult i) v)),
      c.warpOp.mapOperands (Value.replaceUse (c.warpOp.getResult i) v),
      c.post.map (Item.mapOperands (Value.replaceUse (c.warpOp.getResult i) v)),
      ?_, rfl, rfl, ?_, ?_, ?_⟩
    · simp only [WarpOpForwardOperand.matchAndRewrite, hfirst i operand v hi hcand hmin]
      rfl
    · exact slotsRewired_map _ _ _ (by simp [Value.replaceUse]) _
    · exact slotsRewired_map _ _ _ (by simp [Value.replaceUse]) _
    · intro k hk
      have hne : c.warpOp.getResult k ≠ c.warpOp.getResult i :=
        getResult_ne_of_ne c.warpOp.toWarpHeader hk
      exact ⟨slotsRewired_map _ _ _ (by simp [Value.replaceUse, hne]) _,
        slotsRewired_map _ _ _ (by simp [Value.replaceUse, hne]) _⟩

/-- Instance of `operandForwarding_first_used`: the region that yields its
captured argument; the captured `vector<1xf32>` value replaces the result. -/
theorem operandForwarding_first_used_witness :
    WarpOpForwardOperand.matchAndRewrite forwardArgScenario =
      RewriteResult.success
        ⟨forwardArgScenario.pre ++ [Item.warp forwardArgScenario.warpOp] ++
          [Item.op (opaqueOp 4 "some_use" [⟨ValueDef.opResult 1 0, vectorF32 1⟩] [])], 5⟩ ∧
    ((∃ p', WarpOpForwardOperand.matchAndRewrite forwardArgScenario =
        RewriteResult.success p') ↔
      ∃ i operand v, forwardArgScenario.warpOp.body.yieldOperands[i]? = some operand ∧
        ForwardCandidate forwardArgScenario.items forwardArgScenario.warpOp operand i v) :=
  ⟨by decide,
    (operandForwarding_first_used forwardArgScenario (by
      intro operand ho b a horigin _
      have h : operand = ⟨ValueDef.blockArg 3 0, vectorF32 32⟩ := by
        simpa [forwardArgScenario] using ho
      subst h
      cases horigin
      decide)).1⟩

/-! ## Dead result elimination: structure -/

/-- The rewriting of the second loop sends the old result listed at position `r`
to new result `k + r`. -/
theorem deadSubst_apply (old new : WarpOp)
    (hfresh : ∀ i r, new.getResult r ≠ old.getResult i) (l : List Nat) (hnd : l.Nodup) :
    ∀ (k r j : Nat), l[r]? = some j →
      deadSubst old new l k (old.getResult j) = new.getResult (k + r) := by
  induction l with
  | nil => intro k r j h; simp at h
  | cons a l ih =>
    intro k r j h
    rw [List.nodup_cons] at hnd
    simp only [deadSubst]
    cases r with
    | zero =>
      simp only [List.getElem?_cons_zero, Option.some.injEq] at h
      subst h
      simp only [Value.replaceUse, if_true]
      exact deadSubst_fix old new l _ _ (fun i _ => hfresh i k)
    | succ r =>
      have hj : l[r]? = some j := by simpa using h
      have hmem : j ∈ l := by
        obtain ⟨hlt, he⟩ := List.getElem?_eq_some_iff.1 hj
        exact he ▸ List.getElem_mem hlt
      have hne : old.getResult j ≠ old.getResult a := by
        apply getResult_ne_of_ne old.toWarpHeader
        intro e
        exact hnd.1 (e ▸ hmem)
      simp only [Value.replaceUse, hne, if_false]
      rw [ih hnd.2 (k + 1) r j hj]
      congr 1
      omega

/-- The region `WarpOpDeadResult` builds: the old region under the next unused
identifier with the used results only. -/
theorem deadResult_form (c : WarpContext)
    (harity : c.warpOp.arityOk)
    (hdom : ∀ i, i < c.warpOp.getNumResults →
      c.warpOp.getResult i ∉ (Item.warp c.warpOp).operandValues)
    (hid : c.warpOp.id ≠ c.nextId) :
    ∃ F : Value → Value,
      (∀ k i, c.usedResults[k]? = some i →
        F (c.warpOp.getResult i) =
          ⟨ValueDef.opResult c.nextId k, (c.warpOp.getResult i).ty⟩) ∧
      WarpOpDeadResult.matchAndRewrite c =
        if c.warpOp.body.yieldOperands.length = c.usedResults.length then
          RewriteResult.failure c.program
        else
          RewriteResult.success
            ⟨c.pre.map (Item.mapOperands F) ++
              [Item.warp (moveRegionToNewWarpOpAndReplaceReturns c
                (c.usedResults.map (fun i => c.warpOp.body.yieldOperands.getD i default))
                (c.usedResults.map (fun i => (c.warpOp.getResult i).ty))).newWarpOp] ++
              c.post.map (Item.mapOperands F), c.nextId + 1⟩ := by
  have hfresh : ∀ i r, (moveRegionToNewWarpOpAndReplaceReturns c
      (c.usedResults.map (fun i => c.warpOp.body.yieldOperands.getD i default))
      (c.usedResults.map (fun i => (c.warpOp.getResult i).ty))).newWarpOp.getResult r ≠
      c.warpOp.getResult i := by
    intro i r e
    simp only [WarpOp.getResult, WarpHeader.getResult, moveRegionToNewWarpOpAndReplaceReturns,
      Value.mk.injEq, ValueDef.opResult.injEq] at e
    exact hid e.1.1.symm
  have hsub : ∀ v, v ∈ c.usedResults.map (fun i => c.warpOp.body.yieldOperands.getD i default) →
      v ∈ c.warpOp.body.yieldOperands := by
    intro v hv
    rw [List.mem_map] at hv
    obtain ⟨j, hj, rfl⟩ := hv
    have hjn : j < c.warpOp.body.yieldOperands.length := by
      have := (List.mem_filter.1 hj).1
      rw [List.mem_range] at this
      unfold WarpOp.getNumResults at this
      rw [harity] at this
      exact this
    rw [List.getD_eq_getElem _ _ hjn]
    exact List.getElem_mem hjn
  have hfilter : (List.range c.warpOp.getNumResults).filter
      (fun i => !(useEmpty (moveRegionToNewWarpOpAndReplaceReturns c
        (c.usedResults.map (fun i => c.warpOp.body.yieldOperands.getD i default))
        (c.usedResults.map (fun i => (c.warpOp.getResult i).ty))).items
        (c.warpOp.getResult i))) = c.usedResults := by
    have hu : c.usedResults = (List.range c.warpOp.getNumResults).filter
        (fun i => !(useEmpty c.items (c.warpOp.getResult i))) := rfl
    conv_rhs => rw [hu]
    apply List.filter_congr
    intro i hi
    rw [List.mem_range] at hi
    rw [useEmpty_replaceReturns c _ _ _ (hdom i hi) hsub]
  refine ⟨deadSubst c.warpOp (moveRegionToNewWarpOpAndReplaceReturns c
      (c.usedResults.map (fun i => c.warpOp.body.yieldOperands.getD i default))
      (c.usedResults.map (fun i => (c.warpOp.getResult i).ty))).newWarpOp c.usedResults 0,
    ?_, ?_⟩
  · intro k i hk
    have hnd : c.usedResults.Nodup := List.Nodup.filter _ (List.nodup_range _)
    rw [deadSubst_apply _ _ hfresh c.usedResults hnd 0 k i hk]
    simp only [WarpOp.getResult, WarpHeader.getResult, moveRegionToNewWarpOpAndReplaceReturns,
      Nat.zero_add, Value.mk.injEq, true_and]
    rw [List.getD_eq_getElem?_getD, List.getElem?_map, hk]
    rfl
  · simp only [WarpOpDeadResult.matchAndRewrite]
    change (if c.warpOp.body.yieldOperands.length =
        (c.usedResults.map (fun i => c.warpOp.body.yieldOperands.getD i default)).length then _
      else _) = _
    rw [List.length_map]
    split
    · rfl
    · change RewriteResult.success (deadResultRewire c.warpOp
        (moveRegionToNewWarpOpAndReplaceReturns c
          (c.usedResults.map (fun i => c.warpOp.body.yieldOperands.getD i default))
          (c.usedResults.map (fun i => (c.warpOp.getResult i).ty))).newWarpOp
        (moveRegionToNewWarpOpAndReplaceReturns c
          (c.usedResults.map (fun i => c.warpOp.body.yieldOperands.getD i default))
          (c.usedResults.map (fun i => (c.warpOp.getResult i).ty)))).1.eraseOld = _
      unfold deadResultRewire
      rw [deadRewire_fold _ _ hfresh _ (List.nodup_range _), hfilter]
      have hfix : (moveRegionToNewWarpOpAndReplaceReturns c
            (c.usedResults.map (fun i => c.warpOp.body.yieldOperands.getD i default))
            (c.usedResults.map (fun i => (c.warpOp.getResult i).ty))).newWarpOp.mapOperands
            (deadSubst c.warpOp (moveRegionToNewWarpOpAndReplaceReturns c
              (c.usedResults.map (fun i => c.warpOp.body.yieldOperands.getD i default))
              (c.usedResults.map (fun i => (c.warpOp.getResult i).ty))).newWarpOp
              c.usedResults 0) =
          (moveRegionToNewWarpOpAndReplaceReturns c
            (c.usedResults.map (fun i => c.warpOp.body.yieldOperands.getD i default))
            (c.usedResults.map (fun i => (c.warpOp.getResult i).ty))).newWarpOp := by
        apply warpOp_mapOperands_fix
        intro v hv
        apply deadSubst_fix
        intro j hj e
        subst e
        have hjn : j < c.warpOp.getNumResults := by
          have := (List.mem_filter.1 hj).1
          rwa [List.mem_range] at this
        apply hdom j hjn
        simp only [Item.operandValues, WarpHeader.operandValues, Block.operandValues,
          moveRegionToNewWarpOpAndReplaceReturns, List.mem_append, List.mem_cons] at hv ⊢
        rcases hv with (h | h) | h | h
        · exact Or.inl (Or.inl h)
        · exact Or.inl (Or.inr h)
        · exact Or.inr (Or.inl h)
        · exact Or.inr (Or.inr (hsub _ h))
      simp only [Moved.eraseOld, Moved.mapOperands, hfix]
      simp [moveRegionToNewWarpOpAndReplaceReturns]

/-- Every result is among the kept ones exactly when every result has a use. -/
theorem usedResults_length (c : WarpContext) :
    c.usedResults.length = c.warpOp.getNumResults ↔
      ∀ i, i < c.warpOp.getNumResults → useEmpty c.items (c.warpOp.getResult i) = false := by
  have hu : c.usedResults = (List.range c.warpOp.getNumResults).filter
      (fun i => !(useEmpty c.items (c.warpOp.getResult i))) := rfl
  have h := @List.filter_length_eq_length _
    (fun i => !(useEmpty c.items (c.warpOp.getResult i))) (List.range c.warpOp.getNumResults)
  rw [List.length_range] at h
  rw [hu, h]
  simp only [List.mem_range, Bool.not_eq_true']

theorem usedResults_mem (c : WarpContext) (i : Nat) :
    i ∈ c.usedResults ↔
      i < c.warpOp.getNumResults ∧ useEmpty c.items (c.warpOp.getResult i) = false := by
  simp [WarpContext.usedResults]

theorem usedResults_sorted (c : WarpContext) : c.usedResults.Pairwise (fun a b => a < b) :=
  List.Pairwise.filter _ (List.pairwise_lt_range _)

/-- C14: for a region that satisfies the arity invariant and SSA dominance and
whose identifier is not the next unused one, the pattern reports failure, with
the program unchanged, exactly when every result has a use.  Otherwise it
succeeds: the new region has the body of the old one, and its results are the
used results of the old region in increasing order, each with its type and its
yield operand; every operand slot before or after the region that held the
`k`-th used old result holds new result `k`. -/
theorem deadResult_structure (c : WarpContext)
    (harity : c.warpOp.arityOk)
    (hdom : ∀ i, i < c.warpOp.getNumResults →
      c.warpOp.getResult i ∉ (Item.warp c.warpOp).operandValues)
    (hid : c.warpOp.id ≠ c.nextId) :
    (WarpOpDeadResult.matchAndRewrite c = RewriteResult.failure c.program ↔
      ∀ i, i < c.warpOp.getNumResults → useEmpty c.items (c.warpOp.getResult i) = false) ∧
    (¬ (∀ i, i < c.warpOp.getNumResults → useEmpty c.items (c.warpOp.getResult i) = false) →
      ∃ pre' newWarpOp post',
        WarpOpDeadResult.matchAndRewrite c =
          RewriteResult.success ⟨pre' ++ [Item.warp newWarpOp] ++ post', c.nextId + 1⟩ ∧
        (∀ i, i ∈ c.usedResults ↔
          i < c.warpOp.getNumResults ∧ useEmpty c.items (c.warpOp.getResult i) = false) ∧
        c.usedResults.Pairwise (fun a b => a < b) ∧
        newWarpOp.resultTypes =
          c.usedResults.map (fun i => c.warpOp.resultTypes.getD i default) ∧
        newWarpOp.body.yieldOperands =
          c.usedResults.map (fun i => c.warpOp.body.yieldOperands.getD i default) ∧
        newWarpOp.body.ops = c.warpOp.body.ops ∧
        ∀ k i, c.usedResults[k]? = some i →
          List.Forall₂ (SlotsRewired (c.warpOp.getResult i) (newWarpOp.getResult k))
            c.pre pre' ∧
          List.Forall₂ (SlotsRewired (c.warpOp.getResult i) (newWarpOp.getResult k))
            c.post post') := by
  obtain ⟨F, hF, hform⟩ := deadResult_form c harity hdom hid
  have hlen := usedResults_length c
  unfold WarpOp.arityOk at harity
  unfold WarpOp.getNumResults at hlen
  constructor
  · rw [hform]
    constructor
    · intro h
      split at h
      · rename_i heq
        rw [← harity] at heq
        exact hlen.1 heq.symm
      · cases h
    · intro h
      rw [if_pos]
      rw [← harity]
      exact (hlen.2 h).symm
  · intro hn
    refine ⟨c.pre.map (Item.mapOperands F),
      (moveRegionToNewWarpOpAndReplaceReturns c
        (c.usedResults.map (fun i => c.warpOp.body.yieldOperands.getD i default))
        (c.usedResults.map (fun i => (c.warpOp.getResult i).ty))).newWarpOp,
      c.post.map (Item.mapOperands F),
      ?_, usedResults_mem c, usedResults_sorted c, rfl, rfl, rfl, ?_⟩
    · rw [hform, if_neg]
      intro heq
      rw [← harity] at heq
      exact hn (hlen.1 heq.symm)
    · intro k i hk
      have hval : F (c.warpOp.getResult i) =
          (moveRegionToNewWarpOpAndReplaceReturns c
            (c.usedResults.map (fun i => c.warpOp.body.yieldOperands.getD i default))
            (c.usedResults.map (fun i => (c.warpOp.getResult i).ty))).newWarpOp.getResult k := by
        rw [hF k i hk]
        simp only [WarpOp.getResult, WarpHeader.getResult, moveRegionToNewWarpOpAndReplaceReturns,
          Value.mk.injEq, true_and]
        rw [List.getD_eq_getElem?_getD (List.map _ _), List.getElem?_map, hk]
        rfl
      exact ⟨slotsRewired_map _ _ F hval c.pre, slotsRewired_map _ _ F hval c.post⟩

/-- Instance of `deadResult_structure`: in the dead result scenario results 0 and
2 are used, so the pattern does not fail, and the new region keeps these two. -/
theorem deadResult_structure_witness :
    WarpOpDeadResult.matchAndRewrite deadResultScenario =
      RewriteResult.success deadResultScenarioAfter.program ∧
    deadResultScenario.usedResults = [0, 2] ∧
    (WarpOpDeadResult.matchAndRewrite deadResultScenario =
        RewriteResult.failure deadResultScenario.program ↔
      ∀ i, i < deadResultScenario.warpOp.getNumResults →
        useEmpty deadResultScenario.items (deadResultScenario.warpOp.getResult i) = false) :=
  ⟨by decide, by decide,
    (deadResult_structure deadResultScenario (by decide) (by decide) (by decide)).1⟩

/-- C15: when the pattern succeeds on a region that satisfies the arity
invariant and SSA dominance, the program it returns is the block of a context
focused on the new region, at the position of the old one, and the pattern
applied to that context reports failure and returns the same program. -/
theorem deadResult_idempotent (c : WarpContext) (p' : Program)
    (harity : c.warpOp.arityOk)
    (hdom : ∀ i, i < c.warpOp.getNumResults →
      c.warpOp.getResult i ∉ (Item.warp c.warpOp).operandValues)
    (hid : c.warpOp.id ≠ c.nextId)
    (h : WarpOpDeadResult.matchAndRewrite c = RewriteResult.success p') :
    ∃ c' : WarpContext, c'.program = p' ∧ c'.pre.length = c.pre.length ∧
      c'.post.length = c.post.length ∧ c'.warpOp.id = c.nextId ∧
      WarpOpDeadResult.matchAndRewrite c' = RewriteResult.failure p' := by
  obtain ⟨F, hF, hform⟩ := deadResult_form c harity hdom hid
  rw [hform] at h
  split at h
  · cases h
  · cases h
    refine ⟨{ pre := c.pre.map (Item.mapOperands F)
              warpOp := (moveRegionToNewWarpOpAndReplaceReturns c
                (c.usedResults.map (fun i => c.warpOp.body.yieldOperands.getD i default))
                (c.usedResults.map (fun i => (c.warpOp.getResult i).ty))).newWarpOp
              post := c.post.map (Item.mapOperands F)
              nextId := c.nextId + 1 }, rfl, by simp, by simp, rfl, ?_⟩
    have hused : ∀ k, k < c.usedResults.length →
        useEmpty (c.pre.map (Item.mapOperands F) ++
          [Item.warp (moveRegionToNewWarpOpAndReplaceReturns c
            (c.usedResults.map (fun i => c.warpOp.body.yieldOperands.getD i default))
            (c.usedResults.map (fun i => (c.warpOp.getResult i).ty))).newWarpOp] ++
          c.post.map (Item.mapOperands F))
          ((moveRegionToNewWarpOpAndReplaceReturns c
            (c.usedResults.map (fun i => c.warpOp.body.yieldOperands.getD i default))
            (c.usedResults.map (fun i => (c.warpOp.getResult i).ty))).newWarpOp.getResult k)
          = false := by
      intro k hk
      have hki : c.usedResults[k]? = some c.usedResults[k] := List.getElem?_eq_getElem hk
      have hmem := (usedResults_mem c c.usedResults[k]).1 (List.getElem_mem hk)
      obtain ⟨it, hit, hslot⟩ := (useEmpty_eq_false_iff _ _).1 hmem.2
      have hval : F (c.warpOp.getResult c.usedResults[k]) =
          (moveRegionToNewWarpOpAndReplaceReturns c
            (c.usedResults.map (fun i => c.warpOp.body.yieldOperands.getD i default))
            (c.usedResults.map (fun i => (c.warpOp.getResult i).ty))).newWarpOp.getResult k := by
        rw [hF k _ hki]
        simp only [WarpOp.getResult, WarpHeader.getResult, moveRegionToNewWarpOpAndReplaceReturns,
          Value.mk.injEq, true_and]
        rw [List.getD_eq_getElem?_getD (List.map _ _), List.getElem?_map, hki]
        rfl
      rw [useEmpty_eq_false_iff]
      have hslot' : (moveRegionToNewWarpOpAndReplaceReturns c
            (c.usedResults.map (fun i => c.warpOp.body.yieldOperands.getD i default))
            (c.usedResults.map (fun i => (c.warpOp.getResult i).ty))).newWarpOp.getResult k ∈
          (it.mapOperands F).operandValues := by
        rw [item_operandValues_mapOperands, List.mem_map]
        exact ⟨_, hslot, hval⟩
      simp only [WarpContext.items, List.mem_append, List.mem_singleton] at hit
      rcases hit with (hit | hit) | hit
      · exact ⟨it.mapOperands F, by
          simp only [List.mem_append, List.mem_map]
          exact Or.inl (Or.inl ⟨it, hit, rfl⟩), hslot'⟩
      · subst hit
        exact absurd hslot (hdom _ hmem.1)
      · exact ⟨it.mapOperands F, by
          simp only [List.mem_append, List.mem_map]
          exact Or.inr ⟨it, hit, rfl⟩, hslot'⟩
    have hfilter : (List.range c.usedResults.length).filter
        (fun k => !(useEmpty (c.pre.map (Item.mapOperands F) ++
          [Item.warp (moveRegionToNewWarpOpAndReplaceReturns c
            (c.usedResults.map (fun i => c.warpOp.body.yieldOperands.getD i default))
            (c.usedResults.map (fun i => (c.warpOp.getResult i).ty))).newWarpOp] ++
          c.post.map (Item.mapOperands F))
          ((moveRegionToNewWarpOpAndReplaceReturns c
            (c.usedResults.map (fun i => c.warpOp.body.yieldOperands.getD i default))
            (c.usedResults.map (fun i => (c.warpOp.getResult i).ty))).newWarpOp.getResult k))) =
        List.range c.usedResults.length := by
      rw [List.filter_eq_self]
      intro k hk
      rw [List.mem_range] at hk
      rw [hused k hk]
      rfl
    simp only [WarpOpDeadResult.matchAndRewrite, WarpContext.items, WarpOp.getNumResults,
      moveRegionToNewWarpOpAndReplaceReturns, List.length_map]
    simp only [moveRegionToNewWarpOpAndReplaceReturns] at hfilter
    rw [hfilter]
    simp [WarpContext.program, WarpContext.items]

/-- Instance of `deadResult_idempotent`: the dead result scenario; the second
application, on the region with the two used results, fails. -/
theorem deadResult_idempotent_witness :
    WarpOpDeadResult.matchAndRewrite deadResultScenario =
      RewriteResult.success deadResultScenarioAfter.program ∧
    WarpOpDeadResult.matchAndRewrite deadResultScenarioAfter =
      RewriteResult.failure deadResultScenarioAfter.program ∧
    ∃ c' : WarpContext, c'.program = deadResultScenarioAfter.program ∧
      c'.pre.length = deadResultScenario.pre.length ∧
      c'.post.length = deadResultScenario.post.length ∧
      c'.warpOp.id = deadResultScenario.nextId ∧
      WarpOpDeadResult.matchAndRewrite c' =
        RewriteResult.failure deadResultScenarioAfter.program :=
  ⟨by decide, by decide,
    deadResult_idempotent deadResultScenario deadResultScenarioAfter.program
      (by decide) (by decide) (by decide) (by decide)⟩

/-! ## Write distribution pattern: facts -/

/-- C19: the write pattern reports failure and returns the program as it was for
a store whose parent is not a warp region, and for a store in the body of a warp
region that carries a mask, or is followed in the body by an operation with a
side effect, or has an operand other than the stored vector that is defined in
the region. -/
theorem writePattern_preconditions (ratio : Int) (distributionMapFn : Operation → AffineMap) :
    (∀ (p : Program) (writeOp : Operation) (perm : AffineMap) (hasMask : Bool)
        (inBounds : Option (List Bool)),
      writeOp.kind = OpKind.transferWrite perm hasMask inBounds →
      WarpOpTransferWrite.matchAndRewrite ratio distributionMapFn
        (WriteSite.elsewhere p writeOp) = RewriteResult.failure p) ∧
    (∀ (c : WarpContext) (writePos : Nat) (writeOp : Operation) (perm : AffineMap)
        (hasMask : Bool) (inBounds : Option (List Bool)),
      c.warpOp.body.ops[writePos]? = some writeOp →
      writeOp.kind = OpKind.transferWrite perm hasMask inBounds →
      (hasMask = true ∨
        (∃ j nextOp, writePos < j ∧ c.warpOp.body.ops[j]? = some nextOp ∧
          hasSideEffect nextOp = true) ∨
        (∃ value, value ∈ writeOp.operands ∧ writeOp.operands.head? ≠ some value ∧
          c.warpOp.isDefinedInRegion value = true)) →
      WarpOpTransferWrite.matchAndRewrite ratio distributionMapFn
        (WriteSite.inWarp c writePos) = RewriteResult.failure c.program) := by
  constructor
  · intro p writeOp perm hasMask inBounds hkind
    simp only [WarpOpTransferWrite.matchAndRewrite, hkind, ite_self]
  · intro c writePos writeOp perm hasMask inBounds hop hkind h
    simp only [WarpOpTransferWrite.matchAndRewrite, hop, hkind]
    by_cases hm : hasMask = true
    · rw [if_pos hm]
    · rw [if_neg hm]
      by_cases hs : (c.warpOp.body.ops.drop (writePos + 1)).any hasSideEffect = true
      · rw [if_pos hs]
      · rw [if_neg hs]
        rcases h with h | h | h
        · exact absurd h hm
        · exfalso
          apply hs
          obtain ⟨j, nextOp, hj, hnext, heff⟩ := h
          rw [List.any_eq_true]
          refine ⟨nextOp, ?_, heff⟩
          have hd : (c.warpOp.body.ops.drop (writePos + 1))[j - (writePos + 1)]? = some nextOp := by
            rw [List.getElem?_drop]
            rw [show writePos + 1 + (j - (writePos + 1)) = j by omega]
            exact hnext
          obtain ⟨hlt, he⟩ := List.getElem?_eq_some_iff.1 hd
          exact he ▸ List.getElem_mem hlt
        · obtain ⟨value, hv, hne, hin⟩ := h
          rw [if_pos]
          simp only [Bool.not_eq_true', List.all_eq_false, Bool.or_eq_true, beq_iff_eq,
            Bool.not_eq_true, not_or]
          exact ⟨value, hv, hne, by simp [hin]⟩

/-- Instance of `writePattern_preconditions`: the store of the write scenario
followed by an operation with a memory effect. -/
theorem writePattern_preconditions_witness :
    (writeScenarioEffect.warpOp.body.ops[1]? = some (writeScenarioOp 64) ∧
      ∃ j nextOp, 1 < j ∧ writeScenarioEffect.warpOp.body.ops[j]? = some nextOp ∧
        hasSideEffect nextOp = true) ∧
    WarpOpTransferWrite.matchAndRewrite 32 (fun _ => identityMap1)
      (WriteSite.inWarp writeScenarioEffect 1) =
        RewriteResult.failure writeScenarioEffect.program :=
  ⟨⟨by decide, 2, _, by decide, rfl, by decide⟩,
    (writePattern_preconditions 32 (fun _ => identityMap1)).2 writeScenarioEffect 1
      (writeScenarioOp 64) identityMap1 false none (by decide) (by decide)
      (Or.inr (Or.inl ⟨2, _, by decide, rfl, by decide⟩))⟩

/-! ## Transfer read sink: facts -/

/-- The index rewriting loop, when every dimension expression among the index
expressions comes with a dimension of the distribution map in range and no
index position occurs twice: each pair of dimensions `(p, j)` replaces the index
at `p` by the result of a new `affine.apply (d0 + scale_j * d1)(index_p, laneid)`,
and the other indices stay. -/
theorem distributeIndices_spec (distShape : List Int) (laneid : Value)
    (pairs : List (AffineExpr × AffineExpr)) :
    ∀ (st : IndexState),
      (∀ pr, pr ∈ pairs → ∀ p, pr.1 = AffineExpr.dim p →
        ∃ j, pr.2 = AffineExpr.dim j ∧ p < st.indices.length ∧ j < distShape.length) →
      (pairs.filterMap (fun pr => pr.1.dimPos?)).Nodup →
      ∃ st' extra,
        distributeIndices distShape laneid pairs st = some st' ∧
        st'.created = st.created ++ extra ∧
        st'.indices.length = st.indices.length ∧
        st.nextId ≤ st'.nextId ∧
        (∀ it, it ∈ extra → ∃ id p j, (AffineExpr.dim p, AffineExpr.dim j) ∈ pairs ∧
          st.nextId ≤ id ∧ id < st'.nextId ∧
          it = Item.op (laneOffsetApply id (distShape.getD j 0)
            (st.indices.getD p default) laneid)) ∧
        (∀ p j, (AffineExpr.dim p, AffineExpr.dim j) ∈ pairs →
          ∃ id, st.nextId ≤ id ∧ id < st'.nextId ∧
            Item.op (laneOffsetApply id (distShape.getD j 0)
              (st.indices.getD p default) laneid) ∈ extra ∧
            st'.indices[p]? = some ⟨ValueDef.opResult id 0, indexTy⟩) ∧
        (∀ p, (∀ pr, pr ∈ pairs → pr.1 ≠ AffineExpr.dim p) →
          st'.indices[p]? = st.indices[p]?) := by
  induction pairs with
  | nil =>
    intro st _ _
    exact ⟨st, [], rfl, by simp, rfl, Nat.le_refl _, by simp, by simp, fun _ _ => rfl⟩
  | cons pr rest ih =>
    intro st hok hnd
    obtain ⟨ie, ve⟩ := pr
    by_cases hdim : ∃ p0, ie = AffineExpr.dim p0
    · obtain ⟨p0, rfl⟩ := hdim
      obtain ⟨j0, hve, hp0, hj0⟩ := hok (AffineExpr.dim p0, ve) (List.mem_cons_self _ _) p0 rfl
      simp only at hve
      subst hve
      simp only [List.filterMap_cons, AffineExpr.dimPos?, List.nodup_cons] at hnd
      have hnot : ∀ pr, pr ∈ rest → pr.1 ≠ AffineExpr.dim p0 := by
        intro pr hpr e
        apply hnd.1
        rw [List.mem_filterMap]
        exact ⟨pr, hpr, by rw [e]⟩
      have hidx : st.indices[p0]? = some (st.indices.getD p0 default) := by
        rw [List.getD_eq_getElem _ _ hp0]; exact List.getElem?_eq_getElem hp0
      have hsc : distShape[j0]? = some (distShape.getD j0 0) := by
        rw [List.getD_eq_getElem _ _ hj0]; exact List.getElem?_eq_getElem hj0
      obtain ⟨st', extra', hrun, hcreated, hlen, hnext, hextra, hnew, hkeep⟩ :=
        ih
          { indices := st.indices.set p0
              ((laneOffsetApply st.nextId (distShape.getD j0 0)
                (st.indices.getD p0 default) laneid).getResult 0)
            created := st.created ++
              [Item.op (laneOffsetApply st.nextId (distShape.getD j0 0)
                (st.indices.getD p0 default) laneid)]
            nextId := st.nextId + 1 }
          (by
            intro pr hpr p hp
            obtain ⟨j, hj, hpl, hjl⟩ := hok pr (List.mem_cons_of_mem _ hpr) p hp
            exact ⟨j, hj, by simpa using hpl, hjl⟩)
          hnd.2
      have hget : ∀ p, p ≠ p0 →
          (st.indices.set p0 ((laneOffsetApply st.nextId (distShape.getD j0 0)
            (st.indices.getD p0 default) laneid).getResult 0)).getD p default =
          st.indices.getD p default := by
        intro p hp
        simp only [List.getD_eq_getElem?_getD]
        rw [List.getElem?_set_ne (Ne.symm hp)]
      have hpne : ∀ p j, (AffineExpr.dim p, AffineExpr.dim j) ∈ rest → p ≠ p0 := by
        intro p j hmem e
        exact hnot _ hmem (by rw [e])
      refine ⟨st', Item.op (laneOffsetApply st.nextId (distShape.getD j0 0)
          (st.indices.getD p0 default) laneid) :: extra', ?_, ?_, ?_, ?_, ?_, ?_, ?_⟩
      · simp only [distributeIndices, hidx, hsc]
        exact hrun
      · rw [hcreated]; simp
      · rw [hlen]; simp
      · simp only at hnext; omega
      · intro it hit
        rw [List.mem_cons] at hit
        rcases hit with rfl | hit
        · exact ⟨st.nextId, p0, j0, List.mem_cons_self _ _, Nat.le_refl _,
            by simp only at hnext; omega, rfl⟩
        · obtain ⟨id, p, j, hmem, hid1, hid2, rfl⟩ := hextra it hit
          refine ⟨id, p, j, List.mem_cons_of_mem _ hmem, by simp only at hid1; omega, hid2, ?_⟩
          simp only
          rw [hget p (hpne p j hmem)]
      · intro p j hmem
        rw [List.mem_cons] at hmem
        rcases hmem with heq | hmem
        · simp only [Prod.mk.injEq, AffineExpr.dim.injEq] at heq
          obtain ⟨rfl, rfl⟩ := heq
          refine ⟨st.nextId, Nat.le_refl _, by simp only at hnext; omega,
            List.mem_cons_self _ _, ?_⟩
          rw [hkeep p hnot]
          simp only [List.getElem?_set_self hp0]
          rfl
        · obtain ⟨id, hid1, hid2, hin, hval⟩ := hnew p j hmem
          refine ⟨id, by simp only at hid1; omega, hid2, ?_, hval⟩
          apply List.mem_cons_of_mem
          simp only at hin
          rw [hget p (hpne p j hmem)] at hin
          exact hin
      · intro p hp
        have hp0' : p ≠ p0 := by
          intro e
          exact hp _ (List.mem_cons_self _ _) (by rw [e])
        rw [hkeep p (fun pr hpr => hp pr (List.mem_cons_of_mem _ hpr))]
        simp only
        rw [List.getElem?_set_ne (Ne.symm hp0')]
    · have hskip : distributeIndices distShape laneid ((ie, ve) :: rest) st =
          distributeIndices distShape laneid rest st := by
        cases ie with
        | dim p0 => exact absurd ⟨p0, rfl⟩ hdim
        | const c => rfl
        | add a b => rfl
        | mul a b => rfl
      have hnd' : (rest.filterMap (fun pr => pr.1.dimPos?)).Nodup := by
        cases ie with
        | dim p0 => exact absurd ⟨p0, rfl⟩ hdim
        | const c => simpa [List.filterMap_cons, AffineExpr.dimPos?] using hnd
        | add a b => simpa [List.filterMap_cons, AffineExpr.dimPos?] using hnd
        | mul a b => simpa [List.filterMap_cons, AffineExpr.dimPos?] using hnd
      obtain ⟨st', extra', hrun, hcreated, hlen, hnext, hextra, hnew, hkeep⟩ :=
        ih st (fun pr hpr => hok pr (List.mem_cons_of_mem _ hpr)) hnd'
      have hmem : ∀ p j, (AffineExpr.dim p, AffineExpr.dim j) ∈ (ie, ve) :: rest →
          (AffineExpr.dim p, AffineExpr.dim j) ∈ rest := by
        intro p j h
        rw [List.mem_cons] at h
        rcases h with heq | h
        · simp only [Prod.mk.injEq] at heq
          exact absurd ⟨p, heq.1.symm⟩ hdim
        · exact h
      refine ⟨st', extra', by rw [hskip]; exact hrun, hcreated, hlen, hnext, ?_, ?_, ?_⟩
      · intro it hit
        obtain ⟨id, p, j, hm, h1, h2, h3⟩ := hextra it hit
        exact ⟨id, p, j, List.mem_cons_of_mem _ hm, h1, h2, h3⟩
      · intro p j hm
        exact hnew p j (hmem p j hm)
      · intro p hp
        exact hkeep p (fun pr hpr => hp pr (List.mem_cons_of_mem _ hpr))

theorem map_getD_range {α : Type} (l : List α) (d : Nat → α) :
    (List.range l.length).map (fun j => l.getD j (d j)) = l := by
  apply List.ext_getElem?
  intro n
  by_cases hn : n < l.length
  · rw [List.getElem?_map, List.getElem?_range hn, List.getElem?_eq_getElem hn]
    simp [List.getD_eq_getElem?_getD, List.getElem?_eq_getElem hn]
  · rw [List.getElem?_eq_none (by simpa using hn), List.getElem?_eq_none (by simpa using hn)]

/-- The index expressions the transfer read sink pairs with the distributed
dimensions have pairwise distinct positions when the permutation map has. -/
theorem readPairs_nodup (perm : AffineMap) (q : Nat → Bool)
    (hperm : (perm.results.filterMap AffineExpr.dimPos?).Nodup) :
    ((((List.range perm.results.length).filter q).map
        (fun j => (perm.results.getD j (AffineExpr.dim j), AffineExpr.dim j))).filterMap
      (fun pr => pr.1.dimPos?)).Nodup := by
  have hsub : List.Sublist
      (((List.range perm.results.length).filter q).map
        (fun j => perm.results.getD j (AffineExpr.dim j))) perm.results := by
    have h := List.Sublist.map (fun j => perm.results.getD j (AffineExpr.dim j))
      (List.filter_sublist (p := q) (List.range perm.results.length))
    rwa [map_getD_range perm.results AffineExpr.dim] at h
  have heq : (((List.range perm.results.length).filter q).map
        (fun j => (perm.results.getD j (AffineExpr.dim j), AffineExpr.dim j))).filterMap
        (fun pr => pr.1.dimPos?) =
      (((List.range perm.results.length).filter q).map
        (fun j => perm.results.getD j (AffineExpr.dim j))).filterMap AffineExpr.dimPos? := by
    rw [List.filterMap_map, List.filterMap_map]
    rfl
  rw [heq]
  exact List.Nodup.sublist (List.Sublist.filterMap _ hsub) hperm

/-- C12: for a transfer read of the body matched at result `i`, whose vector
type and distributed result type have shapes `src` and `dst`, in a region under
SSA dominance and with a permutation map that names no index position twice,
the pattern succeeds.  The rebuilt read follows the region and the
`affine.apply` operations created for it; it has the kind of the matched read
(permutation map, mask flag and in-bounds attribute), the distributed result
type, the same source and the same padding and mask.  For every vector dimension
`j` whose size differs between `src` and `dst` and which the permutation map
sends to index position `p`, the index at `p` is the result of
`affine.apply (d0 + dst[j] * d1)(index_p, laneid)`; every index position that no
such dimension is sent to keeps its index. -/
theorem transferReadSink_indices (c : WarpContext) (operandIndex : Nat) (read : Operation)
    (perm : AffineMap) (hasMask : Bool) (inBounds : Option (List Bool)) (source : Value)
    (rest : List Value) (src dst : List Int) (e e' : ScalarType)
    (harity : c.warpOp.arityOk)
    (hdom : ∀ i, i < c.warpOp.getNumResults →
      c.warpOp.getResult i ∉ (Item.warp c.warpOp).operandValues)
    (hlt : c.warpOp.id < c.nextId)
    (hmatch : getWarpResult c.items c.warpOp Item.isTransferRead = some operandIndex)
    (hdef : getDefiningOp c.items (c.warpOp.body.yieldOperands.getD operandIndex default)
      = some (Item.op read))
    (hbody : read ∈ c.warpOp.body.ops)
    (hkind : read.kind = OpKind.transferRead perm hasMask inBounds)
    (hoperands : read.operands = source :: rest)
    (hsrc : (read.getResult 0).ty = Ty.vector src e)
    (hdst : (c.warpOp.getResult operandIndex).ty = Ty.vector dst e')
    (hrank : src.length ≤ dst.length)
    (hpermLen : src.length = perm.results.length)
    (hperm : (perm.results.filterMap AffineExpr.dimPos?).Nodup)
    (hrange : ∀ p, AffineExpr.dim p ∈ perm.results →
      p < (rest.take (rest.length - (if hasMask then 2 else 1))).length) :
    ∃ pre' created newIndices newId post',
      WarpOpTransferRead.matchAndRewrite c = RewriteResult.success
        ⟨pre' ++ [Item.warp c.warpOp] ++ created ++
          [Item.op
            { id := newId
              kind := read.kind
              operands := source :: newIndices ++
                rest.drop (rest.length - (if hasMask then 2 else 1))
              resultTypes := [(c.warpOp.getResult operandIndex).ty] }] ++ post',
          newId + 1⟩ ∧
      newIndices.length = (rest.take (rest.length - (if hasMask then 2 else 1))).length ∧
      (∀ j p index, j < src.length → src.getD j 0 ≠ dst.getD j 0 →
        perm.results[j]? = some (AffineExpr.dim p) →
        (rest.take (rest.length - (if hasMask then 2 else 1)))[p]? = some index →
        ∃ id, Item.op (laneOffsetApply id (dst.getD j 0) index c.warpOp.laneid) ∈ created ∧
          newIndices[p]? =
            some ((laneOffsetApply id (dst.getD j 0) index c.warpOp.laneid).getResult 0)) ∧
      (∀ p, (∀ j, j < src.length → src.getD j 0 ≠ dst.getD j 0 →
          perm.results[j]? ≠ some (AffineExpr.dim p)) →
        newIndices[p]? = (rest.take (rest.length - (if hasMask then 2 else 1)))[p]?) ∧
      (∀ scale x lane : Int, (laneOffsetExpr scale).eval [x, lane] = x + scale * lane) ∧
      List.Forall₂ (SlotsRewired (c.warpOp.getResult operandIndex)
        ⟨ValueDef.opResult newId 0, (c.warpOp.getResult operandIndex).ty⟩) c.pre pre' ∧
      List.Forall₂ (SlotsRewired (c.warpOp.getResult operandIndex)
        ⟨ValueDef.opResult newId 0, (c.warpOp.getResult operandIndex).ty⟩) c.post post' := by
  have hidx : operandIndex < c.warpOp.getNumResults := by
    obtain ⟨v, hv, _⟩ := ((getWarpResult_spec c.items c.warpOp _).1 operandIndex).1 hmatch
    have := (List.getElem?_eq_some_iff.1 hv).1
    unfold WarpOp.getNumResults
    rw [harity]; exact this
  -- the operands of the read are operand slots of the region
  have hslot : ∀ v, v ∈ source :: rest → v ∈ (Item.warp c.warpOp).operandValues := by
    intro v hv
    exact body_operand_mem_of_mem c.warpOp read v hbody (by rw [hoperands]; exact hv)
  have hlane : c.warpOp.laneid ∈ (Item.warp c.warpOp).operandValues := by
    simp [Item.operandValues, WarpHeader.operandValues]
  have hnotres : ∀ v, v ∈ (Item.warp c.warpOp).operandValues →
      v ≠ c.warpOp.getResult operandIndex := by
    intro v hv e
    subst e
    exact hdom operandIndex hidx hv
  generalize hind : rest.take (rest.length - (if hasMask then 2 else 1)) = indices at hrange ⊢
  have hindmem : ∀ v, v ∈ indices → v ∈ (Item.warp c.warpOp).operandValues := by
    intro v hv
    apply hslot
    rw [← hind] at hv
    exact List.mem_cons_of_mem _ (List.mem_of_mem_take hv)
  -- the maps
  have hmap : calculateImplicitMap (read.getResult 0).ty (c.warpOp.getResult operandIndex).ty =
      some ⟨src.length, ((List.range src.length).filter
        (fun i => decide (src.getD i 0 ≠ dst.getD i 0))).map AffineExpr.dim⟩ := by
    rw [hsrc, hdst]
    simp only [calculateImplicitMap, Nat.not_lt.2 hrank, if_false]
  have hcomp : AffineMap.compose ⟨src.length, ((List.range src.length).filter
        (fun i => decide (src.getD i 0 ≠ dst.getD i 0))).map AffineExpr.dim⟩ perm =
      some ⟨perm.numDims, ((List.range src.length).filter
        (fun i => decide (src.getD i 0 ≠ dst.getD i 0))).map
          (fun j => perm.results.getD j (AffineExpr.dim j))⟩ := by
    simp only [AffineMap.compose, hpermLen, ne_eq, not_true_eq_false, if_false, List.map_map]
    rfl
  have hzip : (((List.range src.length).filter
        (fun i => decide (src.getD i 0 ≠ dst.getD i 0))).map
          (fun j => perm.results.getD j (AffineExpr.dim j))).zip
      (((List.range src.length).filter
        (fun i => decide (src.getD i 0 ≠ dst.getD i 0))).map AffineExpr.dim) =
      ((List.range src.length).filter
        (fun i => decide (src.getD i 0 ≠ dst.getD i 0))).map
          (fun j => (perm.results.getD j (AffineExpr.dim j), AffineExpr.dim j)) := by
    rw [List.zip_map']
  have hshape : (c.warpOp.getResult operandIndex).ty.shape = dst := by
    rw [hdst]; rfl
  -- membership in the pairs
  have hpair : ∀ p j, (AffineExpr.dim p, AffineExpr.dim j) ∈
      ((List.range src.length).filter
        (fun i => decide (src.getD i 0 ≠ dst.getD i 0))).map
          (fun j => (perm.results.getD j (AffineExpr.dim j), AffineExpr.dim j)) ↔
      j < src.length ∧ src.getD j 0 ≠ dst.getD j 0 ∧
        perm.results[j]? = some (AffineExpr.dim p) := by
    intro p j
    simp only [List.mem_map, List.mem_filter, List.mem_range, decide_eq_true_eq, Prod.mk.injEq,
      AffineExpr.dim.injEq]
    constructor
    · rintro ⟨a, ⟨ha, hne⟩, hget, rfl⟩
      refine ⟨ha, hne, ?_⟩
      rw [hpermLen] at ha
      rw [List.getD_eq_getElem _ _ ha] at hget
      rw [List.getElem?_eq_getElem ha, hget]
    · rintro ⟨hj, hne, hget⟩
      refine ⟨j, ⟨hj, hne⟩, ?_, rfl⟩
      rw [List.getD_eq_getElem?_getD, hget]
      rfl
  obtain ⟨st', extra, hrun, hcreated, hlen, hnext, hextra, hnew, hkeep⟩ :=
    distributeIndices_spec dst c.warpOp.laneid
      (((List.range src.length).filter
        (fun i => decide (src.getD i 0 ≠ dst.getD i 0))).map
          (fun j => (perm.results.getD j (AffineExpr.dim j), AffineExpr.dim j)))
      { indices := indices, created := [], nextId := c.nextId }
      (by
        intro pr hpr p hp
        rw [List.mem_map] at hpr
        obtain ⟨j, hj, rfl⟩ := hpr
        simp only at hp
        have hjl : j < src.length := by
          have := (List.mem_filter.1 hj).1
          rwa [List.mem_range] at this
        refine ⟨j, rfl, ?_, by omega⟩
        apply hrange
        rw [← hp]
        rw [hpermLen] at hjl
        rw [List.getD_eq_getElem _ _ hjl]
        exact List.getElem_mem hjl)
      (by
        rw [hpermLen]
        exact readPairs_nodup perm _ hperm)
  simp only [List.nil_append] at hcreated
  simp only at hlen hnext hextra hnew hkeep
  -- the replacement of the matched result leaves the new operations alone
  have hfixv : ∀ v, v ∈ (Item.warp c.warpOp).operandValues → ∀ x,
      Value.replaceUse (c.warpOp.getResult operandIndex) x v = v := by
    intro v hv x
    unfold Value.replaceUse
    rw [if_neg (hnotres v hv)]
  have hfixnew : ∀ (id : Nat) (t : Ty), c.nextId ≤ id → ∀ x,
      Value.replaceUse (c.warpOp.getResult operandIndex) x ⟨ValueDef.opResult id 0, t⟩ =
        ⟨ValueDef.opResult id 0, t⟩ := by
    intro id t hid x
    unfold Value.replaceUse
    rw [if_neg]
    intro e
    simp only [WarpOp.getResult, WarpHeader.getResult, Value.mk.injEq,
      ValueDef.opResult.injEq] at e
    omega
  have hgetmem : ∀ p, p < indices.length → indices.getD p default ∈ indices := by
    intro p hp
    rw [List.getD_eq_getElem _ _ hp]
    exact List.getElem_mem hp
  have hextrafix : ∀ x, extra.map (Item.mapOperands
      (Value.replaceUse (c.warpOp.getResult operandIndex) x)) = extra := by
    intro x
    apply map_fix
    intro it hit
    obtain ⟨id, p, j, hmem, _, _, rfl⟩ := hextra it hit
    have hp : p < indices.length := by
      apply hrange
      have := ((hpair p j).1 hmem).2.2
      obtain ⟨hl, he⟩ := List.getElem?_eq_some_iff.1 this
      exact he ▸ List.getElem_mem hl
    simp only [Item.mapOperands, Operation.mapOperands, laneOffsetApply, List.map_cons,
      List.map_nil, hfixv _ (hindmem _ (hgetmem p hp)), hfixv _ hlane]
  have hindfix : ∀ x, st'.indices.map
      (Value.replaceUse (c.warpOp.getResult operandIndex) x) = st'.indices := by
    intro x
    apply map_fix
    intro v hv
    obtain ⟨p, hp, rfl⟩ := List.getElem_of_mem hv
    have hp' : p < indices.length := by rw [← hlen]; exact hp
    have hvp : st'.indices[p]? = some st'.indices[p] := List.getElem?_eq_getElem hp
    by_cases hex : ∃ pr, pr ∈ ((List.range src.length).filter
        (fun i => decide (src.getD i 0 ≠ dst.getD i 0))).map
          (fun j => (perm.results.getD j (AffineExpr.dim j), AffineExpr.dim j)) ∧
        pr.1 = AffineExpr.dim p
    · obtain ⟨pr, hpr, hpr1⟩ := hex
      have hpr' := hpr
      rw [List.mem_map] at hpr'
      obtain ⟨j, _, rfl⟩ := hpr'
      simp only at hpr1
      rw [hpr1] at hpr
      obtain ⟨id, hid, _, _, hval⟩ := hnew p j hpr
      rw [hvp] at hval
      rw [Option.some.inj hval]
      exact hfixnew id _ hid x
    · have hk := hkeep p (fun pr hpr e => hex ⟨pr, hpr, e⟩)
      rw [hvp, List.getElem?_eq_getElem hp'] at hk
      rw [Option.some.inj hk]
      exact hfixv _ (hindmem _ (List.getElem_mem hp')) x
  have htrailfix : ∀ x, (rest.drop (rest.length - (if hasMask then 2 else 1))).map
      (Value.replaceUse (c.warpOp.getResult operandIndex) x) =
      rest.drop (rest.length - (if hasMask then 2 else 1)) := by
    intro x
    apply map_fix
    intro v hv
    exact hfixv v (hslot v (List.mem_cons_of_mem _ (List.mem_of_mem_drop hv))) x
  have hwarpfix : ∀ x, c.warpOp.mapOperands
      (Value.replaceUse (c.warpOp.getResult operandIndex) x) = c.warpOp := by
    intro x
    exact warpOp_mapOperands_fix _ _ (fun v hv => hfixv v hv x)
  refine ⟨c.pre.map (Item.mapOperands (Value.replaceUse (c.warpOp.getResult operandIndex)
      ⟨ValueDef.opResult st'.nextId 0, (c.warpOp.getResult operandIndex).ty⟩)),
    extra, st'.indices, st'.nextId,
    c.post.map (Item.mapOperands (Value.replaceUse (c.warpOp.getResult operandIndex)
      ⟨ValueDef.opResult st'.nextId 0, (c.warpOp.getResult operandIndex).ty⟩)),
    ?_, hlen, ?_, ?_, fun scale x lane => laneOffsetExpr_eval scale x lane, ?_, ?_⟩
  · simp only [WarpOpTransferRead.matchAndRewrite, hmatch, hdef, hkind, hoperands, hmap, hcomp,
      hzip, hshape, hind, hrun, hcreated]
    simp only [WarpContext.program, WarpContext.items, WarpContext.mapOperands,
      Operation.getResult, List.getD_cons_zero, List.map_append, List.map_cons, List.map_nil,
      Item.mapOperands, Operation.mapOperands, hextrafix, hindfix, htrailfix, hwarpfix,
      hfixv source (hslot source (List.mem_cons_self _ _)), List.append_assoc,
      List.cons_append, List.nil_append]
  · intro j p index hj hne hget hindex
    obtain ⟨id, _, _, hin, hval⟩ := hnew p j ((hpair p j).2 ⟨hj, hne, hget⟩)
    have hgd : indices.getD p default = index := by
      rw [List.getD_eq_getElem?_getD, hindex]; rfl
    rw [hgd] at hin
    exact ⟨id, hin, hval⟩
  · intro p hp
    apply hkeep
    intro pr hpr e
    rw [List.mem_map] at hpr
    obtain ⟨j, hj, rfl⟩ := hpr
    simp only at e
    have hjl : j < src.length := by
      have := (List.mem_filter.1 hj).1
      rwa [List.mem_range] at this
    have hne : src.getD j 0 ≠ dst.getD j 0 := by
      simpa using (List.mem_filter.1 hj).2
    apply hp j hjl hne
    rw [hpermLen] at hjl
    rw [List.getD_eq_getElem _ _ hjl] at e
    rw [List.getElem?_eq_getElem hjl, e]
  · exact slotsRewired_map _ _ _ (by simp [Value.replaceUse]) _
  · exact slotsRewired_map _ _ _ (by simp [Value.replaceUse]) _

/-- Instance of `transferReadSink_indices`: the transfer read scenario, where
`vector<64xf32>` is distributed to `vector<2xf32>` and the index becomes
`index + 2 * laneid`. -/
theorem transferReadSink_indices_witness :
    WarpOpTransferRead.matchAndRewrite readScenario = RewriteResult.success readScenarioSunk ∧
    ∃ pre' created newIndices newId post',
      WarpOpTransferRead.matchAndRewrite readScenario = RewriteResult.success
        ⟨pre' ++ [Item.warp readScenario.warpOp] ++ created ++
          [Item.op
            { id := newId
              kind := readScenarioOp.kind
              operands := ⟨ValueDef.opResult 1 0, Ty.memref [128] (ScalarType.float 32)⟩ ::
                newIndices ++
                [(⟨ValueDef.opResult 2 0, indexTy⟩ : Value), ⟨ValueDef.opResult 3 0, f32⟩].drop
                  ([(⟨ValueDef.opResult 2 0, indexTy⟩ : Value),
                    ⟨ValueDef.opResult 3 0, f32⟩].length - (if false = true then 2 else 1))
              resultTypes := [(readScenario.warpOp.getResult 0).ty] }] ++ post',
          newId + 1⟩ ∧
      newIndices.length =
        ([(⟨ValueDef.opResult 2 0, indexTy⟩ : Value), ⟨ValueDef.opResult 3 0, f32⟩].take
          ([(⟨ValueDef.opResult 2 0, indexTy⟩ : Value),
            ⟨ValueDef.opResult 3 0, f32⟩].length - (if false = true then 2 else 1))).length ∧
      (∀ j p index, j < ([64] : List Int).length →
        ([64] : List Int).getD j 0 ≠ ([2] : List Int).getD j 0 →
        identityMap1.results[j]? = some (AffineExpr.dim p) →
        ([(⟨ValueDef.opResult 2 0, indexTy⟩ : Value), ⟨ValueDef.opResult 3 0, f32⟩].take
          ([(⟨ValueDef.opResult 2 0, indexTy⟩ : Value),
            ⟨ValueDef.opResult 3 0, f32⟩].length - (if false = true then 2 else 1)))[p]? =
          some index →
        ∃ id, Item.op (laneOffsetApply id (([2] : List Int).getD j 0) index
            readScenario.warpOp.laneid) ∈ created ∧
          newIndices[p]? =
            some ((laneOffsetApply id (([2] : List Int).getD j 0) index
              readScenario.warpOp.laneid).getResult 0)) ∧
      (∀ p, (∀ j, j < ([64] : List Int).length →
          ([64] : List Int).getD j 0 ≠ ([2] : List Int).getD j 0 →
          identityMap1.results[j]? ≠ some (AffineExpr.dim p)) →
        newIndices[p]? =
          ([(⟨ValueDef.opResult 2 0, indexTy⟩ : Value), ⟨ValueDef.opResult 3 0, f32⟩].take
            ([(⟨ValueDef.opResult 2 0, indexTy⟩ : Value),
              ⟨ValueDef.opResult 3 0, f32⟩].length - (if false = true then 2 else 1)))[p]?) ∧
      (∀ scale x lane : Int, (laneOffsetExpr scale).eval [x, lane] = x + scale * lane) ∧
      List.Forall₂ (SlotsRewired (readScenario.warpOp.getResult 0)
        ⟨ValueDef.opResult newId 0, (readScenario.warpOp.getResult 0).ty⟩)
        readScenario.pre pre' ∧
      List.Forall₂ (SlotsRewired (readScenario.warpOp.getResult 0)
        ⟨ValueDef.opResult newId 0, (readScenario.warpOp.getResult 0).ty⟩)
        readScenario.post post' :=
  ⟨by decide,
    transferReadSink_indices readScenario 0 readScenarioOp identityMap1 false none
      ⟨ValueDef.opResult 1 0, Ty.memref [128] (ScalarType.float 32)⟩
      [⟨ValueDef.opResult 2 0, indexTy⟩, ⟨ValueDef.opResult 3 0, f32⟩] [64] [2]
      (ScalarType.float 32) (ScalarType.float 32)
      (by decide) (by decide) (by decide) (by decide) (by decide) (by decide) (by decide)
      (by decide) (by decide) (by decide) (by decide) (by decide) (by decide)
      (by
        intro p hp
        have h : p = 0 := by simpa [identityMap1] using hp
        subst h
        decide)⟩

/-! ## Reduction sink: lane values -/

theorem linearReduce_congr {α : Type} (op : α → α → α) (f g : Nat → α) (m : Nat)
    (h : ∀ j, j ≤ m → f j = g j) : linearReduce op f m = linearReduce op g m := by
  induction m with
  | zero => exact h 0 (Nat.le_refl 0)
  | succ m ih =>
    simp only [linearReduce]
    rw [ih (fun j hj => h j (Nat.le_succ_of_le hj)), h (m + 1) (Nat.le_refl _)]

/-- Reducing pointwise combined values is combining the two reductions. -/
theorem linearReduce_combine {α : Type} (op : α → α → α)
    (hassoc : ∀ a b c, op (op a b) c = op a (op b c)) (hcomm : ∀ a b, op a b = op b a)
    (f g : Nat → α) (m : Nat) :
    linearReduce op (fun j => op (f j) (g j)) m =
      op (linearReduce op f m) (linearReduce op g m) := by
  induction m with
  | zero => rfl
  | succ m ih =>
    simp only [linearReduce]
    rw [ih, hassoc, hassoc]
    congr 1
    rw [← hassoc, ← hassoc, hcomm (linearReduce op g m) (f (m + 1))]

/-- Reducing a range is combining the reductions of its two parts. -/
theorem linearReduce_append {α : Type} (op : α → α → α)
    (hassoc : ∀ a b c, op (op a b) c = op a (op b c)) (f : Nat → α) (m k : Nat) :
    op (linearReduce op f m) (linearReduce op (fun j => f (m + 1 + j)) k) =
      linearReduce op f (m + 1 + k) := by
  induction k with
  | zero => rfl
  | succ k ih =>
    simp only [linearReduce]
    rw [← hassoc, ih]
    rfl

/-- The rounds with the distances `2^k, ..., 2, 1` leave in every lane that has
`2^(k+1)` lanes from itself on within the width the reduction of the values of
these lanes. -/
theorem roundsLanes_pow {α : Type} (op : α → α → α)
    (hassoc : ∀ a b c, op (op a b) c = op a (op b c)) (hcomm : ∀ a b, op a b = op b a)
    (unspecified : Nat → Nat → α) (w : Nat) (k : Nat) :
    ∀ (fuel nid : Nat) (x : Nat → α) (lane : Nat), k + 1 ≤ fuel → lane + 2 ^ (k + 1) ≤ w →
      roundsLanes op unspecified (w : Int) fuel ((2 ^ k : Nat) : Int) nid x lane =
        linearReduce op (fun j => x (lane + j)) (2 ^ (k + 1) - 1) := by
  induction k with
  | zero =>
    intro fuel nid x lane hfuel hlane
    obtain ⟨f, rfl⟩ : ∃ f, fuel = f + 1 := ⟨fuel - 1, by omega⟩
    have hstop : ∀ (y : Nat → α), roundsLanes op unspecified (w : Int) f
        (((2 ^ 0 : Nat) : Int) / 2) (nid + 2) y = y := by
      intro y
      cases f with
      | zero => rfl
      | succ f => simp [roundsLanes]
    simp only [roundsLanes]
    rw [if_pos (by simp), hstop]
    have hlt : (lane : Int) + ((2 ^ 0 : Nat) : Int) < (w : Int) := by
      simp only [pow_zero, pow_one] at hlane ⊢
      omega
    rw [if_pos hlt]
    simp [linearReduce]
  | succ k ih =>
    intro fuel nid x lane hfuel hlane
    obtain ⟨f, rfl⟩ : ∃ f, fuel = f + 1 := ⟨fuel - 1, by omega⟩
    have hpos : (0 : Int) < ((2 ^ (k + 1) : Nat) : Int) := by
      have : 0 < 2 ^ (k + 1) := Nat.pow_pos (by decide)
      omega
    have hhalf : ((2 ^ (k + 1) : Nat) : Int) / 2 = ((2 ^ k : Nat) : Int) := by
      rw [pow_succ]
      push_cast
      omega
    have hp2 : 2 ^ (k + 1 + 1) = 2 ^ (k + 1) + 2 ^ (k + 1) := by
      rw [pow_succ 2 (k + 1)]; omega
    simp only [roundsLanes]
    rw [if_pos hpos, hhalf, ih f (nid + 2) _ lane (by omega) (by omega)]
    have hpk : 0 < 2 ^ (k + 1) := Nat.pow_pos (by decide)
    rw [linearReduce_congr op _
      (fun j => op (x (lane + j)) (x (lane + (2 ^ (k + 1) - 1 + 1 + j)))) (2 ^ (k + 1) - 1)
      (by
        intro j hj
        have hlt : ((lane + j : Nat) : Int) + ((2 ^ (k + 1) : Nat) : Int) < (w : Int) := by
          omega
        simp only
        rw [if_pos hlt, Int.toNat_ofNat]
        congr 2
        omega)]
    rw [linearReduce_combine op hassoc hcomm (fun j => x (lane + j))
      (fun j => x (lane + (2 ^ (k + 1) - 1 + 1 + j)))]
    rw [linearReduce_append op hassoc (fun j => x (lane + j))]
    congr 1
    omega

/-- Running the operations of the shuffle rounds gives the running value the
lane values of `roundsLanes`. -/
theorem evalLanes_rounds {α : Type} (combine : CombiningKind → α → α → α)
    (unspecified : Nat → Nat → α) (kind : CombiningKind) (width : Int) (fuel : Nat) :
    ∀ (i : Int) (nextId : Nat) (laneVal : Value) (env : Value → Nat → α) (post : List Item),
      (∀ id j t, nextId ≤ id → laneVal ≠ ⟨ValueDef.opResult id j, t⟩) →
      ∃ env',
        evalLanes combine unspecified
            ((reductionRounds kind width fuel i nextId laneVal).1 ++ post) env =
          evalLanes combine unspecified post env' ∧
        env' (reductionRounds kind width fuel i nextId laneVal).2.2 =
          roundsLanes (combine kind) unspecified width fuel i nextId (env laneVal) := by
  induction fuel with
  | zero =>
    intro i nextId laneVal env post _
    exact ⟨env, rfl, rfl⟩
  | succ fuel ih =>
    intro i nextId laneVal env post hfresh
    by_cases hi : 0 < i
    · have hne : laneVal ≠ ⟨ValueDef.opResult nextId 0, laneVal.ty⟩ :=
        hfresh nextId 0 laneVal.ty (Nat.le_refl _)
      obtain ⟨env', hrun, hval⟩ := ih (i / 2) (nextId + 2)
        ⟨ValueDef.opResult (nextId + 1) 0, laneVal.ty⟩
        (setLanes
          (setLanes env ⟨ValueDef.opResult nextId 0, laneVal.ty⟩
            (fun lane => if (lane : Int) + i < width then env laneVal (lane + i.toNat)
              else unspecified nextId lane))
          ⟨ValueDef.opResult (nextId + 1) 0, laneVal.ty⟩
          (fun lane => combine kind (env laneVal lane)
            (if (lane : Int) + i < width then env laneVal (lane + i.toNat)
              else unspecified nextId lane)))
        post
        (by
          intro id j t hid e
          simp only [Value.mk.injEq, ValueDef.opResult.injEq] at e
          omega)
      refine ⟨env', ?_, ?_⟩
      · rw [← hrun]
        simp only [reductionRounds, if_pos hi, List.cons_append, evalLanes, shuffleLanes,
          Operation.getResult, List.getD_cons_zero]
        simp only [setLanes, if_neg hne, if_true]
      · simp only [reductionRounds, if_pos hi, roundsLanes, Operation.getResult,
          List.getD_cons_zero]
        rw [hval]
        simp only [setLanes, if_true]
    · exact ⟨env, by simp only [reductionRounds, if_neg hi, List.nil_append],
        by simp only [reductionRounds, if_neg hi, roundsLanes]⟩

theorem item_mapOperands_fix (f : Value → Value) (it : Item)
    (h : ∀ v, v ∈ it.operandValues → f v = v) : it.mapOperands f = it := by
  cases it with
  | op o => exact congrArg Item.op (operation_mapOperands_fix f o h)
  | warp w => exact congrArg Item.warp (warpOp_mapOperands_fix f w h)
  | bodyless hd => exact congrArg Item.bodyless (warpHeader_mapOperands_fix f hd h)

/-- The operations of the shuffle rounds read the running value they start from
and results of operations created from `nextId` on; so is the final value. -/
theorem reductionRounds_operands (kind : CombiningKind) (width : Int) (fuel : Nat) :
    ∀ (i : Int) (nextId : Nat) (laneVal : Value),
      (∀ it, it ∈ (reductionRounds kind width fuel i nextId laneVal).1 →
        ∀ v, v ∈ it.operandValues →
          v = laneVal ∨ ∃ id j t, nextId ≤ id ∧ v = ⟨ValueDef.opResult id j, t⟩) ∧
      ((reductionRounds kind width fuel i nextId laneVal).2.2 = laneVal ∨
        ∃ id j t, nextId ≤ id ∧
          (reductionRounds kind width fuel i nextId laneVal).2.2 =
            ⟨ValueDef.opResult id j, t⟩) := by
  induction fuel with
  | zero =>
    intro i nextId laneVal
    exact ⟨fun it hit => by simp [reductionRounds] at hit, Or.inl rfl⟩
  | succ fuel ih =>
    intro i nextId laneVal
    by_cases hi : 0 < i
    · obtain ⟨hops, hfinal⟩ := ih (i / 2) (nextId + 2)
        ⟨ValueDef.opResult (nextId + 1) 0, laneVal.ty⟩
      simp only [reductionRounds, if_pos hi, Operation.getResult, List.getD_cons_zero,
        List.mem_cons]
      constructor
      · intro it hit v hv
        rcases hit with rfl | rfl | hit
        · simp only [Item.operandValues, List.mem_singleton] at hv
          exact Or.inl hv
        · simp only [Item.operandValues, List.mem_cons, List.mem_singleton, List.not_mem_nil,
            or_false] at hv
          rcases hv with rfl | rfl
          · exact Or.inl rfl
          · exact Or.inr ⟨nextId, 0, _, Nat.le_refl _, rfl⟩
        · rcases hops it hit v hv with rfl | ⟨id, j, t, hid, rfl⟩
          · exact Or.inr ⟨nextId + 1, 0, _, by omega, rfl⟩
          · exact Or.inr ⟨id, j, t, by omega, rfl⟩
      · rcases hfinal with h | ⟨id, j, t, hid, h⟩
        · exact Or.inr ⟨nextId + 1, 0, _, by omega, h⟩
        · exact Or.inr ⟨id, j, t, by omega, h⟩
    · constructor
      · intro it hit
        simp [reductionRounds, hi] at hit
      · left
        simp [reductionRounds, hi]

/-- The operations the reduction pattern creates read the new region output
they start from and results of operations created from `nextId` on. -/
theorem reductionShuffles_operands (warpSize : Nat) (kind : CombiningKind) (e : ScalarType)
    (laneValVec : Value) (nextId : Nat) :
    ∀ it, it ∈ (reductionShuffles warpSize kind e laneValVec nextId).1 →
      ∀ v, v ∈ it.operandValues →
        v = laneValVec ∨ ∃ id j t, nextId ≤ id ∧ v = ⟨ValueDef.opResult id j, t⟩ := by
  unfold reductionShuffles
  generalize toInt32 ((warpSize / 2 : Nat) : Int) = start
  generalize toInt32 (warpSize : Int) = width
  obtain ⟨hops, hfinal⟩ := reductionRounds_operands kind width start.toNat start (nextId + 1)
    ⟨ValueDef.opResult nextId 0, Ty.scalar e⟩
  intro it hit v hv
  simp only [Operation.getResult, List.getD_cons_zero, List.mem_cons, List.mem_append,
    List.mem_singleton, List.not_mem_nil, or_false] at hit
  rcases hit with (rfl | hit) | rfl
  · simp only [Item.operandValues, List.mem_singleton] at hv
    exact Or.inl hv
  · rcases hops it hit v hv with rfl | ⟨id, j, t, hid, rfl⟩
    · exact Or.inr ⟨nextId, 0, _, Nat.le_refl _, rfl⟩
    · exact Or.inr ⟨id, j, t, by omega, rfl⟩
  · simp only [Item.operandValues, List.mem_singleton] at hv
    subst hv
    rcases hfinal with h | ⟨id, j, t, hid, h⟩
    · exact Or.inr ⟨nextId, 0, _, Nat.le_refl _, h⟩
    · exact Or.inr ⟨id, j, t, by omega, h⟩

theorem appendCreate_mid (c : WarpContext) (vs : List Value) (ts : List Ty) (ops : List Item)
    (nid : Nat) (old x : Value) :
    (((moveRegionToNewWarpOpAndAppendReturns c vs ts).create ops nid).replaceAllUsesWith
      old x).mid = ops.map (Item.mapOperands (Value.replaceUse old x)) := by
  simp only [Moved.replaceAllUsesWith, Moved.mapOperands, Moved.create, appendReturns_mid,
    List.nil_append]

/-- The operations between the new region and the old operation after the
reduction pattern are the ones it created, unchanged by the final replacement
of the matched result. -/
theorem reductionRewrite_mid (c : WarpContext) (operandIndex : Nat) (kind : CombiningKind)
    (vector : Value) (e : ScalarType) (hidx : operandIndex < c.warpOp.getNumResults) :
    (reductionRewrite c operandIndex kind vector e).mid =
      (reductionShuffles c.warpOp.warpSize kind e
        ⟨ValueDef.opResult c.nextId c.warpOp.getNumResults, Ty.vector [1] e⟩
        (c.nextId + 1)).1 := by
  have hws : (moveRegionToNewWarpOpAndAppendReturns c [vector]
      [Ty.vector [1] e]).newWarpOp.warpSize = c.warpOp.warpSize := by
    rw [appendReturns_newWarpOp]; rfl
  have hlast : (moveRegionToNewWarpOpAndAppendReturns c [vector]
      [Ty.vector [1] e]).newWarpOp.getResult c.warpOp.getNumResults =
      ⟨ValueDef.opResult c.nextId c.warpOp.getNumResults, Ty.vector [1] e⟩ := by
    rw [appendReturns_getResult]
    simp [WarpOp.getNumResults, List.getD_eq_getElem?_getD]
  have hops := reductionShuffles_operands c.warpOp.warpSize kind e
    ⟨ValueDef.opResult c.nextId c.warpOp.getNumResults, Ty.vector [1] e⟩ (c.nextId + 1)
  have h := appendCreate_mid c [vector] [Ty.vector [1] e]
    (reductionShuffles
      (moveRegionToNewWarpOpAndAppendReturns c [vector] [Ty.vector [1] e]).newWarpOp.warpSize
      kind e
      ((moveRegionToNewWarpOpAndAppendReturns c [vector]
        [Ty.vector [1] e]).newWarpOp.getResult c.warpOp.getNumResults)
      (moveRegionToNewWarpOpAndAppendReturns c [vector] [Ty.vector [1] e]).nextId).1
    (reductionShuffles
      (moveRegionToNewWarpOpAndAppendReturns c [vector] [Ty.vector [1] e]).newWarpOp.warpSize
      kind e
      ((moveRegionToNewWarpOpAndAppendReturns c [vector]
        [Ty.vector [1] e]).newWarpOp.getResult c.warpOp.getNumResults)
      (moveRegionToNewWarpOpAndAppendReturns c [vector] [Ty.vector [1] e]).nextId).2.1
    ((moveRegionToNewWarpOpAndAppendReturns c [vector]
      [Ty.vector [1] e]).newWarpOp.getResult operandIndex)
    (reductionShuffles
      (moveRegionToNewWarpOpAndAppendReturns c [vector] [Ty.vector [1] e]).newWarpOp.warpSize
      kind e
      ((moveRegionToNewWarpOpAndAppendReturns c [vector]
        [Ty.vector [1] e]).newWarpOp.getResult c.warpOp.getNumResults)
      (moveRegionToNewWarpOpAndAppendReturns c [vector] [Ty.vector [1] e]).nextId).2.2
  rw [show (reductionRewrite c operandIndex kind vector e).mid = _ from h, hws, hlast,
    appendReturns_nextId]
  generalize reductionShuffles c.warpOp.warpSize kind e
    ⟨ValueDef.opResult c.nextId c.warpOp.getNumResults, Ty.vector [1] e⟩ (c.nextId + 1) =
    created at hops ⊢
  apply map_fix
  intro it hit
  apply item_mapOperands_fix
  intro v hv
  unfold Value.replaceUse
  rw [if_neg]
  rw [appendReturns_getResult]
  rcases hops it hit v hv with rfl | ⟨id, j, t, hid, rfl⟩
  · intro h
    simp only [Value.mk.injEq, ValueDef.opResult.injEq, true_and] at h
    omega
  · intro h
    simp only [Value.mk.injEq, ValueDef.opResult.injEq] at h
    omega

/-- For a power of two `W = 2^n`, the rounds the pattern creates (distances
`W/2, W/4, ..., 1`, width `W`) leave in lane 0 the reduction of the values of
all `W` lanes. -/
theorem roundsLanes_total {α : Type} (op : α → α → α)
    (hassoc : ∀ a b c, op (op a b) c = op a (op b c)) (hcomm : ∀ a b, op a b = op b a)
    (unspecified : Nat → Nat → α) (n nid : Nat) (x : Nat → α) :
    roundsLanes op unspecified ((2 ^ n : Nat) : Int) (2 ^ n / 2) ((2 ^ n / 2 : Nat) : Int) nid x 0 =
      linearReduce op x (2 ^ n - 1) := by
  cases n with
  | zero => rfl
  | succ k =>
    have hhalf : 2 ^ (k + 1) / 2 = 2 ^ k := by
      rw [pow_succ]; omega
    rw [hhalf, roundsLanes_pow op hassoc hcomm unspecified (2 ^ (k + 1)) k (2 ^ k) nid x 0
      (Nat.succ_le_of_lt (Nat.lt_two_pow k)) (by omega)]
    apply linearReduce_congr
    intro j _
    simp

/-- C11, amended: for a warp size `W = 2^n` below 2^31, an associative and
commutative combining operation and any lane values of the new region output,
running the operations the reduction pattern created gives, after the last
shuffle-down / combine round, in lane 0 the reduction of the values of all `W`
lanes, and after the index shuffle that follows, in every lane that same
value. -/
theorem reductionSink_total {α : Type} (combine : CombiningKind → α → α → α)
    (unspecified : Nat → Nat → α) (c : WarpContext) (operandIndex : Nat)
    (kind : CombiningKind) (vector : Value) (e : ScalarType) (n : Nat)
    (env : Value → Nat → α)
    (hassoc : ∀ a b d, combine kind (combine kind a b) d = combine kind a (combine kind b d))
    (hcomm : ∀ a b, combine kind a b = combine kind b a)
    (hW : c.warpOp.warpSize = 2 ^ n) (hn : n < 31)
    (hidx : operandIndex < c.warpOp.getNumResults) :
    ∃ rounds shuffleOp laneVal env1 env2,
      (reductionRewrite c operandIndex kind vector e).mid = rounds ++ [Item.op shuffleOp] ∧
      shuffleOp.kind = OpKind.shuffle ShuffleMode.idx 0 ((2 ^ n : Nat) : Int) ∧
      shuffleOp.operands = [laneVal] ∧
      evalLanes combine unspecified rounds env = some env1 ∧
      env1 laneVal 0 =
        linearReduce (combine kind)
          (env ⟨ValueDef.opResult c.nextId c.warpOp.getNumResults, Ty.vector [1] e⟩)
          (2 ^ n - 1) ∧
      evalLanes combine unspecified (reductionRewrite c operandIndex kind vector e).mid env =
        some env2 ∧
      ∀ lane, env2 (shuffleOp.getResult 0) lane =
        linearReduce (combine kind)
          (env ⟨ValueDef.opResult c.nextId c.warpOp.getNumResults, Ty.vector [1] e⟩)
          (2 ^ n - 1) := by
  have hlt : 2 ^ n < 2147483648 := by
    have := Nat.pow_lt_pow_right (show 1 < 2 by decide) hn
    norm_num at this
    exact this
  have h1 : toInt32 ((2 ^ n : Nat) : Int) = ((2 ^ n : Nat) : Int) := toInt32_of_lt _ hlt
  have h2 : toInt32 ((2 ^ n / 2 : Nat) : Int) = ((2 ^ n / 2 : Nat) : Int) :=
    toInt32_of_lt _ (by omega)
  rw [reductionRewrite_mid c operandIndex kind vector e hidx, hW]
  unfold reductionShuffles
  simp only [h1, h2, Int.toNat_ofNat, Operation.getResult, List.getD_cons_zero]
  have hfresh : ∀ id j t, c.nextId + 1 + 1 ≤ id →
      (⟨ValueDef.opResult (c.nextId + 1) 0, Ty.scalar e⟩ : Value) ≠
        ⟨ValueDef.opResult id j, t⟩ := by
    intro id j t hid h
    simp only [Value.mk.injEq, ValueDef.opResult.injEq] at h
    omega
  obtain ⟨envA, hrunA, hvalA⟩ := evalLanes_rounds combine unspecified kind
    ((2 ^ n : Nat) : Int) (2 ^ n / 2) ((2 ^ n / 2 : Nat) : Int) (c.nextId + 1 + 1)
    ⟨ValueDef.opResult (c.nextId + 1) 0, Ty.scalar e⟩
    (setLanes env ⟨ValueDef.opResult (c.nextId + 1) 0, Ty.scalar e⟩
      (env ⟨ValueDef.opResult c.nextId c.warpOp.getNumResults, Ty.vector [1] e⟩))
    [] hfresh
  obtain ⟨envB, hrunB, hvalB⟩ := evalLanes_rounds combine unspecified kind
    ((2 ^ n : Nat) : Int) (2 ^ n / 2) ((2 ^ n / 2 : Nat) : Int) (c.nextId + 1 + 1)
    ⟨ValueDef.opResult (c.nextId + 1) 0, Ty.scalar e⟩
    (setLanes env ⟨ValueDef.opResult (c.nextId + 1) 0, Ty.scalar e⟩
      (env ⟨ValueDef.opResult c.nextId c.warpOp.getNumResults, Ty.vector [1] e⟩))
    [Item.op
      { id := (reductionRounds kind ((2 ^ n : Nat) : Int) (2 ^ n / 2) ((2 ^ n / 2 : Nat) : Int)
          (c.nextId + 1 + 1) ⟨ValueDef.opResult (c.nextId + 1) 0, Ty.scalar e⟩).2.1
        kind := OpKind.shuffle ShuffleMode.idx 0 ((2 ^ n : Nat) : Int)
        operands := [(reductionRounds kind ((2 ^ n : Nat) : Int) (2 ^ n / 2)
          ((2 ^ n / 2 : Nat) : Int) (c.nextId + 1 + 1)
          ⟨ValueDef.opResult (c.nextId + 1) 0, Ty.scalar e⟩).2.2]
        resultTypes := [(reductionRounds kind ((2 ^ n : Nat) : Int) (2 ^ n / 2)
          ((2 ^ n / 2 : Nat) : Int) (c.nextId + 1 + 1)
          ⟨ValueDef.opResult (c.nextId + 1) 0, Ty.scalar e⟩).2.2.ty, i1] }] hfresh
  have hset : setLanes env ⟨ValueDef.opResult (c.nextId + 1) 0, Ty.scalar e⟩
      (env ⟨ValueDef.opResult c.nextId c.warpOp.getNumResults, Ty.vector [1] e⟩)
      ⟨ValueDef.opResult (c.nextId + 1) 0, Ty.scalar e⟩ =
      env ⟨ValueDef.opResult c.nextId c.warpOp.getNumResults, Ty.vector [1] e⟩ := by
    simp only [setLanes, if_true]
  rw [hset] at hvalA hvalB
  simp only [List.append_nil] at hrunA
  generalize reductionRounds kind ((2 ^ n : Nat) : Int) (2 ^ n / 2) ((2 ^ n / 2 : Nat) : Int)
    (c.nextId + 1 + 1) ⟨ValueDef.opResult (c.nextId + 1) 0, Ty.scalar e⟩ = r
    at hrunA hvalA hrunB hvalB ⊢
  refine ⟨Item.op
      { id := c.nextId + 1
        kind := OpKind.extract 0
        operands := [⟨ValueDef.opResult c.nextId c.warpOp.getNumResults, Ty.vector [1] e⟩]
        resultTypes := [Ty.scalar e] } :: r.1,
    { id := r.2.1
      kind := OpKind.shuffle ShuffleMode.idx 0 ((2 ^ n : Nat) : Int)
      operands := [r.2.2]
      resultTypes := [r.2.2.ty, i1] },
    r.2.2, envA,
    setLanes envB ⟨ValueDef.opResult r.2.1 0, r.2.2.ty⟩ (fun _ => envB r.2.2 (0 : Int).toNat),
    rfl, rfl, rfl, ?_, ?_, ?_, ?_⟩
  · simp only [evalLanes, Operation.getResult, List.getD_cons_zero]
    rw [hrunA]
    rfl
  · rw [hvalA]
    exact roundsLanes_total (combine kind) hassoc hcomm unspecified n _ _
  · simp only [List.cons_append, evalLanes, Operation.getResult, List.getD_cons_zero,
      List.append_eq]
    rw [hrunB]
    simp only [evalLanes, shuffleLanes, Operation.getResult, List.getD_cons_zero]
  · intro lane
    simp only [setLanes, Operation.getResult, List.getD_cons_zero, if_true, Int.toNat_zero]
    rw [hvalB]
    exact roundsLanes_total (combine kind) hassoc hcomm unspecified n _ _

/-- C11, as stated, fails for a warp size that is not a power of two.  With warp
size 6 and a reduced vector of 6 elements the pattern applies and creates the
rounds with the distances 3 and 1; with addition on the lane values 1, ..., 6,
lane 0 holds 12 after the last round (operation 11) and every lane holds 12
after the index shuffle (operation 12), whatever the shuffles return for a source
lane out of range, while the sum of all six lane values is 21. -/
theorem reductionSink_total_counterexample :
    WarpOpReduction.matchAndRewrite (reductionScenario 6 6) =
      RewriteResult.success
        (reductionRewrite (reductionScenario 6 6) 0 CombiningKind.add
          ⟨ValueDef.opResult 3 0, vectorF32 6⟩ (ScalarType.float 32)).program ∧
    (reductionRewrite (reductionScenario 6 6) 0 CombiningKind.add
        ⟨ValueDef.opResult 3 0, vectorF32 6⟩ (ScalarType.float 32)).mid.map Item.opKind? =
      [some (OpKind.extract 0),
        some (OpKind.shuffle ShuffleMode.down 3 6), some (OpKind.arithReduction CombiningKind.add),
        some (OpKind.shuffle ShuffleMode.down 1 6), some (OpKind.arithReduction CombiningKind.add),
        some (OpKind.shuffle ShuffleMode.idx 0 6)] ∧
    (∀ unspecified : Nat → Nat → Nat,
      (evalLanes (fun _ => Nat.add) unspecified
        (reductionRewrite (reductionScenario 6 6) 0 CombiningKind.add
          ⟨ValueDef.opResult 3 0, vectorF32 6⟩ (ScalarType.float 32)).mid (exampleLanes 6)).map
        (fun env => (env ⟨ValueDef.opResult 11 0, f32⟩ 0,
          (List.range 6).map (env ⟨ValueDef.opResult 12 0, f32⟩))) =
        some (12, [12, 12, 12, 12, 12, 12])) ∧
    linearReduce Nat.add (exampleLanes 6 ⟨ValueDef.opResult 6 1, vectorF32 1⟩) 5 = 21 :=
  ⟨by decide, by decide, fun _ => rfl, by decide⟩

/-- Instance of `reductionSink_total`: warp size 4, addition, lane values
1, 2, 3, 4; every lane ends with 10. -/
theorem reductionSink_total_witness :
    linearReduce Nat.add (exampleLanes 4 ⟨ValueDef.opResult 6 1, vectorF32 1⟩) (2 ^ 2 - 1) = 10 ∧
    ∃ rounds shuffleOp laneVal env1 env2,
      (reductionRewrite (reductionScenario 4 4) 0 CombiningKind.add
        ⟨ValueDef.opResult 3 0, vectorF32 4⟩ (ScalarType.float 32)).mid =
          rounds ++ [Item.op shuffleOp] ∧
      shuffleOp.kind = OpKind.shuffle ShuffleMode.idx 0 ((2 ^ 2 : Nat) : Int) ∧
      shuffleOp.operands = [laneVal] ∧
      evalLanes (fun _ => Nat.add) (fun _ _ => 0) rounds (exampleLanes 4) = some env1 ∧
      env1 laneVal 0 =
        linearReduce Nat.add
          (exampleLanes 4 ⟨ValueDef.opResult (reductionScenario 4 4).nextId
            (reductionScenario 4 4).warpOp.getNumResults, Ty.vector [1] (ScalarType.float 32)⟩)
          (2 ^ 2 - 1) ∧
      evalLanes (fun _ => Nat.add) (fun _ _ => 0)
        (reductionRewrite (reductionScenario 4 4) 0 CombiningKind.add
          ⟨ValueDef.opResult 3 0, vectorF32 4⟩ (ScalarType.float 32)).mid (exampleLanes 4) =
        some env2 ∧
      ∀ lane, env2 (shuffleOp.getResult 0) lane =
        linearReduce Nat.add
          (exampleLanes 4 ⟨ValueDef.opResult (reductionScenario 4 4).nextId
            (reductionScenario 4 4).warpOp.getNumResults, Ty.vector [1] (ScalarType.float 32)⟩)
          (2 ^ 2 - 1) :=
  ⟨by decide,
    reductionSink_total (fun _ => Nat.add) (fun _ _ => 0) (reductionScenario 4 4) 0
      CombiningKind.add ⟨ValueDef.opResult 3 0, vectorF32 4⟩ (ScalarType.float 32) 2
      (exampleLanes 4) Nat.add_assoc Nat.add_comm (by decide) (by decide) (by decide)⟩

/-! ## Contraction padding: facts -/

/-- Clearing the low `k` bits of a 64-bit number rounds it down to a multiple of
`2^k`. -/
theorem land_mask (x k : Nat) (hx : x < 2 ^ 64) (hk : k ≤ 64) :
    x &&& (2 ^ 64 - 2 ^ k) = x / 2 ^ k * 2 ^ k := by
  have hmask : 2 ^ 64 - 2 ^ k = (2 ^ (64 - k) - 1) <<< k := by
    rw [Nat.shiftLeft_eq, Nat.sub_mul, Nat.one_mul, ← Nat.pow_add]
    congr 2
    omega
  rw [hmask, ← Nat.shiftRight_eq_div_pow, ← Nat.shiftLeft_eq]
  apply Nat.eq_of_testBit_eq
  intro i
  rw [Nat.testBit_and, Nat.testBit_shiftLeft, Nat.testBit_shiftLeft, Nat.testBit_shiftRight,
    Nat.testBit_two_pow_sub_one]
  by_cases hi : k ≤ i
  · have hik : k + (i - k) = i := by omega
    rw [hik]
    by_cases h64 : i < 64
    · simp [hi, show i - k < 64 - k by omega]
    · have : x.testBit i = false :=
        Nat.testBit_lt_two_pow (Nat.lt_of_lt_of_le hx (Nat.pow_le_pow_right (by decide) (by omega)))
      simp [this]
  · simp [hi]

/-- The loop of `padTensor` treats dimension `j` by the loop body. -/
theorem padDims_getElem (shape alignments : List Int) :
    ∀ (i j : Nat) (d a : Int), shape[j]? = some d → alignments[j]? = some a →
      (padDims i shape alignments).1[j]? = some (padDim (i + j) d a).1 ∧
      (padDims i shape alignments).2.1[j]? = some (padDim (i + j) d a).2.1 := by
  induction shape generalizing alignments with
  | nil => intro i j d a h; simp at h
  | cons d0 shape ih =>
    intro i j d a hd ha
    cases alignments with
    | nil => simp at ha
    | cons a0 alignments =>
      cases j with
      | zero =>
        simp only [List.getElem?_cons_zero, Option.some.injEq] at hd ha
        subst hd; subst ha
        simp [padDims]
      | succ j =>
        simp only [List.getElem?_cons_succ] at hd ha
        have := ih alignments (i + 1) j d a hd ha
        rw [show i + 1 + j = i + (j + 1) by omega] at this
        simpa [padDims] using this

theorem cast_div_mul (n P : Nat) (hP : 0 < P) :
    ((n : Int) + ((P : Int) - 1)) / (P : Int) * (P : Int) =
      (((n + (P - 1)) / P * P : Nat) : Int) := by
  have hsub : ((P : Int) - 1) = ((P - 1 : Nat) : Int) := by omega
  rw [hsub]
  norm_cast

/-- The new size of a static dimension under a power-of-two alignment. -/
theorem alignedDim_pow (d : Int) (k : Nat) (hd : 0 ≤ d)
    (hbound : d + 2 ^ k ≤ 9223372036854775808) :
    int64And (toInt64 (d + ((2 : Int) ^ k - 1))) (int64Not (toInt64 ((2 : Int) ^ k - 1))) =
      (d + (2 ^ k - 1)) / 2 ^ k * 2 ^ k := by
  obtain ⟨n, rfl⟩ := Int.eq_ofNat_of_zero_le hd
  have hpos : 0 < 2 ^ k := Nat.pow_pos (by decide)
  have hpk : ((2 : Int) ^ k) = ((2 ^ k : Nat) : Int) := by push_cast; rfl
  rw [hpk] at hbound ⊢
  have hk : k ≤ 64 := by
    by_contra hcon
    have : 2 ^ 64 ≤ 2 ^ k := Nat.pow_le_pow_right (by decide) (by omega)
    omega
  have hx : n + (2 ^ k - 1) < 2 ^ 64 := by omega
  have h1 : toInt64 ((n : Int) + (((2 ^ k : Nat) : Int) - 1)) = ((n + (2 ^ k - 1) : Nat) : Int) := by
    unfold toInt64
    omega
  have h2 : toInt64 (((2 ^ k : Nat) : Int) - 1) = ((2 ^ k - 1 : Nat) : Int) := by
    unfold toInt64
    omega
  have h3 : toUInt64 ((2 ^ k - 1 : Nat) : Int) = 2 ^ k - 1 := by
    unfold toUInt64
    omega
  have h4 : int64Not ((2 ^ k - 1 : Nat) : Int) = -((2 ^ k : Nat) : Int) := by
    unfold int64Not
    rw [h3]
    unfold toInt64
    omega
  have h5 : toUInt64 (-((2 ^ k : Nat) : Int)) = 2 ^ 64 - 2 ^ k := by
    unfold toUInt64
    omega
  have h6 : toUInt64 ((n + (2 ^ k - 1) : Nat) : Int) = n + (2 ^ k - 1) := by
    unfold toUInt64
    omega
  rw [h1, h2, h4]
  unfold int64And
  rw [h5, h6, land_mask _ k hx hk]
  have hle : (n + (2 ^ k - 1)) / 2 ^ k * 2 ^ k ≤ n + (2 ^ k - 1) := Nat.div_mul_le_self _ _
  have hcast := cast_div_mul n (2 ^ k) hpos
  rw [hcast]
  unfold toInt64
  omega

/-- Rounding `d + (a - 1)` down to a multiple of `a` gives the smallest multiple
of `a` that is at least `d`. -/
theorem roundUp_smallest (d a : Int) (ha : 0 < a) :
    a ∣ (d + (a - 1)) / a * a ∧ d ≤ (d + (a - 1)) / a * a ∧
      (d + (a - 1)) / a * a < d + a ∧
      ∀ m, a ∣ m → d ≤ m → (d + (a - 1)) / a * a ≤ m := by
  refine ⟨Dvd.intro_left _ rfl, ?_, ?_, ?_⟩
  · have := Int.lt_ediv_add_one_mul_self (d + (a - 1)) ha
    have h2 : ((d + (a - 1)) / a + 1) * a = (d + (a - 1)) / a * a + a := by ring
    omega
  · have := Int.ediv_mul_le (d + (a - 1)) (Int.ne_of_gt ha)
    omega
  · rintro m ⟨q, rfl⟩ hdm
    have hlt : d + (a - 1) < (q + 1) * a := by
      have : (q + 1) * a = a * q + a := by ring
      omega
    have hq : (d + (a - 1)) / a < q + 1 := Int.ediv_lt_of_lt_mul ha hlt
    have hq' : (d + (a - 1)) / a ≤ q := by omega
    calc (d + (a - 1)) / a * a ≤ q * a := Int.mul_le_mul_of_nonneg_right hq' (Int.le_of_lt ha)
      _ = a * q := Int.mul_comm q a

/-- C24, amended: for every static size `d >= 0` and every alignment `a = 2^k`
with `d + a` at most 2^63, the new static size `padTensor` computes for the
dimension is the smallest multiple of `a` that is at least `d`, and the high
padding amount recorded for it is that size minus `d`, which is zero when `d` is
a multiple of `a`. -/
theorem padTensor_static_aligned (shape alignments : List Int) (j : Nat) (d : Int) (k : Nat)
    (hlen : shape.length = alignments.length)
    (hd : shape[j]? = some d) (ha : alignments[j]? = some (2 ^ k))
    (h0 : 0 ≤ d) (hbound : d + 2 ^ k ≤ 9223372036854775808) :
    ∃ dims pads needsPad r,
      padTensor shape alignments = some (dims, pads, needsPad) ∧
      dims[j]? = some r ∧ pads[j]? = some (PadSize.attr (r - d)) ∧
      (2 : Int) ^ k ∣ r ∧ d ≤ r ∧ (∀ m, (2 : Int) ^ k ∣ m → d ≤ m → r ≤ m) ∧
      ((2 : Int) ^ k ∣ d → r - d = 0) := by
  have hpos : (0 : Int) < 2 ^ k := by positivity
  obtain ⟨h1, h2⟩ := padDims_getElem shape alignments 0 j d (2 ^ k) hd ha
  by_cases hmod : Int.tmod d (2 ^ k) = 0
  · have hdvd : (2 : Int) ^ k ∣ d := Int.dvd_of_tmod_eq_zero hmod
    refine ⟨_, _, _, d, by simp only [padTensor, hlen, ne_eq, not_true_eq_false, if_false]; rfl,
      ?_, ?_, hdvd, Int.le_refl d, fun m _ h => h, fun _ => Int.sub_self d⟩
    · rw [h1]; simp [padDim, h0, hmod]
    · rw [h2]; simp [padDim, h0, hmod]
  · obtain ⟨hr1, hr2, hr3, hr4⟩ := roundUp_smallest d (2 ^ k) hpos
    have hal := alignedDim_pow d k h0 hbound
    refine ⟨_, _, _, (d + (2 ^ k - 1)) / 2 ^ k * 2 ^ k,
      by simp only [padTensor, hlen, ne_eq, not_true_eq_false, if_false]; rfl,
      ?_, ?_, hr1, hr2, hr4, ?_⟩
    · rw [h1]; simp [padDim, h0, hmod, hal]
    · rw [h2]
      have hsmall : toInt64 ((d + (2 ^ k - 1)) / 2 ^ k * 2 ^ k - d) =
          (d + (2 ^ k - 1)) / 2 ^ k * 2 ^ k - d := by
        unfold toInt64
        omega
      simp [padDim, h0, hmod, hal, hsmall]
    · intro hdvd
      exact absurd (Int.tmod_eq_zero_of_dvd hdvd) hmod

/-- C24, as stated, fails for an alignment that is not a power of two: for the
size 4 and the alignment 3 the new static size is 4 and the padding amount 0,
and for the size 4 and the alignment 6 they are 8 and 4; neither 4 is a multiple
of 3 nor 8 one of 6, the smallest multiples being 6 in both cases. -/
theorem padTensor_static_counterexample :
    padTensor [4] [3] = some ([4], [PadSize.attr 0], true) ∧ ¬ (3 : Int) ∣ 4 ∧
    padTensor [4] [6] = some ([8], [PadSize.attr 4], true) ∧ ¬ (6 : Int) ∣ 8 := by
  decide

/-- Instance of `padTensor_static_aligned`: the sizes 5 and 17 with the
alignments 8 and 16 become 8 and 32. -/
theorem padTensor_static_aligned_witness :
    padTensor [5, 17] [8, 16] = some ([8, 32], [PadSize.attr 3, PadSize.attr 15], true) ∧
    ∃ dims pads needsPad r,
      padTensor [5, 17] [8, 16] = some (dims, pads, needsPad) ∧
      dims[1]? = some r ∧ pads[1]? = some (PadSize.attr (r - 17)) ∧
      (2 : Int) ^ 4 ∣ r ∧ 17 ≤ r ∧ (∀ m, (2 : Int) ^ 4 ∣ m → 17 ≤ m → r ≤ m) ∧
      ((2 : Int) ^ 4 ∣ 17 → r - 17 = 0) :=
  ⟨by decide,
    padTensor_static_aligned [5, 17] [8, 16] 1 17 4 (by decide) (by decide) (by decide)
      (by decide) (by decide)⟩

/-! ## Lane offsets: facts -/

/-- The slices of the lanes `0, ..., W - 1`, one after the other, are the first
`W * s` elements of the vector. -/
theorem laneSlice_concat {α : Type} (s : Nat) (v : List α) (W : Nat) :
    (List.range W).flatMap (fun l => laneSlice s l v) = v.take (W * s) := by
  induction W with
  | zero => simp
  | succ W ih =>
    rw [List.range_succ, List.flatMap_append, ih]
    simp only [List.flatMap_cons, List.flatMap_nil, List.append_nil, laneSlice]
    rw [Nat.succ_mul, List.take_add]

/-- C28: with the offset `base + s * laneid` that the index rewriting of the
transfer read sink and of the write distribution computes, for a slice extent
`s >= 1` and any number `W` of lanes, the index ranges `[offset l, offset l + s)` of two
distinct lanes below `W` have no index in common, and an index lies in
`[base, base + s * W)` exactly when it lies in the range of some lane below `W`.
For the read-back of the explicit lowering, whose offset is `laneid * s`, the
slices of the lanes `0, ..., W - 1` of a vector of `s * W` elements, one after
the other, are the vector. -/
theorem laneOffset_partition (s : Int) (W : Nat) (base : Int) (hs : 1 ≤ s) :
    (∀ l l' : Nat, l < W → l' < W → l ≠ l' → ∀ x : Int,
      ¬ (((laneOffsetExpr s).eval [base, l] ≤ x ∧ x < (laneOffsetExpr s).eval [base, l] + s) ∧
        ((laneOffsetExpr s).eval [base, l'] ≤ x ∧
          x < (laneOffsetExpr s).eval [base, l'] + s))) ∧
    (∀ x : Int, (base ≤ x ∧ x < base + s * W) ↔
      ∃ l : Nat, l < W ∧ (laneOffsetExpr s).eval [base, l] ≤ x ∧
        x < (laneOffsetExpr s).eval [base, l] + s) ∧
    (∀ (α : Type) (v : List α), v.length = s.toNat * W →
      (List.range W).flatMap (fun l => laneSlice s.toNat l v) = v) := by
  have hmono : ∀ l l' : Nat, l < l' → s * (l : Int) + s ≤ s * (l' : Int) := by
    intro l l' h
    have h1 : (l : Int) + 1 ≤ (l' : Int) := by omega
    have h2 : s * ((l : Int) + 1) ≤ s * (l' : Int) :=
      Int.mul_le_mul_of_nonneg_left h1 (by omega)
    have h3 : s * ((l : Int) + 1) = s * (l : Int) + s := by ring
    omega
  refine ⟨?_, ?_, ?_⟩
  · intro l l' _ _ hne x
    simp only [laneOffsetExpr_eval]
    rintro ⟨⟨h1, h2⟩, h3, h4⟩
    rcases Nat.lt_or_gt_of_ne hne with h | h
    · have := hmono l l' h; omega
    · have := hmono l' l h; omega
  · intro x
    simp only [laneOffsetExpr_eval]
    constructor
    · rintro ⟨h1, h2⟩
      have hspos : 0 < s := by omega
      have hq0 : 0 ≤ (x - base) / s := Int.ediv_nonneg (by omega) (by omega)
      obtain ⟨q, hq⟩ := Int.eq_ofNat_of_zero_le hq0
      have hle := Int.ediv_mul_le (x - base) (Int.ne_of_gt hspos)
      have hlt := Int.lt_ediv_add_one_mul_self (x - base) hspos
      have hexp : ((x - base) / s + 1) * s = (x - base) / s * s + s := by ring
      rw [hq] at hle hlt hexp
      have hcomm : (q : Int) * s = s * (q : Int) := Int.mul_comm _ _
      refine ⟨q, ?_, by omega, by omega⟩
      by_contra hge
      have hWq : (W : Int) ≤ (q : Int) := by omega
      have := Int.mul_le_mul_of_nonneg_left hWq (show (0 : Int) ≤ s by omega)
      omega
    · rintro ⟨l, hl, h1, h2⟩
      have hnn : 0 ≤ s * (l : Int) := Int.mul_nonneg (by omega) (by omega)
      have hWl : s * (l : Int) + s ≤ s * (W : Int) := by
        have h1 : (l : Int) + 1 ≤ (W : Int) := by omega
        have h2 := Int.mul_le_mul_of_nonneg_left h1 (show (0 : Int) ≤ s by omega)
        have h3 : s * ((l : Int) + 1) = s * (l : Int) + s := by ring
        omega
      exact ⟨by omega, by omega⟩
  · intro α v hv
    rw [laneSlice_concat, List.take_of_length_le]
    rw [hv, Nat.mul_comm]

/-- Instance of `laneOffset_partition`: two elements per lane, 32 lanes, base
index 5. -/
theorem laneOffset_partition_witness :
    (∀ l l' : Nat, l < 32 → l' < 32 → l ≠ l' → ∀ x : Int,
      ¬ (((laneOffsetExpr 2).eval [5, l] ≤ x ∧ x < (laneOffsetExpr 2).eval [5, l] + 2) ∧
        ((laneOffsetExpr 2).eval [5, l'] ≤ x ∧ x < (laneOffsetExpr 2).eval [5, l'] + 2))) ∧
    (∀ x : Int, (5 ≤ x ∧ x < 5 + 2 * (32 : Nat)) ↔
      ∃ l : Nat, l < 32 ∧ (laneOffsetExpr 2).eval [5, l] ≤ x ∧
        x < (laneOffsetExpr 2).eval [5, l] + 2) ∧
    (∀ (α : Type) (v : List α), v.length = (2 : Int).toNat * 32 →
      (List.range 32).flatMap (fun l => laneSlice (2 : Int).toNat l v) = v) :=
  laneOffset_partition 2 32 5 (by decide)

/-- C26: for warp size 32 and any binary combining operation, running the
operations the reduction pattern created up to the last shuffle-down / combine
round (the extract and five rounds) leaves in lane 0 the value `R_5(0)` of the
pairwise tree, whatever the shuffles return for a source lane out of range; and
there are an operation and lane values for which that tree value differs from
the reduction in linear order. -/
theorem reductionSink_tree_order {α : Type} (combine : CombiningKind → α → α → α)
    (unspecified : Nat → Nat → α) (c : WarpContext) (operandIndex : Nat)
    (kind : CombiningKind) (vector : Value) (e : ScalarType) (env : Value → Nat → α)
    (hW : c.warpOp.warpSize = 32) (hidx : operandIndex < c.warpOp.getNumResults) :
    (∃ rounds shuffleOp laneVal env1,
      (reductionRewrite c operandIndex kind vector e).mid = rounds ++ [Item.op shuffleOp] ∧
      shuffleOp.kind = OpKind.shuffle ShuffleMode.idx 0 32 ∧
      shuffleOp.operands = [laneVal] ∧
      rounds.length = 11 ∧
      evalLanes combine unspecified rounds env = some env1 ∧
      env1 laneVal 0 =
        treeReduce (combine kind) 32
          (env ⟨ValueDef.opResult c.nextId c.warpOp.getNumResults, Ty.vector [1] e⟩) 5 0) ∧
    ∃ (op : Int → Int → Int) (v : Nat → Int),
      treeReduce op 32 v 5 0 ≠ linearReduce op v 31 := by
  constructor
  · have h1 : toInt32 ((32 : Nat) : Int) = 32 := by decide
    have h2 : toInt32 (((32 : Nat) / 2 : Nat) : Int) = 16 := by decide
    have h3 : (16 : Int).toNat = 16 := by decide
    rw [reductionRewrite_mid c operandIndex kind vector e hidx, hW]
    unfold reductionShuffles
    simp only [h1, h2, h3, Operation.getResult, List.getD_cons_zero]
    have hfresh : ∀ id j t, c.nextId + 1 + 1 ≤ id →
        (⟨ValueDef.opResult (c.nextId + 1) 0, Ty.scalar e⟩ : Value) ≠
          ⟨ValueDef.opResult id j, t⟩ := by
      intro id j t hid h
      simp only [Value.mk.injEq, ValueDef.opResult.injEq] at h
      omega
    obtain ⟨envA, hrunA, hvalA⟩ := evalLanes_rounds combine unspecified kind
      32 16 16 (c.nextId + 1 + 1)
      ⟨ValueDef.opResult (c.nextId + 1) 0, Ty.scalar e⟩
      (setLanes env ⟨ValueDef.opResult (c.nextId + 1) 0, Ty.scalar e⟩
        (env ⟨ValueDef.opResult c.nextId c.warpOp.getNumResults, Ty.vector [1] e⟩))
      [] hfresh
    have hset : setLanes env ⟨ValueDef.opResult (c.nextId + 1) 0, Ty.scalar e⟩
        (env ⟨ValueDef.opResult c.nextId c.warpOp.getNumResults, Ty.vector [1] e⟩)
        ⟨ValueDef.opResult (c.nextId + 1) 0, Ty.scalar e⟩ =
        env ⟨ValueDef.opResult c.nextId c.warpOp.getNumResults, Ty.vector [1] e⟩ := by
      simp only [setLanes, if_true]
    rw [hset] at hvalA
    simp only [List.append_nil] at hrunA
    have hlen : (reductionRounds kind 32 16 16 (c.nextId + 1 + 1)
        ⟨ValueDef.opResult (c.nextId + 1) 0, Ty.scalar e⟩).1.length = 10 := by
      simp [reductionRounds]
    generalize reductionRounds kind 32 16 16 (c.nextId + 1 + 1)
      ⟨ValueDef.opResult (c.nextId + 1) 0, Ty.scalar e⟩ = r at hrunA hvalA hlen ⊢
    refine ⟨Item.op
        { id := c.nextId + 1
          kind := OpKind.extract 0
          operands := [⟨ValueDef.opResult c.nextId c.warpOp.getNumResults, Ty.vector [1] e⟩]
          resultTypes := [Ty.scalar e] } :: r.1,
      { id := r.2.1
        kind := OpKind.shuffle ShuffleMode.idx 0 32
        operands := [r.2.2]
        resultTypes := [r.2.2.ty, i1] },
      r.2.2, envA, rfl, rfl, rfl, by simp [hlen], ?_, ?_⟩
    · simp only [evalLanes, Operation.getResult, List.getD_cons_zero]
      rw [hrunA]
      rfl
    · rw [hvalA]
      rfl
  · exact ⟨fun a b => a - b, fun i => (i : Int), by decide⟩

theorem reductionSink_tree_order_witness :
    (reductionScenario 32 32).warpOp.warpSize = 32 ∧
    0 < (reductionScenario 32 32).warpOp.getNumResults ∧
    (∃ rounds shuffleOp laneVal env1,
      (reductionRewrite (reductionScenario 32 32) 0 CombiningKind.add
        ⟨ValueDef.opResult 3 0, vectorF32 32⟩ (ScalarType.float 32)).mid =
          rounds ++ [Item.op shuffleOp] ∧
      shuffleOp.kind = OpKind.shuffle ShuffleMode.idx 0 32 ∧
      shuffleOp.operands = [laneVal] ∧
      rounds.length = 11 ∧
      evalLanes (fun _ => Nat.sub) (fun _ _ => 0) rounds (exampleLanes 32) = some env1 ∧
      env1 laneVal 0 =
        treeReduce Nat.sub 32
          (exampleLanes 32 ⟨ValueDef.opResult (reductionScenario 32 32).nextId
            (reductionScenario 32 32).warpOp.getNumResults,
            Ty.vector [1] (ScalarType.float 32)⟩) 5 0) ∧
    ∃ (op : Int → Int → Int) (v : Nat → Int),
      treeReduce op 32 v 5 0 ≠ linearReduce op v 31 :=
  ⟨by decide, by decide,
    reductionSink_tree_order (fun _ => Nat.sub) (fun _ _ => 0) (reductionScenario 32 32) 0
      CombiningKind.add ⟨ValueDef.opResult 3 0, vectorF32 32⟩ (ScalarType.float 32)
      (exampleLanes 32) (by decide) (by decide)⟩

/-! ## Old region: facts -/

/-- C25: on a region that yields a reduction of a 32-element vector the reduction
pattern succeeds and the program it leaves still holds the old warp operation,
emptied of its body, after the new one; the same holds for the broadcast pattern
and for both write strategies on their example regions, whereas the elementwise
pattern and the dead result pattern erase the old operation. -/
theorem oldRegion_survives :
    (∃ p, ReshapingPattern.apply ReshapingPattern.reductionSink (reductionScenario 32 32) =
        RewriteResult.success p ∧
      Item.bodyless (reductionScenario 32 32).warpOp.toWarpHeader ∈ p.items) ∧
    (∃ p, ReshapingPattern.apply ReshapingPattern.broadcastSink broadcastScenario =
        RewriteResult.success p ∧
      Item.bodyless broadcastScenario.warpOp.toWarpHeader ∈ p.items) ∧
    (∃ p, ReshapingPattern.apply (ReshapingPattern.writeDistribution identityMap1 1)
        (writeScenario 64) = RewriteResult.success p ∧
      Item.bodyless (writeScenario 64).warpOp.toWarpHeader ∈ p.items) ∧
    (∃ p, ReshapingPattern.apply (ReshapingPattern.writeExtraction 1)
        (writeScenario 1) = RewriteResult.success p ∧
      Item.bodyless (writeScenario 1).warpOp.toWarpHeader ∈ p.items) ∧
    (∃ p, ReshapingPattern.apply ReshapingPattern.elementwiseSink addScenario =
        RewriteResult.success p ∧
      ∀ it ∈ p.items, it.id ≠ addScenario.warpOp.id) ∧
    (∃ p, ReshapingPattern.apply ReshapingPattern.deadResultElimination deadResultScenario =
        RewriteResult.success p ∧
      ∀ it ∈ p.items, it.id ≠ deadResultScenario.warpOp.id) := by
  refine ⟨?_, ?_, ?_, ?_, ?_, ?_⟩
  · exact ⟨match ReshapingPattern.apply ReshapingPattern.reductionSink (reductionScenario 32 32) with
      | RewriteResult.success p => p
      | _ => ⟨[], 0⟩, by decide, by decide⟩
  · exact ⟨match ReshapingPattern.apply ReshapingPattern.broadcastSink broadcastScenario with
      | RewriteResult.success p => p
      | _ => ⟨[], 0⟩, by decide, by decide⟩
  · exact ⟨match ReshapingPattern.apply (ReshapingPattern.writeDistribution identityMap1 1) (writeScenario 64) with
      | RewriteResult.success p => p
      | _ => ⟨[], 0⟩, by decide, by decide⟩
  · exact ⟨match ReshapingPattern.apply (ReshapingPattern.writeExtraction 1) (writeScenario 1) with
      | RewriteResult.success p => p
      | _ => ⟨[], 0⟩, by decide, by decide⟩
  · exact ⟨match ReshapingPattern.apply ReshapingPattern.elementwiseSink addScenario with
      | RewriteResult.success p => p
      | _ => ⟨[], 0⟩, by decide, by decide⟩
  · exact ⟨match ReshapingPattern.apply ReshapingPattern.deadResultElimination deadResultScenario with
      | RewriteResult.success p => p
      | _ => ⟨[], 0⟩, by decide, by decide⟩

/-! ## Sinking progress: facts -/

theorem useEmpty_of_subset (l1 l2 : List Item) (v : Value) (hsub : ∀ it, it ∈ l1 → it ∈ l2)
    (h : useEmpty l2 v = true) : useEmpty l1 v = true := by
  rw [useEmpty_eq_true_iff] at h ⊢
  exact fun it hit => h it (hsub it hit)

theorem getWarpResult_ne_of_useEmpty (items : List Item) (w : WarpOp) (fn : Item → Bool)
    (idx : Nat) (h : useEmpty items (w.getResult idx) = true) :
    getWarpResult items w fn ≠ some idx := by
  intro hsome
  obtain ⟨_, _, hq, _⟩ := ((getWarpResult_spec items w fn).1 idx).1 hsome
  obtain ⟨_, it, hit, hmem⟩ := hq
  rw [useEmpty_eq_true_iff] at h
  exact h it hit hmem

theorem forwardSearch_found (items : List Item) (w : WarpOp) :
    ∀ (l : List Value) (k : Nat) (v : Value) (r : Nat),
      forwardSearch items w l k = ForwardSearch.found v r →
      useEmpty items (w.getResult r) = false ∧ (v ∈ l ∨ v ∈ w.args) ∧
        k ≤ r ∧ r < k + l.length := by
  intro l
  induction l with
  | nil =>
    intro k v r h
    simp [forwardSearch] at h
  | cons a l ih =>
    intro k v r h
    have hrec : forwardSearch items w l (k + 1) = ForwardSearch.found v r →
        useEmpty items (w.getResult r) = false ∧ (v ∈ a :: l ∨ v ∈ w.args) ∧
          k ≤ r ∧ r < k + (a :: l).length := by
      intro h'
      obtain ⟨h1, h2, h3, h4⟩ := ih (k + 1) v r h'
      refine ⟨h1, ?_, by omega, by simp only [List.length_cons]; omega⟩
      rcases h2 with h2 | h2
      · exact Or.inl (List.mem_cons_of_mem a h2)
      · exact Or.inr h2
    simp only [forwardSearch] at h
    split at h
    · exact hrec h
    · rename_i hused
      split at h
      · split at h
        · exact hrec h
        · cases h
          exact ⟨by simpa using hused, Or.inl (List.mem_cons_self _ _), le_refl _,
            by simp only [List.length_cons]; omega⟩
      · split at h
        · split at h
          · cases h
          · rename_i warpOperand harg
            split at h
            · exact hrec h
            · cases h
              exact ⟨by simpa using hused, Or.inr (List.getElem?_mem harg), le_refl _,
                by simp only [List.length_cons]; omega⟩
        · exact hrec h

theorem anchor_ne_of_useEmpty (c : WarpContext) (idx : Nat)
    (h : useEmpty c.items (c.warpOp.getResult idx) = true) (pat : SinkPattern) :
    pat.anchor c ≠ some idx := by
  cases pat
  case deadResultElimination => simp [SinkPattern.anchor]
  case operandForwarding =>
    simp only [SinkPattern.anchor]
    split
    · rename_i v r hfound
      intro hr
      cases hr
      have := (forwardSearch_found c.items c.warpOp _ _ _ _ hfound).1
      rw [h] at this
      cases this
    · simp
  all_goals exact getWarpResult_ne_of_useEmpty c.items c.warpOp _ idx h

theorem reductionRounds_nextId_le (kind : CombiningKind) (width : Int) (fuel : Nat) :
    ∀ (i : Int) (nextId : Nat) (laneVal : Value),
      nextId ≤ (reductionRounds kind width fuel i nextId laneVal).2.1 := by
  induction fuel with
  | zero => intro i nextId laneVal; simp [reductionRounds]
  | succ n ih =>
    intro i nextId laneVal
    simp only [reductionRounds]
    split
    · exact le_trans (by omega) (ih _ _ _)
    · exact le_refl _

theorem distributeIndices_nextId_le (distShape : List Int) (laneid : Value)
    (pairs : List (AffineExpr × AffineExpr)) :
    ∀ (st st' : IndexState), distributeIndices distShape laneid pairs st = some st' →
      st.nextId ≤ st'.nextId := by
  induction pairs with
  | nil =>
    intro st st' h
    simp only [distributeIndices, Option.some.injEq] at h
    rw [h]
  | cons pr pairs ih =>
    intro st st' h
    obtain ⟨a, b⟩ := pr
    simp only [distributeIndices] at h
    split at h
    · split at h
      · split at h
        · exact le_trans (by simp) (ih _ _ h)
        · cases h
      · cases h
    · exact ih _ _ h

/-- After the last `replaceAllUsesWith` of a pattern that created a new warp
operation, the replaced result of the new operation has no use, whether or not
the old operation was erased. -/
theorem moved_progress (X : Moved) (old new : Value) (idx : Nat) (hne : new ≠ old)
    (hold : X.newWarpOp.getResult idx = old) ( erase : Bool) :
    ∃ c' : WarpContext,
      c'.program = (if erase then (X.replaceAllUsesWith old new).eraseOld
        else (X.replaceAllUsesWith old new).program) ∧
      c'.pre.length = X.pre.length ∧
      useEmpty c'.items (c'.warpOp.getResult idx) = true := by
  have hall : useEmpty (X.replaceAllUsesWith old new).items old = true := by
    rw [Moved.replaceAllUsesWith, moved_items_mapOperands]
    exact useEmpty_map_replaceUse old new hne _
  refine ⟨⟨(X.replaceAllUsesWith old new).pre, (X.replaceAllUsesWith old new).newWarpOp,
    if erase then (X.replaceAllUsesWith old new).mid ++ (X.replaceAllUsesWith old new).post
    else (X.replaceAllUsesWith old new).mid ++
      [Item.bodyless (X.replaceAllUsesWith old new).oldWarpOp] ++
      (X.replaceAllUsesWith old new).post,
    (X.replaceAllUsesWith old new).nextId⟩, ?_, ?_, ?_⟩
  · cases erase <;>
      simp [WarpContext.program, WarpContext.items, Moved.program, Moved.items, Moved.eraseOld]
  · simp [Moved.replaceAllUsesWith, Moved.mapOperands]
  · have hres : (X.replaceAllUsesWith old new).newWarpOp.getResult idx = old := by
      rw [← hold]
      rfl
    simp only [hres]
    apply useEmpty_of_subset _ _ _ _ hall
    intro it hit
    cases erase <;>
      simp only [WarpContext.items, Moved.items, List.mem_append, List.mem_singleton,
        Bool.false_eq_true, if_false, if_true] at hit ⊢ <;> tauto

theorem context_items_mapOperands (f : Value → Value) (c : WarpContext) :
    (c.mapOperands f).items = c.items.map (Item.mapOperands f) := by
  simp [WarpContext.items, WarpContext.mapOperands, Item.mapOperands]

/-- After `result.replaceAllUsesWith(new)` on a region that stays in place, the
replaced result has no use. -/
theorem context_progress (c : WarpContext) (old new : Value) (idx : Nat)
    (hold : c.warpOp.getResult idx = old) (hne : new ≠ old) :
    useEmpty (c.mapOperands (Value.replaceUse old new)).items
      ((c.mapOperands (Value.replaceUse old new)).warpOp.getResult idx) = true := by
  rw [context_items_mapOperands]
  have hres : (c.mapOperands (Value.replaceUse old new)).warpOp.getResult idx = old := by
    rw [← hold]
    rfl
  rw [hres]
  exact useEmpty_map_replaceUse old new hne _

theorem reductionRounds_result (kind : CombiningKind) (e : ScalarType) (laneValVec : Value)
    (nextId : Nat) (start width : Int) :
    ∃ n t, nextId < n ∧
      Operation.getResult
        { id := (reductionRounds kind width start.toNat start (nextId + 1)
            (Operation.getResult
              { id := nextId
                kind := OpKind.extract 0
                operands := [laneValVec]
                resultTypes := [Ty.scalar e] } 0)).2.1
          kind := OpKind.shuffle ShuffleMode.idx 0 width
          operands := [(reductionRounds kind width start.toNat start (nextId + 1)
            (Operation.getResult
              { id := nextId
                kind := OpKind.extract 0
                operands := [laneValVec]
                resultTypes := [Ty.scalar e] } 0)).2.2]
          resultTypes := [(reductionRounds kind width start.toNat start (nextId + 1)
            (Operation.getResult
              { id := nextId
                kind := OpKind.extract 0
                operands := [laneValVec]
                resultTypes := [Ty.scalar e] } 0)).2.2.ty, i1] } 0 =
        ⟨ValueDef.opResult n 0, t⟩ :=
  ⟨_, _, Nat.lt_of_succ_le (reductionRounds_nextId_le _ _ _ _ _ _), rfl⟩

theorem reductionShuffles_result (warpSize : Nat) (kind : CombiningKind) (e : ScalarType)
    (laneValVec : Value) (nextId : Nat) :
    ∃ n t, nextId < n ∧
      (reductionShuffles warpSize kind e laneValVec nextId).2.2 = ⟨ValueDef.opResult n 0, t⟩ :=
  reductionRounds_result kind e laneValVec nextId (toInt32 ((warpSize / 2 : Nat) : Int))
    (toInt32 (warpSize : Int))

/-- C30: when the elementwise sink, the reduction sink, the transfer read sink,
the broadcast sink or operand forwarding succeeds on a region whose results are
not used inside the region itself (SSA dominance), with as many results as yield
operands and an identifier below the next unused one, then in the program the
pattern leaves the region at the old position has no use of the result at the
anchor operand number, and no sinking pattern selects that operand number as its
anchor on the next application. -/
theorem sinking_progress (pat : SinkPattern) (c : WarpContext) (p' : Program) (idx : Nat)
    (harity : c.warpOp.arityOk)
    (hdom : ∀ i, i < c.warpOp.getNumResults →
      c.warpOp.getResult i ∉ (Item.warp c.warpOp).operandValues)
    (hlt : c.warpOp.id < c.nextId)
    (happly : pat.apply c = RewriteResult.success p')
    (hanchor : pat.anchor c = some idx) :
    ∃ c' : WarpContext, c'.program = p' ∧ c'.pre.length = c.pre.length ∧
      useEmpty c'.items (c'.warpOp.getResult idx) = true ∧
      ∀ next : SinkPattern, next.anchor c' ≠ some idx := by
  suffices hmain : ∃ c' : WarpContext, c'.program = p' ∧ c'.pre.length = c.pre.length ∧
      useEmpty c'.items (c'.warpOp.getResult idx) = true by
    obtain ⟨c', h1, h2, h3⟩ := hmain
    exact ⟨c', h1, h2, h3, anchor_ne_of_useEmpty c' idx h3⟩
  cases pat
  case deadResultElimination => simp [SinkPattern.anchor] at hanchor
  case elementwiseSink =>
    simp only [SinkPattern.anchor] at hanchor
    simp only [SinkPattern.apply, WarpOpElementwise.matchAndRewrite, hanchor] at happly
    repeat' split at happly
    all_goals cases happly
    rename_i _ elementWise _ _ retTypes _
    have hne : (cloneOpWithOperandsAndTypes
          (moveRegionToNewWarpOpAndAppendReturns c elementWise.operands retTypes).nextId
          elementWise
          ((List.range elementWise.operands.length).map
            (fun i => (moveRegionToNewWarpOpAndAppendReturns c elementWise.operands
              retTypes).newWarpOp.getResult (i + c.warpOp.getNumResults)))
          [(c.warpOp.getResult idx).ty]).getResult 0 ≠
        (moveRegionToNewWarpOpAndAppendReturns c elementWise.operands
          retTypes).newWarpOp.getResult idx := by
      intro h
      have h' := congrArg Value.origin h
      simp [Operation.getResult, cloneOpWithOperandsAndTypes, appendReturns_getResult,
        appendReturns_nextId] at h'
    obtain ⟨c', h1, h2, h3⟩ := moved_progress
      ((moveRegionToNewWarpOpAndAppendReturns c elementWise.operands retTypes).create
        [Item.op (cloneOpWithOperandsAndTypes
          (moveRegionToNewWarpOpAndAppendReturns c elementWise.operands retTypes).nextId
          elementWise
          ((List.range elementWise.operands.length).map
            (fun i => (moveRegionToNewWarpOpAndAppendReturns c elementWise.operands
              retTypes).newWarpOp.getResult (i + c.warpOp.getNumResults)))
          [(c.warpOp.getResult idx).ty])]
        ((moveRegionToNewWarpOpAndAppendReturns c elementWise.operands retTypes).nextId + 1))
      _ _ idx hne rfl true
    refine ⟨c', h1.trans (if_pos rfl), h2.trans ?_, h3⟩
    simp [Moved.create, appendReturns_pre]
  case reductionSink =>
    simp only [SinkPattern.anchor] at hanchor
    obtain ⟨operandIndex, reductionOp, kind, vector, operands, e, types, hmatch, _, _, _, _, hp⟩ :=
      reduction_success_inv c p' happly
    rw [hanchor] at hmatch
    cases hmatch
    obtain ⟨id, t, hid, hres⟩ := reductionShuffles_result
      (moveRegionToNewWarpOpAndAppendReturns c [vector] [Ty.vector [1] e]).newWarpOp.warpSize
      kind e
      ((moveRegionToNewWarpOpAndAppendReturns c [vector]
        [Ty.vector [1] e]).newWarpOp.getResult c.warpOp.getNumResults)
      (moveRegionToNewWarpOpAndAppendReturns c [vector] [Ty.vector [1] e]).nextId
    have hp2 : p' = (((moveRegionToNewWarpOpAndAppendReturns c [vector] [Ty.vector [1] e]).create
        (reductionShuffles
          (moveRegionToNewWarpOpAndAppendReturns c [vector] [Ty.vector [1] e]).newWarpOp.warpSize
          kind e
          ((moveRegionToNewWarpOpAndAppendReturns c [vector]
            [Ty.vector [1] e]).newWarpOp.getResult c.warpOp.getNumResults)
          (moveRegionToNewWarpOpAndAppendReturns c [vector] [Ty.vector [1] e]).nextId).1
        (reductionShuffles
          (moveRegionToNewWarpOpAndAppendReturns c [vector] [Ty.vector [1] e]).newWarpOp.warpSize
          kind e
          ((moveRegionToNewWarpOpAndAppendReturns c [vector]
            [Ty.vector [1] e]).newWarpOp.getResult c.warpOp.getNumResults)
          (moveRegionToNewWarpOpAndAppendReturns c [vector]
            [Ty.vector [1] e]).nextId).2.1).replaceAllUsesWith
        ((moveRegionToNewWarpOpAndAppendReturns c [vector]
          [Ty.vector [1] e]).newWarpOp.getResult idx)
        (reductionShuffles
          (moveRegionToNewWarpOpAndAppendReturns c [vector] [Ty.vector [1] e]).newWarpOp.warpSize
          kind e
          ((moveRegionToNewWarpOpAndAppendReturns c [vector]
            [Ty.vector [1] e]).newWarpOp.getResult c.warpOp.getNumResults)
          (moveRegionToNewWarpOpAndAppendReturns c [vector]
            [Ty.vector [1] e]).nextId).2.2).program := hp
    generalize reductionShuffles
      (moveRegionToNewWarpOpAndAppendReturns c [vector] [Ty.vector [1] e]).newWarpOp.warpSize
      kind e
      ((moveRegionToNewWarpOpAndAppendReturns c [vector]
        [Ty.vector [1] e]).newWarpOp.getResult c.warpOp.getNumResults)
      (moveRegionToNewWarpOpAndAppendReturns c [vector] [Ty.vector [1] e]).nextId = created
      at hres hp2
    have hne : created.2.2 ≠ (moveRegionToNewWarpOpAndAppendReturns c [vector]
        [Ty.vector [1] e]).newWarpOp.getResult idx := by
      intro h
      rw [hres] at h
      have h' := congrArg Value.origin h
      rw [appendReturns_nextId] at hid
      simp [appendReturns_getResult] at h'
      omega
    obtain ⟨c', h1, h2, h3⟩ := moved_progress
      ((moveRegionToNewWarpOpAndAppendReturns c [vector] [Ty.vector [1] e]).create
        created.1 created.2.1) _ _ idx hne rfl false
    refine ⟨c', (h1.trans (if_neg Bool.false_ne_true)).trans hp2.symm, h2.trans ?_, h3⟩
    simp [Moved.create, appendReturns_pre]
  case broadcastSink =>
    simp only [SinkPattern.anchor] at hanchor
    obtain ⟨operandNumber, broadcastOp, shape, e, source, operands, hmatch, _, _, _, hp⟩ :=
      broadcast_success_inv c p' happly
    rw [hanchor] at hmatch
    cases hmatch
    have hne : (⟨ValueDef.opResult
          (moveRegionToNewWarpOpAndAppendReturns c [source] [source.ty]).nextId 0,
          Ty.vector shape e⟩ : Value) ≠
        (moveRegionToNewWarpOpAndAppendReturns c [source] [source.ty]).newWarpOp.getResult idx := by
      intro h
      have h' := congrArg Value.origin h
      simp [appendReturns_getResult, appendReturns_nextId] at h'
    obtain ⟨c', h1, h2, h3⟩ := moved_progress
      ((moveRegionToNewWarpOpAndAppendReturns c [source] [source.ty]).create
        [Item.op
          { id := (moveRegionToNewWarpOpAndAppendReturns c [source] [source.ty]).nextId
            kind := OpKind.broadcast
            operands := [(moveRegionToNewWarpOpAndAppendReturns c [source]
              [source.ty]).newWarpOp.getResult
                ((moveRegionToNewWarpOpAndAppendReturns c [source]
                  [source.ty]).newWarpOp.getNumResults - 1)]
            resultTypes := [Ty.vector shape e] }]
        ((moveRegionToNewWarpOpAndAppendReturns c [source] [source.ty]).nextId + 1))
      _ _ idx hne rfl false
    refine ⟨c', (h1.trans (if_neg Bool.false_ne_true)).trans hp.symm, h2.trans ?_, h3⟩
    simp [Moved.create, appendReturns_pre]
  case transferReadSink =>
    simp only [SinkPattern.anchor] at hanchor
    simp only [SinkPattern.apply, WarpOpTransferRead.matchAndRewrite, hanchor] at happly
    repeat' split at happly
    all_goals cases happly
    all_goals
      have hle := distributeIndices_nextId_le _ _ _ _ _ (by assumption)
      simp only at hle
      refine ⟨_, rfl, by simp [WarpContext.mapOperands], ?_⟩
      refine context_progress _ _ _ idx rfl ?_
      intro h
      have h' := congrArg Value.origin h
      simp [Operation.getResult, WarpOp.getResult, WarpHeader.getResult] at h'
      omega
  case operandForwarding =>
    simp only [SinkPattern.anchor] at hanchor
    split at hanchor
    · rename_i v r hfound
      cases hanchor
      simp only [SinkPattern.apply, WarpOpForwardOperand.matchAndRewrite, hfound] at happly
      cases happly
      obtain ⟨_, hmem, _, hr⟩ := forwardSearch_found _ _ _ _ _ _ hfound
      refine ⟨_, rfl, by simp [WarpContext.mapOperands], context_progress c _ v idx rfl ?_⟩
      intro h
      have hidx : idx < c.warpOp.getNumResults := by
        rw [WarpOp.getNumResults, harity]
        omega
      apply hdom idx hidx
      rw [← h]
      simp only [Item.operandValues, WarpHeader.operandValues, Block.operandValues,
        List.mem_append, List.mem_cons]
      tauto
    · cases hanchor

theorem sinking_progress_witness :
    addScenario.warpOp.arityOk ∧
    (∀ i, i < addScenario.warpOp.getNumResults →
      addScenario.warpOp.getResult i ∉ (Item.warp addScenario.warpOp).operandValues) ∧
    addScenario.warpOp.id < addScenario.nextId ∧
    SinkPattern.apply SinkPattern.elementwiseSink addScenario =
      RewriteResult.success addScenarioSunk ∧
    SinkPattern.anchor SinkPattern.elementwiseSink addScenario = some 0 ∧
    ∃ c' : WarpContext, c'.program = addScenarioSunk ∧
      c'.pre.length = addScenario.pre.length ∧
      useEmpty c'.items (c'.warpOp.getResult 0) = true ∧
      ∀ next : SinkPattern, next.anchor c' ≠ some 0 :=
  ⟨by decide, by decide, by decide, by decide, by decide,
    sinking_progress SinkPattern.elementwiseSink addScenario addScenarioSunk 0
      (by decide) (by decide) (by decide) (by decide) (by decide)⟩

/-! ## Uniform code hoisting: facts -/

theorem markUniformCode_append (g : Operation → Nat) (w : WarpOp) :
    ∀ (l1 l2 acc : List Operation),
      markUniformCode g w (l1 ++ l2) acc = markUniformCode g w l2 (markUniformCode g w l1 acc) := by
  intro l1
  induction l1 with
  | nil => intro l2 acc; rfl
  | cons a l1 ih =>
    intro l2 acc
    simp only [List.cons_append, markUniformCode]
    split <;> exact ih _ _

theorem markUniformCode_extends (g : Operation → Nat) (w : WarpOp) :
    ∀ (l acc : List Operation),
      ∃ extra, markUniformCode g w l acc = acc ++ extra ∧ extra.Sublist l := by
  intro l
  induction l with
  | nil => intro acc; exact ⟨[], by simp [markUniformCode], List.Sublist.refl _⟩
  | cons a l ih =>
    intro acc
    simp only [markUniformCode]
    split
    · obtain ⟨extra, he, hs⟩ := ih (acc ++ [a])
      exact ⟨a :: extra, by rw [he]; simp, hs.cons₂ a⟩
    · obtain ⟨extra, he, hs⟩ := ih acc
      exact ⟨extra, he, hs.cons a⟩

/-- The state of the marking loop when it reaches position `k` of the body, and
what it does there. -/
theorem markUniformCode_at (g : Operation → Nat) (w : WarpOp) (ops : List Operation) (k : Nat)
    (op : Operation) (hk : ops[k]? = some op) :
    ∃ before extra,
      before.Sublist (ops.take k) ∧ extra.Sublist (ops.drop (k + 1)) ∧
      markUniformCode g w ops [] =
        before ++
          (if !(op.resultTypes.any Ty.isVector) &&
              canBeHoisted g op (isDefinedOutsideOfBody w before) then [op] else []) ++ extra := by
  obtain ⟨hlt, hget⟩ := List.getElem?_eq_some.1 hk
  have hsplit : ops = ops.take k ++ op :: ops.drop (k + 1) := by
    conv_lhs => rw [← List.take_append_drop k ops, List.drop_eq_getElem_cons hlt, hget]
  obtain ⟨before, hb, hbs⟩ := markUniformCode_extends g w (ops.take k) []
  rw [List.nil_append] at hb
  refine ⟨before, ?_⟩
  conv => enter [1, extra, 2, 2, 1]; rw [hsplit]
  rw [markUniformCode_append, hb]
  simp only [markUniformCode]
  split
  · obtain ⟨extra, he, hs⟩ := markUniformCode_extends g w (ops.drop (k + 1)) (before ++ [op])
    exact ⟨extra, hbs, hs, by rw [he]⟩
  · obtain ⟨extra, he, hs⟩ := markUniformCode_extends g w (ops.drop (k + 1)) before
    exact ⟨extra, hbs, hs, by rw [he]; simp⟩

theorem nodup_take_drop {α : Type} (l : List α) (hnd : l.Nodup) (j k : Nat) (a : α)
    (hjk : j < k) (hj : l[j]? = some a) : a ∉ l.drop k := by
  intro hmem
  rw [← List.take_append_drop k l, List.nodup_append] at hnd
  refine hnd.2.2 ?_ hmem
  rw [List.mem_iff_getElem?]
  exact ⟨j, by rw [List.getElem?_take_of_lt hjk]; exact hj⟩

theorem mem_take_getElem? {α : Type} (l : List α) (k : Nat) (a : α) (h : a ∈ l.take k) :
    ∃ j, j < k ∧ l[j]? = some a := by
  rw [List.mem_iff_getElem?] at h
  obtain ⟨n, hn⟩ := h
  rw [List.getElem?_take] at hn
  split at hn
  · exact ⟨n, by assumption, hn⟩
  · cases hn

/-- What the test of the marking loop amounts to at position `k` of a body whose
operations are pairwise distinct: membership in the final set, and the
conditions on the operation in terms of the final set. -/
theorem markUniformCode_spec (g : Operation → Nat) (w : WarpOp) (ops : List Operation)
    (hnd : ops.Nodup) (k : Nat) (op : Operation) (hk : ops[k]? = some op) :
    op ∈ markUniformCode g w ops [] ↔
      (op.resultTypes.any Ty.isVector = false ∧ hasSideEffect op = false ∧ g op = 0 ∧
        ∀ v, v ∈ op.operands → w.isDefinedInRegion v = false ∨
          ∃ j o' i, j < k ∧ ops[j]? = some o' ∧ o' ∈ markUniformCode g w ops [] ∧
            v.origin = ValueDef.opResult o'.id i) := by
  obtain ⟨before, extra, hbs, hes, hmoved⟩ := markUniformCode_at g w ops k op hk
  have hop_before : op ∉ before := by
    intro h
    obtain ⟨j, hj, hjop⟩ := mem_take_getElem? ops k op (hbs.subset h)
    have := nodup_take_drop ops hnd j k op hj hjop
    apply this
    rw [List.mem_iff_getElem?]
    exact ⟨0, by rw [List.getElem?_drop]; simpa using hk⟩
  have hop_extra : op ∉ extra := by
    intro h
    exact nodup_take_drop ops hnd k (k + 1) op (Nat.lt_succ_self k) hk (hes.subset h)
  have hearlier : ∀ o', (o' ∈ before ↔
      ∃ j, j < k ∧ ops[j]? = some o' ∧ o' ∈ markUniformCode g w ops []) := by
    intro o'
    constructor
    · intro h
      obtain ⟨j, hj, hjo⟩ := mem_take_getElem? ops k o' (hbs.subset h)
      exact ⟨j, hj, hjo, by rw [hmoved]; simp [h]⟩
    · rintro ⟨j, hj, hjo, hmem⟩
      have hnot := nodup_take_drop ops hnd j k o' hj hjo
      have hnot' : o' ∉ ops.drop (k + 1) := nodup_take_drop ops hnd j (k + 1) o' (by omega) hjo
      rw [hmoved, List.mem_append, List.mem_append] at hmem
      rcases hmem with (h | h) | h
      · exact h
      · exfalso
        split at h
        · rw [List.mem_singleton] at h
          subst h
          apply hnot
          rw [List.mem_iff_getElem?]
          exact ⟨0, by rw [List.getElem?_drop]; simpa using hk⟩
        · cases h
      · exact absurd (hes.subset h) hnot'
  have htest : (!(op.resultTypes.any Ty.isVector) &&
      canBeHoisted g op (isDefinedOutsideOfBody w before)) = true ↔
      (op.resultTypes.any Ty.isVector = false ∧ hasSideEffect op = false ∧ g op = 0 ∧
        ∀ v, v ∈ op.operands → w.isDefinedInRegion v = false ∨
          ∃ j o' i, j < k ∧ ops[j]? = some o' ∧ o' ∈ markUniformCode g w ops [] ∧
            v.origin = ValueDef.opResult o'.id i) := by
    simp only [canBeHoisted, Bool.and_eq_true, Bool.not_eq_true', List.all_eq_true,
      beq_iff_eq]
    constructor
    · rintro ⟨hvec, ⟨hall, heff⟩, hreg⟩
      refine ⟨hvec, heff, hreg, fun v hv => ?_⟩
      have hv' := hall v hv
      simp only [isDefinedOutsideOfBody, Bool.or_eq_true, Bool.not_eq_true'] at hv'
      rcases hv' with h | h
      · split at h
        · rename_i owner i horigin
          rw [List.any_eq_true] at h
          obtain ⟨o', ho', hid⟩ := h
          obtain ⟨j, hj, hjo, hmem⟩ := (hearlier o').1 ho'
          exact Or.inr ⟨j, o', i, hj, hjo, hmem, by rw [horigin, beq_iff_eq.1 hid]⟩
        · cases h
      · exact Or.inl h
    · rintro ⟨hvec, heff, hreg, hall⟩
      refine ⟨hvec, ⟨fun v hv => ?_, heff⟩, hreg⟩
      simp only [isDefinedOutsideOfBody, Bool.or_eq_true, Bool.not_eq_true']
      rcases hall v hv with h | ⟨j, o', i, hj, hjo, hmem, horigin⟩
      · exact Or.inr h
      · left
        rw [horigin]
        simp only [List.any_eq_true, beq_iff_eq]
        exact ⟨o', (hearlier o').2 ⟨j, hj, hjo, hmem⟩, rfl⟩
  rw [← htest]
  constructor
  · intro h
    rw [hmoved, List.mem_append, List.mem_append] at h
    rcases h with (h | h) | h
    · exact absurd h hop_before
    · split at h
      · assumption
      · cases h
    · exact absurd h hop_extra
  · intro h
    rw [hmoved, if_pos h]
    simp

/-- On a body whose operations carry distinct identifiers, an operation of the
body is filtered out by identifier exactly when it is one of the marked ones. -/
theorem marked_iff_mem (ops moved : List Operation) (hsub : moved.Sublist ops)
    (hnodup : (ops.map (fun o => o.id)).Nodup) (op : Operation) (hop : op ∈ ops) :
    moved.any (fun m => m.id == op.id) = true ↔ op ∈ moved := by
  rw [List.any_eq_true]
  constructor
  · rintro ⟨m, hm, hid⟩
    have := List.inj_on_of_nodup_map hnodup (hsub.subset hm) hop (beq_iff_eq.1 hid)
    rw [← this]
    exact hm
  · intro h
    exact ⟨op, h, by simp⟩

/-- C23: in a body whose operations carry distinct identifiers, the operation at
position `k` is among the operations placed before the region, and no longer in
the body, exactly when none of its results has a vector type, it has no side
effect, it holds no region, and each of its operands is defined outside the
region or is a result of an operation at an earlier position that is itself
among the moved ones. -/
theorem hoisting_rule (getNumRegions : Operation → Nat) (c : WarpContext) (k : Nat)
    (op : Operation)
    (hnodup : (c.warpOp.body.ops.map (fun o => o.id)).Nodup)
    (hk : c.warpOp.body.ops[k]? = some op) :
    (moveScalarUniformCode getNumRegions c).pre =
      c.pre ++ (markUniformCode getNumRegions c.warpOp c.warpOp.body.ops []).map Item.op ∧
    (op ∈ (moveScalarUniformCode getNumRegions c).warpOp.body.ops ↔
      op ∉ markUniformCode getNumRegions c.warpOp c.warpOp.body.ops []) ∧
    (op ∈ markUniformCode getNumRegions c.warpOp c.warpOp.body.ops [] ↔
      (op.resultTypes.any Ty.isVector = false ∧ hasSideEffect op = false ∧
        getNumRegions op = 0 ∧
        ∀ v, v ∈ op.operands → c.warpOp.isDefinedInRegion v = false ∨
          ∃ j o' i, j < k ∧ c.warpOp.body.ops[j]? = some o' ∧
            o' ∈ markUniformCode getNumRegions c.warpOp c.warpOp.body.ops [] ∧
            v.origin = ValueDef.opResult o'.id i)) := by
  have hop : op ∈ c.warpOp.body.ops := List.mem_iff_getElem?.2 ⟨k, hk⟩
  obtain ⟨extra, he, hs⟩ :=
    markUniformCode_extends getNumRegions c.warpOp c.warpOp.body.ops []
  rw [List.nil_append] at he
  refine ⟨rfl, ?_, markUniformCode_spec getNumRegions c.warpOp c.warpOp.body.ops
    (List.Nodup.of_map _ hnodup) k op hk⟩
  have hm := marked_iff_mem c.warpOp.body.ops
    (markUniformCode getNumRegions c.warpOp c.warpOp.body.ops []) (by rw [he]; exact hs)
    hnodup op hop
  simp only [moveScalarUniformCode, List.mem_filter, hop, true_and, Bool.not_eq_true']
  rw [← hm]
  simp

/-- C23, as the specification words it (without the condition on regions): the
`scf.execute_region` of the hoisting scenario has no vector result and no side
effect, and it has no operand at all, yet it is not moved before the region and
stays in the body. -/
theorem hoisting_rule_counterexample :
    hoistScenario.warpOp.body.ops[2]? = some hoistScenarioRegionOp ∧
    hoistScenarioRegionOp.resultTypes.any Ty.isVector = false ∧
    hasSideEffect hoistScenarioRegionOp = false ∧
    (∀ v, v ∈ hoistScenarioRegionOp.operands →
      hoistScenario.warpOp.isDefinedInRegion v = false) ∧
    hoistScenarioRegionOp ∉
      markUniformCode exampleNumRegions hoistScenario.warpOp hoistScenario.warpOp.body.ops [] ∧
    Item.op hoistScenarioRegionOp ∉ (moveScalarUniformCode exampleNumRegions hoistScenario).pre ∧
    hoistScenarioRegionOp ∈
      (moveScalarUniformCode exampleNumRegions hoistScenario).warpOp.body.ops := by
  refine ⟨by decide, by decide, by decide, ?_, by decide, by decide, by decide⟩
  intro v hv
  simp [hoistScenarioRegionOp] at hv

theorem hoisting_rule_witness :
    (hoistScenario.warpOp.body.ops.map (fun o => o.id)).Nodup ∧
    hoistScenario.warpOp.body.ops[1]? = some hoistScenarioAdd ∧
    (moveScalarUniformCode exampleNumRegions hoistScenario).pre =
      hoistScenario.pre ++ [Item.op hoistScenarioConstant, Item.op hoistScenarioAdd] ∧
    ((moveScalarUniformCode exampleNumRegions hoistScenario).pre =
      hoistScenario.pre ++
        (markUniformCode exampleNumRegions hoistScenario.warpOp
          hoistScenario.warpOp.body.ops []).map Item.op ∧
    (hoistScenarioAdd ∈ (moveScalarUniformCode exampleNumRegions hoistScenario).warpOp.body.ops ↔
      hoistScenarioAdd ∉
        markUniformCode exampleNumRegions hoistScenario.warpOp hoistScenario.warpOp.body.ops []) ∧
    (hoistScenarioAdd ∈
        markUniformCode exampleNumRegions hoistScenario.warpOp hoistScenario.warpOp.body.ops [] ↔
      (hoistScenarioAdd.resultTypes.any Ty.isVector = false ∧
        hasSideEffect hoistScenarioAdd = false ∧
        exampleNumRegions hoistScenarioAdd = 0 ∧
        ∀ v, v ∈ hoistScenarioAdd.operands →
          hoistScenario.warpOp.isDefinedInRegion v = false ∨
          ∃ j o' i, j < 1 ∧ hoistScenario.warpOp.body.ops[j]? = some o' ∧
            o' ∈ markUniformCode exampleNumRegions hoistScenario.warpOp
              hoistScenario.warpOp.body.ops [] ∧
            v.origin = ValueDef.opResult o'.id i))) :=
  ⟨by decide, by decide, by decide,
    hoisting_rule exampleNumRegions hoistScenario 1 hoistScenarioAdd (by decide) (by decide)⟩

/-- Every marked operation passed the operand test against the operations marked
before it. -/
theorem markUniformCode_operands (g : Operation → Nat) (w : WarpOp) :
    ∀ (rest acc : List Operation),
      (∀ before op after, acc = before ++ op :: after →
        ∀ v, v ∈ op.operands → isDefinedOutsideOfBody w before v = true) →
      ∀ before op after, markUniformCode g w rest acc = before ++ op :: after →
        ∀ v, v ∈ op.operands → isDefinedOutsideOfBody w before v = true := by
  intro rest
  induction rest with
  | nil =>
    intro acc hacc before op after h
    exact hacc before op after h
  | cons a rest ih =>
    intro acc hacc
    simp only [markUniformCode]
    split
    · rename_i htest
      apply ih (acc ++ [a])
      intro before op after h v hv
      have hall : ∀ v, v ∈ a.operands → isDefinedOutsideOfBody w acc v = true := by
        simp only [canBeHoisted, Bool.and_eq_true, List.all_eq_true] at htest
        exact htest.2.1.1
      rcases List.eq_nil_or_concat after with rfl | ⟨after', x, rfl⟩
      · have h' : acc ++ [a] = before ++ [op] := h
        obtain ⟨h1, h2⟩ := List.append_inj' h' rfl
        cases h2
        rw [← h1]
        exact hall v hv
      · have h' : acc ++ [a] = (before ++ op :: after') ++ [x] := by
          rw [h]; simp
        obtain ⟨h1, _⟩ := List.append_inj' h' rfl
        exact hacc before op after' h1 v hv
    · exact ih acc hacc

/-- A value that passed the operand test against marked operations is not
defined in the region once the marked operations are filtered out of the
body. -/
theorem isDefinedInRegion_filtered (w : WarpOp) (before moved : List Operation)
    (hsub : ∀ o, o ∈ before → o ∈ moved) (v : Value)
    (h : isDefinedOutsideOfBody w before v = true) :
    WarpOp.isDefinedInRegion
      { toWarpHeader := w.toWarpHeader
        body :=
          { w.body with
            ops := w.body.ops.filter
              (fun op => !(moved.any (fun m => m.id == op.id))) } } v = false := by
  simp only [isDefinedOutsideOfBody, WarpOp.isDefinedInRegion, Bool.or_eq_true,
    Bool.not_eq_true'] at h ⊢
  split
  · rename_i owner i horigin
    rw [horigin] at h
    simp only at h
    rw [List.any_eq_false]
    intro x hx hid
    rw [List.mem_filter, Bool.not_eq_true', List.any_eq_false] at hx
    rcases h with h | h
    · rw [List.any_eq_true] at h
      obtain ⟨o', ho', hid'⟩ := h
      apply hx.2 o' (hsub o' ho')
      rw [beq_iff_eq] at hid hid' ⊢
      rw [hid, hid']
    · rw [List.any_eq_false] at h
      exact h x hx.1 hid
  · rename_i b i horigin
    rw [horigin] at h
    simpa using h

/-- C27: for a region whose body operations only use, from outside the region,
values defined before the region, hoisting leaves the operations before and
after the region and the region header as they were; the moved operations sit
right before the region, in the relative order they had in the body; the body
keeps the other operations in their relative order; and every operand of a
moved operation is not defined in the region any more and is defined by an
operation before the region or by a moved operation that precedes it. -/
theorem hoisting_order (getNumRegions : Operation → Nat) (c : WarpContext)
    (houter : ∀ op, op ∈ c.warpOp.body.ops → ∀ v, v ∈ op.operands →
      c.warpOp.isDefinedInRegion v = false → definedAmong c.pre v = true) :
    ∃ moved : List Operation,
      (moveScalarUniformCode getNumRegions c).pre = c.pre ++ moved.map Item.op ∧
      (moveScalarUniformCode getNumRegions c).post = c.post ∧
      (moveScalarUniformCode getNumRegions c).warpOp.toWarpHeader = c.warpOp.toWarpHeader ∧
      moved.Sublist c.warpOp.body.ops ∧
      (moveScalarUniformCode getNumRegions c).warpOp.body.ops =
        c.warpOp.body.ops.filter (fun op => !(moved.any (fun m => m.id == op.id))) ∧
      (moveScalarUniformCode getNumRegions c).warpOp.body.ops.Sublist c.warpOp.body.ops ∧
      ∀ before op after, moved = before ++ op :: after →
        ∀ v, v ∈ op.operands →
          (moveScalarUniformCode getNumRegions c).warpOp.isDefinedInRegion v = false ∧
          definedAmong (c.pre ++ before.map Item.op) v = true := by
  obtain ⟨extra, he, hs⟩ :=
    markUniformCode_extends getNumRegions c.warpOp c.warpOp.body.ops []
  rw [List.nil_append] at he
  refine ⟨markUniformCode getNumRegions c.warpOp c.warpOp.body.ops [], rfl, rfl, rfl,
    by rw [he]; exact hs, rfl, List.filter_sublist _, ?_⟩
  intro before op after hmoved v hv
  have htest := markUniformCode_operands getNumRegions c.warpOp c.warpOp.body.ops []
    (fun before op after h => by simp at h) before op after hmoved v hv
  have hopmem : op ∈ c.warpOp.body.ops := by
    have : op ∈ markUniformCode getNumRegions c.warpOp c.warpOp.body.ops [] := by
      rw [hmoved]; simp
    rw [he] at this
    exact hs.subset this
  constructor
  · exact isDefinedInRegion_filtered c.warpOp before
      (markUniformCode getNumRegions c.warpOp c.warpOp.body.ops [])
      (fun o ho => by rw [hmoved]; simp [ho]) v htest
  · simp only [isDefinedOutsideOfBody, Bool.or_eq_true, Bool.not_eq_true'] at htest
    rcases htest with h | h
    · unfold definedAmong
      split at h
      · rename_i owner i horigin
        rw [List.any_eq_true] at h ⊢
        obtain ⟨o', ho', hid⟩ := h
        exact ⟨Item.op o', by simp [ho'], hid⟩
      · cases h
    · have hpre := houter op hopmem v hv h
      unfold definedAmong at hpre ⊢
      split
      · rename_i owner i horigin
        rw [horigin] at hpre
        simp only at hpre
        rw [List.any_append, hpre, Bool.true_or]
      · rfl

theorem hoisting_order_witness :
    (∀ op, op ∈ hoistScenario.warpOp.body.ops → ∀ v, v ∈ op.operands →
      hoistScenario.warpOp.isDefinedInRegion v = false →
      definedAmong hoistScenario.pre v = true) ∧
    (moveScalarUniformCode exampleNumRegions hoistScenario).pre =
      hoistScenario.pre ++ [Item.op hoistScenarioConstant, Item.op hoistScenarioAdd] ∧
    ((moveScalarUniformCode exampleNumRegions hoistScenario).warpOp.body.ops.map
      (fun o => o.id)) = [6, 7, 8, 9] ∧
    ∃ moved : List Operation,
      (moveScalarUniformCode exampleNumRegions hoistScenario).pre =
        hoistScenario.pre ++ moved.map Item.op ∧
      (moveScalarUniformCode exampleNumRegions hoistScenario).post = hoistScenario.post ∧
      (moveScalarUniformCode exampleNumRegions hoistScenario).warpOp.toWarpHeader =
        hoistScenario.warpOp.toWarpHeader ∧
      moved.Sublist hoistScenario.warpOp.body.ops ∧
      (moveScalarUniformCode exampleNumRegions hoistScenario).warpOp.body.ops =
        hoistScenario.warpOp.body.ops.filter
          (fun op => !(moved.any (fun m => m.id == op.id))) ∧
      (moveScalarUniformCode exampleNumRegions hoistScenario).warpOp.body.ops.Sublist
        hoistScenario.warpOp.body.ops ∧
      ∀ before op after, moved = before ++ op :: after →
        ∀ v, v ∈ op.operands →
          (moveScalarUniformCode exampleNumRegions hoistScenario).warpOp.isDefinedInRegion v
            = false ∧
          definedAmong (hoistScenario.pre ++ before.map Item.op) v = true :=
  ⟨by decide, by decide, by decide,
    hoisting_order exampleNumRegions hoistScenario (by decide)⟩

/-! ## Lowering to a conditional: facts -/

theorem replaceOpSubst_eq (w : WarpHeader) (replacements : List Value) (v : Value) :
    replaceOpSubst w replacements v =
      (List.range w.resultTypes.length).foldl
        (fun u i => Value.replaceUse (w.getResult i) (replacements.getD i default) u) v := rfl

theorem replaceFold_succ (w : WarpHeader) (replacements : List Value) (n : Nat) (v : Value) :
    (List.range (n + 1)).foldl
        (fun u i => Value.replaceUse (w.getResult i) (replacements.getD i default) u) v =
      Value.replaceUse (w.getResult n) (replacements.getD n default)
        ((List.range n).foldl
          (fun u i => Value.replaceUse (w.getResult i) (replacements.getD i default) u) v) := by
  simp [List.range_succ, List.foldl_append]

/-- A value that is none of the replaced results is left alone by `replaceOp`. -/
theorem replaceFold_other (w : WarpHeader) (replacements : List Value) (n : Nat) (v : Value)
    (hv : ∀ k, k < n → v ≠ w.getResult k) :
    (List.range n).foldl
      (fun u i => Value.replaceUse (w.getResult i) (replacements.getD i default) u) v = v := by
  induction n with
  | zero => simp
  | succ n ih =>
    rw [replaceFold_succ, ih (fun k hk => hv k (Nat.lt_succ_of_lt hk))]
    simp [Value.replaceUse, hv n (Nat.lt_succ_self n)]

/-- Result `k` is replaced by replacement `k`, when no replacement is itself a
result of the operation. -/
theorem replaceFold_result (w : WarpHeader) (replacements : List Value) (n k : Nat)
    (hk : k < n)
    (hfresh : ∀ j i, replacements.getD j default ≠ w.getResult i) :
    (List.range n).foldl
      (fun u i => Value.replaceUse (w.getResult i) (replacements.getD i default) u)
      (w.getResult k) = replacements.getD k default := by
  induction n with
  | zero => omega
  | succ n ih =>
    rw [replaceFold_succ]
    by_cases hkn : k = n
    · subst hkn
      rw [replaceFold_other w replacements k _
        (fun j hj => getResult_ne_of_ne w (Nat.ne_of_gt hj))]
      simp [Value.replaceUse]
    · rw [ih (by omega)]
      unfold Value.replaceUse
      rw [if_neg (hfresh k n)]

theorem isMemRef_iff (t : Ty) : t.isMemRef = true ↔ ∃ s e, t = Ty.memref s e := by
  cases t <;> simp [Ty.isMemRef]

theorem leadingExtent_iff (t : Ty) (x : Int) :
    t.leadingExtent? = some x ↔ ∃ r e, t = Ty.vector (x :: r) e := by
  cases t with
  | scalar e => simp [Ty.leadingExtent?]
  | memref s e => simp [Ty.leadingExtent?]
  | vector s e =>
    cases s with
    | nil => simp [Ty.leadingExtent?]
    | cons a r => simp [Ty.leadingExtent?]

/-- The loop over the captured arguments goes through when every captured value
is a vector with a leading extent and every block argument is a vector; it
appends one replacement per argument, of the type of the block argument. -/
theorem storeArgs_spec (allocationFn : WarpOp → Ty → Nat → List Operation × Value)
    (w : WarpOp) (c0 : Value) :
    ∀ (l : List Value) (k : Nat) (st : ArgState),
      (∀ j v, l[j]? = some v → (v.ty.leadingExtent?).isSome = true ∧
        ∃ t, w.body.argTypes[k + j]? = some t ∧ t.isVector = true) →
      ∃ st' B,
        storeArgs allocationFn w c0 l k st = some st' ∧
        st'.bbArgReplacements = st.bbArgReplacements ++ B ∧
        B.length = l.length ∧
        st.nextId ≤ st'.nextId ∧
        (∃ A, st'.created = st.created ++ A) ∧
        (∃ T, st'.thenOps = T ++ st.thenOps) ∧
        ∀ j, j < l.length → (B.getD j default).ty = w.body.argTypes.getD (k + j) default := by
  intro l
  induction l with
  | nil =>
    intro k st _
    exact ⟨st, [], rfl, by simp, rfl, le_refl _, ⟨[], by simp⟩, ⟨[], by simp⟩,
      fun j hj => by simp at hj⟩
  | cons val rest ih =>
    intro k st h
    obtain ⟨hval, t, ht, hvec⟩ := h 0 val (by simp)
    rw [Nat.add_zero] at ht
    obtain ⟨storeSize, hsize⟩ := Option.isSome_iff_exists.1 hval
    obtain ⟨r, e, hvty⟩ := (leadingExtent_iff _ _).1 hsize
    obtain ⟨s', e', htv⟩ : ∃ s' e', t = Ty.vector s' e' := by
      cases t <;> simp [Ty.isVector] at hvec
      exact ⟨_, _, rfl⟩
    subst htv
    have hrest : ∀ j v, rest[j]? = some v → (v.ty.leadingExtent?).isSome = true ∧
        ∃ t, w.body.argTypes[k + 1 + j]? = some t ∧ t.isVector = true := by
      intro j v hj
      have := h (j + 1) v (by simpa using hj)
      rw [show k + (j + 1) = k + 1 + j by omega] at this
      exact this
    obtain ⟨st', B, hrun, hB, hlen, hle, ⟨A, hA⟩, ⟨T, hT⟩, hty⟩ := ih (k + 1)
      { created := st.created ++ (allocationFn w (Ty.vector s' e') st.nextId).1 ++
          [ { id := st.nextId + (allocationFn w (Ty.vector s' e') st.nextId).1.length
              kind := OpKind.constantIndex storeSize
              operands := []
              resultTypes := [indexTy] },
            { id := st.nextId + (allocationFn w (Ty.vector s' e') st.nextId).1.length + 1
              kind := OpKind.other "arith.muli" (some false) false
              operands := [w.laneid,
                ⟨ValueDef.opResult
                  (st.nextId + (allocationFn w (Ty.vector s' e') st.nextId).1.length) 0,
                  indexTy⟩]
              resultTypes := [indexTy] },
            { id := st.nextId + (allocationFn w (Ty.vector s' e') st.nextId).1.length + 2
              kind := OpKind.other "vector.store" (some true) false
              operands := [val, (allocationFn w (Ty.vector s' e') st.nextId).2,
                ⟨ValueDef.opResult
                  (st.nextId + (allocationFn w (Ty.vector s' e') st.nextId).1.length + 1) 0,
                  indexTy⟩]
              resultTypes := [] } ]
        thenOps :=
          { id := st.nextId + (allocationFn w (Ty.vector s' e') st.nextId).1.length + 3
            kind := OpKind.other "vector.load" (some true) false
            operands := [(allocationFn w (Ty.vector s' e') st.nextId).2, c0]
            resultTypes := [Ty.vector s' e'] } :: st.thenOps
        bbArgReplacements := st.bbArgReplacements ++
          [⟨ValueDef.opResult
            (st.nextId + (allocationFn w (Ty.vector s' e') st.nextId).1.length + 3) 0,
            Ty.vector s' e'⟩]
        nextId := st.nextId + (allocationFn w (Ty.vector s' e') st.nextId).1.length + 4 } hrest
    refine ⟨st', ⟨ValueDef.opResult
        (st.nextId + (allocationFn w (Ty.vector s' e') st.nextId).1.length + 3) 0,
        Ty.vector s' e'⟩ :: B, ?_, ?_, by simp [hlen], ?_, ?_, ?_, ?_⟩
    · rw [← hrun]
      simp only [storeArgs, ht, hvty, Operation.getResult, List.getD_cons_zero]
    · rw [hB]
      simp
    · simp only at hle
      omega
    · rw [hA]
      simp only [List.append_assoc]
      exact ⟨_, rfl⟩
    · rw [hT, List.append_cons]
      exact ⟨_, rfl⟩
    · intro j hj
      cases j with
      | zero =>
        simp only [List.getD_cons_zero, Nat.add_zero]
        rw [List.getD_eq_getElem?_getD, ht]
        rfl
      | succ j =>
        simp only [List.getD_cons_succ]
        rw [hty j (by simpa using hj), show k + 1 + j = k + (j + 1) by omega]

theorem readBackAt_later (allocationFn : WarpOp → Ty → Nat → List Operation × Value)
    (w : WarpOp) (c0 : Value) (resultType : Ty) (val : Value) (stores loads : List Operation)
    (index : Nat) (replacement : Value) (store : Operation) (group : List Operation)
    (h : ReadBackAt allocationFn w c0 resultType val stores loads index replacement) :
    ReadBackAt allocationFn w c0 resultType val (store :: stores) (loads ++ group)
      (index + 1) replacement := by
  obtain ⟨buffer, st, load, nid, h1, h2, h3, h4, h5, h6, h7, h8⟩ := h
  refine ⟨buffer, st, load, nid, h1, by simpa using h2, h3, h4,
    List.mem_append_left _ h5, h6, h7, fun hne => ?_⟩
  obtain ⟨extent, size, offset, g1, g2, g3, g4⟩ := h8 hne
  exact ⟨extent, size, offset, g1, List.mem_append_left _ g2, List.mem_append_left _ g3, g4⟩

/-- The loop over the yield operands goes through when every buffer is a memref
and every result type is the type of the yielded value or a vector with a
leading extent; it appends one store and one replacement per yield operand. -/
theorem readBack_spec (allocationFn : WarpOp → Ty → Nat → List Operation × Value)
    (w : WarpOp) (c0 : Value)
    (hbuf : ∀ t n, (allocationFn w t n).2.ty.isMemRef = true) :
    ∀ (l : List Value) (k : Nat) (st : YieldState),
      (∀ j v, l[j]? = some v → ∃ t, w.resultTypes[k + j]? = some t ∧
        (t = v.ty ∨ (t.leadingExtent?).isSome = true)) →
      ∃ st' R S L,
        readBack allocationFn w c0 l k st = some st' ∧
        st'.replacements = st.replacements ++ R ∧
        st'.stores = st.stores ++ S ∧
        st'.loads = L ++ st.loads ∧
        R.length = l.length ∧ S.length = l.length ∧
        st.nextId ≤ st'.nextId ∧
        (∃ A, st'.created = st.created ++ A) ∧
        (∀ x, x ∈ R → ∃ id, st.nextId ≤ id ∧ x.origin = ValueDef.opResult id 0) ∧
        ∀ j v, l[j]? = some v →
          ReadBackAt allocationFn w c0 (w.resultTypes.getD (k + j) default) v S L j
            (R.getD j default) := by
  intro l
  induction l with
  | nil =>
    intro k st _
    exact ⟨st, [], [], [], rfl, by simp, by simp, by simp, rfl, rfl, le_refl _, ⟨[], by simp⟩,
      fun x hx => by simp at hx, fun j v hj => by simp at hj⟩
  | cons val rest ih =>
    intro k st h
    obtain ⟨t, ht, htype⟩ := h 0 val (by simp)
    rw [Nat.add_zero] at ht
    have hrest : ∀ j v, rest[j]? = some v → ∃ t, w.resultTypes[k + 1 + j]? = some t ∧
        (t = v.ty ∨ (t.leadingExtent?).isSome = true) := by
      intro j v hj
      have := h (j + 1) v (by simpa using hj)
      rw [show k + (j + 1) = k + 1 + j by omega] at this
      exact this
    have hgetD : w.resultTypes.getD (k + 0) default = t := by
      rw [Nat.add_zero, List.getD_eq_getElem?_getD, ht]
      rfl
    obtain ⟨bs, be, hbty⟩ := (isMemRef_iff _).1 (hbuf val.ty st.nextId)
    by_cases heq : t = val.ty
    · obtain ⟨st', R, S, L, hrun, hR, hS, hL, hRl, hSl, hle, ⟨A, hA⟩, hfresh, hat⟩ := ih (k + 1)
        { created := st.created ++ (allocationFn w val.ty st.nextId).1
          stores := st.stores ++
            [ { id := st.nextId + (allocationFn w val.ty st.nextId).1.length
                kind := OpKind.other (if val.ty.isVector then "vector.store" else "memref.store")
                  (some true) false
                operands := [val, (allocationFn w val.ty st.nextId).2, c0]
                resultTypes := [] } ]
          loads :=
            { id := st.nextId + (allocationFn w val.ty st.nextId).1.length + 1
              kind := OpKind.other "memref.load" (some true) false
              operands := [(allocationFn w val.ty st.nextId).2, c0]
              resultTypes := [Ty.scalar be] } :: st.loads
          replacements := st.replacements ++
            [⟨ValueDef.opResult (st.nextId + (allocationFn w val.ty st.nextId).1.length + 1) 0,
              Ty.scalar be⟩]
          nextId := st.nextId + (allocationFn w val.ty st.nextId).1.length + 2 } hrest
      refine ⟨st',
        ⟨ValueDef.opResult (st.nextId + (allocationFn w val.ty st.nextId).1.length + 1) 0,
          Ty.scalar be⟩ :: R,
        { id := st.nextId + (allocationFn w val.ty st.nextId).1.length
          kind := OpKind.other (if val.ty.isVector then "vector.store" else "memref.store")
            (some true) false
          operands := [val, (allocationFn w val.ty st.nextId).2, c0]
          resultTypes := [] } :: S,
        L ++
          [ { id := st.nextId + (allocationFn w val.ty st.nextId).1.length + 1
              kind := OpKind.other "memref.load" (some true) false
              operands := [(allocationFn w val.ty st.nextId).2, c0]
              resultTypes := [Ty.scalar be] } ],
        ?_, by rw [hR]; simp, by rw [hS]; simp, by rw [hL]; simp, by simp [hRl], by simp [hSl],
        by simp only at hle; omega, ?_, ?_, ?_⟩
      · rw [← hrun]
        simp only [readBack, ht, heq, hbty, if_true, Operation.getResult, List.getD_cons_zero]
      · rw [hA]
        simp only [List.append_assoc]
        exact ⟨_, rfl⟩
      · intro x hx
        rw [List.mem_cons] at hx
        rcases hx with rfl | hx
        · exact ⟨_, by omega, rfl⟩
        · obtain ⟨id, hid, ho⟩ := hfresh x hx
          simp only at hid
          exact ⟨id, by omega, ho⟩
      · intro j v hj
        cases j with
        | zero =>
          simp only [List.getElem?_cons_zero, Option.some.injEq] at hj
          subst hj
          rw [hgetD, List.getD_cons_zero]
          exact ⟨(allocationFn w val.ty st.nextId).2, _, _, st.nextId, rfl,
            List.getElem?_cons_zero, rfl, rfl,
            List.mem_append_right L (List.mem_singleton_self _), rfl,
            fun _ => ⟨rfl, rfl⟩, fun hne => absurd heq hne⟩
        | succ j =>
          rw [show k + (j + 1) = k + 1 + j by omega, List.getD_cons_succ]
          exact readBackAt_later allocationFn w c0 _ v S L j _ _ _
            (hat j v (by simpa using hj))
    · obtain ⟨loadSize, hls⟩ := Option.isSome_iff_exists.1 (htype.resolve_left heq)
      obtain ⟨r, e, htv⟩ := (leadingExtent_iff _ _).1 hls
      obtain ⟨st', R, S, L, hrun, hR, hS, hL, hRl, hSl, hle, ⟨A, hA⟩, hfresh, hat⟩ := ih (k + 1)
        { created := st.created ++ (allocationFn w val.ty st.nextId).1
          stores := st.stores ++
            [ { id := st.nextId + (allocationFn w val.ty st.nextId).1.length
                kind := OpKind.other (if val.ty.isVector then "vector.store" else "memref.store")
                  (some true) false
                operands := [val, (allocationFn w val.ty st.nextId).2, c0]
                resultTypes := [] } ]
          loads :=
            { id := st.nextId + (allocationFn w val.ty st.nextId).1.length + 1
              kind := OpKind.constantIndex loadSize
              operands := []
              resultTypes := [indexTy] } ::
            { id := st.nextId + (allocationFn w val.ty st.nextId).1.length + 2
              kind := OpKind.other "arith.muli" (some false) false
              operands := [w.laneid,
                ⟨ValueDef.opResult
                  (st.nextId + (allocationFn w val.ty st.nextId).1.length + 1) 0, indexTy⟩]
              resultTypes := [indexTy] } ::
            { id := st.nextId + (allocationFn w val.ty st.nextId).1.length + 3
              kind := OpKind.other "vector.load" (some true) false
              operands := [(allocationFn w val.ty st.nextId).2,
                ⟨ValueDef.opResult
                  (st.nextId + (allocationFn w val.ty st.nextId).1.length + 2) 0, indexTy⟩]
              resultTypes := [t] } :: st.loads
          replacements := st.replacements ++
            [⟨ValueDef.opResult (st.nextId + (allocationFn w val.ty st.nextId).1.length + 3) 0,
              t⟩]
          nextId := st.nextId + (allocationFn w val.ty st.nextId).1.length + 4 } hrest
      refine ⟨st',
        ⟨ValueDef.opResult (st.nextId + (allocationFn w val.ty st.nextId).1.length + 3) 0,
          t⟩ :: R,
        { id := st.nextId + (allocationFn w val.ty st.nextId).1.length
          kind := OpKind.other (if val.ty.isVector then "vector.store" else "memref.store")
            (some true) false
          operands := [val, (allocationFn w val.ty st.nextId).2, c0]
          resultTypes := [] } :: S,
        L ++
          [ { id := st.nextId + (allocationFn w val.ty st.nextId).1.length + 1
              kind := OpKind.constantIndex loadSize
              operands := []
              resultTypes := [indexTy] },
            { id := st.nextId + (allocationFn w val.ty st.nextId).1.length + 2
              kind := OpKind.other "arith.muli" (some false) false
              operands := [w.laneid,
                ⟨ValueDef.opResult
                  (st.nextId + (allocationFn w val.ty st.nextId).1.length + 1) 0, indexTy⟩]
              resultTypes := [indexTy] },
            { id := st.nextId + (allocationFn w val.ty st.nextId).1.length + 3
              kind := OpKind.other "vector.load" (some true) false
              operands := [(allocationFn w val.ty st.nextId).2,
                ⟨ValueDef.opResult
                  (st.nextId + (allocationFn w val.ty st.nextId).1.length + 2) 0, indexTy⟩]
              resultTypes := [t] } ],
        ?_, by rw [hR]; simp, by rw [hS]; simp, by rw [hL]; simp, by simp [hRl], by simp [hSl],
        by simp only at hle; omega, ?_, ?_, ?_⟩
      · rw [← hrun]
        subst htv
        simp only [readBack, ht, heq, if_false, Operation.getResult, List.getD_cons_zero]
      · rw [hA]
        simp only [List.append_assoc]
        exact ⟨_, rfl⟩
      · intro x hx
        rw [List.mem_cons] at hx
        rcases hx with rfl | hx
        · exact ⟨_, by omega, rfl⟩
        · obtain ⟨id, hid, ho⟩ := hfresh x hx
          simp only at hid
          exact ⟨id, by omega, ho⟩
      · intro j v hj
        cases j with
        | zero =>
          simp only [List.getElem?_cons_zero, Option.some.injEq] at hj
          subst hj
          rw [hgetD, List.getD_cons_zero]
          exact ⟨(allocationFn w val.ty st.nextId).2, _, _, st.nextId, rfl,
            List.getElem?_cons_zero, rfl, rfl,
            List.mem_append_right L
              (List.mem_cons_of_mem _ (List.mem_cons_of_mem _ (List.mem_singleton_self _))),
            rfl, fun h => absurd h heq,
            fun _ => ⟨loadSize, _, _, hls, List.mem_append_right L (List.mem_cons_self _ _),
              List.mem_append_right L (List.mem_cons_of_mem _ (List.mem_cons_self _ _)),
              rfl, rfl, rfl, rfl, rfl, rfl⟩⟩
        | succ j =>
          rw [show k + (j + 1) = k + 1 + j by omega, List.getD_cons_succ]
          exact readBackAt_later allocationFn w c0 _ v S L j _ _ _
            (hat j v (by simpa using hj))

/-- Merging the body into the then block keeps the type of a well-typed value,
when the replacements have the types of the block arguments. -/
theorem mergeBlockArgs_ty (w : WarpOp) (replacements : List Value) (v : Value)
    (hwt : blockArgTyped w v = true)
    (hty : ∀ j, j < replacements.length →
      (replacements.getD j default).ty = w.body.argTypes.getD j default) :
    (mergeBlockArgs w replacements v).ty = v.ty := by
  unfold mergeBlockArgs
  unfold blockArgTyped at hwt
  split
  · rename_i block idx horigin
    rw [horigin] at hwt
    simp only [Bool.or_eq_true, bne_iff_ne, ne_eq, beq_iff_eq] at hwt
    split
    · rename_i hblock
      rcases hwt with h | h
      · exact absurd hblock h
      · by_cases hidx : idx < replacements.length
        · have h1 := hty idx hidx
          rw [List.getD_eq_getElem?_getD, List.getElem?_eq_getElem hidx] at h1 ⊢
          simp only [Option.getD_some] at h1 ⊢
          rw [h1, List.getD_eq_getElem?_getD, h]
          rfl
        · rw [List.getD_eq_getElem?_getD, List.getElem?_eq_none (by omega)]
          rfl
    · rfl
  · rfl

/-- C22: for a region with as many results as yield operands, whose captured
values are vectors with a leading extent held by vector block arguments, whose
result types are each the type of the yielded value or a vector with a leading
extent, and for an allocation callback that hands out memrefs, the lowering goes
through; the conditional is guarded by `cmpi eq laneid, c0`; the then block ends
with one store per yielded value, each at offset `c0` into a buffer allocated
for that value; after the conditional come the loads, where the load for result
`i` reads that buffer at `c0` when the types agree and otherwise loads the
result type at `laneid * extent`; `replaceOp` gets one replacement per result, in
order, every use of result `i` becoming replacement `i`; and the body of the
region now sits in the then block. -/
theorem lowering_readBack (allocationFn : WarpOp → Ty → Nat → List Operation × Value)
    (c : WarpContext)
    (harity : c.warpOp.arityOk)
    (hlt : c.warpOp.id < c.nextId)
    (hnargs : c.warpOp.args.length = c.warpOp.body.argTypes.length)
    (hargs : ∀ v, v ∈ c.warpOp.args → (v.ty.leadingExtent?).isSome = true)
    (hbbargs : ∀ t, t ∈ c.warpOp.body.argTypes → t.isVector = true)
    (hbuf : ∀ t n, (allocationFn c.warpOp t n).2.ty.isMemRef = true)
    (hwt : ∀ v, v ∈ c.warpOp.body.yieldOperands → blockArgTyped c.warpOp v = true)
    (hres : ∀ i v, c.warpOp.body.yieldOperands[i]? = some v →
      c.warpOp.resultTypes.getD i default = v.ty ∨
        ((c.warpOp.resultTypes.getD i default).leadingExtent?).isSome = true) :
    ∃ (low : Lowered) (bbArgReplacements : List Value)
      (allocs front stores loads : List Operation),
      rewriteWarpOpToScfFor allocationFn c = some low ∧
      low.created =
        (([ { id := c.nextId
              kind := OpKind.constantIndex 0
              operands := []
              resultTypes := [indexTy] },
            { id := c.nextId + 1
              kind := OpKind.cmpi "eq"
              operands := [c.warpOp.laneid, ⟨ValueDef.opResult c.nextId 0, indexTy⟩]
              resultTypes := [i1] } ] : List Operation) ++ allocs).map
          (Operation.mapOperands (replaceOpSubst c.warpOp.toWarpHeader low.replacements)) ∧
      low.ifOp.condition =
        replaceOpSubst c.warpOp.toWarpHeader low.replacements
          ⟨ValueDef.opResult (c.nextId + 1) 0, i1⟩ ∧
      low.ifOp.thenOps =
        (front ++ (c.warpOp.body.mapOperands (mergeBlockArgs c.warpOp bbArgReplacements)).ops ++
          stores).map
          (Operation.mapOperands (replaceOpSubst c.warpOp.toWarpHeader low.replacements)) ∧
      low.loads = loads.map
        (Operation.mapOperands (replaceOpSubst c.warpOp.toWarpHeader low.replacements)) ∧
      low.pre = c.pre.map
        (Item.mapOperands (replaceOpSubst c.warpOp.toWarpHeader low.replacements)) ∧
      low.post = c.post.map
        (Item.mapOperands (replaceOpSubst c.warpOp.toWarpHeader low.replacements)) ∧
      low.replacements.length = c.warpOp.getNumResults ∧
      stores.length = c.warpOp.getNumResults ∧
      (∀ v, (∀ i, i < c.warpOp.getNumResults → v ≠ c.warpOp.getResult i) →
        replaceOpSubst c.warpOp.toWarpHeader low.replacements v = v) ∧
      ∀ i v, c.warpOp.body.yieldOperands[i]? = some v →
        replaceOpSubst c.warpOp.toWarpHeader low.replacements (c.warpOp.getResult i) =
          low.replacements.getD i default ∧
        (mergeBlockArgs c.warpOp bbArgReplacements v).ty = v.ty ∧
        ReadBackAt allocationFn c.warpOp ⟨ValueDef.opResult c.nextId 0, indexTy⟩
          (c.warpOp.resultTypes.getD i default)
          (mergeBlockArgs c.warpOp bbArgReplacements v) stores loads i
          (low.replacements.getD i default) := by
  -- the loop over the captured arguments
  obtain ⟨args, B, hargsRun, hB, hBlen, hargsLe, ⟨A, hA⟩, ⟨T, hT⟩, hBty⟩ :=
    storeArgs_spec allocationFn c.warpOp ⟨ValueDef.opResult c.nextId 0, indexTy⟩
      c.warpOp.args 0
      { created :=
          [ { id := c.nextId
              kind := OpKind.constantIndex 0
              operands := []
              resultTypes := [indexTy] },
            { id := c.nextId + 1
              kind := OpKind.cmpi "eq"
              operands := [c.warpOp.laneid, ⟨ValueDef.opResult c.nextId 0, indexTy⟩]
              resultTypes := [i1] } ]
        thenOps := []
        bbArgReplacements := []
        nextId := c.nextId + 3 }
      (by
        intro j v hj
        refine ⟨hargs v (List.getElem?_mem hj), ?_⟩
        have hjlt : j < c.warpOp.body.argTypes.length := by
          rw [← hnargs]
          exact (List.getElem?_eq_some.1 hj).1
        refine ⟨c.warpOp.body.argTypes[j], ?_, hbbargs _ (List.getElem_mem _)⟩
        rw [Nat.zero_add]
        exact List.getElem?_eq_getElem hjlt)
  simp only [List.nil_append] at hB
  simp only [List.append_nil] at hT
  simp only at hargsLe
  have hrepl_len : args.bbArgReplacements.length = c.warpOp.body.argTypes.length := by
    rw [hB, hBlen, hnargs]
  have hrepl_ty : ∀ j, j < args.bbArgReplacements.length →
      (args.bbArgReplacements.getD j default).ty = c.warpOp.body.argTypes.getD j default := by
    intro j hj
    rw [hB] at hj ⊢
    have := hBty j (by rw [← hBlen]; exact hj)
    rw [Nat.zero_add] at this
    exact this
  have hmerge : ∀ v, v ∈ c.warpOp.body.yieldOperands →
      (mergeBlockArgs c.warpOp args.bbArgReplacements v).ty = v.ty :=
    fun v hv => mergeBlockArgs_ty c.warpOp args.bbArgReplacements v (hwt v hv) hrepl_ty
  -- the loop over the yield operands
  obtain ⟨st, R, S, L, hrun, hR, hS, hL, hRlen, hSlen, hle, ⟨A2, hA2⟩, hfresh, hat⟩ :=
    readBack_spec allocationFn c.warpOp ⟨ValueDef.opResult c.nextId 0, indexTy⟩ hbuf
      (c.warpOp.body.yieldOperands.map (mergeBlockArgs c.warpOp args.bbArgReplacements)) 0
      { created := args.created, stores := [], loads := [], replacements := [],
        nextId := args.nextId }
      (by
        intro j v' hj
        rw [List.getElem?_map] at hj
        obtain ⟨v, hv, rfl⟩ := Option.map_eq_some'.1 hj
        have hjlt : j < c.warpOp.resultTypes.length := by
          rw [harity]
          exact (List.getElem?_eq_some.1 hv).1
        refine ⟨c.warpOp.resultTypes[j], by rw [Nat.zero_add]; exact List.getElem?_eq_getElem hjlt,
          ?_⟩
        rw [hmerge v (List.getElem?_mem hv)]
        have := hres j v hv
        rw [List.getD_eq_getElem?_getD, List.getElem?_eq_getElem hjlt] at this
        exact this)
  simp only [List.nil_append, List.append_nil, List.length_map] at hR hS hL hRlen hSlen
  simp only at hle hfresh
  have hn : st.replacements.length = c.warpOp.getNumResults := by
    rw [hR, hRlen, WarpOp.getNumResults, harity]
  have hfresh' : ∀ j i, st.replacements.getD j default ≠ c.warpOp.toWarpHeader.getResult i := by
    intro j i heq
    by_cases hj : j < st.replacements.length
    · rw [List.getD_eq_getElem?_getD, List.getElem?_eq_getElem hj] at heq
      simp only [Option.getD_some] at heq
      obtain ⟨id, hid, ho⟩ := hfresh _ (by rw [← hR]; exact List.getElem_mem hj)
      rw [heq] at ho
      simp only [WarpHeader.getResult, ValueDef.opResult.injEq] at ho hid
      omega
    · rw [List.getD_eq_getElem?_getD, List.getElem?_eq_none (by omega)] at heq
      have := congrArg Value.origin heq
      simp [WarpHeader.getResult, default] at this
  refine ⟨
    { pre := c.pre.map
        (Item.mapOperands (replaceOpSubst c.warpOp.toWarpHeader st.replacements))
      created := st.created.map
        (Operation.mapOperands (replaceOpSubst c.warpOp.toWarpHeader st.replacements))
      ifOp :=
        { id := c.nextId + 2
          condition := replaceOpSubst c.warpOp.toWarpHeader st.replacements
            ⟨ValueDef.opResult (c.nextId + 1) 0, i1⟩
          thenOps := (args.thenOps ++
            (c.warpOp.body.mapOperands (mergeBlockArgs c.warpOp args.bbArgReplacements)).ops ++
            st.stores).map
              (Operation.mapOperands (replaceOpSubst c.warpOp.toWarpHeader st.replacements)) }
      loads := st.loads.map
        (Operation.mapOperands (replaceOpSubst c.warpOp.toWarpHeader st.replacements))
      post := c.post.map
        (Item.mapOperands (replaceOpSubst c.warpOp.toWarpHeader st.replacements))
      replacements := st.replacements
      nextId := st.nextId },
    args.bbArgReplacements, A ++ A2, T, S, L, ?_, ?_, rfl, ?_, ?_, rfl, rfl, hn,
    by rw [hSlen, WarpOp.getNumResults, harity], ?_, ?_⟩
  · simp only [rewriteWarpOpToScfFor, Operation.getResult, List.getD_cons_zero, hargsRun,
      hrepl_len, ne_eq, not_true_eq_false, if_false, Block.mapOperands, hrun, hn]
  · simp only [hA2, hA, List.append_assoc]
  · simp only [hT, hS, Block.mapOperands]
  · simp only [hL]
  · intro v hv
    exact replaceFold_other c.warpOp.toWarpHeader st.replacements _ v hv
  · intro i v hv
    have hi : i < c.warpOp.resultTypes.length := by
      rw [harity]
      exact (List.getElem?_eq_some.1 hv).1
    refine ⟨replaceFold_result c.warpOp.toWarpHeader st.replacements _ i hi hfresh',
      hmerge v (List.getElem?_mem hv), ?_⟩
    have := hat i (mergeBlockArgs c.warpOp args.bbArgReplacements v)
      (by rw [List.getElem?_map, hv]; rfl)
    rw [Nat.zero_add] at this
    rw [hR]
    exact this

theorem lowering_readBack_witness :
    loweringScenario.warpOp.arityOk ∧
    loweringScenario.warpOp.id < loweringScenario.nextId ∧
    loweringScenario.warpOp.args.length = loweringScenario.warpOp.body.argTypes.length ∧
    (∀ v, v ∈ loweringScenario.warpOp.args → (v.ty.leadingExtent?).isSome = true) ∧
    (∀ t, t ∈ loweringScenario.warpOp.body.argTypes → t.isVector = true) ∧
    (∀ v, v ∈ loweringScenario.warpOp.body.yieldOperands →
      blockArgTyped loweringScenario.warpOp v = true) ∧
    (rewriteWarpOpToScfFor exampleAllocationFn loweringScenario).map
        (fun low => low.replacements) =
      some [⟨ValueDef.opResult 20 0, vectorF32 1⟩, ⟨ValueDef.opResult 23 0, f32⟩] ∧
    (rewriteWarpOpToScfFor exampleAllocationFn loweringScenario).map
        (fun low => (low.created.map (fun o => o.id), low.ifOp.thenOps.map (fun o => o.id),
          low.loads.map (fun o => o.id))) =
      some ([8, 9, 11, 12, 13, 14, 16, 21], [15, 4, 5, 17, 22], [23, 18, 19, 20]) ∧
    (rewriteWarpOpToScfFor exampleAllocationFn loweringScenario).map (fun low => low.post) =
      some
        [ Item.op (opaqueOp 6 "some_use" [⟨ValueDef.opResult 20 0, vectorF32 1⟩] []),
          Item.op (opaqueOp 7 "some_use" [⟨ValueDef.opResult 23 0, f32⟩] []) ] ∧
    ∃ (low : Lowered) (bbArgReplacements : List Value)
      (allocs front stores loads : List Operation),
      rewriteWarpOpToScfFor exampleAllocationFn loweringScenario = some low ∧
      low.created =
        (([ { id := loweringScenario.nextId
              kind := OpKind.constantIndex 0
              operands := []
              resultTypes := [indexTy] },
            { id := loweringScenario.nextId + 1
              kind := OpKind.cmpi "eq"
              operands := [loweringScenario.warpOp.laneid, ⟨ValueDef.opResult loweringScenario.nextId 0, indexTy⟩]
              resultTypes := [i1] } ] : List Operation) ++ allocs).map
          (Operation.mapOperands (replaceOpSubst loweringScenario.warpOp.toWarpHeader low.replacements)) ∧
      low.ifOp.condition =
        replaceOpSubst loweringScenario.warpOp.toWarpHeader low.replacements
          ⟨ValueDef.opResult (loweringScenario.nextId + 1) 0, i1⟩ ∧
      low.ifOp.thenOps =
        (front ++ (loweringScenario.warpOp.body.mapOperands (mergeBlockArgs loweringScenario.warpOp bbArgReplacements)).ops ++
          stores).map
          (Operation.mapOperands (replaceOpSubst loweringScenario.warpOp.toWarpHeader low.replacements)) ∧
      low.loads = loads.map
        (Operation.mapOperands (replaceOpSubst loweringScenario.warpOp.toWarpHeader low.replacements)) ∧
      low.pre = loweringScenario.pre.map
        (Item.mapOperands (replaceOpSubst loweringScenario.warpOp.toWarpHeader low.replacements)) ∧
      low.post = loweringScenario.post.map
        (Item.mapOperands (replaceOpSubst loweringScenario.warpOp.toWarpHeader low.replacements)) ∧
      low.replacements.length = loweringScenario.warpOp.getNumResults ∧
      stores.length = loweringScenario.warpOp.getNumResults ∧
      (∀ v, (∀ i, i < loweringScenario.warpOp.getNumResults → v ≠ loweringScenario.warpOp.getResult i) →
        replaceOpSubst loweringScenario.warpOp.toWarpHeader low.replacements v = v) ∧
      ∀ i v, loweringScenario.warpOp.body.yieldOperands[i]? = some v →
        replaceOpSubst loweringScenario.warpOp.toWarpHeader low.replacements (loweringScenario.warpOp.getResult i) =
          low.replacements.getD i default ∧
        (mergeBlockArgs loweringScenario.warpOp bbArgReplacements v).ty = v.ty ∧
        ReadBackAt exampleAllocationFn loweringScenario.warpOp ⟨ValueDef.opResult loweringScenario.nextId 0, indexTy⟩
          (loweringScenario.warpOp.resultTypes.getD i default)
          (mergeBlockArgs loweringScenario.warpOp bbArgReplacements v) stores loads i
          (low.replacements.getD i default) :=
  ⟨by decide, by decide, by decide, by decide, by decide, by decide, by decide, by decide,
    by decide,
    lowering_readBack exampleAllocationFn loweringScenario (by decide) (by decide) (by decide)
      (by decide) (by decide) (fun t _ => by cases t <;> rfl) (by decide)
      (by
        intro i v hv
        rcases i with _ | _ | i
        · right; rfl
        · left
          simp only [loweringScenario, List.getElem?_cons_succ, List.getElem?_cons_zero,
            Option.some.injEq] at hv
          rw [← hv]
          rfl
        · simp [loweringScenario] at hv)⟩

/-- C22, as the specification words it (for every region): a region that
satisfies the region invariant and captures an `f32` value is not lowered, the
cast of the captured value to a vector type fires, so no yielded value is stored
and no result is replaced. -/
theorem lowering_readBack_counterexample :
    loweringScalarScenario.regionInvariant = true ∧
    loweringScalarScenario.warpOp.args.length =
      loweringScalarScenario.warpOp.body.argTypes.length ∧
    (loweringScalarScenario.warpOp.args.map (fun v => v.ty)) =
      loweringScalarScenario.warpOp.body.argTypes ∧
    rewriteWarpOpToScfFor exampleAllocationFn loweringScalarScenario = none := by
  decide

/-! ## Loop distribution: facts -/

/-- C29: on a region whose trailing loop carries two values and that yields the
second result of the loop only, the pattern succeeds, and the inner region it
builds has one result but two yield operands, and one captured argument but two
block arguments; the captured argument, the iteration variable of the new loop
for the region result fed by iteration argument 1 of the old loop, is paired
with block argument 0, which stands for iteration argument 0 of the old loop. -/
theorem loopDistribution_inner_arity :
    ∃ r, WarpOpScfForOp.matchAndRewrite loopTwoScenario (some loopTwoScenarioFor) =
        ScfForResult.success r ∧
      loopTwoScenario.warpOp.arityOk ∧
      r.newForOp.innerWarp.resultTypes.length = 1 ∧
      r.newForOp.innerWarp.body.yieldOperands.length = 2 ∧
      ¬ r.newForOp.innerWarp.arityOk ∧
      r.newForOp.innerWarp.args = [⟨ValueDef.blockArg 14 1, vectorF32 4⟩] ∧
      r.newForOp.innerWarp.body.argTypes = [vectorF32 64, vectorF32 128] ∧
      r.newForOp.iterOperands = [loopTwoScenario.warpOp.getResult 0] ∧
      r.warpOp.body.yieldOperands = [⟨ValueDef.opResult 12 0, vectorF32 128⟩] ∧
      r.newForOp.innerWarp.body.ops =
        [ opaqueOp 17 "some_op" [⟨ValueDef.blockArg 16 0, vectorF32 64⟩] [vectorF32 64],
          opaqueOp 18 "some_op" [⟨ValueDef.blockArg 16 1, vectorF32 128⟩] [vectorF32 128] ] := by
  exact ⟨match WarpOpScfForOp.matchAndRewrite loopTwoScenario (some loopTwoScenarioFor) with
      | ScfForResult.success r => r
      | _ => ⟨[], loopTwoScenario.warpOp,
          ⟨0, default, default, default, [], [], 0, loopTwoScenario.warpOp, []⟩, [], 0⟩,
    by decide, by decide, by decide, by decide, by decide, by decide, by decide, by decide,
    by decide, by decide⟩

/-- A value that is none of the replaced results is left alone by the last loop
of the pattern. -/
theorem loopSubst_other (w : WarpHeader) (nf : OuterFor) :
    ∀ (l : List Nat) (k : Nat) (v : Value), (∀ i, i ∈ l → v ≠ w.getResult i) →
      loopSubst w nf l k v = v := by
  intro l
  induction l with
  | nil => intro k v _; rfl
  | cons a l ih =>
    intro k v h
    simp only [loopSubst]
    have hva : Value.replaceUse (w.getResult a) (nf.getResult k) v = v := by
      unfold Value.replaceUse
      rw [if_neg (h a (List.mem_cons_self a l))]
    rw [hva]
    exact ih (k + 1) v (fun i hi => h i (List.mem_cons_of_mem a hi))

/-- Result `l[j]` of the warp region is replaced by result `k + j` of the new
loop. -/
theorem loopSubst_result (w : WarpHeader) (nf : OuterFor)
    (hfresh : ∀ k i, nf.getResult k ≠ w.getResult i) :
    ∀ (l : List Nat) (k j i : Nat), l.Nodup → l[j]? = some i →
      loopSubst w nf l k (w.getResult i) = nf.getResult (k + j) := by
  intro l
  induction l with
  | nil => intro k j i _ h; simp at h
  | cons a l ih =>
    intro k j i hnd h
    rw [List.nodup_cons] at hnd
    simp only [loopSubst]
    cases j with
    | zero =>
      simp only [List.getElem?_cons_zero, Option.some.injEq] at h
      subst h
      have : Value.replaceUse (w.getResult a) (nf.getResult k) (w.getResult a) =
          nf.getResult k := by
        simp [Value.replaceUse]
      rw [this, Nat.add_zero]
      exact loopSubst_other w nf l (k + 1) _ (fun i _ => hfresh k i)
    | succ j =>
      simp only [List.getElem?_cons_succ] at h
      have hia : i ≠ a := by
        intro e
        subst e
        exact hnd.1 (List.getElem?_mem h)
      have : Value.replaceUse (w.getResult a) (nf.getResult k) (w.getResult i) =
          w.getResult i := by
        unfold Value.replaceUse
        rw [if_neg (getResult_ne_of_ne w hia)]
      rw [this, ih (k + 1) j i hnd.2 h]
      congr 1
      omega

/-- The initial values of the new loop come out of the last loop of the pattern
as they went in: the warp results at `resultIdx`. -/
theorem rewireInits_fix (w : WarpHeader) (nf : OuterFor) :
    ∀ (l done : List Nat), (done ++ l).Nodup →
      rewireInits w nf l done.length ((done ++ l).map w.getResult) =
        (done ++ l).map w.getResult := by
  intro l
  induction l with
  | nil => intro done _; rfl
  | cons a l ih =>
    intro done hnd
    simp only [rewireInits]
    have hstep : (((done ++ a :: l).map w.getResult).map
        (Value.replaceUse (w.getResult a) (nf.getResult done.length))).set done.length
          (w.getResult a) = (done ++ a :: l).map w.getResult := by
      have h0 : (done ++ a :: l)[done.length]? = some a := by
        rw [List.getElem?_append_right (le_refl _), Nat.sub_self]
        exact List.getElem?_cons_zero
      apply List.ext_getElem?
      intro n
      rw [List.getElem?_set]
      by_cases hn : done.length = n
      · subst hn
        rw [if_pos rfl, List.length_map, List.length_map,
          if_pos (List.getElem?_eq_some.1 h0).1, List.getElem?_map, h0]
        rfl
      · rw [if_neg hn, List.getElem?_map]
        cases hx : ((done ++ a :: l).map w.getResult)[n]? with
        | none => rfl
        | some x =>
          simp only [Option.map_some', Option.some.injEq]
          unfold Value.replaceUse
          rw [if_neg]
          intro hxa
          rw [List.getElem?_map] at hx
          obtain ⟨i, hi, hix⟩ := Option.map_eq_some'.1 hx
          have hia : i = a := by
            by_contra hne
            exact getResult_ne_of_ne w hne (hix.trans hxa)
          subst hia
          have hlt1 := (List.getElem?_eq_some.1 hi).1
          have hlt2 := (List.getElem?_eq_some.1 h0).1
          have e1 := (List.getElem?_eq_some.1 hi).2
          have e2 := (List.getElem?_eq_some.1 h0).2
          exact hn ((List.Nodup.getElem_inj_iff hnd).1 (e2.trans e1.symm))
    rw [hstep]
    have := ih (done ++ [a]) (by simpa using hnd)
    simpa using this

/-- The first loop of the pattern goes through on a region with a result for
every yield operand whose loop results are in range: loop results are replaced
by the initial values of the loop, and their operand numbers are collected. -/
theorem collectLoopResults_spec (w : WarpOp) (f : ForOp) :
    ∀ (l : List Value) (i0 : Nat),
      (∀ v, v ∈ l → f.resultInRange v = true) → i0 + l.length ≤ w.getNumResults →
      collectLoopResults w f l i0 = some (l.map (loopInit f), loopResultIdx f l i0) := by
  intro l
  induction l with
  | nil => intro i0 _ _; rfl
  | cons v rest ih =>
    intro i0 hin hlen
    have hlen' : i0 + 1 + rest.length ≤ w.getNumResults := by
      simp only [List.length_cons] at hlen
      omega
    have hi0 : i0 < w.getNumResults := by
      simp only [List.length_cons] at hlen
      omega
    have hv := hin v (List.mem_cons_self v rest)
    unfold ForOp.resultInRange at hv
    cases hvo : v.origin with
    | opResult owner p =>
      rw [hvo] at hv
      simp only [Bool.or_eq_true, bne_iff_ne, ne_eq, decide_eq_true_eq] at hv
      by_cases hown : owner = f.id
      · have hp : p < f.iterOperands.length := by
          rcases hv with h | h
          · exact absurd hown h
          · exact h
        simp only [collectLoopResults,
          ih (i0 + 1) (fun u hu => hin u (List.mem_cons_of_mem v hu)) hlen',
          List.map_cons, loopResultIdx, loopInit, ForOp.isResult, hvo, hown, if_true, hi0,
          List.getElem?_eq_getElem hp, beq_self_eq_true, List.getD_eq_getElem?_getD,
          Option.getD_some]
      · simp only [collectLoopResults,
          ih (i0 + 1) (fun u hu => hin u (List.mem_cons_of_mem v hu)) hlen',
          List.map_cons, loopResultIdx, loopInit, ForOp.isResult, hvo, hown, if_false,
          beq_iff_eq, Bool.false_eq_true]
    | blockArg block idx =>
      simp only [collectLoopResults,
        ih (i0 + 1) (fun u hu => hin u (List.mem_cons_of_mem v hu)) hlen',
        List.map_cons, loopResultIdx, loopInit, ForOp.isResult, hvo, Bool.false_eq_true,
        if_false]

theorem loopResultIdx_bounds (f : ForOp) :
    ∀ (l : List Value) (i0 i : Nat), i ∈ loopResultIdx f l i0 →
      i0 ≤ i ∧ ∃ v, l[i - i0]? = some v ∧ f.isResult v = true := by
  intro l
  induction l with
  | nil => intro i0 i h; simp [loopResultIdx] at h
  | cons v rest ih =>
    intro i0 i h
    have hrec : i ∈ loopResultIdx f rest (i0 + 1) →
        i0 ≤ i ∧ ∃ u, (v :: rest)[i - i0]? = some u ∧ f.isResult u = true := by
      intro h'
      obtain ⟨h1, u, h2, h3⟩ := ih (i0 + 1) i h'
      refine ⟨by omega, u, ?_, h3⟩
      rw [show i - i0 = (i - (i0 + 1)) + 1 by omega, List.getElem?_cons_succ]
      exact h2
    simp only [loopResultIdx] at h
    split at h
    · rename_i hres
      rw [List.mem_cons] at h
      rcases h with rfl | h
      · exact ⟨le_refl _, v, by simp, hres⟩
      · exact hrec h
    · exact hrec h

theorem loopResultIdx_mem (f : ForOp) :
    ∀ (l : List Value) (i0 j : Nat) (v : Value), l[j]? = some v → f.isResult v = true →
      i0 + j ∈ loopResultIdx f l i0 := by
  intro l
  induction l with
  | nil => intro i0 j v h; simp at h
  | cons a rest ih =>
    intro i0 j v h hres
    simp only [loopResultIdx]
    cases j with
    | zero =>
      simp only [List.getElem?_cons_zero, Option.some.injEq] at h
      subst h
      rw [if_pos hres]
      simp
    | succ j =>
      simp only [List.getElem?_cons_succ] at h
      have := ih (i0 + 1) j v h hres
      rw [show i0 + 1 + j = i0 + (j + 1) by omega] at this
      split
      · exact List.mem_cons_of_mem _ this
      · exact this

theorem loopResultIdx_sorted (f : ForOp) :
    ∀ (l : List Value) (i0 : Nat), (loopResultIdx f l i0).Pairwise (· < ·) := by
  intro l
  induction l with
  | nil => intro i0; simp [loopResultIdx]
  | cons v rest ih =>
    intro i0
    simp only [loopResultIdx]
    split
    · rw [List.pairwise_cons]
      refine ⟨fun i hi => ?_, ih (i0 + 1)⟩
      have := (loopResultIdx_bounds f rest (i0 + 1) i hi).1
      omega
    · exact ih (i0 + 1)

theorem lookupOrNull_isSome (mapping : List (Value × Value)) (v : Value)
    (h : v ∈ mapping.map (fun p => p.1)) : (lookupOrNull mapping v).isSome = true := by
  unfold lookupOrNull
  rw [List.mem_map] at h
  obtain ⟨p, hp, rfl⟩ := h
  have hfind : (mapping.find? (fun q => q.1 == p.1)).isSome = true := by
    rw [List.find?_isSome]
    exact ⟨p, hp, by simp⟩
  obtain ⟨q, hq⟩ := Option.isSome_iff_exists.1 hfind
  rw [hq]
  rfl

/-- Cloning keeps the keys of the mapping and adds the results of the cloned
operations. -/
theorem cloneOps_keys :
    ∀ (ops : List Operation) (mapping : List (Value × Value)) (nextId : Nat) (v : Value),
      (v ∈ mapping.map (fun p => p.1) ∨
        ∃ op, op ∈ ops ∧ ∃ j, j < op.resultTypes.length ∧ op.getResult j = v) →
      v ∈ (cloneOps mapping ops nextId).2.1.map (fun p => p.1) := by
  intro ops
  induction ops with
  | nil =>
    intro mapping nextId v h
    rcases h with h | ⟨op, hop, _⟩
    · exact h
    · simp at hop
  | cons a ops ih =>
    intro mapping nextId v h
    simp only [cloneOps]
    apply ih
    rcases h with h | ⟨op, hop, j, hj, hv⟩
    · left
      rw [List.map_append, List.mem_append]
      exact Or.inr h
    · rw [List.mem_cons] at hop
      rcases hop with rfl | hop
      · left
        rw [List.map_append, List.mem_append]
        left
        simp only [List.map_map, List.mem_map, List.mem_range, Function.comp]
        exact ⟨j, hj, hv⟩
      · exact Or.inr ⟨op, hop, j, hj, hv⟩

theorem cloneOps_length :
    ∀ (ops : List Operation) (mapping : List (Value × Value)) (nextId : Nat),
      (cloneOps mapping ops nextId).1.length = ops.length ∧
      (cloneOps mapping ops nextId).2.2 = nextId + ops.length := by
  intro ops
  induction ops with
  | nil => intro mapping nextId; exact ⟨rfl, rfl⟩
  | cons a ops ih =>
    intro mapping nextId
    simp only [cloneOps, List.length_cons]
    obtain ⟨h1, h2⟩ := ih
      ((List.range a.resultTypes.length).map
        (fun j => (a.getResult j,
          Operation.getResult
            { id := nextId
              kind := a.kind
              operands := a.operands.map (lookupOrDefault mapping)
              resultTypes := a.resultTypes } j)) ++ mapping) (nextId + 1)
    exact ⟨by rw [h1], by rw [h2]; omega⟩

theorem mapM_isSome (g : Value → Option Value) (l : List Value)
    (h : ∀ v, v ∈ l → (g v).isSome = true) :
    ∃ ys, l.mapM g = some ys ∧ ys.length = l.length := by
  induction l with
  | nil => exact ⟨[], rfl, rfl⟩
  | cons a l ih =>
    obtain ⟨ys, hys, hlen⟩ := ih (fun v hv => h v (List.mem_cons_of_mem a hv))
    obtain ⟨y, hy⟩ := Option.isSome_iff_exists.1 (h a (List.mem_cons_self a l))
    refine ⟨y :: ys, ?_, by simp [hlen]⟩
    rw [List.mapM_cons, hy, hys]
    rfl

/-- Every value defined in the body of the old loop is a key of the mapping
after the body was cloned. -/
theorem definesValue_mapped (f : ForOp) (innerArgs : List Value) (iv : Value) (nextId : Nat)
    (hlen : innerArgs.length = f.resultTypes.length) (v : Value)
    (h : f.definesValue v = true) :
    (lookupOrNull
      (cloneOps ((f.getRegionIterArgs.zip innerArgs).reverse ++ [(f.getInductionVar, iv)])
        f.bodyOps nextId).2.1 v).isSome = true := by
  apply lookupOrNull_isSome
  apply cloneOps_keys
  simp only [ForOp.definesValue, Bool.or_eq_true, beq_iff_eq, List.contains_iff_exists_mem_beq,
    List.any_eq_true, List.mem_range] at h
  rcases h with (h | h) | h
  · left
    simp [h]
  · left
    obtain ⟨x, hx, hxv⟩ := h
    subst hxv
    rw [List.map_append, List.mem_append]
    left
    rw [List.map_reverse, List.mem_reverse, List.map_fst_zip]
    · exact hx
    · rw [hlen]
      simp [ForOp.getRegionIterArgs]
  · right
    obtain ⟨op, hop, j, hj, hv⟩ := h
    exact ⟨op, hop, j, hj, hv⟩

theorem loopInit_mem (f : ForOp) (v : Value) (hv : f.resultInRange v = true) :
    loopInit f v = v ∨ loopInit f v ∈ f.iterOperands := by
  unfold loopInit
  unfold ForOp.resultInRange at hv
  split
  · rename_i owner p horigin
    rw [horigin] at hv
    simp only [Bool.or_eq_true, bne_iff_ne, ne_eq, decide_eq_true_eq] at hv
    split
    · rename_i hown
      right
      rcases hv with h | h
      · exact absurd hown h
      · rw [List.getD_eq_getElem?_getD, List.getElem?_eq_getElem h]
        exact List.getElem_mem h
    · exact Or.inl rfl
  · exact Or.inl rfl

/-- C21: for a region with a result for every yield operand whose last operation
before the yield is a loop that yields values defined in its body, the pattern
succeeds.  The region stays in place, header and operations unchanged.  With
`i_0 < i_1 < ...` the operand numbers of the yield operands that are results of
the loop: the new loop has the bounds and the step of the old one; its `k`-th
initial value is result `i_k` of the region; every operand slot before or after
the region that held result `i_k` holds result `k` of the new loop; and yield
operand `i_k` of the region is the initial value of the old loop for the loop
result it was, the other yield operands being unchanged. -/
theorem loopDistribution_structure (c : WarpContext) (f : ForOp)
    (harity : c.warpOp.arityOk)
    (hlt : c.warpOp.id < c.nextId)
    (hdom : ∀ i, i < c.warpOp.getNumResults →
      c.warpOp.getResult i ∉ (Item.warp c.warpOp).operandValues ++
        f.lowerBound :: f.upperBound :: f.step :: f.iterOperands)
    (hres : ∀ v, v ∈ c.warpOp.body.yieldOperands → f.resultInRange v = true)
    (hmaps : ∀ v, v ∈ f.yieldOperands → f.definesValue v = true) :
    ∃ r : LoopDistributed, WarpOpScfForOp.matchAndRewrite c (some f) = ScfForResult.success r ∧
      r.warpOp.toWarpHeader = c.warpOp.toWarpHeader ∧
      r.warpOp.body.ops = c.warpOp.body.ops ∧
      r.newForOp.lowerBound = f.lowerBound ∧
      r.newForOp.upperBound = f.upperBound ∧
      r.newForOp.step = f.step ∧
      (loopResultIdx f c.warpOp.body.yieldOperands 0).Pairwise (· < ·) ∧
      (∀ i, i ∈ loopResultIdx f c.warpOp.body.yieldOperands 0 ↔
        ∃ v, c.warpOp.body.yieldOperands[i]? = some v ∧ f.isResult v = true) ∧
      r.newForOp.iterOperands =
        (loopResultIdx f c.warpOp.body.yieldOperands 0).map c.warpOp.getResult ∧
      (∀ k i, (loopResultIdx f c.warpOp.body.yieldOperands 0)[k]? = some i →
        List.Forall₂ (SlotsRewired (c.warpOp.getResult i) (r.newForOp.getResult k))
          c.pre r.pre ∧
        List.Forall₂ (SlotsRewired (c.warpOp.getResult i) (r.newForOp.getResult k))
          c.post r.post) ∧
      r.warpOp.body.yieldOperands.length = c.warpOp.body.yieldOperands.length ∧
      ∀ (i : Nat) (v : Value), c.warpOp.body.yieldOperands[i]? = some v →
        (∀ p : Nat, v.origin = ValueDef.opResult f.id p →
          r.warpOp.body.yieldOperands[i]? = f.iterOperands[p]?) ∧
        (f.isResult v = false → r.warpOp.body.yieldOperands[i]? = some v) := by
  have hcollect := collectLoopResults_spec c.warpOp f c.warpOp.body.yieldOperands 0 hres
    (by rw [Nat.zero_add, WarpOp.getNumResults, harity])
  obtain ⟨ys, hys, _⟩ := mapM_isSome
    (lookupOrNull
      (cloneOps
        ((f.getRegionIterArgs.zip
          ((List.range f.resultTypes.length).map
            (fun j => (⟨ValueDef.blockArg (c.nextId + 3) j, f.resultTypes.getD j default⟩ :
              Value)))).reverse ++
          [(f.getInductionVar, ⟨ValueDef.blockArg (c.nextId + 1) 0, f.lowerBound.ty⟩)])
        f.bodyOps (c.nextId + 4)).2.1)
    f.yieldOperands
    (fun v hv => definesValue_mapped f _ _ _ (by simp) v (hmaps v hv))
  obtain ⟨r, hr⟩ : ∃ r, WarpOpScfForOp.matchAndRewrite c (some f) = ScfForResult.success r := by
    simp only [WarpOpScfForOp.matchAndRewrite, hcollect, hys]
    exact ⟨_, rfl⟩
  have hr' := hr
  simp only [WarpOpScfForOp.matchAndRewrite, hcollect, hys, ScfForResult.success.injEq] at hr'
  obtain ⟨nf, hpre, hpost, hwarp, hlb, hub, hstep, hinits, hid, hget⟩ :
      ∃ nf : OuterFor,
        r.pre = c.pre.map (Item.mapOperands
          (loopSubst c.warpOp.toWarpHeader nf
            (loopResultIdx f c.warpOp.body.yieldOperands 0) 0)) ∧
        r.post = c.post.map (Item.mapOperands
          (loopSubst c.warpOp.toWarpHeader nf
            (loopResultIdx f c.warpOp.body.yieldOperands 0) 0)) ∧
        r.warpOp = WarpOp.mapOperands
          (loopSubst c.warpOp.toWarpHeader nf
            (loopResultIdx f c.warpOp.body.yieldOperands 0) 0)
          { toWarpHeader := c.warpOp.toWarpHeader
            body := { c.warpOp.body with
              yieldOperands := c.warpOp.body.yieldOperands.map (loopInit f) } } ∧
        r.newForOp.lowerBound = loopSubst c.warpOp.toWarpHeader nf
          (loopResultIdx f c.warpOp.body.yieldOperands 0) 0 f.lowerBound ∧
        r.newForOp.upperBound = loopSubst c.warpOp.toWarpHeader nf
          (loopResultIdx f c.warpOp.body.yieldOperands 0) 0 f.upperBound ∧
        r.newForOp.step = loopSubst c.warpOp.toWarpHeader nf
          (loopResultIdx f c.warpOp.body.yieldOperands 0) 0 f.step ∧
        r.newForOp.iterOperands = rewireInits c.warpOp.toWarpHeader nf
          (loopResultIdx f c.warpOp.body.yieldOperands 0) 0
          ((loopResultIdx f c.warpOp.body.yieldOperands 0).map c.warpOp.getResult) ∧
        nf.id = c.nextId ∧
        ∀ k, r.newForOp.getResult k = nf.getResult k := by
    rw [← hr']
    exact ⟨_, rfl, rfl, rfl, rfl, rfl, rfl, rfl, rfl, fun _ => rfl⟩
  clear hr'
  -- facts on the collected operand numbers
  have hidx_lt : ∀ i, i ∈ loopResultIdx f c.warpOp.body.yieldOperands 0 →
      i < c.warpOp.getNumResults := by
    intro i hi
    obtain ⟨_, v, hv, _⟩ := loopResultIdx_bounds f _ 0 i hi
    rw [WarpOp.getNumResults, harity]
    have := (List.getElem?_eq_some.1 hv).1
    omega
  have hsorted := loopResultIdx_sorted f c.warpOp.body.yieldOperands 0
  have hnodup : (loopResultIdx f c.warpOp.body.yieldOperands 0).Nodup :=
    hsorted.imp (fun h => Nat.ne_of_lt h)
  have hfix : ∀ (v : Value),
      v ∈ (Item.warp c.warpOp).operandValues ++
        f.lowerBound :: f.upperBound :: f.step :: f.iterOperands →
      loopSubst c.warpOp.toWarpHeader nf (loopResultIdx f c.warpOp.body.yieldOperands 0) 0 v
        = v := by
    intro v hv
    apply loopSubst_other
    intro i hi e
    have e' : v = c.warpOp.getResult i := e
    rw [e'] at hv
    exact hdom i (hidx_lt i hi) hv
  have hyield : ∀ u, u ∈ c.warpOp.body.yieldOperands.map (loopInit f) →
      loopSubst c.warpOp.toWarpHeader nf (loopResultIdx f c.warpOp.body.yieldOperands 0) 0 u
        = u := by
    intro u hu
    rw [List.mem_map] at hu
    obtain ⟨x, hx, rfl⟩ := hu
    apply hfix
    rcases loopInit_mem f x (hres x hx) with h | h
    · rw [h]
      simp only [Item.operandValues, Block.operandValues, List.mem_append]
      exact Or.inl (Or.inr (Or.inr hx))
    · simp [h]
  have hwarp' : r.warpOp =
      { toWarpHeader := c.warpOp.toWarpHeader
        body := { c.warpOp.body with
          yieldOperands := c.warpOp.body.yieldOperands.map (loopInit f) } } := by
    rw [hwarp]
    apply warpOp_mapOperands_fix
    intro v hv
    simp only [Item.operandValues, Block.operandValues, List.mem_append] at hv
    rcases hv with hv | hv | hv
    · exact hfix v (by
        simp only [Item.operandValues, List.mem_append]
        exact Or.inl (Or.inl hv))
    · exact hfix v (by
        simp only [Item.operandValues, Block.operandValues, List.mem_append]
        exact Or.inl (Or.inr (Or.inl hv)))
    · exact hyield v hv
  refine ⟨r, hr, by rw [hwarp'], by rw [hwarp'], ?_, ?_, ?_, hsorted, ?_, ?_, ?_,
    by rw [hwarp']; simp, ?_⟩
  · rw [hlb]
    exact hfix _ (by simp)
  · rw [hub]
    exact hfix _ (by simp)
  · rw [hstep]
    exact hfix _ (by simp)
  · intro i
    constructor
    · intro hi
      obtain ⟨_, v, hv, hres'⟩ := loopResultIdx_bounds f _ 0 i hi
      exact ⟨v, hv, hres'⟩
    · rintro ⟨v, hv, hres'⟩
      have := loopResultIdx_mem f _ 0 i v hv hres'
      rwa [Nat.zero_add] at this
  · rw [hinits]
    exact rewireInits_fix c.warpOp.toWarpHeader nf _ [] hnodup
  · intro k i hk
    have key : loopSubst c.warpOp.toWarpHeader nf
        (loopResultIdx f c.warpOp.body.yieldOperands 0) 0
          (c.warpOp.getResult i) = r.newForOp.getResult k := by
      have := loopSubst_result c.warpOp.toWarpHeader nf
        (by
          intro k i e
          have := congrArg Value.origin e
          simp only [OuterFor.getResult, WarpHeader.getResult, ValueDef.opResult.injEq] at this
          omega)
        _ 0 k i hnodup hk
      rw [Nat.zero_add] at this
      rw [hget k]
      exact this
    rw [hpre, hpost]
    exact ⟨slotsRewired_map _ _ _ key c.pre, slotsRewired_map _ _ _ key c.post⟩
  · intro i v hv
    rw [hwarp']
    simp only [List.getElem?_map, hv]
    constructor
    · intro p hp
      have hvr := hres v (List.getElem?_mem hv)
      unfold ForOp.resultInRange at hvr
      rw [hp] at hvr
      simp only [bne_self_eq_false, Bool.false_or, decide_eq_true_eq] at hvr
      simp only [Option.map_some', loopInit, hp, if_true, List.getD_eq_getElem?_getD,
        List.getElem?_eq_getElem hvr, Option.getD_some]
    · intro hnot
      unfold ForOp.isResult at hnot
      simp only [Option.map_some', loopInit, Option.some.injEq]
      split
      · rename_i owner p horigin
        rw [horigin] at hnot
        simp only [beq_eq_false_iff_ne, ne_eq] at hnot
        rw [if_neg hnot]
      · rfl

/-- C21, as the specification words it (for every region whose last operation
is a loop): when the loop yields a value defined before the loop, the lookup of
the yielded value in the mapping fires and the pattern does not build the new
loop. -/
theorem loopDistribution_counterexample :
    loopScenario.warpOp.arityOk ∧
    loopScenarioInvariantFor.iterOperands.length = loopScenarioInvariantFor.resultTypes.length ∧
    loopScenarioInvariantFor.yieldOperands.length =
      loopScenarioInvariantFor.resultTypes.length ∧
    (∀ v, v ∈ loopScenario.warpOp.body.yieldOperands →
      loopScenarioInvariantFor.isResult v = true) ∧
    WarpOpScfForOp.matchAndRewrite loopScenario (some loopScenarioInvariantFor) =
      ScfForResult.assertion := by
  decide

theorem loopDistribution_structure_witness :
    loopScenario.warpOp.arityOk ∧
    loopScenario.warpOp.id < loopScenario.nextId ∧
    (∀ i, i < loopScenario.warpOp.getNumResults →
      loopScenario.warpOp.getResult i ∉ (Item.warp loopScenario.warpOp).operandValues ++
        loopScenarioFor.lowerBound :: loopScenarioFor.upperBound :: loopScenarioFor.step ::
          loopScenarioFor.iterOperands) ∧
    (∀ v, v ∈ loopScenario.warpOp.body.yieldOperands →
      loopScenarioFor.resultInRange v = true) ∧
    (∀ v, v ∈ loopScenarioFor.yieldOperands → loopScenarioFor.definesValue v = true) ∧
    loopResultIdx loopScenarioFor loopScenario.warpOp.body.yieldOperands 0 = [0] ∧
    ∃ r : LoopDistributed,
      WarpOpScfForOp.matchAndRewrite loopScenario (some loopScenarioFor) =
        ScfForResult.success r ∧
      r.warpOp.toWarpHeader = loopScenario.warpOp.toWarpHeader ∧
      r.warpOp.body.ops = loopScenario.warpOp.body.ops ∧
      r.newForOp.lowerBound = loopScenarioFor.lowerBound ∧
      r.newForOp.upperBound = loopScenarioFor.upperBound ∧
      r.newForOp.step = loopScenarioFor.step ∧
      (loopResultIdx loopScenarioFor loopScenario.warpOp.body.yieldOperands 0).Pairwise
        (· < ·) ∧
      (∀ i, i ∈ loopResultIdx loopScenarioFor loopScenario.warpOp.body.yieldOperands 0 ↔
        ∃ v, loopScenario.warpOp.body.yieldOperands[i]? = some v ∧
          loopScenarioFor.isResult v = true) ∧
      r.newForOp.iterOperands =
        (loopResultIdx loopScenarioFor loopScenario.warpOp.body.yieldOperands 0).map
          loopScenario.warpOp.getResult ∧
      (∀ k i, (loopResultIdx loopScenarioFor loopScenario.warpOp.body.yieldOperands 0)[k]? =
          some i →
        List.Forall₂
          (SlotsRewired (loopScenario.warpOp.getResult i) (r.newForOp.getResult k))
          loopScenario.pre r.pre ∧
        List.Forall₂
          (SlotsRewired (loopScenario.warpOp.getResult i) (r.newForOp.getResult k))
          loopScenario.post r.post) ∧
      r.warpOp.body.yieldOperands.length = loopScenario.warpOp.body.yieldOperands.length ∧
      ∀ (i : Nat) (v : Value), loopScenario.warpOp.body.yieldOperands[i]? = some v →
        (∀ p : Nat, v.origin = ValueDef.opResult loopScenarioFor.id p →
          r.warpOp.body.yieldOperands[i]? = loopScenarioFor.iterOperands[p]?) ∧
        (loopScenarioFor.isResult v = false → r.warpOp.body.yieldOperands[i]? = some v) :=
  ⟨by decide, by decide, by decide, by decide, by decide, by decide,
    loopDistribution_structure loopScenario loopScenarioFor (by decide) (by decide) (by decide)
      (by decide) (by decide)⟩


/-! ## Side-effect classification: facts -/

/-- What `hasSideEffect` computes: the operation carries the
recursive-side-effects trait, or it implements the memory-effect interface and
reports an effect. -/
theorem hasSideEffect_iff (op : Operation) :
    hasSideEffect op = true ↔
      (op.hasRecursiveSideEffects = true ∨ op.memoryEffects = some true) := by
  unfold hasSideEffect
  cases hm : op.memoryEffects with
  | none => cases hr : op.hasRecursiveSideEffects <;> simp
  | some b => cases b <;> cases hr : op.hasRecursiveSideEffects <;> simp

/-- An operation without the memory-effect interface and without the
recursive-side-effects trait has no side effect for `hasSideEffect`. -/
theorem hasSideEffect_of_none (op : Operation) (hm : op.memoryEffects = none)
    (hr : op.hasRecursiveSideEffects = false) : hasSideEffect op = false := by
  cases h : hasSideEffect op with
  | false => rfl
  | true =>
    rcases (hasSideEffect_iff op).1 h with h | h
    · rw [hr] at h; cases h
    · rw [hm] at h; cases h

/-- C31: `hasSideEffect` is true exactly for an operation that carries the
recursive-side-effects trait or implements the memory-effect interface and
reports an effect.  An operation that does neither has no side effect for it:
after an unmasked store whose other operands are defined outside the region,
such operations do not stop the write pattern, which succeeds whenever the
distribution or the extraction of the store succeeds; and in a body with
distinct identifiers such an operation without vector result, without region and
with operands defined outside the region passes `canBeHoisted` and is moved
before the region by `moveScalarUniformCode`. -/
theorem sideEffect_classification :
    (∀ op : Operation, hasSideEffect op = true ↔
      (op.hasRecursiveSideEffects = true ∨ op.memoryEffects = some true)) ∧
    (∀ op : Operation, op.memoryEffects = none → op.hasRecursiveSideEffects = false →
      hasSideEffect op = false) ∧
    (∀ (ratio : Int) (distributionMapFn : Operation → AffineMap) (c : WarpContext)
        (writePos : Nat) (writeOp : Operation) (perm : AffineMap)
        (inBounds : Option (List Bool)),
      c.warpOp.body.ops[writePos]? = some writeOp →
      writeOp.kind = OpKind.transferWrite perm false inBounds →
      (∀ j nextOp, writePos < j → c.warpOp.body.ops[j]? = some nextOp →
        nextOp.memoryEffects = none ∧ nextOp.hasRecursiveSideEffects = false) →
      (∀ value, value ∈ writeOp.operands →
        writeOp.operands.head? = some value ∨ c.warpOp.isDefinedInRegion value = false) →
      (∀ p, tryDistributeOp ratio c (distributionMapFn writeOp) writePos =
          RewriteResult.success p →
        WarpOpTransferWrite.matchAndRewrite ratio distributionMapFn
          (WriteSite.inWarp c writePos) = RewriteResult.success p) ∧
      (∀ p q, tryDistributeOp ratio c (distributionMapFn writeOp) writePos =
          RewriteResult.failure q →
        tryExtractOp c writePos = RewriteResult.success p →
        WarpOpTransferWrite.matchAndRewrite ratio distributionMapFn
          (WriteSite.inWarp c writePos) = RewriteResult.success p)) ∧
    (∀ (getNumRegions : Operation → Nat) (c : WarpContext) (k : Nat) (op : Operation),
      (c.warpOp.body.ops.map (fun o => o.id)).Nodup →
      c.warpOp.body.ops[k]? = some op →
      op.memoryEffects = none → op.hasRecursiveSideEffects = false →
      op.resultTypes.any Ty.isVector = false → getNumRegions op = 0 →
      (∀ v, v ∈ op.operands → c.warpOp.isDefinedInRegion v = false) →
      (∀ definedOutside : Value → Bool,
        (∀ v, v ∈ op.operands → definedOutside v = true) →
        canBeHoisted getNumRegions op definedOutside = true) ∧
      Item.op op ∈ (moveScalarUniformCode getNumRegions c).pre ∧
      op ∉ (moveScalarUniformCode getNumRegions c).warpOp.body.ops) := by
  refine ⟨hasSideEffect_iff, hasSideEffect_of_none, ?_, ?_⟩
  · intro ratio distributionMapFn c writePos writeOp perm inBounds hop hkind hnext hoperands
    have hany : (c.warpOp.body.ops.drop (writePos + 1)).any hasSideEffect = false := by
      rw [List.any_eq_false]
      intro nextOp hmem
      obtain ⟨n, hn⟩ := List.mem_iff_getElem?.1 hmem
      rw [List.getElem?_drop] at hn
      obtain ⟨hm, hr⟩ := hnext (writePos + 1 + n) nextOp (by omega) hn
      rw [hasSideEffect_of_none nextOp hm hr]
      simp
    have hall : (writeOp.operands.all
        (fun value => writeOp.operands.head? == some value ||
          !(c.warpOp.isDefinedInRegion value))) = true := by
      rw [List.all_eq_true]
      intro value hv
      rcases hoperands value hv with h | h
      · simp [h]
      · simp [h]
    constructor
    · intro p hp
      simp only [WarpOpTransferWrite.matchAndRewrite, hop, hkind, hany, hall, hp]
      simp
    · intro p q hq hp
      simp only [WarpOpTransferWrite.matchAndRewrite, hop, hkind, hany, hall, hq, hp]
      simp
  · intro getNumRegions c k op hnodup hk hm hr hvec hg hops
    have hse := hasSideEffect_of_none op hm hr
    have hmem : op ∈ c.warpOp.body.ops := List.mem_iff_getElem?.2 ⟨k, hk⟩
    have hmarked : op ∈ markUniformCode getNumRegions c.warpOp c.warpOp.body.ops [] :=
      (markUniformCode_spec getNumRegions c.warpOp c.warpOp.body.ops
        (List.Nodup.of_map _ hnodup) k op hk).2
        ⟨hvec, hse, hg, fun v hv => Or.inl (hops v hv)⟩
    obtain ⟨extra, he, hs⟩ :=
      markUniformCode_extends getNumRegions c.warpOp c.warpOp.body.ops []
    rw [List.nil_append] at he
    have hiff := marked_iff_mem c.warpOp.body.ops
      (markUniformCode getNumRegions c.warpOp c.warpOp.body.ops []) (by rw [he]; exact hs)
      hnodup op hmem
    refine ⟨?_, ?_, ?_⟩
    · intro definedOutside hdef
      simp only [canBeHoisted, Bool.and_eq_true, List.all_eq_true, Bool.not_eq_true',
        beq_iff_eq]
      exact ⟨⟨hdef, hse⟩, hg⟩
    · simp only [moveScalarUniformCode, List.mem_append, List.mem_map]
      exact Or.inr ⟨op, hmarked, rfl⟩
    · simp only [moveScalarUniformCode, List.mem_filter, Bool.not_eq_true']
      rintro ⟨_, hnot⟩
      rw [hiff.2 hmarked] at hnot
      cases hnot

/-- Instance of `sideEffect_classification`: in `writeScenarioOpaque` the
operation after the store has neither the interface nor the trait; the write
pattern distributes the store with the ratio 32, and uniform-code hoisting moves
the operation before the region. -/
theorem sideEffect_classification_witness :
    (writeScenarioOpaque.warpOp.body.ops[1]? = some (writeScenarioOp 64) ∧
      writeScenarioOpaque.warpOp.body.ops[2]? = some writeScenarioOpaqueOp ∧
      writeScenarioOpaqueOp.memoryEffects = none ∧
      writeScenarioOpaqueOp.hasRecursiveSideEffects = false) ∧
    (hasSideEffect writeScenarioOpaqueOp = true ↔
      (writeScenarioOpaqueOp.hasRecursiveSideEffects = true ∨
        writeScenarioOpaqueOp.memoryEffects = some true)) ∧
    hasSideEffect writeScenarioOpaqueOp = false ∧
    (∃ p, tryDistributeOp 32 writeScenarioOpaque identityMap1 1 = RewriteResult.success p ∧
      WarpOpTransferWrite.matchAndRewrite 32 (fun _ => identityMap1)
        (WriteSite.inWarp writeScenarioOpaque 1) = RewriteResult.success p) ∧
    ((∀ definedOutside : Value → Bool,
        (∀ v, v ∈ writeScenarioOpaqueOp.operands → definedOutside v = true) →
        canBeHoisted (fun _ => 0) writeScenarioOpaqueOp definedOutside = true) ∧
      Item.op writeScenarioOpaqueOp ∈ (moveScalarUniformCode (fun _ => 0) writeScenarioOpaque).pre ∧
      writeScenarioOpaqueOp ∉
        (moveScalarUniformCode (fun _ => 0) writeScenarioOpaque).warpOp.body.ops) :=
  ⟨⟨by decide, by decide, by decide, by decide⟩,
    sideEffect_classification.1 writeScenarioOpaqueOp,
    sideEffect_classification.2.1 writeScenarioOpaqueOp (by decide) (by decide),
    ⟨match tryDistributeOp 32 writeScenarioOpaque identityMap1 1 with
      | RewriteResult.success p => p
      | _ => ⟨[], 0⟩,
      by decide,
      (sideEffect_classification.2.2.1 32 (fun _ => identityMap1) writeScenarioOpaque 1
        (writeScenarioOp 64) identityMap1 none (by decide) (by decide)
        (by
          intro j nextOp hj h
          rcases j with _ | _ | _ | j
          · omega
          · omega
          · have h2 : nextOp = writeScenarioOpaqueOp := by
              have : writeScenarioOpaque.warpOp.body.ops[2]? = some writeScenarioOpaqueOp := by
                decide
              rw [this] at h
              exact (Option.some.inj h).symm
            rw [h2]
            exact ⟨by decide, by decide⟩
          · have : writeScenarioOpaque.warpOp.body.ops[j + 1 + 1 + 1]? = none := by
              apply List.getElem?_eq_none
              have : writeScenarioOpaque.warpOp.body.ops.length = 3 := by decide
              omega
            rw [this] at h
            cases h)
        (by decide)).1 _ (by decide)⟩,
    sideEffect_classification.2.2.2 (fun _ => 0) writeScenarioOpaque 2 writeScenarioOpaqueOp
      (by decide) (by decide) (by decide) (by decide) (by decide) (by decide) (by decide)⟩


/-! ## Contraction padding of dynamic dimensions: facts -/

/-- A dimension that needs padding makes the loop of `padTensor` report that the
operand needs padding. -/
theorem padDims_needsPad (shape alignments : List Int) :
    ∀ (i j : Nat) (d a : Int), shape[j]? = some d → alignments[j]? = some a →
      (padDim (i + j) d a).2.2 = true → (padDims i shape alignments).2.2 = true := by
  induction shape generalizing alignments with
  | nil => intro i j d a h; simp at h
  | cons d0 shape ih =>
    intro i j d a hd ha hneeds
    cases alignments with
    | nil => simp at ha
    | cons a0 alignments =>
      cases j with
      | zero =>
        simp only [List.getElem?_cons_zero, Option.some.injEq] at hd ha
        subst hd; subst ha
        simp only [padDims, Bool.or_eq_true]
        exact Or.inl hneeds
      | succ j =>
        simp only [List.getElem?_cons_succ] at hd ha
        rw [show i + (j + 1) = i + 1 + j by omega] at hneeds
        have := ih alignments (i + 1) j d a hd ha hneeds
        simp only [padDims, Bool.or_eq_true]
        exact Or.inr this

/-- C32, what the code does: for a dynamic dimension `j` with alignment `a`,
`padTensor` keeps the new static size dynamic and passes as high padding amount
the result of `iree_input.align` itself.  So for every meaning `align` of that
operation and every size `dimSize j` the dimension has at run time, the padding
amount is `align (dimSize j) a`, not `align (dimSize j) a - dimSize j`, and the
padded size is `dimSize j + align (dimSize j) a`; they agree with the amount and
the size the specification states only when the dimension is empty. -/
theorem padTensor_dynamic_padding (shape alignments : List Int) (j : Nat) (s a : Int)
    (hlen : shape.length = alignments.length)
    (hs : shape[j]? = some s) (ha : alignments[j]? = some a) (hdyn : s < 0) :
    ∃ dims pads high,
      padTensor shape alignments = some (dims, pads, true) ∧
      dims[j]? = some (-1) ∧ pads[j]? = some high ∧ high = PadSize.aligned j a ∧
      ∀ (align : Int → Int → Int) (dimSize : Nat → Int),
        high.value align dimSize = align (dimSize j) a ∧
        paddedDimSize 0 (dimSize j) (high.value align dimSize) =
          dimSize j + align (dimSize j) a ∧
        (high.value align dimSize = align (dimSize j) a - dimSize j ↔ dimSize j = 0) ∧
        (paddedDimSize 0 (dimSize j) (high.value align dimSize) = align (dimSize j) a ↔
          dimSize j = 0) := by
  obtain ⟨h1, h2⟩ := padDims_getElem shape alignments 0 j s a hs ha
  have hneg : ¬ s ≥ 0 := by omega
  have hpad : padDim (0 + j) s a = (-1, PadSize.aligned j a, true) := by
    simp [padDim, hneg]
  have hneeds : (padDims 0 shape alignments).2.2 = true :=
    padDims_needsPad shape alignments 0 j s a hs ha (by rw [hpad])
  rw [hpad] at h1 h2
  refine ⟨(padDims 0 shape alignments).1, (padDims 0 shape alignments).2.1,
    PadSize.aligned j a, ?_, h1, h2, rfl, ?_⟩
  · simp only [padTensor, hlen, ne_eq, not_true_eq_false, if_false]
    rw [← hneeds]
  · intro align dimSize
    refine ⟨rfl, ?_, ?_, ?_⟩
    · simp only [PadSize.value, paddedDimSize]; omega
    · simp only [PadSize.value]; omega
    · simp only [PadSize.value, paddedDimSize]; omega

/-- Instance of `padTensor_dynamic_padding`: a tensor with a dynamic dimension 0
and the static dimension 4, both aligned to 8.  With the size 5 at run time and
`align 5 8 = 8` the padding amount passed is 8 and the padded size 13, where the
specification states 3 and 8. -/
theorem padTensor_dynamic_padding_witness :
    padTensor [-1, 4] [8, 8] =
      some ([-1, 8], [PadSize.aligned 0 8, PadSize.attr 4], true) ∧
    (PadSize.aligned 0 8).value (fun d a => (d + (a - 1)) / a * a) (fun _ => 5) = 8 ∧
    paddedDimSize 0 5 8 = 13 ∧
    ∃ dims pads high,
      padTensor [-1, 4] [8, 8] = some (dims, pads, true) ∧
      dims[0]? = some (-1) ∧ pads[0]? = some high ∧ high = PadSize.aligned 0 8 ∧
      ∀ (align : Int → Int → Int) (dimSize : Nat → Int),
        high.value align dimSize = align (dimSize 0) 8 ∧
        paddedDimSize 0 (dimSize 0) (high.value align dimSize) =
          dimSize 0 + align (dimSize 0) 8 ∧
        (high.value align dimSize = align (dimSize 0) 8 - dimSize 0 ↔ dimSize 0 = 0) ∧
        (paddedDimSize 0 (dimSize 0) (high.value align dimSize) = align (dimSize 0) 8 ↔
          dimSize 0 = 0) :=
  ⟨by decide, by decide, by decide,
    padTensor_dynamic_padding [-1, 4] [8, 8] 0 (-1) 8 (by decide) (by decide) (by decide)
      (by decide)⟩


/-! ## Evaluation of programs: facts -/

theorem ne_getResult_of_ownedBy (v : Value) (o : Operation) (i : Nat)
    (h : v.ownedBy o.id = false) : v ≠ o.getResult i := by
  intro e
  rw [e] at h
  simp [Value.ownedBy, Operation.getResult] at h

theorem ne_warpResult_of_ownedBy (v : Value) (w : WarpHeader) (i : Nat)
    (h : v.ownedBy w.id = false) : v ≠ w.getResult i := by
  intro e
  rw [e] at h
  simp [Value.ownedBy, WarpHeader.getResult] at h

theorem ne_opResult_of_ownedBy (v : Value) (id i : Nat) (t : Ty)
    (h : v.ownedBy id = false) : v ≠ ⟨ValueDef.opResult id i, t⟩ := by
  intro e
  rw [e] at h
  simp [Value.ownedBy] at h

/-- An operation changes the value of its result 0 only. -/
theorem evalOp_other {α : Type} (sem : OpKind → List α → α) (o : Operation)
    (env : Value → Nat → List α) (v : Value) (h : v ≠ o.getResult 0) :
    evalOp sem o env v = env v := by
  unfold evalOp
  split
  · simp [setLanes, h]
  · rfl

/-- What an operation with the elementwise-mappable traits computes. -/
theorem evalOp_result {α : Type} (sem : OpKind → List α → α) (o : Operation)
    (env : Value → Nat → List α)
    (h : Item.hasElementwiseMappableTraits (Item.op o) = true) :
    evalOp sem o env (o.getResult 0) =
      fun lane => elementwiseApply (sem o.kind) (o.resultTypes.getD 0 default).numElements
        (o.operands.map (fun v => env v lane)) := by
  unfold evalOp
  rw [if_pos h]
  simp [setLanes]

theorem evalOps_append {α : Type} (sem : OpKind → List α → α) (a b : List Operation)
    (env : Value → Nat → List α) :
    evalOps sem (a ++ b) env = evalOps sem b (evalOps sem a env) := by
  unfold evalOps
  rw [List.foldl_append]

theorem evalOps_cons {α : Type} (sem : OpKind → List α → α) (o : Operation)
    (ops : List Operation) (env : Value → Nat → List α) :
    evalOps sem (o :: ops) env = evalOps sem ops (evalOp sem o env) := rfl

/-- Operations that do not own a value leave it as it is. -/
theorem evalOps_other {α : Type} (sem : OpKind → List α → α) (ops : List Operation) :
    ∀ (env : Value → Nat → List α) (v : Value),
      (∀ o, o ∈ ops → v.ownedBy o.id = false) → evalOps sem ops env v = env v := by
  induction ops with
  | nil => intro env v _; rfl
  | cons o ops ih =>
    intro env v h
    rw [evalOps_cons, ih _ v (fun o' ho' => h o' (List.mem_cons_of_mem _ ho'))]
    exact evalOp_other sem o env v
      (ne_getResult_of_ownedBy v o 0 (h o (List.mem_cons_self _ _)))

/-- A warp region changes the values of its own results only. -/
theorem evalWarp_other {α : Type} (sem : OpKind → List α → α) (w : WarpOp)
    (env : Value → Nat → List α) (v : Value) (h : v.ownedBy w.id = false) :
    evalWarp sem w env v = env v := by
  funext lane
  unfold evalWarp
  unfold Value.ownedBy at h
  split
  · rename_i owner i horigin
    rw [horigin] at h
    simp only [beq_eq_false_iff_ne, ne_eq] at h
    rw [if_neg (fun hc => h hc.1)]
  · rfl

/-- What a lane observes of result `i` of a warp region. -/
theorem evalWarp_result {α : Type} (sem : OpKind → List α → α) (w : WarpOp)
    (env : Value → Nat → List α) (i : Nat) (hi : i < w.getNumResults) (lane : Nat) :
    evalWarp sem w env (w.getResult i) lane =
      observe (w.resultTypes.getD i default) (w.body.yieldOperands.getD i default).ty lane
        (evalRegion sem w env (w.body.yieldOperands.getD i default)) := by
  unfold evalWarp
  simp [WarpOp.getResult, WarpHeader.getResult, hi]

theorem evalItems_append {α : Type} (sem : OpKind → List α → α) (a b : List Item)
    (env : Value → Nat → List α) :
    evalItems sem (a ++ b) env = evalItems sem b (evalItems sem a env) := by
  unfold evalItems
  rw [List.foldl_append]

theorem evalItems_cons {α : Type} (sem : OpKind → List α → α) (it : Item)
    (items : List Item) (env : Value → Nat → List α) :
    evalItems sem (it :: items) env = evalItems sem items (evalItem sem it env) := rfl

/-- Operations of the enclosing block that do not own a value leave it as it
is. -/
theorem evalItems_other {α : Type} (sem : OpKind → List α → α) (items : List Item) :
    ∀ (env : Value → Nat → List α) (v : Value),
      (∀ it, it ∈ items → v.ownedBy it.id = false) → evalItems sem items env v = env v := by
  induction items with
  | nil => intro env v _; rfl
  | cons it items ih =>
    intro env v h
    rw [evalItems_cons, ih _ v (fun it' hit' => h it' (List.mem_cons_of_mem _ hit'))]
    have hit := h it (List.mem_cons_self _ _)
    cases it with
    | op o => exact evalOp_other sem o env v (ne_getResult_of_ownedBy v o 0 hit)
    | warp w => exact evalWarp_other sem w env v hit
    | bodyless _ => rfl

/-- In a block in which the operands of an elementwise operation are defined
before it and no later operation carries its identifier, the value of its result
once the block has run is the operation applied to the values its operands have
then. -/
theorem evalOps_defined {α : Type} (sem : OpKind → List α → α)
    (before after : List Operation) (op : Operation) (env : Value → Nat → List α)
    (htraits : Item.hasElementwiseMappableTraits (Item.op op) = true)
    (hops : ∀ v, v ∈ op.operands → ∀ o, o ∈ op :: after → v.ownedBy o.id = false)
    (hlater : ∀ o, o ∈ after → o.id ≠ op.id) :
    evalOps sem (before ++ op :: after) env (op.getResult 0) =
      fun lane => elementwiseApply (sem op.kind) (op.resultTypes.getD 0 default).numElements
        (op.operands.map (fun v => evalOps sem (before ++ op :: after) env v lane)) := by
  rw [evalOps_append, evalOps_cons]
  rw [evalOps_other sem after _ (op.getResult 0)
    (fun o ho => by simpa [Value.ownedBy, Operation.getResult] using (hlater o ho).symm)]
  rw [evalOp_result sem op _ htraits]
  funext lane
  congr 1
  apply List.map_congr_left
  intro v hv
  rw [evalOps_other sem after _ v
    (fun o ho => hops v hv o (List.mem_cons_of_mem _ ho))]
  rw [evalOp_other sem op _ v
    (ne_getResult_of_ownedBy v op 0 (hops v hv op (List.mem_cons_self _ _)))]


/-- The program the elementwise sink leaves, when no operand slot before or in
the region holds a result of the region or of the operation created next: the
operations before the region are untouched, the new region is the old one with
the operands of the matched operation as further outputs, the rebuilt operation
follows it, and the slots after the region are rewritten. -/
theorem elementwiseRewrite_items (c : WarpContext) (operandIndex : Nat)
    (elementWise : Operation) (retTypes : List Ty)
    (hidx : operandIndex < c.warpOp.getNumResults)
    (hssa : ∀ it, it ∈ c.pre ++ [Item.warp c.warpOp] → ∀ v, v ∈ it.operandValues →
      v.ownedBy c.warpOp.id = false ∧ v.ownedBy c.nextId = false)
    (hew : ∀ v, v ∈ elementWise.operands → v ∈ (Item.warp c.warpOp).operandValues) :
    (elementwiseRewrite c operandIndex elementWise retTypes).eraseOld =
      ⟨c.pre ++
        [Item.warp (moveRegionToNewWarpOpAndReplaceReturns c
            (c.warpOp.body.yieldOperands ++ elementWise.operands)
            (c.warpOp.resultTypes ++ retTypes)).newWarpOp,
          Item.op (cloneOpWithOperandsAndTypes (c.nextId + 1) elementWise
            ((List.range elementWise.operands.length).map
              (fun i => (moveRegionToNewWarpOpAndReplaceReturns c
                (c.warpOp.body.yieldOperands ++ elementWise.operands)
                (c.warpOp.resultTypes ++ retTypes)).newWarpOp.getResult
                  (i + c.warpOp.getNumResults)))
            [(c.warpOp.getResult operandIndex).ty])] ++
        c.post.map (Item.mapOperands (fun v =>
          Value.replaceUse
            ((moveRegionToNewWarpOpAndReplaceReturns c
              (c.warpOp.body.yieldOperands ++ elementWise.operands)
              (c.warpOp.resultTypes ++ retTypes)).newWarpOp.getResult operandIndex)
            ⟨ValueDef.opResult (c.nextId + 1) 0, (c.warpOp.getResult operandIndex).ty⟩
            (resultSubst c.warpOp.toWarpHeader
              (moveRegionToNewWarpOpAndReplaceReturns c
                (c.warpOp.body.yieldOperands ++ elementWise.operands)
                (c.warpOp.resultTypes ++ retTypes)).newWarpOp.toWarpHeader
              c.warpOp.getNumResults v))),
        c.nextId + 2⟩ := by
  have hwarp : ∀ v, v ∈ (Item.warp c.warpOp).operandValues →
      v.ownedBy c.warpOp.id = false ∧ v.ownedBy c.nextId = false :=
    fun v hv => hssa _ (List.mem_append_right _ (List.mem_singleton_self _)) v hv
  have hdom : ∀ i, i < c.warpOp.getNumResults →
      c.warpOp.getResult i ∉ (Item.warp c.warpOp).operandValues := by
    intro i _ hmem
    exact ne_warpResult_of_ownedBy _ c.warpOp.toWarpHeader i (hwarp _ hmem).1 rfl
  have hnew := appendReturns_newWarpOp_dom c elementWise.operands retTypes hdom hew
  have hpost1 := appendReturns_post c elementWise.operands retTypes
  generalize hNW : (moveRegionToNewWarpOpAndReplaceReturns c
    (c.warpOp.body.yieldOperands ++ elementWise.operands)
    (c.warpOp.resultTypes ++ retTypes)).newWarpOp = NW at hnew hpost1 ⊢
  have hNWid : NW.id = c.nextId := by rw [← hNW]; rfl
  have hNWops : ∀ v, v ∈ (Item.warp NW).operandValues →
      v ∈ (Item.warp c.warpOp).operandValues := by
    intro v hv
    rw [← hNW] at hv
    simp only [Item.operandValues, WarpHeader.operandValues, Block.operandValues,
      moveRegionToNewWarpOpAndReplaceReturns, List.mem_append, List.mem_cons] at hv ⊢
    rcases hv with hv | hv | hv | hv
    · exact Or.inl hv
    · exact Or.inr (Or.inl hv)
    · exact Or.inr (Or.inr hv)
    · have := hew v hv
      simpa only [Item.operandValues, WarpHeader.operandValues, Block.operandValues,
        List.mem_append, List.mem_cons] using this
  have hpre1 : (moveRegionToNewWarpOpAndAppendReturns c elementWise.operands retTypes).pre
      = c.pre := by
    rw [appendReturns_pre]
    apply map_fix
    intro it hit
    apply item_mapOperands_fix
    intro v hv
    apply resultSubst_other
    intro k _
    exact ne_warpResult_of_ownedBy v c.warpOp.toWarpHeader k
      (hssa it (List.mem_append_left _ hit) v hv).1
  have hfix : ∀ (new v : Value), v.ownedBy c.nextId = false →
      Value.replaceUse (NW.getResult operandIndex) new v = v := by
    intro new v hv
    unfold Value.replaceUse
    rw [if_neg]
    exact ne_warpResult_of_ownedBy v NW.toWarpHeader operandIndex (by rw [hNWid]; exact hv)
  have hclone : (cloneOpWithOperandsAndTypes (c.nextId + 1) elementWise
      ((List.range elementWise.operands.length).map
        (fun i => NW.getResult (i + c.warpOp.getNumResults)))
      [(c.warpOp.getResult operandIndex).ty]).getResult 0 =
      ⟨ValueDef.opResult (c.nextId + 1) 0, (c.warpOp.getResult operandIndex).ty⟩ := rfl
  unfold elementwiseRewrite
  simp only [Moved.eraseOld, Moved.replaceAllUsesWith, Moved.mapOperands, Moved.create,
    appendReturns_mid, appendReturns_nextId, hpre1, hnew, hpost1,
    List.nil_append, List.map_cons, List.map_nil, map_mapOperands_comp, hclone]
  have h1 : c.pre.map (Item.mapOperands (Value.replaceUse (NW.getResult operandIndex)
      ⟨ValueDef.opResult (c.nextId + 1) 0, (c.warpOp.getResult operandIndex).ty⟩)) = c.pre := by
    apply map_fix
    intro it hit
    apply item_mapOperands_fix
    intro v hv
    exact hfix _ v (hssa it (List.mem_append_left _ hit) v hv).2
  have h2 : NW.mapOperands (Value.replaceUse (NW.getResult operandIndex)
      ⟨ValueDef.opResult (c.nextId + 1) 0, (c.warpOp.getResult operandIndex).ty⟩) = NW := by
    apply warpOp_mapOperands_fix
    intro v hv
    exact hfix _ v (hwarp v (hNWops v hv)).2
  have h3 : (cloneOpWithOperandsAndTypes (c.nextId + 1) elementWise
      ((List.range elementWise.operands.length).map
        (fun i => NW.getResult (i + c.warpOp.getNumResults)))
      [(c.warpOp.getResult operandIndex).ty]).mapOperands
        (Value.replaceUse (NW.getResult operandIndex)
          ⟨ValueDef.opResult (c.nextId + 1) 0, (c.warpOp.getResult operandIndex).ty⟩) =
      cloneOpWithOperandsAndTypes (c.nextId + 1) elementWise
        ((List.range elementWise.operands.length).map
          (fun i => NW.getResult (i + c.warpOp.getNumResults)))
        [(c.warpOp.getResult operandIndex).ty] := by
    apply operation_mapOperands_fix
    intro v hv
    simp only [cloneOpWithOperandsAndTypes, List.mem_map, List.mem_range] at hv
    obtain ⟨i, _, rfl⟩ := hv
    unfold Value.replaceUse
    rw [if_neg]
    exact getResult_ne_of_ne NW.toWarpHeader (by omega)
  simp only [h1, h2, Item.mapOperands, h3]
  simp


/-- The return types the elementwise sink derives for vector operands: the
distributed shape with the element type of each operand. -/
theorem elementwiseTargetTypes_vector (shape : List Int) (n : Int) (e : ScalarType)
    (operands : List Value)
    (hty : ∀ v, v ∈ operands → ∃ eo, v.ty = Ty.vector [n] eo) :
    ∃ retTypes, elementwiseTargetTypes (Ty.vector shape e) operands = some retTypes ∧
      retTypes.length = operands.length ∧
      ∀ (i : Nat) (v : Value), operands[i]? = some v →
        ∃ eo, v.ty = Ty.vector [n] eo ∧ retTypes[i]? = some (Ty.vector shape eo) := by
  induction operands with
  | nil => exact ⟨[], rfl, rfl, by simp⟩
  | cons a l ih =>
    obtain ⟨ts, hts, hlen, hall⟩ := ih (fun v hv => hty v (List.mem_cons_of_mem _ hv))
    obtain ⟨ea, hea⟩ := hty a (List.mem_cons_self _ _)
    refine ⟨Ty.vector shape ea :: ts, ?_, by simp [hlen], ?_⟩
    · simp [elementwiseTargetTypes, elementwiseTargetType, hea, hts]
    · intro i v hv
      cases i with
      | zero =>
        simp only [List.getElem?_cons_zero, Option.some.injEq] at hv
        subst hv
        exact ⟨ea, hea, List.getElem?_cons_zero⟩
      | succ i =>
        simp only [List.getElem?_cons_succ] at hv ⊢
        exact hall i v hv

/-- What a lane observes of the operands returned by the elementwise sink: its
slices of their values in the region. -/
theorem observe_returned {α : Type} (s W lane : Nat) (operands : List Value)
    (retTypes : List Ty) (R : Value → List α) (hlane : lane < W)
    (hlen : ∀ v, v ∈ operands → (R v).length = s * W)
    (hret : ∀ (i : Nat) (v : Value), operands[i]? = some v →
      ∃ eo, v.ty = Ty.vector [((s * W : Nat) : Int)] eo ∧
        retTypes[i]? = some (Ty.vector [(s : Int)] eo)) :
    (List.range operands.length).map
        (fun i => observe (retTypes.getD i default) (operands.getD i default).ty lane
          (R (operands.getD i default))) =
      operands.map (fun v => laneSlice s lane (R v)) := by
  apply List.ext_getElem?
  intro i
  by_cases hi : i < operands.length
  · rw [List.getElem?_map, List.getElem?_range hi, List.getElem?_map,
      List.getElem?_eq_getElem hi]
    obtain ⟨eo, hv, hr⟩ := hret i operands[i] (List.getElem?_eq_getElem hi)
    have hget : operands.getD i default = operands[i] := by
      simp [List.getD_eq_getElem?_getD, List.getElem?_eq_getElem hi]
    have hgetT : retTypes.getD i default = Ty.vector [(s : Int)] eo := by
      simp [List.getD_eq_getElem?_getD, hr]
    simp only [Option.map_some', hget, hgetT, hv]
    rw [observe_vector s W lane eo _ (hlen _ (List.getElem_mem hi)) hlane]
  · rw [List.getElem?_eq_none (by simpa using hi), List.getElem?_eq_none (by simpa using hi)]


/-- C2: on a well-formed program (no operand slot before or in the region holds a
result of the region or of an operation not yet created, the operands of the
matched operation are defined before it, identifiers are not reused) whose
region yields result 0 of an elementwise operation `f` on vectors of `s * W`
elements as a result of type `vector<s>`, `W` the warp size, the elementwise
sink succeeds, and running the program it returns gives lane `l < W`, for the
value the uses of the old result now hold, `f` applied to the slices of lane `l`
of the operand values; this is the slice of lane `l` of `f` applied to the
operand values, which is what running the program before the rewrite gave the
lane for the old region result. -/
theorem elementwiseSink_value {α : Type} (sem : OpKind → List α → α) (c : WarpContext)
    (env : Value → Nat → List α) (operandIndex pos : Nat) (elementWise : Operation)
    (s lane : Nat) (e : ScalarType)
    (harity : c.warpOp.arityOk)
    (hmatch : getWarpResult c.items c.warpOp Item.hasElementwiseMappableTraits
      = some operandIndex)
    (hdef : getDefiningOp c.items (c.warpOp.body.yieldOperands.getD operandIndex default)
      = some (Item.op elementWise))
    (hpos : c.warpOp.body.ops[pos]? = some elementWise)
    (hyield : c.warpOp.body.yieldOperands[operandIndex]? = some (elementWise.getResult 0))
    (hresOp : elementWise.resultTypes =
      [Ty.vector [((s * c.warpOp.warpSize : Nat) : Int)] e])
    (hresTy : c.warpOp.resultTypes[operandIndex]? = some (Ty.vector [(s : Int)] e))
    (hty : ∀ v, v ∈ elementWise.operands →
      ∃ eo, v.ty = Ty.vector [((s * c.warpOp.warpSize : Nat) : Int)] eo)
    (hlen : ∀ v, v ∈ elementWise.operands →
      (evalRegion sem c.warpOp (evalItems sem c.pre env) v).length = s * c.warpOp.warpSize)
    (hlane : lane < c.warpOp.warpSize)
    (hssa : ∀ it, it ∈ c.pre ++ [Item.warp c.warpOp] → ∀ v, v ∈ it.operandValues →
      v.ownedBy c.warpOp.id = false ∧ v.ownedBy c.nextId = false)
    (hbefore : ∀ v, v ∈ elementWise.operands →
      ∀ o, o ∈ c.warpOp.body.ops.drop pos → v.ownedBy o.id = false)
    (hlater : ∀ o, o ∈ c.warpOp.body.ops.drop (pos + 1) → o.id ≠ elementWise.id)
    (hpost : ∀ it, it ∈ c.post → it.id ≠ c.warpOp.id ∧ it.id < c.nextId) :
    ∃ (p : Program) (newValue : Value),
      WarpOpElementwise.matchAndRewrite c = RewriteResult.success p ∧
      List.Forall₂ (SlotsRewired (c.warpOp.getResult operandIndex) newValue) c.post
        (p.items.drop (c.pre.length + 2)) ∧
      evalItems sem p.items env newValue lane =
        elementwiseApply (sem elementWise.kind) s
          (elementWise.operands.map
            (fun v => laneSlice s lane (evalRegion sem c.warpOp (evalItems sem c.pre env) v))) ∧
      evalItems sem c.items env (c.warpOp.getResult operandIndex) lane =
        laneSlice s lane
          (elementwiseApply (sem elementWise.kind) (s * c.warpOp.warpSize)
            (elementWise.operands.map
              (evalRegion sem c.warpOp (evalItems sem c.pre env)))) ∧
      evalItems sem p.items env newValue lane =
        evalItems sem c.items env (c.warpOp.getResult operandIndex) lane := by
  -- the anchor and the matched operation
  have hidx : operandIndex < c.warpOp.getNumResults := by
    have := (List.getElem?_eq_some_iff.1 hyield).1
    unfold WarpOp.getNumResults
    rw [harity]; exact this
  have hyieldD : c.warpOp.body.yieldOperands.getD operandIndex default =
      elementWise.getResult 0 := by
    simp [List.getD_eq_getElem?_getD, hyield]
  have hresD : c.warpOp.resultTypes.getD operandIndex default = Ty.vector [(s : Int)] e := by
    simp [List.getD_eq_getElem?_getD, hresTy]
  have htraits : Item.hasElementwiseMappableTraits (Item.op elementWise) = true := by
    obtain ⟨v, hv, ⟨⟨definedOp, hd, hfn⟩, _⟩, _⟩ :=
      ((getWarpResult_spec c.items c.warpOp _).1 operandIndex).1 hmatch
    have hv' : c.warpOp.body.yieldOperands.getD operandIndex default = v := by
      simp [List.getD_eq_getElem?_getD, hv]
    rw [hv'] at hdef
    rw [hdef] at hd
    cases hd
    exact hfn
  have hmem : elementWise ∈ c.warpOp.body.ops := List.mem_iff_getElem?.2 ⟨pos, hpos⟩
  have hew : ∀ v, v ∈ elementWise.operands → v ∈ (Item.warp c.warpOp).operandValues :=
    fun v hv => body_operand_mem_of_mem c.warpOp elementWise v hmem hv
  -- the return types
  obtain ⟨retTypes, htys, hretLen, hret⟩ :=
    elementwiseTargetTypes_vector [(s : Int)] ((s * c.warpOp.warpSize : Nat) : Int) e
      elementWise.operands hty
  have hdistTy : (c.warpOp.getResult operandIndex).ty = Ty.vector [(s : Int)] e := hresD
  -- the program after the rewrite
  have hsucc : WarpOpElementwise.matchAndRewrite c = RewriteResult.success
      (elementwiseRewrite c operandIndex elementWise retTypes).eraseOld := by
    simp only [WarpOpElementwise.matchAndRewrite, hmatch, hdef, hdistTy, htys]
  rw [elementwiseRewrite_items c operandIndex elementWise retTypes hidx hssa hew] at hsucc
  have hpostEq := appendReturns_post c elementWise.operands retTypes
  generalize hNW : (moveRegionToNewWarpOpAndReplaceReturns c
    (c.warpOp.body.yieldOperands ++ elementWise.operands)
    (c.warpOp.resultTypes ++ retTypes)).newWarpOp = NW at hsucc
  have hNWid : NW.id = c.nextId := by rw [← hNW]; rfl
  have hNWops : NW.body.ops = c.warpOp.body.ops := by rw [← hNW]; rfl
  have hNWtys : NW.resultTypes = c.warpOp.resultTypes ++ retTypes := by rw [← hNW]; rfl
  have hNWyield : NW.body.yieldOperands = c.warpOp.body.yieldOperands ++ elementWise.operands := by
    rw [← hNW]; rfl
  have hNWnum : NW.getNumResults = c.warpOp.getNumResults + elementWise.operands.length := by
    unfold WarpOp.getNumResults
    rw [hNWtys, List.length_append, hretLen]
  have hn : c.warpOp.getNumResults = c.warpOp.body.yieldOperands.length := harity
  -- the values in the region
  generalize hE1 : evalItems sem c.pre env = env1 at hlen ⊢
  have hregion : evalRegion sem NW env1 = evalRegion sem c.warpOp env1 := by
    unfold evalRegion
    rw [hNWops]
  have hsplit : c.warpOp.body.ops =
      c.warpOp.body.ops.take pos ++ elementWise :: c.warpOp.body.ops.drop (pos + 1) := by
    have hlt := (List.getElem?_eq_some_iff.1 hpos).1
    have hget := (List.getElem?_eq_some_iff.1 hpos).2
    conv_lhs => rw [← List.take_append_drop pos c.warpOp.body.ops]
    rw [List.drop_eq_getElem_cons hlt, hget]
  have hdrop : c.warpOp.body.ops.drop pos = elementWise :: c.warpOp.body.ops.drop (pos + 1) := by
    have hlt := (List.getElem?_eq_some_iff.1 hpos).1
    have hget := (List.getElem?_eq_some_iff.1 hpos).2
    rw [List.drop_eq_getElem_cons hlt, hget]
  have hnum : (Ty.vector [((s * c.warpOp.warpSize : Nat) : Int)] e).numElements =
      s * c.warpOp.warpSize := by
    simp only [Ty.numElements, List.foldl_cons, List.foldl_nil, one_mul]
    omega
  have hnumS : (Ty.vector [(s : Int)] e).numElements = s := by
    simp only [Ty.numElements, List.foldl_cons, List.foldl_nil, one_mul]
    omega
  have hRres : evalRegion sem c.warpOp env1 (elementWise.getResult 0) =
      elementwiseApply (sem elementWise.kind) (s * c.warpOp.warpSize)
        (elementWise.operands.map (evalRegion sem c.warpOp env1)) := by
    unfold evalRegion
    rw [hsplit]
    rw [evalOps_defined sem _ _ elementWise _ htraits
      (fun v hv o ho => hbefore v hv o (by rw [hdrop]; exact ho)) hlater]
    simp only [hresOp, List.getD_cons_zero, hnum]
  -- the program before the rewrite
  have hold : evalItems sem c.items env (c.warpOp.getResult operandIndex) lane =
      laneSlice s lane
        (elementwiseApply (sem elementWise.kind) (s * c.warpOp.warpSize)
          (elementWise.operands.map (evalRegion sem c.warpOp env1))) := by
    unfold WarpContext.items
    rw [evalItems_append, evalItems_append, hE1]
    rw [evalItems_other sem c.post _ (c.warpOp.getResult operandIndex)
      (fun it hit => by
        simpa [Value.ownedBy, WarpOp.getResult, WarpHeader.getResult] using
          (hpost it hit).1.symm)]
    show evalWarp sem c.warpOp env1 (c.warpOp.getResult operandIndex) lane = _
    rw [evalWarp_result sem c.warpOp env1 operandIndex hidx lane, hyieldD, hresD, hRres]
    have hty0 : (elementWise.getResult 0).ty =
        Ty.vector [((s * c.warpOp.warpSize : Nat) : Int)] e := by
      simp [Operation.getResult, hresOp]
    rw [hty0]
    exact observe_vector s c.warpOp.warpSize lane e _ (by simp [elementwiseApply]) hlane
  -- the program after the rewrite
  have hidTy : (⟨ValueDef.opResult (c.nextId + 1) 0, (c.warpOp.getResult operandIndex).ty⟩ :
      Value) = (cloneOpWithOperandsAndTypes (c.nextId + 1) elementWise
        ((List.range elementWise.operands.length).map
          (fun i => NW.getResult (i + c.warpOp.getNumResults)))
        [(c.warpOp.getResult operandIndex).ty]).getResult 0 := rfl
  have htraits' : Item.hasElementwiseMappableTraits
      (Item.op (cloneOpWithOperandsAndTypes (c.nextId + 1) elementWise
        ((List.range elementWise.operands.length).map
          (fun i => NW.getResult (i + c.warpOp.getNumResults)))
        [(c.warpOp.getResult operandIndex).ty])) = true := htraits
  have hnew : evalItems sem
      (c.pre ++
        [Item.warp NW,
          Item.op (cloneOpWithOperandsAndTypes (c.nextId + 1) elementWise
            ((List.range elementWise.operands.length).map
              (fun i => NW.getResult (i + c.warpOp.getNumResults)))
            [(c.warpOp.getResult operandIndex).ty])] ++
        c.post.map (Item.mapOperands (fun v =>
          Value.replaceUse (NW.getResult operandIndex)
            ⟨ValueDef.opResult (c.nextId + 1) 0, (c.warpOp.getResult operandIndex).ty⟩
            (resultSubst c.warpOp.toWarpHeader NW.toWarpHeader c.warpOp.getNumResults v))))
      env ⟨ValueDef.opResult (c.nextId + 1) 0, (c.warpOp.getResult operandIndex).ty⟩ lane =
      elementwiseApply (sem elementWise.kind) s
        (elementWise.operands.map
          (fun v => laneSlice s lane (evalRegion sem c.warpOp env1 v))) := by
    rw [evalItems_append, evalItems_append, hE1]
    rw [evalItems_other sem _ _ _
      (fun it hit => by
        obtain ⟨it0, hit0, rfl⟩ := List.mem_map.1 hit
        rw [item_id_mapOperands]
        have := (hpost it0 hit0).2
        simp only [Value.ownedBy, beq_eq_false_iff_ne, ne_eq]
        omega)]
    show evalOp sem _ (evalWarp sem NW env1) _ lane = _
    rw [hidTy, evalOp_result sem _ _ htraits']
    simp only [cloneOpWithOperandsAndTypes, List.getD_cons_zero, hdistTy, hnumS, List.map_map]
    congr 1
    rw [← observe_returned s c.warpOp.warpSize lane elementWise.operands retTypes
      (evalRegion sem c.warpOp env1) hlane hlen hret]
    apply List.map_congr_left
    intro i hi
    have hi' := List.mem_range.1 hi
    simp only [Function.comp_apply]
    rw [evalWarp_result sem NW env1 (i + c.warpOp.getNumResults) (by omega) lane,
      hNWtys, hNWyield, hregion]
    have h1 : (c.warpOp.resultTypes ++ retTypes).getD (i + c.warpOp.getNumResults) default =
        retTypes.getD i default := by
      rw [List.getD_append_right _ _ _ _ (by unfold WarpOp.getNumResults; omega)]
      congr 1
      unfold WarpOp.getNumResults; omega
    have h2 : (c.warpOp.body.yieldOperands ++ elementWise.operands).getD
        (i + c.warpOp.getNumResults) default = elementWise.operands.getD i default := by
      rw [List.getD_append_right _ _ _ _ (by omega)]
      congr 1
      omega
    rw [h1, h2]
  refine ⟨_, ⟨ValueDef.opResult (c.nextId + 1) 0, (c.warpOp.getResult operandIndex).ty⟩,
    hsucc, ?_, hnew, hold, ?_⟩
  · have hdropEq : ∀ (a b : Item) (l : List Item),
        (c.pre ++ [a, b] ++ l).drop (c.pre.length + 2) = l := by
      intro a b l
      rw [List.append_assoc, List.drop_append_eq_append_drop]
      simp
    rw [hdropEq]
    apply slotsRewired_map
    show Value.replaceUse _ _ (resultSubst c.warpOp.toWarpHeader _ _
      (c.warpOp.toWarpHeader.getResult operandIndex)) = _
    rw [resultSubst_old _ _ _ _ hidx]
    simp [Value.replaceUse, WarpOp.getResult]
  · rw [hnew, hold, ← laneSlice_elementwiseApply _ c.warpOp.warpSize s lane _ hlane,
      List.map_map]
    rfl

/-- Instance of `elementwiseSink_value`: the small elementwise scenario with the
operand values `[1, 2, 3, 4]` and `[10, 20, 30, 40]`, warp size 2, two elements
per lane, observed by lane 1.  Before the rewrite lane 1 holds `[33, 44]` for
the region result. -/
theorem elementwiseSink_value_witness :
    evalItems (fun _ => List.sum) addScenarioSmall.items addScenarioSmallEnv
      (addScenarioSmall.warpOp.getResult 0) 1 = [33, 44] ∧
    ∃ (p : Program) (newValue : Value),
      WarpOpElementwise.matchAndRewrite addScenarioSmall = RewriteResult.success p ∧
      List.Forall₂ (SlotsRewired (addScenarioSmall.warpOp.getResult 0) newValue)
        addScenarioSmall.post (p.items.drop (addScenarioSmall.pre.length + 2)) ∧
      evalItems (fun _ => List.sum) p.items addScenarioSmallEnv newValue 1 =
        elementwiseApply List.sum 2
          (addScenarioSmallAdd.operands.map
            (fun v => laneSlice 2 1
              (evalRegion (fun _ => List.sum) addScenarioSmall.warpOp
                (evalItems (fun _ => List.sum) addScenarioSmall.pre addScenarioSmallEnv) v))) ∧
      evalItems (fun _ => List.sum) addScenarioSmall.items addScenarioSmallEnv
          (addScenarioSmall.warpOp.getResult 0) 1 =
        laneSlice 2 1
          (elementwiseApply List.sum (2 * addScenarioSmall.warpOp.warpSize)
            (addScenarioSmallAdd.operands.map
              (evalRegion (fun _ => List.sum) addScenarioSmall.warpOp
                (evalItems (fun _ => List.sum) addScenarioSmall.pre addScenarioSmallEnv)))) ∧
      evalItems (fun _ => List.sum) p.items addScenarioSmallEnv newValue 1 =
        evalItems (fun _ => List.sum) addScenarioSmall.items addScenarioSmallEnv
          (addScenarioSmall.warpOp.getResult 0) 1 :=
  ⟨by decide,
    elementwiseSink_value (fun _ => List.sum) addScenarioSmall addScenarioSmallEnv 0 2
      addScenarioSmallAdd 2 1 (ScalarType.float 32)
      (by decide) (by decide) (by decide) (by decide) (by decide) (by decide) (by decide)
      (by
        intro v hv
        simp only [addScenarioSmallAdd, List.mem_cons, List.mem_singleton, List.not_mem_nil,
          or_false] at hv
        rcases hv with rfl | rfl <;> exact ⟨_, rfl⟩)
      (by decide) (by decide) (by decide) (by decide) (by decide) (by decide)⟩

end VectorWarp
